import Mathlib

/-!
# A verification development for the `hed` terminal text editor (`src/main.cpp`)

The editor keeps one global `EditorConfig E`.  The embedding below passes that
state explicitly.  Conventions used throughout:

* `std::string` values are `List Char` (the editor handles bytes one at a time).
* C `int` values are `Int`; sizes that are only ever produced by `size()` are
  converted with `Int.ofNat`.  Lengths are assumed to stay below `2^31`, so no
  wrap-around is modelled.
* An `EditorRow*` is the index of the row in `E.rows`; dereferencing a null
  pointer (or a failed bounds check of a library call) makes the operation
  return `none`.
-/

namespace Hed

/-! ## Constants and plain data -/

/-- The constant `TAB_STOP`. -/
abbrev TAB_STOP : Nat := 4

/-- The constant `NUM_FORCE_QUIT_PRESS`. -/
abbrev NUM_FORCE_QUIT_PRESS : Int := 2

/-- The character `'\0'`. -/
abbrev NUL : Char := Char.ofNat 0

/-- The tab character. -/
abbrev TAB : Char := Char.ofNat 9

/-- The newline character. -/
abbrev NL : Char := Char.ofNat 10

/-- The space character. -/
abbrev SPC : Char := Char.ofNat 32

/-- The double quote character. -/
abbrev DQUOTE : Char := Char.ofNat 34

/-- The single quote character. -/
abbrev SQUOTE : Char := Char.ofNat 39

/-- The backslash character. -/
abbrev BSLASH : Char := Char.ofNat 92

/-- The enum `EditorMode`. -/
inductive EditorMode where
  | NORMAL
  | INSERT
  | COMMAND
  | SEARCH
  deriving DecidableEq

/-- The enum `EditorHighlight`. -/
inductive EditorHighlight where
  | HL_NORMAL
  | HL_NUMBER
  | HL_STRING
  | HL_COMMENT
  | HL_KEYWORD
  | HL_TYPE
  | HL_CONST
  deriving DecidableEq

/-- The enum `CmdlineStyle`. -/
inductive CmdlineStyle where
  | NONE
  | ERROR
  deriving DecidableEq

/-- The struct `EditorRow`: `data` is the raw text, `rdata` the rendered text
followed by one `'\0'`, `rlen` the rendered length, `hl` the tag buffer. -/
structure EditorRow where
  data : List Char
  rdata : List Char
  rlen : Int
  hl : List EditorHighlight
  deriving DecidableEq

/-- The method `EditorRow::len`. -/
def EditorRow.len (row : EditorRow) : Int := Int.ofNat row.data.length

/-! ## Coordinate mapper -/

/-- One iteration of the body shared by `row_cx_to_rx` and `row_rx_to_cx`:
`if (c == '\t') rx += (TAB_STOP-1) - (rx%TAB_STOP); rx++`. -/
def tab_advance (c : Char) (rx : Int) : Int :=
  (if c = TAB then rx + (((TAB_STOP : Int) - 1) - Int.tmod rx (TAB_STOP : Int)) else rx) + 1

/-- The `for (int i = 0; i < cx; i++)` loop of `row_cx_to_rx`: `n` iterations
remain, `i` is the loop index.  `data[i]` past the end reads `'\0'`, the value
`std::string::operator[]` gives at index `size()`. -/
def row_cx_to_rx_loop (data : List Char) : Nat → Nat → Int → Int
  | 0, _, rx => rx
  | n + 1, i, rx => row_cx_to_rx_loop data n (i + 1) (tab_advance (data.getD i NUL) rx)

/-- The function `row_cx_to_rx`; a null row is `none`. -/
def row_cx_to_rx (row : Option EditorRow) (cx : Int) : Int :=
  match row with
  | none => 0
  | some r => row_cx_to_rx_loop r.data cx.toNat 0 0

/-- The `for (cx = 0; cx < row->len(); cx++)` loop of `row_rx_to_cx`: `n`
iterations remain, `cx` is the loop index. -/
def row_rx_to_cx_loop (data : List Char) (rx : Int) : Nat → Nat → Int → Int
  | 0, cx, _ => Int.ofNat cx
  | n + 1, cx, cur_rx =>
    let cur := tab_advance (data.getD cx NUL) cur_rx
    if cur > rx then Int.ofNat cx else row_rx_to_cx_loop data rx n (cx + 1) cur

/-- The function `row_rx_to_cx`; a null row is `none`. -/
def row_rx_to_cx (row : Option EditorRow) (rx : Int) : Int :=
  match row with
  | none => 0
  | some r => row_rx_to_cx_loop r.data rx r.data.length 0 0

/-! ## Rendering of a row -/

/-- The inner loop `while (rdata.size() % TAB_STOP != 0) rdata.push_back(' ')`
of `update_row`, with a bound on the number of iterations. -/
def update_row_pad : Nat → List Char → List Char
  | 0, rdata => rdata
  | n + 1, rdata =>
    if rdata.length % TAB_STOP ≠ 0 then update_row_pad n (rdata ++ [SPC]) else rdata

/-- The `for` loop of `update_row` that rebuilds `rdata` from `data`. -/
def update_row_render : List Char → List Char → List Char
  | [], rdata => rdata
  | c :: cs, rdata =>
    if c = TAB then update_row_render cs (update_row_pad TAB_STOP (rdata ++ [SPC]))
    else update_row_render cs (rdata ++ [c])

/-- The tab expansion as the specification words it: scan left to right, copy
every other character, replace a tab by `4 - (n mod 4)` spaces where `n` is the
rendered length so far. -/
def expand_tabs_spec : List Char → List Char → List Char
  | [], out => out
  | c :: cs, out =>
    if c = TAB then expand_tabs_spec cs (out ++ List.replicate (4 - out.length % 4) SPC)
    else expand_tabs_spec cs (out ++ [c])

/-! ## Syntax descriptors -/

/-- The struct `EditorSyntax`.  The word arrays keep their terminating `""`. -/
structure EditorSyntax where
  filetype : List Char
  extmatch : List (List Char)
  keywords : List (List Char)
  types : List (List Char)
  consts : List (List Char)
  singleline_comment_start : List Char
  flags : Nat
  deriving DecidableEq

/-- The flag `EDSYN_HLT_NUMBER`. -/
abbrev EDSYN_HLT_NUMBER : Nat := 1

/-- The flag `EDSYN_HLT_STRING`. -/
abbrev EDSYN_HLT_STRING : Nat := 2

/-- The array `C_EXTS`. -/
def C_EXTS : List (List Char) := List.map String.toList ["c", "h", "cpp", ""]

/-- The array `C_KEYWORDS`. -/
def C_KEYWORDS : List (List Char) := List.map String.toList [
  "switch", "if", "while", "for", "break", "continue", "return", "else",
  "struct", "union", "typedef", "static", "enum", "class", "using", "namespace",
  "case", "const", "inline", "auto", "constexpr", "template", "typename", "const",
  "#include", "#pragma", "#define", "#if", "#ifdef", "#ifndef", "#elif", "#endif",
  ""]

/-- The array `C_TYPES`. -/
def C_TYPES : List (List Char) := List.map String.toList [
  "void", "char", "bool", "short", "int", "size_t", "ssize_t", "ptrdiff_t",
  "long", "float", "double", ""]

/-- The array `C_CONSTS`. -/
def C_CONSTS : List (List Char) := List.map String.toList ["true", "false", "NULL", ""]

/-- The number of entries of `HLDB`. -/
abbrev NUM_HLDBS : Nat := 1

/-- The table `HLDB`, indexed as an array; its single entry is the C descriptor. -/
def HLDB (_ : Fin NUM_HLDBS) : EditorSyntax :=
  { filetype := String.toList "c"
    extmatch := C_EXTS
    keywords := C_KEYWORDS
    types := C_TYPES
    consts := C_CONSTS
    singleline_comment_start := String.toList "//"
    flags := EDSYN_HLT_NUMBER ||| EDSYN_HLT_STRING }

/-! ## Character classes and C string helpers -/

/-- The C library `isspace` in the "C" locale. -/
def isspace (c : Char) : Bool :=
  c == SPC || c == TAB || c == NL || c == Char.ofNat 11 || c == Char.ofNat 12 ||
    c == Char.ofNat 13

/-- The C library `isdigit`. -/
def isdigit (c : Char) : Bool := decide (48 ≤ c.toNat) && decide (c.toNat ≤ 57)

/-- The function `is_char_separator`; `strchr` also finds the terminating
`'\0'` of its first argument, which the middle disjunct already covers. -/
def is_char_separator (c : Char) : Bool :=
  isspace c || c == NUL ||
    (String.toList ",.()+" ++ String.toList "-" ++ String.toList "/*=~%<>[];").contains c

/-- The test `strncmp(s1, s2, n) == 0` on C strings: `s1` and `s2` are the
characters stored from the two pointers on, and whatever lies past a list is
the terminating `'\0'`.  The comparison stops at the first difference, at a
common `'\0'`, or after `n` characters. -/
def strncmp_eq : List Char → List Char → Nat → Bool
  | _, _, 0 => true
  | s1, s2, n + 1 =>
    if s1.headD NUL ≠ s2.headD NUL then false
    else if s1.headD NUL = NUL then true
    else strncmp_eq s1.tail s2.tail n

/-- A write `hl[i] = v` into the tag buffer; `none` when `i` is outside it. -/
def hl_set (hl : List EditorHighlight) (i : Nat) (v : EditorHighlight) :
    Option (List EditorHighlight) :=
  if i < hl.length then some (hl.set i v) else none

/-- The call `memset(&hl[i], v, n)`; `none` when it would leave the buffer. -/
def hl_memset (hl : List EditorHighlight) (i n : Nat) (v : EditorHighlight) :
    Option (List EditorHighlight) :=
  if i + n ≤ hl.length then some (hl.take i ++ List.replicate n v ++ hl.drop (i + n))
  else none

/-! ## Syntax highlighter -/

/-- The function `match_syn_word`: result `(found, hl, i)`, or `none` when the
`memset` leaves the tag buffer.  The loop ends at the first empty word. -/
def match_syn_word (wordlist : List (List Char)) (rdata : List Char)
    (hl : List EditorHighlight) (i : Nat) (v : EditorHighlight) :
    Option (Bool × List EditorHighlight × Nat) :=
  match wordlist with
  | [] => some (false, hl, i)
  | w :: ws =>
    if w = [] then some (false, hl, i)
    else if strncmp_eq (rdata.drop i) w w.length = true ∧
        is_char_separator (rdata.getD (i + w.length) NUL) = true then
      (hl_memset hl i w.length v).map fun hl1 => (true, hl1, i + w.length)
    else match_syn_word ws rdata hl i v

/-- The keyword, then type, then const attempts of `update_row_syntax`. -/
def match_syn_words (syn : EditorSyntax) (rdata : List Char)
    (hl : List EditorHighlight) (i : Nat) : Option (Bool × List EditorHighlight × Nat) :=
  match match_syn_word syn.keywords rdata hl i .HL_KEYWORD with
  | none => none
  | some (true, hl1, i1) => some (true, hl1, i1)
  | some (false, _, _) =>
    match match_syn_word syn.types rdata hl i .HL_TYPE with
    | none => none
    | some (true, hl1, i1) => some (true, hl1, i1)
    | some (false, _, _) => match_syn_word syn.consts rdata hl i .HL_CONST

/-- The `while (i < rlen)` loop of `update_row_syntax`.  The first argument
bounds the number of iterations; `which_string` is `NUL` outside a string.
The result is `none` when a write leaves the tag buffer or the bound is used
up before the loop ends. -/
def update_row_syntax_loop (syn : EditorSyntax) (rdata : List Char) (rlen : Nat) :
    Nat → Nat → Bool → Char → List EditorHighlight → Option (List EditorHighlight)
  | 0, i, _, _, hl => if i < rlen then none else some hl
  | fuel + 1, i, prev_sep, which_string, hl =>
    if i < rlen then
      let c := rdata.getD i NUL
      let prev_hl := if i > 0 then hl.getD (i - 1) .HL_NORMAL else .HL_NORMAL
      let scs := syn.singleline_comment_start
      if scs.length ≠ 0 ∧ which_string = NUL ∧
          strncmp_eq (rdata.drop i) scs scs.length = true then
        hl_memset hl i (rlen - i) .HL_COMMENT
      else if syn.flags &&& EDSYN_HLT_STRING ≠ 0 ∧ which_string ≠ NUL then
        (hl_set hl i .HL_STRING).bind fun hl1 =>
          if c = BSLASH ∧ i + 1 < rlen then
            (hl_set hl1 (i + 1) .HL_STRING).bind fun hl2 =>
              update_row_syntax_loop syn rdata rlen fuel (i + 2) prev_sep which_string hl2
          else
            update_row_syntax_loop syn rdata rlen fuel (i + 1) true
              (if c = which_string then NUL else which_string) hl1
      else if syn.flags &&& EDSYN_HLT_STRING ≠ 0 ∧ (c = DQUOTE ∨ c = SQUOTE) then
        (hl_set hl i .HL_STRING).bind fun hl1 =>
          update_row_syntax_loop syn rdata rlen fuel (i + 1) prev_sep c hl1
      else if syn.flags &&& EDSYN_HLT_NUMBER ≠ 0 ∧
          ((isdigit c = true ∧ (prev_sep = true ∨ prev_hl = .HL_NUMBER)) ∨
            (c = Char.ofNat 46 ∧ prev_hl = .HL_NUMBER)) then
        (hl_set hl i .HL_NUMBER).bind fun hl1 =>
          update_row_syntax_loop syn rdata rlen fuel (i + 1) false which_string hl1
      else
        match (if prev_sep = true then match_syn_words syn rdata hl i
               else some (false, hl, i)) with
        | none => none
        | some (true, hl1, i1) =>
          update_row_syntax_loop syn rdata rlen fuel i1 false which_string hl1
        | some (false, _, _) =>
          update_row_syntax_loop syn rdata rlen fuel (i + 1) (is_char_separator c)
            which_string hl
    else some hl

/-! ## Editor state -/

/-- The struct `EditorConfig` (the global `E`), without the terminal settings,
the output buffer, the key log and the message time stamp.  `syn` is the
pointer into `HLDB`, `none` when null. -/
structure EditorConfig where
  screenrows : Int
  screencols : Int
  cx : Int
  cy : Int
  rx : Int
  tx : Int
  mx : Int
  my : Int
  rowoff : Int
  coloff : Int
  mode : EditorMode
  path : List Char
  dirty : Bool
  cmdx : Int
  cmdoff : Int
  hltsx : Int
  hltsy : Int
  hltex : Int
  hltey : Int
  syn : Option (Fin NUM_HLDBS)
  rows : List EditorRow
  cmdline : List Char
  cmdline_style : CmdlineStyle
  quit_times : Int
  search_default : List Char
  clipboard : List Char
  skip_after_action : Bool
  deriving DecidableEq

/-- The method `EditorConfig::numrows`. -/
def EditorConfig.numrows (E : EditorConfig) : Int := Int.ofNat E.rows.length

/-- The method `EditorConfig::lastrow_idx`. -/
def EditorConfig.lastrow_idx (E : EditorConfig) : Int := Int.ofNat E.rows.length - 1

/-- The method `EditorConfig::get_row_at`: the returned pointer is the index of
the row, `none` being the null pointer. -/
def EditorConfig.get_row_at (E : EditorConfig) («at» : Int) : Option Nat :=
  if «at» < 0 ∨ «at» ≥ E.numrows then none else some «at».toNat

/-- Dereference of a row pointer; `none` for the null pointer. -/
def EditorConfig.deref (E : EditorConfig) (p : Option Nat) : Option EditorRow :=
  p.bind fun i => E.rows[i]?

/-- The method `EditorConfig::set_cpos`. -/
def EditorConfig.set_cpos (E : EditorConfig) (cx cy : Int) : EditorConfig :=
  { E with cx := cx, cy := cy, tx := row_cx_to_rx (E.deref (E.get_row_at cy)) cx }

/-- The call `s.substr(pos, len)` with `int` arguments converted to `size_t`:
it throws (`none`) when `pos` exceeds the size, and a negative `len` becomes a
count larger than any string. -/
def substr (s : List Char) (pos len : Int) : Option (List Char) :=
  if pos < 0 ∨ pos > Int.ofNat s.length then none
  else some ((s.drop pos.toNat).take (if len < 0 then s.length else len.toNat))

/-! ## Row store -/

/-- The tag buffer `update_row_syntax` computes for a rendered text: a fresh
buffer of `rlen` normal tags (`realloc` and `memset`), then the scan when a
syntax is selected. -/
def update_row_syntax_hl (syn : Option (Fin NUM_HLDBS)) (rdata : List Char) (rlen : Nat) :
    Option (List EditorHighlight) :=
  let hl0 := List.replicate rlen EditorHighlight.HL_NORMAL
  match syn with
  | none => some hl0
  | some s => update_row_syntax_loop (HLDB s) rdata rlen rlen 0 true NUL hl0

/-- The function `update_row_syntax` for the row `p` points to. -/
def update_row_syntax (E : EditorConfig) (p : Option Nat) : Option EditorConfig :=
  p.bind fun i => (E.rows[i]?).bind fun row =>
    (update_row_syntax_hl E.syn row.rdata row.rlen.toNat).map fun hl =>
      { E with rows := E.rows.set i { row with hl := hl } }

/-- The function `update_row` for the row `p` points to. -/
def update_row (E : EditorConfig) (p : Option Nat) : Option EditorConfig :=
  p.bind fun i => (E.rows[i]?).bind fun row =>
    let rdata := update_row_render row.data []
    let row1 : EditorRow :=
      { row with rdata := rdata ++ [NUL], rlen := Int.ofNat rdata.length }
    update_row_syntax { E with rows := E.rows.set i row1, dirty := true } p

/-- The function `insert_row` (its return value is used by no caller). -/
def insert_row (E : EditorConfig) («at» : Int) (data : List Char) : Option EditorConfig :=
  if «at» < 0 ∨ «at» > E.numrows then some E
  else
    update_row { E with rows := E.rows.insertIdx «at».toNat ⟨data, [], 0, []⟩ }
      (some «at».toNat)

/-- The function `delete_row`: the new state and the returned raw text. -/
def delete_row (E : EditorConfig) («at» : Int) : EditorConfig × List Char :=
  if «at» < 0 ∨ «at» ≥ E.numrows then (E, [])
  else
    match E.rows[«at».toNat]? with
    | none => (E, [])
    | some row => ({ E with rows := E.rows.eraseIdx «at».toNat, dirty := true }, row.data)

/-- The function `row_insert_char`. -/
def row_insert_char (E : EditorConfig) (p : Option Nat) («at» : Int) (c : Char) :
    Option EditorConfig :=
  p.bind fun i => (E.rows[i]?).bind fun row =>
    let at1 := if «at» < 0 ∨ «at» > row.len then row.len else «at»
    let data := row.data.take at1.toNat ++ c :: row.data.drop at1.toNat
    update_row { E with rows := E.rows.set i { row with data := data } } p

/-- The function `row_delete_range`: the new state and the returned text.
A negative `len` that passes the guard is a `size_t` count larger than any
string; `substr` throws when `at` exceeds the size. -/
def row_delete_range (E : EditorConfig) (p : Option Nat) («at» len : Int) :
    Option (EditorConfig × List Char) :=
  p.bind fun i => (E.rows[i]?).bind fun row =>
    if «at» < 0 ∨ «at» + len > row.len ∨ len = 0 then some (E, [])
    else
      (substr row.data «at» len).bind fun copy =>
        let data := row.data.take «at».toNat ++ row.data.drop («at».toNat + copy.length)
        (update_row { E with rows := E.rows.set i { row with data := data } } p).map
          fun E1 => (E1, copy)

/-- The function `row_append_string`. -/
def row_append_string (E : EditorConfig) (p : Option Nat) (str : List Char) :
    Option EditorConfig :=
  p.bind fun i => (E.rows[i]?).bind fun row =>
    update_row { E with rows := E.rows.set i { row with data := row.data ++ str } } p

/-- The `while` loop of `row_get_indent`. -/
def row_get_indent_loop : List Char → Int → Int
  | [], indent => indent
  | c :: cs, indent => if c = TAB then row_get_indent_loop cs (indent + 1) else indent

/-- The function `row_get_indent`. -/
def row_get_indent (row : EditorRow) : Int := row_get_indent_loop row.data 0

/-- The `for` loop of `row_set_indent`. -/
def row_set_indent_loop (p : Option Nat) : Nat → EditorConfig → Option EditorConfig
  | 0, E => some E
  | n + 1, E => (row_insert_char E p 0 TAB).bind (row_set_indent_loop p n)

/-- The function `row_set_indent`. -/
def row_set_indent (E : EditorConfig) (p : Option Nat) (indent : Int) : Option EditorConfig :=
  (E.deref p).bind fun row =>
    (row_delete_range E p 0 (row_get_indent row)).bind fun r =>
      row_set_indent_loop p indent.toNat r.1

/-! ## Edit engine -/

/-- The function `insert_empty_row_if_file_empty`. -/
def insert_empty_row_if_file_empty (E : EditorConfig) : Option EditorConfig :=
  if E.numrows = 0 then insert_row E E.numrows [] else some E

/-- The inner `for (; cx >= 0; cx--)` loop of `row_indent_to_prev_indent`; the
argument is `cx + 1`. -/
def row_indent_scan_row (data : List Char) : Nat → Bool
  | 0 => false
  | cx + 1 =>
    if data.getD cx NUL ≠ TAB ∧ data.getD cx NUL ≠ SPC then true
    else row_indent_scan_row data cx

/-- The outer `for (int i = cy; i >= 0; i--)` loop of
`row_indent_to_prev_indent`; the argument is `i + 1` and the result is
`target_indent`. -/
def row_indent_scan (E : EditorConfig) : Nat → Option Int
  | 0 => some 0
  | i + 1 =>
    (E.deref (E.get_row_at (Int.ofNat i))).bind fun row =>
      if row.len = 0 then row_indent_scan E i
      else if row_indent_scan_row row.data (row.data.length + 1) = true then
        some (row_get_indent row)
      else row_indent_scan E i

/-- The function `row_indent_to_prev_indent`. -/
def row_indent_to_prev_indent (E : EditorConfig) (p : Option Nat) : Option EditorConfig :=
  (row_indent_scan E (E.cy - 1 + 1).toNat).bind fun target_indent =>
    (E.deref p).bind fun row =>
      let indent_by := target_indent - row_get_indent row
      if indent_by > 0 then
        (row_set_indent E p indent_by).map fun E1 => E1.set_cpos (E1.cx + indent_by) E1.cy
      else some E

/-- The function `delete_empty_row_if_file_empty`. -/
def delete_empty_row_if_file_empty (E : EditorConfig) : Option EditorConfig :=
  if E.numrows = 1 then
    (E.deref (E.get_row_at E.cy)).map fun row =>
      if row.len = 0 then (delete_row E 0).1 else E
  else some E

/-- The function `copy_to_clipboard`. -/
def copy_to_clipboard (E : EditorConfig) (text : List Char) : EditorConfig :=
  { E with clipboard := text }

/-- The function `do_insert_newline`. -/
def do_insert_newline (E : EditorConfig) (autoindent : Bool) : Option EditorConfig :=
  (insert_empty_row_if_file_empty E).bind fun E1 =>
    (if E1.cx = 0 then insert_row E1 E1.cy []
     else
      let p := E1.get_row_at E1.cy
      (E1.deref p).bind fun row =>
        (substr row.data E1.cx (row.len - E1.cx)).bind fun tail =>
          (insert_row E1 (E1.cy + 1) tail).bind fun E2 =>
            p.bind fun i => (E2.rows[i]?).bind fun row2 =>
              (substr row2.data 0 E2.cx).bind fun head =>
                update_row { E2 with rows := E2.rows.set i { row2 with data := head } } p).bind
      fun E3 =>
        let E4 := E3.set_cpos 0 (E3.cy + 1)
        if autoindent = true then row_indent_to_prev_indent E4 (E4.get_row_at E4.cy)
        else some E4

/-- The function `do_insert_char`. -/
def do_insert_char (E : EditorConfig) (c : Char) : Option EditorConfig :=
  if c = NL then do_insert_newline E false
  else
    (insert_empty_row_if_file_empty E).bind fun E1 =>
      (row_insert_char E1 (E1.get_row_at E1.cy) E1.cx c).map fun E2 =>
        E2.set_cpos (E2.cx + 1) E2.cy

/-- The function `do_delete_left_char`. -/
def do_delete_left_char (E : EditorConfig) : Option EditorConfig :=
  if E.cx = 0 ∧ E.cy = 0 then some E
  else
    let p := E.get_row_at E.cy
    (if E.cx > 0 then
      (row_delete_range E p (E.cx - 1) 1).map fun r => r.1.set_cpos (r.1.cx - 1) r.1.cy
     else
      (E.deref (E.get_row_at (E.cy - 1))).bind fun prev =>
        let E1 := E.set_cpos prev.len (E.cy - 1)
        (E1.deref p).bind fun row =>
          (row_append_string E1 (E1.get_row_at E1.cy) row.data).map fun E2 =>
            (delete_row E2 (E2.cy + 1)).1).bind
      delete_empty_row_if_file_empty

/-- The function `do_delete_current_char`. -/
def do_delete_current_char (E : EditorConfig) : Option EditorConfig :=
  let p := E.get_row_at E.cy
  match E.deref p with
  | none => some E
  | some row =>
    (if E.cx = row.len then
      if E.cy < E.lastrow_idx then
        (E.deref (E.get_row_at (E.cy + 1))).bind fun next =>
          (row_append_string E p next.data).map fun E1 => (delete_row E1 (E1.cy + 1)).1
      else some E
     else (row_delete_range E p E.cx 1).map fun r => r.1).bind
      delete_empty_row_if_file_empty

/-- The `for` loop of `do_paste_from_clipboard` over the characters of the
clipboard as it was when the loop started. -/
def do_paste_loop : List Char → EditorConfig → Option EditorConfig
  | [], E => some E
  | c :: cs, E => (do_insert_char E c).bind (do_paste_loop cs)

/-- The function `do_paste_from_clipboard`. -/
def do_paste_from_clipboard (E : EditorConfig) : Option EditorConfig :=
  do_paste_loop E.clipboard E

/-- Where a row pointer `p` points after `delete_row(at)` ran in state `E`:
rows behind the erased one move down by one index, and a pointer to the erased
row itself is dead (`none`). -/
def ptr_after_delete (E : EditorConfig) («at» : Int) (p : Option Nat) : Option Nat :=
  if «at» < 0 ∨ «at» ≥ E.numrows then p
  else p.bind fun i =>
    if i < «at».toNat then some i else if i = «at».toNat then none else some (i - 1)

/-- The loop of `do_cut_cursor_mark_region` that removes every row when the
region is the whole document: `n` iterations remain, `i` is the loop index. -/
def do_cut_all_loop : Nat → Nat → EditorConfig → List Char → EditorConfig × List Char
  | 0, _, E, copy => (E, copy)
  | n + 1, i, E, copy =>
    let copy1 := if i ≠ 0 then copy ++ [NL] else copy
    let r := delete_row E 0
    do_cut_all_loop n (i + 1) r.1 (copy1 ++ r.2)

/-- The loop of `do_cut_cursor_mark_region` that removes the rows strictly
between the start row and the end row, always at index `d`; `q` follows the
pointer `endrow`. -/
def do_cut_mid_loop (d : Int) :
    Nat → EditorConfig → Option Nat → List Char → EditorConfig × Option Nat × List Char
  | 0, E, q, copy => (E, q, copy)
  | n + 1, E, q, copy =>
    let r := delete_row E d
    do_cut_mid_loop d n r.1 (ptr_after_delete E d q) (copy ++ [NL] ++ r.2)

/-- The test of `do_cut_cursor_mark_region` for a region that is the whole
document; the last conjunct dereferences the last row. -/
def do_cut_is_whole (E : EditorConfig) (startx starty endx endy : Int) : Option Bool :=
  if startx = 0 ∧ starty = 0 ∧ endy = E.lastrow_idx then
    (E.deref (E.get_row_at E.lastrow_idx)).map fun last => decide (endx = last.len)
  else some false

/-- The part of `do_cut_cursor_mark_region` after the region has been ordered:
the new state and the local `copy`. -/
def do_cut_region (E : EditorConfig) (startx starty endx endy : Int) :
    Option (EditorConfig × List Char) :=
  (do_cut_is_whole E startx starty endx endy).bind fun whole =>
    if whole = true then
      some (do_cut_all_loop E.numrows.toNat 0 E [])
    else if starty = endy then
      row_delete_range E (E.get_row_at starty) startx (endx - startx)
    else
      let startrow := E.get_row_at starty
      let endrow := E.get_row_at endy
      if startx = 0 then
        let r := delete_row E starty
        let m := do_cut_mid_loop starty (endy - (starty + 1)).toNat r.1
          (ptr_after_delete E starty endrow) r.2
        (row_delete_range m.1 m.2.1 0 endx).map fun r2 => (r2.1, m.2.2 ++ [NL] ++ r2.2)
      else
        (E.deref startrow).bind fun srow =>
          (row_delete_range E startrow startx (srow.len - startx)).bind fun r =>
            let m := do_cut_mid_loop (starty + 1) (endy - (starty + 1)).toNat r.1 endrow r.2
            (m.1.deref m.2.1).bind fun erow =>
              (row_delete_range m.1 m.2.1 endx (erow.len - endx)).bind fun r2 =>
                (row_append_string r2.1 startrow r2.2).map fun E3 =>
                  let r3 := delete_row E3 (starty + 1)
                  (r3.1, m.2.2 ++ [NL] ++ r3.2)

/-- The function `do_cut_cursor_mark_region`. -/
def do_cut_cursor_mark_region (E : EditorConfig) : Option EditorConfig :=
  let region : Option (Int × Int × Int × Int) :=
    if E.my < E.cy then some (E.mx, E.my, E.cx, E.cy)
    else if E.cy < E.my then some (E.cx, E.cy, E.mx, E.my)
    else if E.cx < E.mx then some (E.cx, E.cy, E.mx, E.cy)
    else if E.mx < E.cx then some (E.mx, E.cy, E.cx, E.cy)
    else none
  match region with
  | none => some E
  | some (startx, starty, endx, endy) =>
    (do_cut_region E startx starty endx endy).map fun r =>
      copy_to_clipboard (r.1.set_cpos startx starty) r.2

/-- The raw texts of the rows of a document, in order. -/
def EditorConfig.raw (E : EditorConfig) : List (List Char) := E.rows.map EditorRow.data

/-- A blank editor state with the given rows, cursor and mark, used to build
concrete documents: no syntax, Normal mode, empty clipboard. -/
def mk_editor (rows : List EditorRow) (cx cy mx my : Int) : EditorConfig :=
  { screenrows := 24, screencols := 80, cx := cx, cy := cy, rx := 0, tx := 0,
    mx := mx, my := my, rowoff := 0, coloff := 0, mode := .NORMAL, path := [],
    dirty := false, cmdx := 0, cmdoff := 0, hltsx := 0, hltsy := 0, hltex := 0,
    hltey := 0, syn := none, rows := rows, cmdline := [], cmdline_style := .NONE,
    quit_times := NUM_FORCE_QUIT_PRESS, search_default := [], clipboard := [],
    skip_after_action := false }

/-- A row holding the raw text `data` whose derived fields are not yet computed. -/
def mk_row (data : List Char) : EditorRow := ⟨data, [], 0, []⟩

/-- Well-formedness of a syntax descriptor as a table of C strings: no listed
word contains `NUL`. -/
def syn_wf (syn : EditorSyntax) : Prop :=
  (∀ w ∈ syn.keywords, NUL ∉ w) ∧ (∀ w ∈ syn.types, NUL ∉ w) ∧ (∀ w ∈ syn.consts, NUL ∉ w)

/-- The row that `insert_row` builds from the raw text `data` in an empty
document without syntax. -/
def render_one (data : List Char) : Option EditorRow :=
  (insert_row (mk_editor [] 0 0 0 0) 0 data).bind fun E => E.rows[0]?

/-! ## Messages, modes, scrolling, exit -/

/-- The function `set_cmdline_msg_info` with the already formatted text (the
time stamp is not modelled). -/
def set_cmdline_msg_info (E : EditorConfig) (msg : List Char) : EditorConfig :=
  if E.mode ≠ .COMMAND ∧ E.mode ≠ .SEARCH then
    { E with cmdline := msg, cmdline_style := .NONE }
  else E

/-- The function `set_cmdline_msg_error` with the already formatted text. -/
def set_cmdline_msg_error (E : EditorConfig) (msg : List Char) : EditorConfig :=
  if E.mode ≠ .COMMAND ∧ E.mode ≠ .SEARCH then
    { E with cmdline := msg, cmdline_style := .ERROR }
  else E

/-- The method `EditorConfig::reset_hlt`. -/
def EditorConfig.reset_hlt (E : EditorConfig) : EditorConfig :=
  { E with hltsx := 0, hltsy := 0, hltex := 0, hltey := 0 }

/-- The function `scroll_to`. -/
def scroll_to (E : EditorConfig) (x y : Int) : EditorConfig :=
  let E1 := if y < E.rowoff then { E with rowoff := y } else E
  let E2 := if y ≥ E1.rowoff + (E1.screenrows - 5) then
    { E1 with rowoff := y - (E1.screenrows - 5) + 1 } else E1
  let E3 := if x < E2.coloff then { E2 with coloff := x } else E2
  if x ≥ E3.coloff + (E3.screencols - 5) then
    { E3 with coloff := x - (E3.screencols - 5) + 1 } else E3

/-- The function `change_mode`. -/
def change_mode (E : EditorConfig) (mode : EditorMode) : EditorConfig :=
  { E with mode := mode, cmdline := [], cmdline_style := .NONE, cmdx := 0, cmdoff := 0 }

/-- The function `do_change_mode_to_normal`. -/
def do_change_mode_to_normal (E : EditorConfig) : EditorConfig := change_mode E .NORMAL

/-- The function `do_change_mode_to_insert`. -/
def do_change_mode_to_insert (E : EditorConfig) : EditorConfig := change_mode E .INSERT

/-- The function `do_change_mode_to_command`. -/
def do_change_mode_to_command (E : EditorConfig) : EditorConfig := change_mode E .COMMAND

/-- The function `do_change_mode_to_search`. -/
def do_change_mode_to_search (E : EditorConfig) : EditorConfig := change_mode E .SEARCH

/-- The function `do_set_mark`. -/
def do_set_mark (E : EditorConfig) : EditorConfig := { E with mx := E.cx, my := E.cy }

/-- What an action leaves behind: the editor keeps running in a new state, or
the process has exited through `core::succ_exit`. -/
inductive Run where
  | running (E : EditorConfig)
  | exited
  deriving DecidableEq

/-- The text of the message of `do_exit_editor` for the counter value `k`. -/
def quit_msg (k : Int) : List Char :=
  String.toList "File has unsaved changes: press [backtick] " ++ String.toList (toString k) ++
    String.toList " more times to quit"

/-- The function `do_exit_editor`. -/
def do_exit_editor (E : EditorConfig) : Run :=
  if E.dirty = true ∧ E.quit_times > 0 then
    let E1 := set_cmdline_msg_error E (quit_msg E.quit_times)
    .running { E1 with quit_times := E1.quit_times - 1, skip_after_action := true }
  else .exited

/-- The function `do_after_action`. -/
def do_after_action (E : EditorConfig) : EditorConfig :=
  let rowlen : Int := match E.deref (E.get_row_at E.cy) with
    | some row => row.len
    | none => 0
  let E1 := if E.cx > rowlen then { E with cx := rowlen } else E
  let E2 := if E1.skip_after_action = false then
    { E1 with quit_times := NUM_FORCE_QUIT_PRESS }.reset_hlt else E1
  { E2 with skip_after_action := false }

/-- One exit attempt as `process_keypress` runs it: `do_exit_editor` followed,
when the process is still running, by `do_after_action`. -/
def exit_attempt (E : EditorConfig) : Run :=
  match do_exit_editor E with
  | .running E1 => .running (do_after_action E1)
  | .exited => .exited

/-! ## Paths, saving, searching -/

/-- The function `str_startswith`: `str.rfind(startswith, 0) == 0`, which holds
exactly when `str` begins with `startswith`. -/
def str_startswith (str startswith : List Char) : Bool := startswith.isPrefixOf str

/-- The function `is_char_printable`. -/
def is_char_printable (c : Int) : Bool := decide (c ≥ 32) && decide (c ≤ 126)

/-- The C function `isalpha` in the "C" locale. -/
def isalpha (c : Char) : Bool :=
  (decide (65 ≤ c.toNat) && decide (c.toNat ≤ 90)) ||
  (decide (97 ≤ c.toNat) && decide (c.toNat ≤ 122))

/-- The loop of `rows_to_string`: every row followed by a newline is appended
to `res`. -/
def rows_to_string_loop : List EditorRow → List Char → List Char
  | [], res => res
  | row :: rest, res => rows_to_string_loop rest ((res ++ row.data) ++ [NL])

/-- The function `rows_to_string`. -/
def rows_to_string (E : EditorConfig) : List Char := rows_to_string_loop E.rows []

/-- The call `s.find(c)` of `std::string` for a character: the index of the
first occurrence, `none` for `npos`. -/
def str_find_char : List Char → Char → Option Nat
  | [], _ => none
  | d :: ds, c => if d = c then some 0 else (str_find_char ds c).map (· + 1)

/-- The `while (need != "")` loop of `_find_synhlt_with_ext` over a list of
extensions that ends with the sentinel `""`: whether `ext` is listed; `none`
when the loop runs off the end of an array without sentinel. -/
def extmatch_loop : List (List Char) → List Char → Option Bool
  | [], _ => none
  | need :: rest, ext =>
    if need = [] then some false
    else if need = ext then some true
    else extmatch_loop rest ext

/-- The `for (usize i = 0; i < NUM_HLDBS; i++)` loop of `_find_synhlt_with_ext`:
`n` iterations remain, `i` is the loop index; the result is the new `E.syn`. -/
def find_synhlt_loop (ext : List Char) : Nat → Nat → Option (Option (Fin NUM_HLDBS))
  | 0, _ => some none
  | n + 1, i =>
    if h : i < NUM_HLDBS then
      (extmatch_loop (HLDB ⟨i, h⟩).extmatch ext).bind fun found =>
        if found = true then some (some ⟨i, h⟩) else find_synhlt_loop ext n (i + 1)
    else some none

/-- The function `_find_synhlt_with_ext`: the extension is what follows the
position `E.path.find('.')` returns. -/
def find_synhlt_with_ext (E : EditorConfig) : Option EditorConfig :=
  let E0 := { E with syn := none }
  if E0.path = [] then some E0
  else
    match str_find_char E0.path (Char.ofNat 46) with
    | none => some E0
    | some idx =>
      let ext := E0.path.drop (idx + 1)
      if ext = [] then some E0
      else (find_synhlt_loop ext NUM_HLDBS 0).map fun s => { E0 with syn := s }

/-- The `for` loop of `update_synhlt_from_ext` over the rows: `n` iterations
remain, `r` is the loop index. -/
def update_synhlt_loop : Nat → Nat → EditorConfig → Option EditorConfig
  | 0, _, E => some E
  | n + 1, r, E =>
    ( update_row_syntax E (E.get_row_at (Int.ofNat r))).bind (update_synhlt_loop n (r + 1))

/-- The function `update_synhlt_from_ext`. -/
def update_synhlt_from_ext (E : EditorConfig) : Option EditorConfig :=
  (find_synhlt_with_ext E).bind fun E1 => update_synhlt_loop E1.rows.length 0 E1

/-- The function `set_path`. -/
def set_path (E : EditorConfig) (path : List Char) : Option EditorConfig :=
  update_synhlt_from_ext { E with path := path }

/-- Membership in the constant `WHITESPACE` (space, tab, newline, carriage
return, form feed, vertical tab). -/
def is_whitespace (c : Char) : Bool :=
  c = SPC || c = TAB || c = NL || c = Char.ofNat 13 || c = Char.ofNat 12 || c = Char.ofNat 11

/-- The call `s.find_last_not_of(WHITESPACE) + 1` scanning down from index
`k - 1`: 0 stands for `npos + 1`. -/
def find_last_not_of_ws (s : List Char) : Nat → Nat
  | 0 => 0
  | k + 1 => if is_whitespace (s.getD k NUL) = false then k + 1 else find_last_not_of_ws s k

/-- The function `str_trim_trailing_ws`: `s.erase(s.find_last_not_of(WHITESPACE)+1)`. -/
def str_trim_trailing_ws (s : List Char) : List Char :=
  s.take (find_last_not_of_ws s s.length)

/-- The function `file_trim_trailing_ws`: the raw text of every row is trimmed
in place; nothing else of a row is touched. -/
def file_trim_trailing_ws (E : EditorConfig) : EditorConfig :=
  { E with rows := E.rows.map fun row => { row with data := str_trim_trailing_ws row.data } }

/-- The text of the message of `do_save_file` for `n` written bytes. -/
def bytes_written_msg (n : Nat) : List Char :=
  String.toList (toString n) ++ String.toList " bytes written"

/-- The function `do_save_file` when the temporary file can be opened and
written: the new state and the contents written to the file (`none` when
nothing is written).  The error messages of a failed stream are overwritten by
the final message, so the state does not depend on the stream. -/
def do_save_file (E : EditorConfig) : EditorConfig × Option (List Char) :=
  let E1 := file_trim_trailing_ws E
  if E1.path = [] then (set_cmdline_msg_info E1 (String.toList "no filename"), none)
  else
    let contents := rows_to_string E1
    let E2 := set_cmdline_msg_info E1 (bytes_written_msg contents.length)
    ({ E2 with dirty := false }, some contents)

/-- The scan of `std::string::find(q, pos)` upward from index `i`: `n`
candidate positions remain. -/
def str_find_from (s q : List Char) : Nat → Nat → Option Nat
  | 0, _ => none
  | n + 1, i => if q.isPrefixOf (s.drop i) = true then some i else str_find_from s q n (i + 1)

/-- The call `s.find(q, pos)` with an `int` position converted to `size_t` (a
negative one is past every string); `none` is `npos`. -/
def str_find (s q : List Char) (pos : Int) : Option Nat :=
  if pos < 0 ∨ pos.toNat + q.length > s.length then none
  else str_find_from s q (s.length - q.length - pos.toNat + 1) pos.toNat

/-- The scan of `std::string::rfind(q, pos)` downward; the argument is the
first candidate index plus one. -/
def str_rfind_from (s q : List Char) : Nat → Option Nat
  | 0 => none
  | i + 1 => if q.isPrefixOf (s.drop i) = true then some i else str_rfind_from s q i

/-- The call `s.rfind(q, pos)` with an `int` position converted to `size_t` (a
negative one is past every string, as is `npos`); `none` is `npos`. -/
def str_rfind (s q : List Char) (pos : Int) : Option Nat :=
  if q.length > s.length then none
  else
    let last := s.length - q.length
    str_rfind_from s q ((if pos < 0 then last else min pos.toNat last) + 1)

/-- The `for (int i = E.cy; i < E.numrows(); i++)` loop of
`search_text_forward`: `n` iterations remain, `i` is the loop index; the result
is the row and the rendered column of the match. -/
def search_forward_loop (E : EditorConfig) (query : List Char) :
    Nat → Nat → Option (Option (Nat × Nat))
  | 0, _ => some none
  | n + 1, i =>
    (E.rows[i]?).bind fun row =>
      match str_find row.rdata query (if Int.ofNat i = E.cy then E.rx + 1 else 0) with
      | some m => some (some (i, m))
      | none => search_forward_loop E query n (i + 1)

/-- What both searches do with a match at rendered column `m` of row `i`. -/
def search_found (E : EditorConfig) (query : List Char) (set_cursor_on_match : Bool)
    (i m : Nat) : EditorConfig :=
  let row := E.rows[i]?
  let E1 := if set_cursor_on_match = true then
    E.set_cpos (row_rx_to_cx row (Int.ofNat m)) (Int.ofNat i) else E
  let E2 := { E1 with hltsy := Int.ofNat i, hltsx := Int.ofNat m, hltey := Int.ofNat i,
                      hltex := Int.ofNat m + Int.ofNat query.length }
  scroll_to E2 (Int.ofNat m + Int.ofNat query.length) (Int.ofNat i)

/-- The function `search_text_forward`; indexing `E.rows` with a negative row
is undefined (`none`). -/
def search_text_forward (E : EditorConfig) (query : List Char) (set_cursor_on_match : Bool) :
    Option EditorConfig :=
  if query = [] then some E.reset_hlt
  else if E.cy < 0 then none
  else
    (search_forward_loop E query (E.rows.length - E.cy.toNat) E.cy.toNat).map fun r =>
      match r with
      | some (i, m) => search_found E query set_cursor_on_match i m
      | none => (set_cmdline_msg_error E (String.toList "search reached EOF")).reset_hlt

/-- The `for (int i = E.cy; i >= 0; i--)` loop of `search_text_backward`; the
argument is `i + 1`. -/
def search_backward_loop (E : EditorConfig) (query : List Char) :
    Nat → Option (Option (Nat × Nat))
  | 0 => some none
  | i + 1 =>
    if Int.ofNat i = E.cy ∧ E.cx = 0 then search_backward_loop E query i
    else
      (E.rows[i]?).bind fun row =>
        match str_rfind row.rdata query (if Int.ofNat i = E.cy then E.rx - 1 else -1) with
        | some m => some (some (i, m))
        | none => search_backward_loop E query i

/-- The function `search_text_backward`. -/
def search_text_backward (E : EditorConfig) (query : List Char) (set_cursor_on_match : Bool) :
    Option EditorConfig :=
  if query = [] then some E.reset_hlt
  else
    (search_backward_loop E query (E.cy + 1).toNat).map fun r =>
      match r with
      | some (i, m) => search_found E query set_cursor_on_match i m
      | none => (set_cmdline_msg_error E (String.toList "search reached BOF")).reset_hlt

/-! ## Cursor motions -/

/-- The function `update_cx_when_cy_changed`. -/
def update_cx_when_cy_changed (E : EditorConfig) : EditorConfig :=
  if E.numrows ≠ 0 then
    { E with cx := row_rx_to_cx (E.deref (E.get_row_at E.cy)) (if E.tx > E.rx then E.tx else E.rx) }
  else E

/-- The function `update_rx`. -/
def update_rx (E : EditorConfig) : EditorConfig :=
  if E.cy < E.numrows then { E with rx := row_cx_to_rx (E.deref (E.get_row_at E.cy)) E.cx }
  else { E with rx := 0 }

/-- The function `do_cursor_up`. -/
def do_cursor_up (E : EditorConfig) : EditorConfig :=
  update_cx_when_cy_changed (if E.cy ≠ 0 then { E with cy := E.cy - 1 } else E)

/-- The function `do_cursor_down`. -/
def do_cursor_down (E : EditorConfig) : EditorConfig :=
  update_cx_when_cy_changed (if E.cy < E.lastrow_idx then { E with cy := E.cy + 1 } else E)

/-- The function `do_cursor_left`. -/
def do_cursor_left (E : EditorConfig) : Option EditorConfig :=
  if E.cx ≠ 0 then some (E.set_cpos (E.cx - 1) E.cy)
  else if E.cy > 0 then
    (E.deref (E.get_row_at (E.cy - 1))).map fun prev => E.set_cpos prev.len (E.cy - 1)
  else some E

/-- The function `do_cursor_right`: the row at the cursor is dereferenced
without a null check. -/
def do_cursor_right (E : EditorConfig) : Option EditorConfig :=
  (E.deref (E.get_row_at E.cy)).map fun row =>
    if E.cx < row.len then E.set_cpos (E.cx + 1) E.cy
    else if E.cy ≠ E.lastrow_idx ∧ E.cx = row.len then E.set_cpos 0 (E.cy + 1)
    else E

/-- The function `do_cursor_line_begin`. -/
def do_cursor_line_begin (E : EditorConfig) : EditorConfig := E.set_cpos 0 E.cy

/-- The function `do_cursor_line_end`. -/
def do_cursor_line_end (E : EditorConfig) : EditorConfig :=
  match E.deref (E.get_row_at E.cy) with
  | some row => E.set_cpos row.len E.cy
  | none => E

/-- The function `do_cursor_first_row`. -/
def do_cursor_first_row (E : EditorConfig) : EditorConfig :=
  update_cx_when_cy_changed { E with cy := 0 }

/-- The function `do_cursor_last_row`. -/
def do_cursor_last_row (E : EditorConfig) : EditorConfig :=
  update_cx_when_cy_changed { E with cy := E.lastrow_idx }

/-- The method `EditorConfig::get_char`; reading `data` outside `0..len` is
undefined (`none`). -/
def EditorConfig.get_char (E : EditorConfig) (cx cy : Int) : Option Char :=
  if cy ≥ E.numrows then some NUL
  else
    (E.deref (E.get_row_at cy)).bind fun row =>
      if cx = row.len then some NL
      else if 0 ≤ cx ∧ cx < row.len then some (row.data.getD cx.toNat NUL)
      else none

/-- The method `EditorConfig::get_char_at_cpos`. -/
def EditorConfig.get_char_at_cpos (E : EditorConfig) : Option Char := E.get_char E.cx E.cy

/-- The method `EditorConfig::get_char_at_lpos`. -/
def EditorConfig.get_char_at_lpos (E : EditorConfig) : Option Char :=
  if E.cx = 0 ∧ E.cy = 0 then some NUL
  else if E.cx = 0 then
    (E.deref (E.get_row_at (E.cy - 1))).bind fun prev => E.get_char prev.len (E.cy - 1)
  else E.get_char (E.cx - 1) E.cy

/-- The method `EditorConfig::is_cpos_at_end`. -/
def EditorConfig.is_cpos_at_end (E : EditorConfig) : Option Bool :=
  if E.cy = E.lastrow_idx then
    (E.deref (E.get_row_at E.cy)).map fun row => decide (E.cx = row.len)
  else some false

/-- The first `while` loop of `do_cursor_forward_word`, with a bound on the
number of iterations (`none` also when the bound is reached). -/
def forward_word_skip : Nat → EditorConfig → Option EditorConfig
  | 0, _ => none
  | n + 1, E =>
    E.get_char_at_cpos.bind fun c =>
      if isalpha c = false then
        E.is_cpos_at_end.bind fun e =>
          if e = false then (do_cursor_right E).bind (forward_word_skip n) else some E
      else some E

/-- The second `while` loop of `do_cursor_forward_word`, with a bound on the
number of iterations. -/
def forward_word_run : Nat → EditorConfig → Option EditorConfig
  | 0, _ => none
  | n + 1, E =>
    E.get_char_at_cpos.bind fun c =>
      if isalpha c = true then (do_cursor_right E).bind (forward_word_run n) else some E

/-- The function `do_cursor_forward_word`; `fuel` bounds each loop. -/
def do_cursor_forward_word (fuel : Nat) (E : EditorConfig) : Option EditorConfig :=
  (forward_word_skip fuel E).bind fun E1 =>
    E1.is_cpos_at_end.bind fun e =>
      if e = false then forward_word_run fuel E1 else some E1

/-- The first `while` loop of `do_cursor_backward_word`, with a bound on the
number of iterations. -/
def backward_word_skip : Nat → EditorConfig → Option EditorConfig
  | 0, _ => none
  | n + 1, E =>
    E.get_char_at_lpos.bind fun c =>
      if (isalpha c || decide (c = NUL)) = false then
        (do_cursor_left E).bind (backward_word_skip n)
      else some E

/-- The second `while` loop of `do_cursor_backward_word`, with a bound on the
number of iterations. -/
def backward_word_run : Nat → EditorConfig → Option EditorConfig
  | 0, _ => none
  | n + 1, E =>
    E.get_char_at_lpos.bind fun c =>
      if isalpha c = true then (do_cursor_left E).bind (backward_word_run n) else some E

/-- The function `do_cursor_backward_word`; `fuel` bounds each loop. -/
def do_cursor_backward_word (fuel : Nat) (E : EditorConfig) : Option EditorConfig :=
  if E.cx = 0 ∧ E.cy = 0 then some E
  else (backward_word_skip fuel E).bind (backward_word_run fuel)

/-- The function `do_open_line_below_cursor`. -/
def do_open_line_below_cursor (E : EditorConfig) : Option EditorConfig :=
  (insert_row E (E.cy + 1) []).bind fun E1 =>
    let E2 := E1.set_cpos 0 (E1.cy + 1)
    (row_indent_to_prev_indent E2 (E2.get_row_at E2.cy)).map do_change_mode_to_insert

/-! ## Key dispatch -/

/-- The `int` value of a character constant used as a key. -/
def key (c : Char) : Int := Int.ofNat c.toNat

/-- The macro `CTRL_KEY(k)`: `(k) & 0x1f`. -/
def CTRL_KEY (k : Char) : Int := Int.ofNat (k.toNat &&& 31)

/-- The enumerator `BACKSPACE`. -/
abbrev BACKSPACE : Int := 127

/-- The enumerator `ARROW_LEFT`. -/
abbrev ARROW_LEFT : Int := 1000

/-- The enumerator `ARROW_RIGHT`. -/
abbrev ARROW_RIGHT : Int := 1001

/-- The enumerator `ARROW_UP`. -/
abbrev ARROW_UP : Int := 1002

/-- The enumerator `ARROW_DOWN`. -/
abbrev ARROW_DOWN : Int := 1003

/-- The enumerator `ALT_M`. -/
abbrev ALT_M : Int := 1004

/-- The enumerator `ALT_S`. -/
abbrev ALT_S : Int := 1005

/-- The enumerator `ALT_ARROW_LEFT`. -/
abbrev ALT_ARROW_LEFT : Int := 1006

/-- The enumerator `ALT_ARROW_RIGHT`. -/
abbrev ALT_ARROW_RIGHT : Int := 1007

/-- The key `'\r'`. -/
abbrev KEY_ENTER : Int := 13

/-- The key `'\x1b'`. -/
abbrev KEY_ESC : Int := 27

/-- The backtick key. -/
abbrev KEY_BACKTICK : Int := 96

/-- A message built around the number of a key, as in
`"invalid key '{}' in normal mode"`. -/
def key_msg (before : String) (c : Int) (after : String) : List Char :=
  String.toList before ++ [SQUOTE] ++ String.toList (toString c) ++ [SQUOTE] ++
    String.toList after

/-- The text of the message `"unknown command '{}'"`. -/
def unknown_command_msg (txt : List Char) : List Char :=
  String.toList "unknown command " ++ [SQUOTE] ++ txt ++ [SQUOTE]

/-- The loop `while (times--)` of the page keys: `n` iterations remain. -/
def page_loop (down : Bool) : Nat → EditorConfig → EditorConfig
  | 0, E => E
  | n + 1, E => page_loop down n (if down = true then do_cursor_down E else do_cursor_up E)

/-- The page keys `CTRL_KEY('f')` (`down`) and `CTRL_KEY('r')` of
`process_keypress`; a negative `screenrows` makes the countdown run away
(`none`). -/
def do_page (E : EditorConfig) (down : Bool) : Option EditorConfig :=
  let E1 :=
    if down = true then
      let E0 := { E with cy := E.rowoff + E.screenrows - 1 }
      if E0.cy > E0.lastrow_idx then { E0 with cy := E0.lastrow_idx } else E0
    else { E with cy := E.rowoff }
  let E2 := update_cx_when_cy_changed E1
  if E2.screenrows < 0 then none else some (page_loop down E2.screenrows.toNat E2)

/-- Wraps the state an action leaves as a running editor. -/
def Run.of (x : Option EditorConfig) : Option Run := x.map Run.running

/-- The keys `'b'` (`forward`) and `'B'` of `process_keypress`. -/
def do_search_default (E : EditorConfig) (forward : Bool) : Option EditorConfig :=
  if E.search_default = [] then some (set_cmdline_msg_error E (String.toList "empty prev search"))
  else if forward = true then search_text_forward E E.search_default true
  else search_text_backward E E.search_default true

/-- The `switch` of `process_keypress` in Normal mode; `c2` is the key the
second `read_key()` returns after `'g'`, `fuel` bounds the loops of the word
motions. -/
def process_keypress_normal (fuel : Nat) (E : EditorConfig) (c c2 : Int) : Option Run :=
  if c = key 'i' then Run.of (some (do_change_mode_to_insert E))
  else if c = key 'w' then Run.of (do_delete_current_char E)
  else if c = KEY_BACKTICK then some (do_exit_editor E)
  else if c = CTRL_KEY 'f' then Run.of (do_page E true)
  else if c = CTRL_KEY 'r' then Run.of (do_page E false)
  else if c = key 'a' then Run.of (some (do_cursor_line_begin E))
  else if c = key ';' then Run.of (some (do_cursor_line_end E))
  else if c = ARROW_LEFT ∨ c = key 'h' then Run.of (do_cursor_left E)
  else if c = ARROW_RIGHT ∨ c = key 'l' then Run.of (do_cursor_right E)
  else if c = ARROW_UP ∨ c = key 'k' then Run.of (some (do_cursor_up E))
  else if c = ARROW_DOWN ∨ c = key 'j' then Run.of (some (do_cursor_down E))
  else if c = key 'o' then Run.of (do_cursor_forward_word fuel E)
  else if c = key 'n' then Run.of (do_cursor_backward_word fuel E)
  else if c = key ',' then Run.of (do_open_line_below_cursor E)
  else if c = key 'd' then Run.of (some (do_set_mark E))
  else if c = key 'f' then Run.of (do_cut_cursor_mark_region E)
  else if c = key 'c' then Run.of (do_paste_from_clipboard E)
  else if c = key 'b' then Run.of (do_search_default E true)
  else if c = key 'B' then Run.of (do_search_default E false)
  else if c = ALT_M then Run.of (some (do_change_mode_to_command E))
  else if c = ALT_S then Run.of (some (do_save_file E).1)
  else if c = key '/' then Run.of (some (do_change_mode_to_search E))
  else if c = BACKSPACE ∨ c = KEY_ENTER ∨ c = KEY_ESC then Run.of (some E)
  else if c = key 'g' then
    if c2 = key 'g' then Run.of (some (do_cursor_first_row E))
    else if c2 = KEY_ESC then Run.of (some E)
    else Run.of (some (set_cmdline_msg_error E
      (String.toList "invalid key " ++ [SQUOTE] ++ String.toList "g " ++
        String.toList (toString c2) ++ [SQUOTE] ++ String.toList " in normal mode")))
  else if c = key 'G' then Run.of (some (do_cursor_last_row E))
  else Run.of (some (set_cmdline_msg_error E (key_msg "invalid key " c " in normal mode")))

/-- The `switch` of `process_keypress` in Insert mode. -/
def process_keypress_insert (E : EditorConfig) (c : Int) : Option Run :=
  if c = BACKSPACE then Run.of (do_delete_left_char E)
  else if c = KEY_ENTER then Run.of (do_insert_newline E true)
  else if c = key TAB then Run.of (do_insert_char E TAB)
  else if c = ARROW_LEFT then Run.of (do_cursor_left E)
  else if c = ARROW_RIGHT then Run.of (do_cursor_right E)
  else if c = ARROW_UP then Run.of (some (do_cursor_up E))
  else if c = ARROW_DOWN then Run.of (some (do_cursor_down E))
  else if c = KEY_ESC then Run.of (some (do_change_mode_to_normal E))
  else if is_char_printable c = true then Run.of (do_insert_char E (Char.ofNat c.toNat))
  else Run.of (some (set_cmdline_msg_error E
    (key_msg "non-printable key " c " in insert mode")))

/-- The case `'\r'` of `process_keypress` in Command or Search mode: the
submitted line is `E.cmdline`. -/
def process_keypress_submit (E : EditorConfig) : Option Run :=
  let txt := E.cmdline
  let mode := E.mode
  let E1 := do_change_mode_to_normal E
  if mode = .COMMAND then
    if txt = String.toList "quit" then some (do_exit_editor E1)
    else if str_startswith txt (String.toList "path") = true then
      (substr txt 5 (-1)).bind fun value => Run.of (set_path E1 value)
    else Run.of (some (set_cmdline_msg_error E1 (unknown_command_msg txt)))
  else if mode = .SEARCH then
    Run.of (search_text_forward { E1 with search_default := txt } txt true)
  else Run.of (some E1)

/-- The incremental search that follows an edit of the command line in Search
mode. -/
def search_if_search_mode (E : EditorConfig) : Option EditorConfig :=
  if E.mode = .SEARCH then search_text_forward E E.cmdline false else some E

/-- The `switch` of `process_keypress` in Command or Search mode; `erase` and
`insert` throw (`none`) when `cmdx` is outside the command line. -/
def process_keypress_cmdline_switch (E : EditorConfig) (c : Int) : Option Run :=
  if c = KEY_ENTER then process_keypress_submit E
  else if c = BACKSPACE then
    (if E.cmdx > 0 then
      if E.cmdx - 1 > Int.ofNat E.cmdline.length then none
      else some { E with cmdline := E.cmdline.eraseIdx (E.cmdx - 1).toNat, cmdx := E.cmdx - 1 }
     else if E.cmdx = 0 ∧ E.cmdline.length = 0 then some (do_change_mode_to_normal E)
     else some E).bind
      fun E1 => Run.of (search_if_search_mode E1)
  else if c = CTRL_KEY 'h' then
    Run.of (some (if E.cmdx > 0 then { E with cmdx := E.cmdx - 1 } else E))
  else if c = CTRL_KEY 'l' then
    Run.of (some (if E.cmdx < Int.ofNat E.cmdline.length then { E with cmdx := E.cmdx + 1 } else E))
  else if c = ALT_ARROW_LEFT then Run.of (some { E with cmdx := 0 })
  else if c = ALT_ARROW_RIGHT then Run.of (some { E with cmdx := Int.ofNat E.cmdline.length })
  else if c = KEY_ESC then
    Run.of (some (do_change_mode_to_normal { E with skip_after_action := false }))
  else
    (if is_char_printable c = true then
      if E.cmdx < 0 ∨ E.cmdx > Int.ofNat E.cmdline.length then none
      else some { E with
        cmdline := E.cmdline.take E.cmdx.toNat ++ Char.ofNat c.toNat :: E.cmdline.drop E.cmdx.toNat,
        cmdx := E.cmdx + 1 }
     else some E).bind
      fun E1 => Run.of (search_if_search_mode E1)

/-- The branch of `process_keypress` for Command or Search mode: the skip flag
is set, then the `switch` runs. -/
def process_keypress_cmdline (E : EditorConfig) (c : Int) : Option Run :=
  process_keypress_cmdline_switch { E with skip_after_action := true } c

/-- The function `process_keypress` for the key `c` that `read_key()` returns
(and `c2` for a second read): `none` when the action runs into undefined
behaviour, an uncaught exception or a loop bound. -/
def process_keypress (fuel : Nat) (E : EditorConfig) (c c2 : Int) : Option Run :=
  (if E.mode = .NORMAL then process_keypress_normal fuel E c c2
   else if E.mode = .INSERT then process_keypress_insert E c
   else process_keypress_cmdline E c).map fun r =>
    match r with
    | .running E1 => .running (do_after_action E1)
    | .exited => .exited

/-- The state `init_editor` builds for a terminal of the given size. -/
def init_editor (screenrows screencols : Int) : EditorConfig :=
  { mk_editor [] 0 0 0 0 with screenrows := screenrows, screencols := screencols }

/-- The editor in Command mode with the line `txt` typed. -/
def command_line (E : EditorConfig) (txt : List Char) : EditorConfig :=
  { do_change_mode_to_command E with cmdline := txt, cmdx := Int.ofNat txt.length }

/-- The number of leading tab characters of a raw text. -/
def leading_tabs (d : List Char) : Nat := (d.takeWhile fun c => c = TAB).length

/-- Auxiliary for proofs: the indentation `row_indent_to_prev_indent` looks for,
over the raw rows above the cursor listed from the nearest one upward: the
leading tabs of the first row of non-zero length, 0 when there is none. -/
def nearest_indent : List (List Char) → Nat
  | [] => 0
  | d :: ds => if d = [] then nearest_indent ds else leading_tabs d

/-- Auxiliary for proofs: the raw text `row_indent_to_prev_indent` leaves in a
row holding `d` when the indentation looked for is `t`. -/
def autoindent_text (t : Nat) (d : List Char) : List Char :=
  if leading_tabs d < t then
    List.replicate (t - leading_tabs d) TAB ++ d.drop (leading_tabs d)
  else d

/-- A raw text made only of spaces and tabs (the empty text included). -/
def is_blank (d : List Char) : Bool := d.all fun c => c = TAB || c = SPC

/-- The indentation the specification words: over the raw rows above listed
from the nearest one upward, the leading tabs of the first row that is not
blank, 0 when there is none. -/
def nearest_nonblank_indent : List (List Char) → Nat
  | [] => 0
  | d :: ds => if is_blank d = true then nearest_nonblank_indent ds else leading_tabs d

/-- The cursor invariant on a document with at least one row: the cursor row
exists and the column is between 0 and its raw length. -/
def cursor_valid (E : EditorConfig) : Prop :=
  ∃ row, E.deref (E.get_row_at E.cy) = some row ∧ 0 ≤ E.cx ∧ E.cx ≤ row.len

/-- The query `q` occurs in the rendered text of row `j` at rendered column
`c`, at or after the cursor row, and on the cursor row at a column greater than
`E.rx`: a match the forward search may report. -/
def fwd_candidate (E : EditorConfig) (q : List Char) (j c : Nat) : Prop :=
  ∃ row, E.rows[j]? = some row ∧ q.isPrefixOf (row.rdata.drop c) = true ∧
    E.cy ≤ (j : Int) ∧ ((j : Int) = E.cy → E.rx < (c : Int))

/-- The query `q` occurs in the rendered text of row `j` at rendered column
`c`, at or before the cursor row, and on the cursor row only when the cursor is
not at column 0 and at a column smaller than `E.rx`: a match the backward
search may report. -/
def bwd_candidate (E : EditorConfig) (q : List Char) (j c : Nat) : Prop :=
  ∃ row, E.rows[j]? = some row ∧ q.isPrefixOf (row.rdata.drop c) = true ∧
    (j : Int) ≤ E.cy ∧ ((j : Int) = E.cy → E.cx ≠ 0 ∧ (c : Int) < E.rx)

/-- The document of the search example: the rendered rows `foobar` and
`barbaz`, cursor at row 0, column 0. -/
def search_example : EditorConfig :=
  mk_editor [⟨String.toList "foobar", String.toList "foobar" ++ [NUL], 6, []⟩,
    ⟨String.toList "barbaz", String.toList "barbaz" ++ [NUL], 6, []⟩] 0 0 0 0

/-- The character `/`. -/
abbrev SLASH : Char := Char.ofNat 47

/-- The text between the quotes of a string literal opened by `q`: a sequence
of units, each a single character other than `q` and backslash, or a backslash
followed by any one character. -/
def is_string_body (q : Char) : List Char → Bool
  | [] => true
  | [c] => decide (c ≠ BSLASH ∧ c ≠ q)
  | c :: x :: t =>
    if c = BSLASH then is_string_body q t
    else if c = q then false
    else is_string_body q (x :: t)

/-- The tag of the first list that contains the word `w`: keyword, then type,
then const. -/
def word_tag (w : List Char) : EditorHighlight :=
  if w ∈ C_KEYWORDS then .HL_KEYWORD else if w ∈ C_TYPES then .HL_TYPE else .HL_CONST

/-- The function `scroll_cmdline`. -/
def scroll_cmdline (E : EditorConfig) : EditorConfig :=
  let E1 := if E.cmdx < E.cmdoff then { E with cmdoff := E.cmdx } else E
  if E1.cmdx ≥ E1.cmdoff + (E1.screencols - 1) then
    { E1 with cmdoff := E1.cmdx - (E1.screencols - 1) + 1 } else E1

/-- What `draw_cmdline` does to the editor state: outside Command and Search
mode the message line is cleared once it has been drawn. -/
def draw_cmdline (E : EditorConfig) : EditorConfig :=
  if E.mode = .COMMAND ∨ E.mode = .SEARCH then E
  else { E with cmdline := [], cmdline_style := .NONE }

/-- What `refresh_screen` does to the editor state (the drawing itself is not
modelled): the scrolling, then the clearing of the message line by
`draw_cmdline`. -/
def refresh_screen (E : EditorConfig) : EditorConfig :=
  draw_cmdline
    (scroll_cmdline
      (if E.mode ≠ .COMMAND ∧ E.mode ≠ .SEARCH then
        let E1 := update_rx E
        scroll_to E1 E1.rx E1.cy
       else E))

/-- The key `c` received in state `E` is an exit attempt: the backtick key in
Normal mode, or Enter in Command mode on the line `quit`. -/
def is_exit_attempt (E : EditorConfig) (c : Int) : Prop :=
  (E.mode = .NORMAL ∧ c = KEY_BACKTICK) ∨
  (E.mode = .COMMAND ∧ c = KEY_ENTER ∧ E.cmdline = String.toList "quit")

/-- The states the main loop can be in before `refresh_screen`: any state in
Normal mode with the counter at the threshold and the skip flag clear (as
`init_editor`, `open_file` and the first message leave it), and every state a
handled key leaves behind. -/
inductive Reachable : EditorConfig → Prop where
  | start (E : EditorConfig) (hmode : E.mode = .NORMAL)
      (hskip : E.skip_after_action = false) (hquit : E.quit_times = NUM_FORCE_QUIT_PRESS) :
      Reachable E
  | key (E E1 : EditorConfig) (fuel : Nat) (c c2 : Int) (h : Reachable E)
      (hkey : process_keypress fuel (refresh_screen E) c c2 = some (.running E1)) :
      Reachable E1

/-- The two fields that decide the reset of the quit counter: the skip flag
and the counter. -/
def EditorConfig.ctl (E : EditorConfig) : Bool × Int := (E.skip_after_action, E.quit_times)

/-! ## Loading a file, and the states of a running editor -/

/-- The lines `std::getline` extracts from the contents of a file, one call
after the other; `line` holds the characters of the line read so far.  A line
ends at a newline, which is dropped, or at the end of the file; at the end of
the file a call that extracted nothing fails and ends the reading. -/
def getline_loop : List Char → List Char → List (List Char)
  | [], line => if line = [] then [] else [line]
  | c :: cs, line =>
    if c = NL then line :: getline_loop cs [] else getline_loop cs (line ++ [c])

/-- The loop `while (std::getline(f, line)) insert_row(E.numrows(), line)` of
`open_file` over the lines read. -/
def open_file_loop : List (List Char) → EditorConfig → Option EditorConfig
  | [], E => some E
  | line :: rest, E => (insert_row E E.numrows line).bind (open_file_loop rest)

/-- The function `open_file` for a file that exists and holds `contents`. -/
def open_file (E : EditorConfig) (path contents : List Char) : Option EditorConfig :=
  ((open_file_loop (getline_loop contents []) E).bind fun E1 => set_path E1 path).map
    fun E2 => { E2 with dirty := false }

/-- The text of the first message `main` sets. -/
def help_msg : List Char := String.toList "HELP: Alt-s save, ` quit"

/-- The states the editor is in while `main` runs: the state after
`init_editor`, the optional `open_file` and the first message; the state after
a `refresh_screen`; and the state a handled key leaves behind.  The loop of
`main` alternates `refresh_screen` and `process_keypress`; here the two may
follow in any order, which only adds states. -/
inductive Session : EditorConfig → Prop where
  | fresh (screenrows screencols : Int) :
      Session (set_cmdline_msg_info (init_editor screenrows screencols) help_msg)
  | opened (screenrows screencols : Int) (path contents : List Char) (E : EditorConfig)
      (h : open_file (init_editor screenrows screencols) path contents = some E) :
      Session (set_cmdline_msg_info E help_msg)
  | shown (E : EditorConfig) (h : Session E) : Session (refresh_screen E)
  | key (E E1 : EditorConfig) (fuel : Nat) (c c2 : Int) (h : Session E)
      (hkey : process_keypress fuel E c c2 = some (.running E1)) : Session E1

/-- No row of the document holds a newline character. -/
def rows_no_nl (E : EditorConfig) : Prop := ∀ row ∈ E.rows, NL ∉ row.data

/-- The state `open_file` leaves on a 24 by 80 terminal for the file
`notes.txt` that holds the one line `abc`. -/
def opened_example : EditorConfig :=
  { mk_editor
      [⟨String.toList "abc", String.toList "abc" ++ [NUL], 3,
        [.HL_NORMAL, .HL_NORMAL, .HL_NORMAL]⟩] 0 0 0 0 with
    path := String.toList "notes.txt" }

/-- The state after the key `l` pressed on `opened_example`: the cursor is at
column 1 of row 0, the mark still at column 0. -/
def session_example : EditorConfig := { opened_example with cx := 1, tx := 1 }

/-- Auxiliary for proofs: the state after the rows were replaced by code that
ran `update_row` or `delete_row` (both set the dirty flag). -/
def EditorConfig.with_rows (E : EditorConfig) (rows : List EditorRow) : EditorConfig :=
  { E with rows := rows, dirty := true }

/-- Auxiliary for proofs: the fields of the state that no edit operation
touches (everything but the rows, the dirty flag and the cursor). -/
def EditorConfig.frame (E : EditorConfig) : EditorConfig :=
  { E with rows := [], dirty := false, cx := 0, cy := 0, tx := 0 }

/-- Auxiliary for proofs: `r` is what `update_row` makes of the raw text `data`
under the syntax pointer `syn`: rendered text, rendered length and tags are
all recomputed from `data`. -/
def row_fresh (syn : Option (Fin NUM_HLDBS)) (r : EditorRow) (data : List Char) : Prop :=
  r.data = data ∧
  r.rdata = update_row_render data [] ++ [NUL] ∧
  r.rlen = Int.ofNat (update_row_render data []).length ∧
  update_row_syntax_hl syn r.rdata r.rlen.toNat = some r.hl ∧
  r.hl.length = (update_row_render data []).length

/-- Every row has one highlight tag per rendered character. -/
def rows_hl_ok (rows : List EditorRow) : Prop :=
  ∀ r ∈ rows, Int.ofNat r.hl.length = r.rlen

/-- The cursor invariant of the data model: either the document has no row and
the cursor is at row 0, column 0, or the cursor row exists and the column is
between 0 and its raw length. -/
def cursor_ok (E : EditorConfig) : Prop :=
  (E.rows = [] ∧ E.cx = 0 ∧ E.cy = 0) ∨
  (∃ row, E.deref (E.get_row_at E.cy) = some row ∧ 0 ≤ E.cx ∧ E.cx ≤ row.len)

/-- Every row of `R1` is a row of `R` or was rebuilt by `update_row`. -/
def rows_keep (syn : Option (Fin NUM_HLDBS)) (R R1 : List EditorRow) : Prop :=
  ∀ r ∈ R1, r ∈ R ∨ ∃ d, row_fresh syn r d

/-- The raw rows joined by newline. -/
def join_rows : List (List Char) → List Char
  | [] => []
  | [d] => d
  | d :: ds => d ++ NL :: join_rows ds

/-- The rows that replace a row `a ++ b` when the text `t` is typed between `a`
and `b`: every newline of `t` ends a row. -/
def paste_lines : List Char → List Char → List Char → List (List Char)
  | a, [], b => [a ++ b]
  | a, c :: t, b => if c = NL then a :: paste_lines [] t b else paste_lines (a ++ [c]) t b

/-- The column just after the text `t` typed after the row prefix `a`. -/
def paste_col : List Char → List Char → Nat
  | a, [] => a.length
  | a, c :: t => if c = NL then paste_col [] t else paste_col (a ++ [c]) t

/-- The raw rows after `delete_empty_row_if_file_empty`: a document made of a
single empty row loses that row. -/
def collapse_raw (R : List (List Char)) : List (List Char) :=
  if R = [[]] then [] else R

/-- Auxiliary for proofs: every row preceded by a newline, concatenated. -/
def nl_rows : List (List Char) → List Char
  | [] => []
  | d :: ds => NL :: d ++ nl_rows ds

/-- Auxiliary for proofs: every row followed by a newline, concatenated. -/
def rows_nl : List (List Char) → List Char
  | [] => []
  | d :: ds => d ++ NL :: rows_nl ds

/-- The offset of the position (column `x`, row `y`) in the rows joined by
newline. -/
def pos_offset : List (List Char) → Nat → Nat → Nat
  | _, x, 0 => x
  | [], x, _ + 1 => x
  | d :: ds, x, y + 1 => d.length + 1 + pos_offset ds x y

/-- The positions `(x1, y1)` and `(x2, y2)` are mark and cursor of `E`, in
either order. -/
def mark_cursor_are (E : EditorConfig) (x1 y1 x2 y2 : Int) : Prop :=
  (E.mx = x1 ∧ E.my = y1 ∧ E.cx = x2 ∧ E.cy = y2) ∨
  (E.cx = x1 ∧ E.cy = y1 ∧ E.mx = x2 ∧ E.my = y2)

/-- The position (column `x`, row `y`) is valid in the rows `R`: the row exists
and the column is at most its raw length. -/
def valid_pos (R : List (List Char)) (x y : Nat) : Prop :=
  ∃ d, R[y]? = some d ∧ x ≤ d.length

/-- One step of an editing session made of character insertions and deletions. -/
inductive EditStep where
  | insertChar (c : Char)
  | deleteLeft
  | deleteRight
  deriving DecidableEq

/-- The operation a step stands for. -/
def edit_step (E : EditorConfig) : EditStep → Option EditorConfig
  | .insertChar c => do_insert_char E c
  | .deleteLeft => do_delete_left_char E
  | .deleteRight => do_delete_current_char E

/-- A finite sequence of steps, run from left to right. -/
def edit_run : List EditStep → EditorConfig → Option EditorConfig
  | [], E => some E
  | st :: rest, E => (edit_step E st).bind (edit_run rest)

/-- Auxiliary for proofs: the rendered width reached from column `rx` after
walking over the characters `cs`. -/
def walk : List Char → Int → Int
  | [], rx => rx
  | c :: cs, rx => walk cs (tab_advance c rx)

/-! ## Theorems -/

theorem walk_append (xs ys : List Char) (rx : Int) :
    walk (xs ++ ys) rx = walk ys (walk xs rx) := by
  induction xs generalizing rx with
  | nil => rfl
  | cons c cs ih => simp [walk, ih]

theorem tab_advance_bounds (c : Char) (rx : Int) (h : 0 ≤ rx) :
    rx + 1 ≤ tab_advance c rx ∧ tab_advance c rx ≤ rx + 4 := by
  unfold tab_advance
  have h4 : Int.tmod rx 4 = rx % 4 := Int.tmod_eq_emod h (by decide)
  rw [show ((TAB_STOP : Nat) : Int) = 4 from rfl, h4]
  split <;> omega

theorem tab_advance_tab (rx : Int) (h : 0 ≤ rx) :
    tab_advance TAB rx = rx + (4 - rx % 4) := by
  unfold tab_advance
  have h4 : Int.tmod rx 4 = rx % 4 := Int.tmod_eq_emod h (by decide)
  rw [show ((TAB_STOP : Nat) : Int) = 4 from rfl, h4, if_pos rfl]; omega

theorem tab_advance_other (c : Char) (rx : Int) (h : c ≠ TAB) :
    tab_advance c rx = rx + 1 := by
  simp [tab_advance, h]

theorem walk_nonneg (cs : List Char) (rx : Int) (h : 0 ≤ rx) : 0 ≤ walk cs rx := by
  induction cs generalizing rx with
  | nil => simpa [walk]
  | cons c cs ih =>
    have := tab_advance_bounds c rx h
    exact ih _ (by omega)

theorem walk_ge (cs : List Char) (rx : Int) (h : 0 ≤ rx) :
    rx + cs.length ≤ walk cs rx := by
  induction cs generalizing rx with
  | nil => simp [walk]
  | cons c cs ih =>
    have hb := tab_advance_bounds c rx h
    have := ih (tab_advance c rx) (by omega)
    simp only [walk, List.length_cons, Nat.cast_add, Nat.cast_one]
    omega

theorem row_cx_to_rx_loop_eq_walk (data : List Char) (n i : Nat) (rx : Int)
    (h : i + n ≤ data.length) :
    row_cx_to_rx_loop data n i rx = walk ((data.drop i).take n) rx := by
  induction n generalizing i rx with
  | zero => simp [row_cx_to_rx_loop, walk]
  | succ n ih =>
    have hi : i < data.length := by omega
    have hd : data.drop i = data[i] :: data.drop (i + 1) := List.drop_eq_getElem_cons hi
    rw [row_cx_to_rx_loop, ih (i + 1) _ (by omega), hd]
    simp [walk, List.getElem?_eq_getElem hi]

theorem row_cx_to_rx_eq_walk (row : EditorRow) (k : Nat) (h : k ≤ row.data.length) :
    row_cx_to_rx (some row) (k : Int) = walk (row.data.take k) 0 := by
  simp [row_cx_to_rx, row_cx_to_rx_loop_eq_walk row.data k 0 0 (by omega)]

theorem walk_take_succ (pre : List Char) (c : Char) (post : List Char) :
    walk ((pre ++ c :: post).take (pre.length + 1)) 0 = tab_advance c (walk pre 0) := by
  have : (pre ++ c :: post).take (pre.length + 1) = pre ++ [c] := by
    rw [List.take_append_eq_append_take]
    simp
  rw [this, walk_append]
  rfl

theorem walk_take_lt (data : List Char) (i j : Nat) (hij : i < j) (hj : j ≤ data.length) :
    walk (data.take i) 0 < walk (data.take j) 0 := by
  have h1 : data.take j = data.take i ++ (data.take j).drop i := by
    have := List.take_append_drop i (data.take j)
    rw [List.take_take, Nat.min_eq_left (Nat.le_of_lt hij)] at this
    exact this.symm
  have hl : ((data.take j).drop i).length = j - i := by
    simp [List.length_drop, List.length_take, Nat.min_eq_left hj]
  rw [h1, walk_append]
  have h0 := walk_nonneg (data.take i) 0 (le_refl 0)
  have := walk_ge ((data.take j).drop i) (walk (data.take i) 0) h0
  rw [hl] at this
  omega

theorem walk_take_le (data : List Char) (i j : Nat) (hij : i ≤ j) (hj : j ≤ data.length) :
    walk (data.take i) 0 ≤ walk (data.take j) 0 := by
  rcases Nat.eq_or_lt_of_le hij with h | h
  · subst h; exact le_refl _
  · exact le_of_lt (walk_take_lt data i j h hj)

/-- The loop of `row_rx_to_cx` returns the first index whose running width
exceeds `rx`, or the length of the row when there is none. -/
theorem row_rx_to_cx_loop_spec (rx : Int) (post pre : List Char) :
    ∃ k : Nat,
      row_rx_to_cx_loop (pre ++ post) rx post.length pre.length (walk pre 0) = (k : Int) ∧
      pre.length ≤ k ∧ k ≤ (pre ++ post).length ∧
      (∀ j, pre.length ≤ j → j < k → walk ((pre ++ post).take (j + 1)) 0 ≤ rx) ∧
      (k < (pre ++ post).length → rx < walk ((pre ++ post).take (k + 1)) 0) := by
  induction post generalizing pre with
  | nil =>
    refine ⟨pre.length, ?_, le_refl _, by simp, ?_, ?_⟩
    · simp [row_rx_to_cx_loop]
    · intro j h1 h2; omega
    · intro h; simp at h
  | cons c post ih =>
    have hget : (pre ++ c :: post).getD pre.length NUL = c := by
      rw [List.getD_eq_getElem?_getD, List.getElem?_append_right (le_refl _)]
      simp
    have hcur := walk_take_succ pre c post
    simp only [List.length_cons, row_rx_to_cx_loop, hget]
    by_cases hgt : tab_advance c (walk pre 0) > rx
    · refine ⟨pre.length, ?_, le_refl _, by simp, ?_, ?_⟩
      · simp [hgt]
      · intro j h1 h2; omega
      · intro _; rw [hcur]; exact hgt
    · obtain ⟨k, hk, h1, h2, h3, h4⟩ := ih (pre ++ [c])
      have happ : pre ++ [c] ++ post = pre ++ c :: post := by simp
      have hw : walk (pre ++ [c]) 0 = tab_advance c (walk pre 0) := by
        rw [walk_append]; rfl
      rw [happ, hw] at hk
      rw [happ] at h2 h3 h4
      simp only [List.length_append, List.length_singleton] at hk h1 h3
      refine ⟨k, ?_, by omega, h2, ?_, h4⟩
      · simp only [if_neg hgt]; exact hk
      · intro j hj1 hj2
        rcases Nat.eq_or_lt_of_le hj1 with h | h
        · subst h; rw [hcur]; omega
        · exact h3 j (by omega) hj2

theorem row_rx_to_cx_spec (row : EditorRow) (rx : Int) :
    ∃ k : Nat, row_rx_to_cx (some row) rx = (k : Int) ∧ k ≤ row.data.length ∧
      (∀ j, j < k → walk (row.data.take (j + 1)) 0 ≤ rx) ∧
      (k < row.data.length → rx < walk (row.data.take (k + 1)) 0) := by
  obtain ⟨k, hk, _, h2, h3, h4⟩ := row_rx_to_cx_loop_spec rx row.data []
  simp only [List.nil_append, List.length_nil, walk] at hk h2 h3 h4
  exact ⟨k, by simpa [row_rx_to_cx] using hk, h2, fun j hj => h3 j (Nat.zero_le _) hj, h4⟩

/-- C1: for every row and raw column `0 ≤ cx ≤ len`, mapping `cx` to its
rendered column with `row_cx_to_rx` and back with `row_rx_to_cx` gives `cx`. -/
theorem row_rx_to_cx_row_cx_to_rx (row : EditorRow) (cx : Int)
    (h0 : 0 ≤ cx) (h1 : cx ≤ row.len) :
    row_rx_to_cx (some row) (row_cx_to_rx (some row) cx) = cx := by
  obtain ⟨n, rfl⟩ := Int.eq_ofNat_of_zero_le h0
  have hn : n ≤ row.data.length := by
    simp only [EditorRow.len, Int.ofNat_eq_coe] at h1; omega
  rw [row_cx_to_rx_eq_walk row n hn]
  obtain ⟨k, hk, hkl, hlt, hgt⟩ := row_rx_to_cx_spec row (walk (row.data.take n) 0)
  rw [hk]
  congr 1
  rcases Nat.lt_trichotomy k n with h | h | h
  · exfalso
    have := hgt (by omega)
    have := walk_take_le row.data (k + 1) n (by omega) hn
    omega
  · exact h
  · exfalso
    have := hlt n h
    have := walk_take_lt row.data n (n + 1) (by omega) (by omega)
    omega

/-- Witness for C1: the row `"a<TAB>b"` at raw column 2. -/
theorem row_rx_to_cx_row_cx_to_rx_witness :
    row_rx_to_cx (some ⟨[Char.ofNat 97, TAB, Char.ofNat 98], [], 0, []⟩)
      (row_cx_to_rx (some ⟨[Char.ofNat 97, TAB, Char.ofNat 98], [], 0, []⟩) 2) = 2 :=
  row_rx_to_cx_row_cx_to_rx ⟨[Char.ofNat 97, TAB, Char.ofNat 98], [], 0, []⟩ 2
    (by decide) (by decide)

/-! ### The highlighter stays inside the tag buffer -/

theorem HLDB_wf (s : Fin NUM_HLDBS) : syn_wf (HLDB s) := by
  simp only [syn_wf, HLDB]
  refine ⟨?_, ?_, ?_⟩ <;> decide

theorem hl_set_some (hl : List EditorHighlight) (i : Nat) (v : EditorHighlight)
    (h : i < hl.length) :
    ∃ hl1, hl_set hl i v = some hl1 ∧ hl1.length = hl.length :=
  ⟨hl.set i v, by simp [hl_set, h], by simp⟩

theorem hl_memset_some (hl : List EditorHighlight) (i n : Nat) (v : EditorHighlight)
    (h : i + n ≤ hl.length) :
    ∃ hl1, hl_memset hl i n v = some hl1 ∧ hl1.length = hl.length := by
  refine ⟨hl.take i ++ List.replicate n v ++ hl.drop (i + n), by
    simp only [hl_memset, if_pos h], ?_⟩
  simp only [List.length_append, List.length_take, List.length_replicate, List.length_drop]
  omega

/-- A successful `strncmp` against a word without `NUL` means the word is a
prefix of the text before the terminator. -/
theorem strncmp_eq_prefix (w s : List Char) (hw : NUL ∉ w)
    (h : strncmp_eq (s ++ [NUL]) w w.length = true) : ∃ t, s = w ++ t := by
  induction w generalizing s with
  | nil => exact ⟨s, rfl⟩
  | cons c w ih =>
    have hc : c ≠ NUL := fun hc => hw (by simp [hc])
    have hw1 : NUL ∉ w := fun hin => hw (List.mem_cons_of_mem _ hin)
    cases s with
    | nil =>
      simp only [List.nil_append, List.length_cons, strncmp_eq, List.headD_cons] at h
      rw [if_pos (fun e => hc e.symm)] at h
      exact absurd h (by simp)
    | cons d s =>
      simp only [List.cons_append, List.length_cons, strncmp_eq, List.headD_cons,
        List.tail_cons] at h
      by_cases hdc : d = c
      · subst hdc
        rw [if_neg (by simp), if_neg hc] at h
        obtain ⟨t, ht⟩ := ih s hw1 h
        exact ⟨t, by simp [ht]⟩
      · rw [if_pos hdc] at h
        exact absurd h (by simp)

theorem drop_append_nul (content : List Char) (i : Nat) (h : i ≤ content.length) :
    (content ++ [NUL]).drop i = content.drop i ++ [NUL] := by
  rw [List.drop_append_of_le_length h]

theorem match_syn_word_spec (wordlist : List (List Char)) (hwf : ∀ w ∈ wordlist, NUL ∉ w)
    (content : List Char) (hl : List EditorHighlight) (i : Nat) (v : EditorHighlight)
    (hi : i ≤ content.length) (hlen : hl.length = content.length) :
    ∃ r, match_syn_word wordlist (content ++ [NUL]) hl i v = some r ∧
      ((r.1 = true ∧ r.2.1.length = hl.length ∧ i < r.2.2 ∧ r.2.2 ≤ content.length) ∨
       r = (false, hl, i)) := by
  induction wordlist with
  | nil => exact ⟨_, rfl, Or.inr rfl⟩
  | cons w ws ih =>
    unfold match_syn_word
    by_cases hw : w = []
    · rw [if_pos hw]; exact ⟨_, rfl, Or.inr rfl⟩
    · rw [if_neg hw]
      split_ifs with hm
      · rw [drop_append_nul content i hi] at hm
        obtain ⟨t, ht⟩ := strncmp_eq_prefix w (content.drop i)
          (hwf w (List.mem_cons_self _ _)) hm.1
        have hl1 : w.length ≤ content.length - i := by
          have := congrArg List.length ht
          simp only [List.length_drop, List.length_append] at this
          omega
        have hpos : 0 < w.length := List.length_pos.mpr hw
        obtain ⟨hl1', h1, h2⟩ := hl_memset_some hl i w.length v (by omega)
        refine ⟨(true, hl1', i + w.length), by simp [h1], Or.inl ⟨rfl, h2, ?_, ?_⟩⟩
        · simp only; omega
        · simp only; omega
      · exact ih (fun w' hw' => hwf w' (List.mem_cons_of_mem _ hw'))

theorem match_syn_words_spec (syn : EditorSyntax) (hwf : syn_wf syn)
    (content : List Char) (hl : List EditorHighlight) (i : Nat)
    (hi : i ≤ content.length) (hlen : hl.length = content.length) :
    ∃ r, match_syn_words syn (content ++ [NUL]) hl i = some r ∧
      ((r.1 = true ∧ r.2.1.length = hl.length ∧ i < r.2.2 ∧ r.2.2 ≤ content.length) ∨
       r = (false, hl, i)) := by
  unfold match_syn_words
  obtain ⟨r1, h1, h1'⟩ := match_syn_word_spec syn.keywords hwf.1 content hl i .HL_KEYWORD hi hlen
  rw [h1]
  rcases h1' with ⟨ht, hrest⟩ | hf
  · obtain ⟨b, hl1, i1⟩ := r1
    simp only at ht; subst ht
    exact ⟨_, rfl, Or.inl ⟨rfl, hrest⟩⟩
  · subst hf
    simp only
    obtain ⟨r2, h2, h2'⟩ := match_syn_word_spec syn.types hwf.2.1 content hl i .HL_TYPE hi hlen
    rw [h2]
    rcases h2' with ⟨ht, hrest⟩ | hf
    · obtain ⟨b, hl1, i1⟩ := r2
      simp only at ht; subst ht
      exact ⟨_, rfl, Or.inl ⟨rfl, hrest⟩⟩
    · subst hf
      simp only
      exact match_syn_word_spec syn.consts hwf.2.2 content hl i .HL_CONST hi hlen

/-- The highlighter loop never writes outside the tag buffer and ends within
its iteration bound: started on a buffer of the rendered length it returns a
buffer of the same length. -/
theorem update_row_syntax_loop_some (syn : EditorSyntax) (hwf : syn_wf syn)
    (content : List Char) (fuel : Nat) :
    ∀ (i : Nat) (ps : Bool) (ws : Char) (hl : List EditorHighlight),
      hl.length = content.length → content.length ≤ fuel + i →
      ∃ hl1, update_row_syntax_loop syn (content ++ [NUL]) content.length fuel i ps ws hl
          = some hl1 ∧ hl1.length = content.length := by
  induction fuel with
  | zero =>
    intro i ps ws hl hlen hf
    exact ⟨hl, by simp only [update_row_syntax_loop]; rw [if_neg (by omega)], hlen⟩
  | succ fuel ih =>
    intro i ps ws hl hlen hf
    unfold update_row_syntax_loop
    by_cases hi : i < content.length
    · simp only [if_pos hi]
      generalize (if i > 0 then hl.getD (i - 1) EditorHighlight.HL_NORMAL
        else EditorHighlight.HL_NORMAL) = prev_hl
      split_ifs
      all_goals
        first
        | exact ih _ _ _ _ (by omega) (by omega)
        | (obtain ⟨hl1, e1, l1⟩ :=
            hl_memset_some hl i (content.length - i) .HL_COMMENT (by omega)
           exact ⟨hl1, e1, by omega⟩)
        | (obtain ⟨hl1, e1, l1⟩ := hl_set_some hl i .HL_STRING (by omega)
           simp only [e1, Option.some_bind]
           first
           | exact ih _ _ _ _ (by omega) (by omega)
           | (obtain ⟨hl2, e2, l2⟩ := hl_set_some hl1 (i + 1) .HL_STRING (by omega)
              simp only [e2, Option.some_bind]
              exact ih _ _ _ _ (by omega) (by omega)))
        | (obtain ⟨hl1, e1, l1⟩ := hl_set_some hl i .HL_NUMBER (by omega)
           simp only [e1, Option.some_bind]
           exact ih _ _ _ _ (by omega) (by omega))
        | (obtain ⟨r, hr, hr'⟩ := match_syn_words_spec syn hwf content hl i (by omega) hlen
           rw [hr]
           rcases hr' with ⟨ht, hl1, hlt, hle⟩ | hf'
           · obtain ⟨b, hl1', i1⟩ := r
             simp only at ht hl1 hlt hle
             subst ht
             simp only
             exact ih _ _ _ _ (by omega) (by omega)
           · subst hf'
             simp only
             exact ih _ _ _ _ hlen (by omega))
    · simp only [if_neg hi]
      exact ⟨hl, rfl, hlen⟩

theorem update_row_syntax_hl_some (syn : Option (Fin NUM_HLDBS)) (content : List Char) :
    ∃ hl, update_row_syntax_hl syn (content ++ [NUL]) content.length = some hl ∧
      hl.length = content.length := by
  cases syn with
  | none => exact ⟨_, rfl, by simp⟩
  | some s =>
    exact update_row_syntax_loop_some (HLDB s) (HLDB_wf s) content content.length 0 true NUL
      (List.replicate content.length .HL_NORMAL) (by simp) (by omega)

theorem getElem?_isSome_lt {α : Type} (l : List α) (i : Nat) (a : α) (h : l[i]? = some a) :
    i < l.length := by
  rcases Nat.lt_or_ge i l.length with h1 | h1
  · exact h1
  · rw [List.getElem?_eq_none h1] at h; exact absurd h (by simp)

/-- The effect of `update_row` on row `i`: the call succeeds, and only the
derived fields of that row and the dirty flag change. -/
theorem update_row_spec (E : EditorConfig) (i : Nat) (row : EditorRow)
    (h : E.rows[i]? = some row) :
    ∃ row1, update_row E (some i) = some (E.with_rows (E.rows.set i row1)) ∧
      row_fresh E.syn row1 row.data := by
  have hi : i < E.rows.length := getElem?_isSome_lt _ _ _ h
  obtain ⟨hl, e1, l1⟩ := update_row_syntax_hl_some E.syn (update_row_render row.data [])
  refine ⟨⟨row.data, update_row_render row.data [] ++ [NUL],
    Int.ofNat (update_row_render row.data []).length, hl⟩, ?_, rfl, rfl, rfl, ?_, l1⟩
  · simp only [update_row, Option.some_bind, h, update_row_syntax, List.getElem?_set_self hi,
      List.set_set, Int.ofNat_eq_coe, Int.toNat_ofNat, e1, Option.map_some',
      EditorConfig.with_rows]
  · simpa using e1

/-! ### Rendering -/

theorem update_row_pad_eq (n : Nat) (l : List Char) :
    update_row_pad n l = l ++ List.replicate (min n ((4 - l.length % 4) % 4)) SPC := by
  induction n generalizing l with
  | zero => simp [update_row_pad]
  | succ n ih =>
    unfold update_row_pad
    by_cases h : l.length % TAB_STOP ≠ 0
    · rw [if_pos h, ih]
      have h' : l.length % 4 ≠ 0 := h
      have e : min (n + 1) ((4 - l.length % 4) % 4)
          = min n ((4 - (l ++ [SPC]).length % 4) % 4) + 1 := by
        simp only [List.length_append, List.length_singleton]; omega
      rw [e, List.replicate_succ, List.append_assoc]
      rfl
    · rw [if_neg h]
      have h' : l.length % 4 = 0 := by
        have : ¬ (l.length % 4 ≠ 0) := h
        omega
      simp [h']

theorem update_row_pad_tab (l : List Char) :
    update_row_pad TAB_STOP (l ++ [SPC]) = l ++ List.replicate (4 - l.length % 4) SPC := by
  rw [update_row_pad_eq]
  have e : min TAB_STOP ((4 - (l ++ [SPC]).length % 4) % 4) + 1 = 4 - l.length % 4 := by
    show min 4 ((4 - (l ++ [SPC]).length % 4) % 4) + 1 = 4 - l.length % 4
    simp only [List.length_append, List.length_singleton]; omega
  rw [← e, List.replicate_succ, List.append_assoc]
  rfl

theorem update_row_render_eq_spec (cs out : List Char) :
    update_row_render cs out = expand_tabs_spec cs out := by
  induction cs generalizing out with
  | nil => rfl
  | cons c cs ih =>
    unfold update_row_render expand_tabs_spec
    split_ifs
    · rw [update_row_pad_tab, ih]
    · rw [ih]

theorem expand_tabs_spec_append (xs ys out : List Char) :
    expand_tabs_spec (xs ++ ys) out = expand_tabs_spec ys (expand_tabs_spec xs out) := by
  induction xs generalizing out with
  | nil => rfl
  | cons c cs ih =>
    simp only [List.cons_append, expand_tabs_spec]
    split_ifs <;> exact ih _

theorem expand_tabs_spec_length (cs out : List Char) :
    ((expand_tabs_spec cs out).length : Int) = walk cs (out.length : Int) := by
  induction cs generalizing out with
  | nil => rfl
  | cons c cs ih =>
    unfold expand_tabs_spec walk
    by_cases hc : c = TAB
    · rw [if_pos hc, ih, hc, tab_advance_tab _ (by omega)]
      congr 1
      simp only [List.length_append, List.length_replicate]
      omega
    · rw [if_neg hc, ih, tab_advance_other _ _ hc]
      simp

theorem update_row_render_length (data : List Char) :
    ((update_row_render data []).length : Int) = walk data 0 := by
  rw [update_row_render_eq_spec, expand_tabs_spec_length]
  rfl

theorem walk_eq_iff (cs : List Char) (rx : Int) (h : 0 ≤ rx) :
    walk cs rx = rx + cs.length ↔
      ∀ k : Nat, k < cs.length → cs.getD k NUL = TAB → walk (cs.take k) rx % 4 = 3 := by
  induction cs generalizing rx with
  | nil => simp [walk]
  | cons c cs ih =>
    have hb := tab_advance_bounds c rx h
    have hge := walk_ge cs (tab_advance c rx) (by omega)
    simp only [walk, List.length_cons, Nat.cast_add, Nat.cast_one]
    by_cases hstep : tab_advance c rx = rx + 1
    · rw [hstep] at hge ⊢
      have hih := ih (rx + 1) (by omega)
      constructor
      · intro heq k hk hget
        cases k with
        | zero =>
          simp only [List.getD_cons_zero] at hget
          rw [hget, tab_advance_tab rx h] at hstep
          simp only [List.take_zero, walk]
          omega
        | succ k =>
          simp only [List.getD_cons_succ] at hget
          simp only [List.take_succ_cons, walk, hstep]
          exact hih.mp (by omega) k (by omega) hget
      · intro hall
        have : walk cs (rx + 1) = rx + 1 + cs.length := by
          refine hih.mpr ?_
          intro k hk hget
          have := hall (k + 1) (by omega) (by simpa using hget)
          simpa only [List.take_succ_cons, walk, hstep] using this
        omega
    · constructor
      · intro heq
        omega
      · intro hall
        exfalso
        have hc : c = TAB := by
          by_contra hne
          exact hstep (tab_advance_other c rx hne)
        have h0 := hall 0 (by omega) (by simpa using hc)
        simp only [List.take_zero, walk] at h0
        rw [hc, tab_advance_tab rx h] at hstep
        omega

/-- C2: the rendered form built by `update_row` is the left-to-right tab
expansion of the raw text (every other character copied, a tab replaced by
`4 - (n mod 4)` spaces, so that the length after a tab is a multiple of 4); the
raw row `"a<TAB>b"` renders as `"a   b"` of length 5; and the rendered length
equals `row_cx_to_rx(row, raw_length(row))`. -/
theorem update_row_rendered_form (E : EditorConfig) (i : Nat) (row : EditorRow)
    (h : E.rows[i]? = some row) :
    ∃ E1 row1, update_row E (some i) = some E1 ∧ E1.rows[i]? = some row1 ∧
      row1.data = row.data ∧
      row1.rdata = expand_tabs_spec row.data [] ++ [NUL] ∧
      row1.rlen = Int.ofNat (expand_tabs_spec row.data []).length ∧
      row1.rlen = row_cx_to_rx (some row1) row1.len ∧
      (∀ pre post, row.data = pre ++ TAB :: post →
        (expand_tabs_spec (pre ++ [TAB]) []).length % 4 = 0 ∧
        (expand_tabs_spec pre []).length < (expand_tabs_spec (pre ++ [TAB]) []).length) ∧
      (row.data = String.toList "a" ++ TAB :: String.toList "b" →
        row1.rdata = String.toList "a   b" ++ [NUL] ∧ row1.rlen = 5) := by
  have hi : i < E.rows.length := getElem?_isSome_lt _ _ _ h
  obtain ⟨row1, hE, hd, hr, hl, _, _⟩ := update_row_spec E i row h
  rw [update_row_render_eq_spec] at hr hl
  refine ⟨_, row1, hE, by simp [EditorConfig.with_rows, List.getElem?_set_self hi],
    hd, hr, hl, ?_, ?_, ?_⟩
  · have := row_cx_to_rx_eq_walk row1 row1.data.length (le_refl _)
    simp only [EditorRow.len, Int.ofNat_eq_coe] at this ⊢
    rw [this, List.take_length, hl, hd]
    exact expand_tabs_spec_length row.data []
  · intro pre post _
    rw [expand_tabs_spec_append]
    simp only [expand_tabs_spec, if_true, List.length_append, List.length_replicate]
    omega
  · intro hab
    rw [hr, hl, hab]
    exact ⟨by decide, by decide⟩

/-- Witness for C2: a document whose only row is `"a<TAB>b"`. -/
theorem update_row_rendered_form_witness :
    (mk_editor [mk_row (String.toList "a" ++ TAB :: String.toList "b")] 0 0 0 0).rows[0]?
        = some (mk_row (String.toList "a" ++ TAB :: String.toList "b")) ∧
    ∃ E1 row1,
      update_row (mk_editor [mk_row (String.toList "a" ++ TAB :: String.toList "b")] 0 0 0 0)
        (some 0) = some E1 ∧ E1.rows[0]? = some row1 ∧
      row1.data = (mk_row (String.toList "a" ++ TAB :: String.toList "b")).data ∧
      row1.rdata = expand_tabs_spec
        (mk_row (String.toList "a" ++ TAB :: String.toList "b")).data [] ++ [NUL] ∧
      row1.rlen = Int.ofNat (expand_tabs_spec
        (mk_row (String.toList "a" ++ TAB :: String.toList "b")).data []).length ∧
      row1.rlen = row_cx_to_rx (some row1) row1.len ∧
      (∀ pre post, (mk_row (String.toList "a" ++ TAB :: String.toList "b")).data
          = pre ++ TAB :: post →
        (expand_tabs_spec (pre ++ [TAB]) []).length % 4 = 0 ∧
        (expand_tabs_spec pre []).length < (expand_tabs_spec (pre ++ [TAB]) []).length) ∧
      ((mk_row (String.toList "a" ++ TAB :: String.toList "b")).data
          = String.toList "a" ++ TAB :: String.toList "b" →
        row1.rdata = String.toList "a   b" ++ [NUL] ∧ row1.rlen = 5) :=
  ⟨rfl, update_row_rendered_form _ 0 _ rfl⟩

/-- C3, at the row `"abc<TAB>"`: the row built from it has raw length 4 and
rendered length 4 although it contains a tab, so equal lengths do not imply the
absence of tabs. -/
theorem rendered_len_eq_with_tab :
    (render_one (String.toList "abc" ++ [TAB])).map
      (fun r => (r.rlen, r.len, decide (TAB ∈ r.data))) = some (4, 4, true) := by
  decide

/-- C3 (amended): the rendered length computed by `update_row` is at least the
raw length; the two are equal when the raw text has no tab, and in general they
are equal exactly when every tab of the raw text starts at a rendered column
congruent to 3 modulo 4 (so that it expands to a single space). -/
theorem update_row_rlen_ge_len (E : EditorConfig) (i : Nat) (row : EditorRow)
    (h : E.rows[i]? = some row) :
    ∃ E1 row1, update_row E (some i) = some E1 ∧ E1.rows[i]? = some row1 ∧
      row1.data = row.data ∧
      row1.len ≤ row1.rlen ∧
      (TAB ∉ row.data → row1.rlen = row1.len) ∧
      (row1.rlen = row1.len ↔
        ∀ k : Nat, k < row.data.length → row.data.getD k NUL = TAB →
          row_cx_to_rx (some row1) (k : Int) % 4 = 3) := by
  have hi : i < E.rows.length := getElem?_isSome_lt _ _ _ h
  obtain ⟨row1, hE, hd, _, hl, _, _⟩ := update_row_spec E i row h
  have hw : row1.rlen = walk row.data 0 := by
    rw [hl]; exact update_row_render_length row.data
  have hiff := walk_eq_iff row.data 0 (le_refl 0)
  have hlen : row1.len = (row.data.length : Int) := by simp [EditorRow.len, hd]
  have hcx : ∀ k : Nat, k < row.data.length →
      row_cx_to_rx (some row1) (k : Int) = walk (row.data.take k) 0 := by
    intro k hk
    rw [row_cx_to_rx_eq_walk row1 k (by rw [hd]; omega), hd]
  have hmain : row1.rlen = row1.len ↔
      ∀ k : Nat, k < row.data.length → row.data.getD k NUL = TAB →
        row_cx_to_rx (some row1) (k : Int) % 4 = 3 := by
    rw [hw, hlen]
    constructor
    · intro heq k hk hget
      rw [hcx k hk]
      exact hiff.mp (by omega) k hk hget
    · intro hall
      have := hiff.mpr (fun k hk hget => by rw [← hcx k hk]; exact hall k hk hget)
      omega
  refine ⟨_, row1, hE, by simp [EditorConfig.with_rows, List.getElem?_set_self hi],
    hd, ?_, ?_, hmain⟩
  · have := walk_ge row.data 0 (le_refl 0)
    rw [hw, hlen]; omega
  · intro hno
    refine hmain.mpr ?_
    intro k hk hget
    exfalso
    apply hno
    rw [← hget, List.getD_eq_getElem _ _ hk]
    exact List.getElem_mem _

/-- Witness for C3 (amended): a document whose only row is `"abc<TAB>"`. -/
theorem update_row_rlen_ge_len_witness :
    (mk_editor [mk_row (String.toList "abc" ++ [TAB])] 0 0 0 0).rows[0]?
        = some (mk_row (String.toList "abc" ++ [TAB])) ∧
    ∃ E1 row1,
      update_row (mk_editor [mk_row (String.toList "abc" ++ [TAB])] 0 0 0 0) (some 0)
        = some E1 ∧ E1.rows[0]? = some row1 ∧
      row1.data = (mk_row (String.toList "abc" ++ [TAB])).data ∧
      row1.len ≤ row1.rlen ∧
      (TAB ∉ (mk_row (String.toList "abc" ++ [TAB])).data → row1.rlen = row1.len) ∧
      (row1.rlen = row1.len ↔
        ∀ k : Nat, k < (mk_row (String.toList "abc" ++ [TAB])).data.length →
          (mk_row (String.toList "abc" ++ [TAB])).data.getD k NUL = TAB →
          row_cx_to_rx (some row1) (k : Int) % 4 = 3) :=
  ⟨rfl, update_row_rlen_ge_len _ 0 _ rfl⟩

/-- C4: for every row and rendered column `rx ≥ 0`, `row_rx_to_cx(row, rx)` is
the raw index of the character occupying column `rx`: when `rx` is below the
rendered length it is the unique `k < raw_length` with
`row_cx_to_rx(row, k) ≤ rx < row_cx_to_rx(row, k+1)`, and otherwise it is the
raw length. -/
theorem row_rx_to_cx_char_at (row : EditorRow) (rx : Int) (hrx : 0 ≤ rx) :
    (rx < Int.ofNat (update_row_render row.data []).length →
      ∃ k : Nat, row_rx_to_cx (some row) rx = (k : Int) ∧ k < row.data.length ∧
        row_cx_to_rx (some row) (k : Int) ≤ rx ∧
        rx < row_cx_to_rx (some row) ((k : Int) + 1) ∧
        ∀ j : Nat, j < row.data.length → row_cx_to_rx (some row) (j : Int) ≤ rx →
          rx < row_cx_to_rx (some row) ((j : Int) + 1) → j = k) ∧
    (Int.ofNat (update_row_render row.data []).length ≤ rx →
      row_rx_to_cx (some row) rx = row.len) := by
  have hR : ∀ k : Nat, k ≤ row.data.length →
      row_cx_to_rx (some row) (k : Int) = walk (row.data.take k) 0 :=
    fun k hk => row_cx_to_rx_eq_walk row k hk
  have hR1 : ∀ k : Nat, k < row.data.length →
      row_cx_to_rx (some row) ((k : Int) + 1) = walk (row.data.take (k + 1)) 0 := by
    intro k hk
    have := row_cx_to_rx_eq_walk row (k + 1) hk
    simpa using this
  have hlen : (Int.ofNat (update_row_render row.data []).length) = walk row.data 0 :=
    update_row_render_length row.data
  obtain ⟨k, hk, hkl, hlt, hgt⟩ := row_rx_to_cx_spec row rx
  rw [hlen]
  constructor
  · intro hlt_len
    have hk_lt : k < row.data.length := by
      rcases Nat.lt_or_ge k row.data.length with h1 | h1
      · exact h1
      · exfalso
        have hkeq : k = row.data.length := by omega
        rcases Nat.eq_zero_or_pos row.data.length with h0 | hpos
        · have : row.data = [] := List.length_eq_zero.mp h0
          rw [this] at hlt_len
          simp only [walk] at hlt_len
          omega
        · have := hlt (row.data.length - 1) (by omega)
          rw [show row.data.length - 1 + 1 = row.data.length by omega,
            List.take_length] at this
          omega
    refine ⟨k, hk, hk_lt, ?_, ?_, ?_⟩
    · rw [hR k (by omega)]
      cases k with
      | zero => simpa [walk] using hrx
      | succ k => exact hlt k (by omega)
    · rw [hR1 k hk_lt]; exact hgt hk_lt
    · intro j hj hle hlt'
      rw [hR j (by omega)] at hle
      rw [hR1 j hj] at hlt'
      rcases Nat.lt_trichotomy j k with h1 | h1 | h1
      · exfalso
        have := hlt j h1
        omega
      · exact h1
      · exfalso
        have h2 := hgt hk_lt
        have := walk_take_le row.data (k + 1) j (by omega) (by omega)
        omega
  · intro hge
    rw [hk]
    have : k = row.data.length := by
      rcases Nat.lt_or_ge k row.data.length with h1 | h1
      · exfalso
        have h2 := hgt h1
        have := walk_take_le row.data (k + 1) row.data.length (by omega) (le_refl _)
        rw [List.take_length] at this
        omega
      · omega
    simp [EditorRow.len, this]

/-- Witness for C4: the row `"a<TAB>b"` at rendered column 2, inside the tab. -/
theorem row_rx_to_cx_char_at_witness :
    (0 : Int) ≤ 2 ∧
    ((2 : Int) < Int.ofNat (update_row_render
        (mk_row (String.toList "a" ++ TAB :: String.toList "b")).data []).length →
      ∃ k : Nat,
        row_rx_to_cx (some (mk_row (String.toList "a" ++ TAB :: String.toList "b"))) 2
          = (k : Int) ∧
        k < (mk_row (String.toList "a" ++ TAB :: String.toList "b")).data.length ∧
        row_cx_to_rx (some (mk_row (String.toList "a" ++ TAB :: String.toList "b")))
          (k : Int) ≤ 2 ∧
        2 < row_cx_to_rx (some (mk_row (String.toList "a" ++ TAB :: String.toList "b")))
          ((k : Int) + 1) ∧
        ∀ j : Nat, j < (mk_row (String.toList "a" ++ TAB :: String.toList "b")).data.length →
          row_cx_to_rx (some (mk_row (String.toList "a" ++ TAB :: String.toList "b")))
            (j : Int) ≤ 2 →
          2 < row_cx_to_rx (some (mk_row (String.toList "a" ++ TAB :: String.toList "b")))
            ((j : Int) + 1) → j = k) ∧
    (Int.ofNat (update_row_render
        (mk_row (String.toList "a" ++ TAB :: String.toList "b")).data []).length ≤ 2 →
      row_rx_to_cx (some (mk_row (String.toList "a" ++ TAB :: String.toList "b"))) 2
        = (mk_row (String.toList "a" ++ TAB :: String.toList "b")).len) :=
  ⟨by decide, row_rx_to_cx_char_at _ 2 (by decide)⟩

/-! ### Row store primitives on a document split as `pre ++ r :: post` -/

theorem getElem?_append_cons {α : Type} (pre : List α) (r : α) (post : List α) :
    (pre ++ r :: post)[pre.length]? = some r := by
  induction pre with
  | nil => simp
  | cons a pre ih => simpa using ih

theorem set_append_cons {α : Type} (pre : List α) (r r1 : α) (post : List α) :
    (pre ++ r :: post).set pre.length r1 = pre ++ r1 :: post := by
  induction pre with
  | nil => rfl
  | cons a pre ih => simp [ih]

theorem insertIdx_append {α : Type} (pre : List α) (a : α) (post : List α) :
    (pre ++ post).insertIdx pre.length a = pre ++ a :: post := by
  induction pre with
  | nil => cases post <;> rfl
  | cons b pre ih => simp [List.insertIdx_succ_cons, ih]

theorem eraseIdx_append_cons {α : Type} (pre : List α) (r : α) (post : List α) :
    (pre ++ r :: post).eraseIdx pre.length = pre ++ post := by
  induction pre with
  | nil => rfl
  | cons a pre ih => simpa using ih

@[simp] theorem with_rows_rows (E : EditorConfig) (R : List EditorRow) :
    (E.with_rows R).rows = R := rfl

@[simp] theorem with_rows_with_rows (E : EditorConfig) (R R1 : List EditorRow) :
    (E.with_rows R).with_rows R1 = E.with_rows R1 := rfl

@[simp] theorem with_rows_cx (E : EditorConfig) (R : List EditorRow) :
    (E.with_rows R).cx = E.cx := rfl

@[simp] theorem with_rows_cy (E : EditorConfig) (R : List EditorRow) :
    (E.with_rows R).cy = E.cy := rfl

@[simp] theorem with_rows_syn (E : EditorConfig) (R : List EditorRow) :
    (E.with_rows R).syn = E.syn := rfl

@[simp] theorem with_rows_frame (E : EditorConfig) (R : List EditorRow) :
    (E.with_rows R).frame = E.frame := rfl

@[simp] theorem set_cpos_rows (E : EditorConfig) (x y : Int) :
    (E.set_cpos x y).rows = E.rows := rfl

@[simp] theorem set_cpos_cx (E : EditorConfig) (x y : Int) : (E.set_cpos x y).cx = x := rfl

@[simp] theorem set_cpos_cy (E : EditorConfig) (x y : Int) : (E.set_cpos x y).cy = y := rfl

@[simp] theorem set_cpos_syn (E : EditorConfig) (x y : Int) :
    (E.set_cpos x y).syn = E.syn := rfl

@[simp] theorem set_cpos_frame (E : EditorConfig) (x y : Int) :
    (E.set_cpos x y).frame = E.frame := rfl

theorem frame_clipboard (E E1 : EditorConfig) (h : E1.frame = E.frame) :
    E1.clipboard = E.clipboard := by
  have := congrArg EditorConfig.clipboard h
  exact this

theorem frame_syn (E E1 : EditorConfig) (h : E1.frame = E.frame) : E1.syn = E.syn := by
  have := congrArg EditorConfig.syn h
  exact this

theorem frame_mark (E E1 : EditorConfig) (h : E1.frame = E.frame) :
    E1.mx = E.mx ∧ E1.my = E.my := by
  have h1 := congrArg EditorConfig.mx h
  have h2 := congrArg EditorConfig.my h
  exact ⟨h1, h2⟩

theorem get_row_at_nat (E : EditorConfig) (i : Nat) (h : i < E.rows.length) :
    E.get_row_at (i : Int) = some i := by
  unfold EditorConfig.get_row_at EditorConfig.numrows
  rw [if_neg (by simp only [Int.ofNat_eq_coe]; omega)]
  simp

theorem get_row_at_split (E : EditorConfig) (pre : List EditorRow) (r : EditorRow)
    (post : List EditorRow) (h : E.rows = pre ++ r :: post) :
    E.get_row_at (pre.length : Int) = some pre.length :=
  get_row_at_nat E pre.length (by rw [h]; simp)

theorem deref_split (E : EditorConfig) (pre : List EditorRow) (r : EditorRow)
    (post : List EditorRow) (h : E.rows = pre ++ r :: post) :
    E.deref (some pre.length) = some r := by
  simp only [EditorConfig.deref, Option.some_bind, h, getElem?_append_cons]

theorem update_row_split (E : EditorConfig) (pre : List EditorRow) (r : EditorRow)
    (post : List EditorRow) (h : E.rows = pre ++ r :: post) :
    ∃ r1, row_fresh E.syn r1 r.data ∧
      update_row E (some pre.length) = some (E.with_rows (pre ++ r1 :: post)) := by
  obtain ⟨r1, h1, h2⟩ := update_row_spec E pre.length r (by rw [h, getElem?_append_cons])
  refine ⟨r1, h2, ?_⟩
  rw [h1, h, set_append_cons]

theorem insert_row_split (E : EditorConfig) (pre post : List EditorRow) (data : List Char)
    (h : E.rows = pre ++ post) :
    ∃ r1, row_fresh E.syn r1 data ∧
      insert_row E (pre.length : Int) data = some (E.with_rows (pre ++ r1 :: post)) := by
  unfold insert_row
  rw [if_neg (by simp only [EditorConfig.numrows, h, List.length_append, Int.ofNat_eq_coe]; omega)]
  simp only [Int.toNat_ofNat, h, insertIdx_append]
  obtain ⟨r1, h1, h2⟩ := update_row_split
    { E with rows := pre ++ (⟨data, [], 0, []⟩ : EditorRow) :: post } pre _ post rfl
  exact ⟨r1, h1, h2⟩

theorem delete_row_split (E : EditorConfig) (pre : List EditorRow) (r : EditorRow)
    (post : List EditorRow) (h : E.rows = pre ++ r :: post) :
    delete_row E (pre.length : Int) = (E.with_rows (pre ++ post), r.data) := by
  unfold delete_row
  rw [if_neg (by simp only [EditorConfig.numrows, h, List.length_append, List.length_cons,
    Int.ofNat_eq_coe]; omega)]
  simp only [Int.toNat_ofNat, h, getElem?_append_cons, eraseIdx_append_cons]
  rfl

theorem row_insert_char_split (E : EditorConfig) (pre : List EditorRow) (r : EditorRow)
    (post : List EditorRow) (h : E.rows = pre ++ r :: post) (k : Nat)
    (hk : k ≤ r.data.length) (c : Char) :
    ∃ r1, row_fresh E.syn r1 (r.data.take k ++ c :: r.data.drop k) ∧
      row_insert_char E (some pre.length) (k : Int) c
        = some (E.with_rows (pre ++ r1 :: post)) := by
  unfold row_insert_char
  simp only [Option.some_bind, h, getElem?_append_cons, set_append_cons]
  rw [if_neg (by simp only [EditorRow.len, Int.ofNat_eq_coe]; omega)]
  simp only [Int.toNat_ofNat]
  obtain ⟨r1, h1, h2⟩ := update_row_split
    { E with rows := pre ++ ({ r with data := r.data.take k ++ c :: r.data.drop k } :
      EditorRow) :: post } pre _ post rfl
  exact ⟨r1, h1, h2⟩

theorem row_append_string_split (E : EditorConfig) (pre : List EditorRow) (r : EditorRow)
    (post : List EditorRow) (h : E.rows = pre ++ r :: post) (str : List Char) :
    ∃ r1, row_fresh E.syn r1 (r.data ++ str) ∧
      row_append_string E (some pre.length) str
        = some (E.with_rows (pre ++ r1 :: post)) := by
  unfold row_append_string
  simp only [Option.some_bind, h, getElem?_append_cons, set_append_cons]
  obtain ⟨r1, h1, h2⟩ := update_row_split
    { E with rows := pre ++ ({ r with data := r.data ++ str } : EditorRow) :: post }
    pre _ post rfl
  exact ⟨r1, h1, h2⟩

theorem row_delete_range_zero (E : EditorConfig) (pre : List EditorRow) (r : EditorRow)
    (post : List EditorRow) (h : E.rows = pre ++ r :: post) (k : Int) :
    row_delete_range E (some pre.length) k 0 = some (E, []) := by
  unfold row_delete_range
  simp only [Option.some_bind, h, getElem?_append_cons]
  rw [if_pos (Or.inr (Or.inr trivial))]

theorem row_delete_range_split (E : EditorConfig) (pre : List EditorRow) (r : EditorRow)
    (post : List EditorRow) (h : E.rows = pre ++ r :: post) (k n : Nat)
    (hn : 0 < n) (hk : k + n ≤ r.data.length) :
    ∃ r1, row_fresh E.syn r1 (r.data.take k ++ r.data.drop (k + n)) ∧
      row_delete_range E (some pre.length) (k : Int) (n : Int)
        = some (E.with_rows (pre ++ r1 :: post), (r.data.drop k).take n) := by
  unfold row_delete_range
  simp only [Option.some_bind, h, getElem?_append_cons, set_append_cons]
  rw [if_neg (by simp only [EditorRow.len, Int.ofNat_eq_coe]; omega)]
  have hsub : substr r.data (k : Int) (n : Int) = some ((r.data.drop k).take n) := by
    unfold substr
    rw [if_neg (by simp only [Int.ofNat_eq_coe]; omega), if_neg (by omega)]
    simp
  have hlen : ((r.data.drop k).take n).length = n := by
    simp only [List.length_take, List.length_drop]; omega
  simp only [hsub, Option.some_bind, hlen, Int.toNat_ofNat]
  obtain ⟨r1, h1, h2⟩ := update_row_split
    { E with rows := pre ++ ({ r with data := r.data.take k ++ r.data.drop (k + n) } :
      EditorRow) :: post } pre _ post rfl
  refine ⟨r1, h1, ?_⟩
  rw [h2]
  rfl

/-! ### Insertion of characters and line splits -/

theorem insert_empty_row_nonempty (E : EditorConfig) (h : E.rows ≠ []) :
    insert_empty_row_if_file_empty E = some E := by
  unfold insert_empty_row_if_file_empty EditorConfig.numrows
  rw [if_neg]
  have := List.length_pos.mpr h
  simp only [Int.ofNat_eq_coe]
  omega

theorem insert_empty_row_empty (E : EditorConfig) (h : E.rows = []) :
    ∃ r0, row_fresh E.syn r0 [] ∧
      insert_empty_row_if_file_empty E = some (E.with_rows [r0]) := by
  unfold insert_empty_row_if_file_empty
  have hn : E.numrows = 0 := by simp [EditorConfig.numrows, h]
  rw [if_pos hn, hn]
  obtain ⟨r0, h1, h2⟩ := insert_row_split E [] [] [] (by simpa using h)
  exact ⟨r0, h1, h2⟩

/-- `do_insert_char` with a character other than newline, cursor at raw column
`k` of the row `r`. -/
theorem do_insert_char_split (E : EditorConfig) (pre : List EditorRow) (r : EditorRow)
    (post : List EditorRow) (h : E.rows = pre ++ r :: post) (k : Nat)
    (hcy : E.cy = (pre.length : Int)) (hcx : E.cx = (k : Int)) (hk : k ≤ r.data.length)
    (c : Char) (hc : c ≠ NL) :
    ∃ r1, row_fresh E.syn r1 (r.data.take k ++ c :: r.data.drop k) ∧
      do_insert_char E c = some ((E.with_rows (pre ++ r1 :: post)).set_cpos
        ((k : Int) + 1) (pre.length : Int)) := by
  unfold do_insert_char
  rw [if_neg hc, insert_empty_row_nonempty E (by rw [h]; simp)]
  simp only [Option.some_bind]
  rw [hcy, get_row_at_split E pre r post h, hcx]
  obtain ⟨r1, h1, h2⟩ := row_insert_char_split E pre r post h k hk c
  refine ⟨r1, h1, ?_⟩
  rw [h2]
  simp only [Option.map_some', with_rows_cx, with_rows_cy, hcx, hcy]

/-- `do_insert_char` with a character other than newline on the empty
document. -/
theorem do_insert_char_empty (E : EditorConfig) (h : E.rows = [])
    (hcy : E.cy = 0) (hcx : E.cx = 0) (c : Char) (hc : c ≠ NL) :
    ∃ r1, row_fresh E.syn r1 [c] ∧
      do_insert_char E c = some ((E.with_rows [r1]).set_cpos 1 0) := by
  unfold do_insert_char
  obtain ⟨r0, _, h0⟩ := insert_empty_row_empty E h
  rw [if_neg hc, h0]
  simp only [Option.some_bind, with_rows_cy, with_rows_cx, hcy, hcx]
  have hg : (E.with_rows [r0]).get_row_at 0 = some 0 :=
    get_row_at_nat (E.with_rows [r0]) 0 (by simp)
  rw [hg]
  obtain ⟨r1, h1, h2⟩ := row_insert_char_split (E.with_rows [r0]) [] r0 [] rfl 0
    (Nat.zero_le _) c
  simp only [List.length_nil, Nat.cast_zero, List.take_zero, List.drop_zero, List.nil_append,
    with_rows_syn, with_rows_with_rows] at h1 h2
  have hr0 : r0.data = [] := by
    rename_i hf; exact hf.1
  rw [hr0] at h1
  refine ⟨r1, h1, ?_⟩
  rw [h2]
  simp only [Option.map_some', with_rows_cx, with_rows_cy, hcx, hcy]
  rfl

/-- `do_insert_newline(false)` with the cursor at column 0 of the row `r`. -/
theorem do_insert_newline_col0 (E : EditorConfig) (pre : List EditorRow) (r : EditorRow)
    (post : List EditorRow) (h : E.rows = pre ++ r :: post)
    (hcy : E.cy = (pre.length : Int)) (hcx : E.cx = 0) :
    ∃ r0, row_fresh E.syn r0 [] ∧
      do_insert_newline E false = some ((E.with_rows (pre ++ r0 :: r :: post)).set_cpos
        0 ((pre.length : Int) + 1)) := by
  unfold do_insert_newline
  rw [insert_empty_row_nonempty E (by rw [h]; simp)]
  simp only [Option.some_bind, if_pos hcx, hcy]
  obtain ⟨r0, h1, h2⟩ := insert_row_split E pre (r :: post) [] h
  refine ⟨r0, h1, ?_⟩
  rw [h2]
  simp [hcy]

/-- `do_insert_newline(false)` with the cursor at raw column `0 < k ≤ len` of
the row `r`. -/
theorem do_insert_newline_split (E : EditorConfig) (pre : List EditorRow) (r : EditorRow)
    (post : List EditorRow) (h : E.rows = pre ++ r :: post) (k : Nat)
    (hcy : E.cy = (pre.length : Int)) (hcx : E.cx = (k : Int)) (hk0 : 0 < k)
    (hk : k ≤ r.data.length) :
    ∃ r1 r2, row_fresh E.syn r1 (r.data.take k) ∧ row_fresh E.syn r2 (r.data.drop k) ∧
      do_insert_newline E false = some ((E.with_rows (pre ++ r1 :: r2 :: post)).set_cpos
        0 ((pre.length : Int) + 1)) := by
  unfold do_insert_newline
  rw [insert_empty_row_nonempty E (by rw [h]; simp)]
  simp only [Option.some_bind]
  rw [if_neg (by rw [hcx]; omega), hcy, get_row_at_split E pre r post h,
    deref_split E pre r post h]
  have hsub1 : substr r.data E.cx (r.len - E.cx) = some (r.data.drop k) := by
    unfold substr
    rw [hcx, if_neg (by simp only [Int.ofNat_eq_coe]; omega),
      if_neg (by simp only [EditorRow.len, Int.ofNat_eq_coe]; omega)]
    simp only [Int.toNat_ofNat, EditorRow.len, Int.ofNat_eq_coe]
    rw [List.take_of_length_le]
    simp only [List.length_drop]
    omega
  simp only [Option.some_bind, hsub1]
  obtain ⟨r2, hf2, h2⟩ := insert_row_split E (pre ++ [r]) post (r.data.drop k) (by simp [h])
  simp only [List.length_append, List.length_singleton, Nat.cast_add, Nat.cast_one,
    List.append_assoc, List.singleton_append] at h2
  rw [h2]
  have hsub2 : substr r.data 0 (E.with_rows (pre ++ r :: r2 :: post)).cx
      = some (r.data.take k) := by
    unfold substr
    rw [with_rows_cx, hcx, if_neg (by simp only [Int.ofNat_eq_coe]; omega), if_neg (by omega)]
    simp
  simp only [Option.some_bind, with_rows_rows, getElem?_append_cons]
  rw [hsub2]
  simp only [Option.some_bind, set_append_cons]
  obtain ⟨r1, hf1, h1⟩ := update_row_split
    { E.with_rows (pre ++ r :: r2 :: post) with
      rows := pre ++ ({ r with data := r.data.take k } : EditorRow) :: r2 :: post }
    pre _ (r2 :: post) rfl
  refine ⟨r1, r2, hf1, hf2, ?_⟩
  erw [h1]
  simp only [Option.some_bind, Bool.false_eq_true, if_false]
  show some ((E.with_rows (pre ++ r1 :: r2 :: post)).set_cpos 0 (E.cy + 1)) = _
  rw [hcy]

/-- `do_insert_newline(false)` on the empty document. -/
theorem do_insert_newline_empty (E : EditorConfig) (h : E.rows = [])
    (hcy : E.cy = 0) (hcx : E.cx = 0) :
    ∃ r0 r1, row_fresh E.syn r0 [] ∧ row_fresh E.syn r1 [] ∧
      do_insert_newline E false = some ((E.with_rows [r0, r1]).set_cpos 0 1) := by
  obtain ⟨r1, hf1, h1⟩ := insert_empty_row_empty E h
  obtain ⟨r0, hf0, h0⟩ := do_insert_newline_col0 (E.with_rows [r1]) [] r1 [] rfl
    (by simpa using hcy) (by simpa using hcx)
  refine ⟨r0, r1, hf0, hf1, ?_⟩
  unfold do_insert_newline at h0 ⊢
  rw [h1]
  rw [insert_empty_row_nonempty (E.with_rows [r1]) (by simp)] at h0
  rw [Option.some_bind] at h0 ⊢
  rw [h0]
  rfl

/-! ### Raw-text view of the operations -/

@[simp] theorem with_rows_raw (E : EditorConfig) (R : List EditorRow) :
    (E.with_rows R).raw = R.map EditorRow.data := rfl

@[simp] theorem set_cpos_raw (E : EditorConfig) (x y : Int) : (E.set_cpos x y).raw = E.raw := rfl

theorem raw_split (E : EditorConfig) (pre : List (List Char)) (d : List Char)
    (post : List (List Char)) (h : E.raw = pre ++ d :: post) :
    ∃ pre1 r post1, E.rows = pre1 ++ r :: post1 ∧ pre1.map EditorRow.data = pre ∧
      r.data = d ∧ post1.map EditorRow.data = post ∧ pre1.length = pre.length := by
  unfold EditorConfig.raw at h
  obtain ⟨l1, l2, h1, h2, h3⟩ := List.map_eq_append_iff.mp h
  obtain ⟨r, l3, h4, h5, h6⟩ := List.map_eq_cons_iff.mp h3
  refine ⟨l1, r, l3, by rw [h1, h4], h2, h5, h6, ?_⟩
  rw [← h2, List.length_map]

theorem rows_keep_refl (syn : Option (Fin NUM_HLDBS)) (R : List EditorRow) :
    rows_keep syn R R := fun _ h => Or.inl h

theorem rows_keep_trans (syn : Option (Fin NUM_HLDBS)) (R R1 R2 : List EditorRow)
    (h1 : rows_keep syn R R1) (h2 : rows_keep syn R1 R2) : rows_keep syn R R2 := by
  intro r hr
  rcases h2 r hr with h | h
  · exact h1 r h
  · exact Or.inr h

theorem rows_keep_hl_ok (syn : Option (Fin NUM_HLDBS)) (R R1 : List EditorRow)
    (h1 : rows_keep syn R R1) (h : rows_hl_ok R) : rows_hl_ok R1 := by
  intro r hr
  rcases h1 r hr with h2 | ⟨d, hf⟩
  · exact h r h2
  · rw [hf.2.2.1, hf.2.2.2.2]

theorem do_insert_newline_raw (E : EditorConfig) (pre : List (List Char)) (d : List Char)
    (post : List (List Char)) (k : Nat) (hraw : E.raw = pre ++ d :: post)
    (hcy : E.cy = (pre.length : Int)) (hcx : E.cx = (k : Int)) (hk : k ≤ d.length) :
    ∃ E1, do_insert_newline E false = some E1 ∧
      E1.raw = pre ++ d.take k :: d.drop k :: post ∧
      E1.cx = 0 ∧ E1.cy = (pre.length : Int) + 1 ∧ E1.frame = E.frame ∧
      rows_keep E.syn E.rows E1.rows := by
  obtain ⟨pre1, r, post1, hrows, hpre, hd, hpost, hlen⟩ := raw_split E pre d post hraw
  rw [← hlen] at hcy ⊢
  rcases Nat.eq_zero_or_pos k with hk0 | hk0
  · subst hk0
    obtain ⟨r0, hf, hres⟩ := do_insert_newline_col0 E pre1 r post1 hrows hcy (by simpa using hcx)
    refine ⟨_, hres, ?_, rfl, rfl, rfl, ?_⟩
    · simp [hpre, hd, hpost, hf.1]
    · intro x hx
      simp only [set_cpos_rows, with_rows_rows, hrows, List.mem_append, List.mem_cons] at hx ⊢
      rcases hx with h | rfl | rfl | h
      · exact Or.inl (Or.inl h)
      · exact Or.inr ⟨_, hf⟩
      · exact Or.inl (Or.inr (Or.inl rfl))
      · exact Or.inl (Or.inr (Or.inr h))
  · obtain ⟨r1, r2, hf1, hf2, hres⟩ :=
      do_insert_newline_split E pre1 r post1 hrows k hcy hcx hk0 (by rw [hd]; exact hk)
    refine ⟨_, hres, ?_, rfl, rfl, rfl, ?_⟩
    · simp [hpre, hd, hpost, hf1.1, hf2.1]
    · intro x hx
      simp only [set_cpos_rows, with_rows_rows, hrows, List.mem_append, List.mem_cons] at hx ⊢
      rcases hx with h | rfl | rfl | h
      · exact Or.inl (Or.inl h)
      · exact Or.inr ⟨_, hf1⟩
      · exact Or.inr ⟨_, hf2⟩
      · exact Or.inl (Or.inr (Or.inr h))

theorem do_insert_char_raw (E : EditorConfig) (pre : List (List Char)) (a b : List Char)
    (post : List (List Char)) (c : Char) (hc : c ≠ NL) (hraw : E.raw = pre ++ (a ++ b) :: post)
    (hcy : E.cy = (pre.length : Int)) (hcx : E.cx = (a.length : Int)) :
    ∃ E1, do_insert_char E c = some E1 ∧
      E1.raw = pre ++ (a ++ c :: b) :: post ∧
      E1.cx = (a.length : Int) + 1 ∧ E1.cy = (pre.length : Int) ∧ E1.frame = E.frame ∧
      rows_keep E.syn E.rows E1.rows := by
  obtain ⟨pre1, r, post1, hrows, hpre, hd, hpost, hlen⟩ := raw_split E pre (a ++ b) post hraw
  rw [← hlen] at hcy ⊢
  obtain ⟨r1, hf, hres⟩ := do_insert_char_split E pre1 r post1 hrows a.length hcy hcx
    (by rw [hd]; simp) c hc
  refine ⟨_, hres, ?_, rfl, rfl, rfl, ?_⟩
  · simp [hpre, hd, hpost, hf.1]
  · intro x hx
    simp only [set_cpos_rows, with_rows_rows, hrows, List.mem_append, List.mem_cons] at hx ⊢
    rcases hx with h | rfl | h
    · exact Or.inl (Or.inl h)
    · exact Or.inr ⟨_, hf⟩
    · exact Or.inl (Or.inr (Or.inr h))

theorem rows_keep_nil (syn : Option (Fin NUM_HLDBS)) (R1 : List EditorRow)
    (h : ∀ r ∈ R1, ∃ d, row_fresh syn r d) : rows_keep syn [] R1 :=
  fun r hr => Or.inr (h r hr)

theorem do_insert_char_empty_raw (E : EditorConfig) (h : E.rows = [])
    (hcy : E.cy = 0) (hcx : E.cx = 0) (c : Char) (hc : c ≠ NL) :
    ∃ E1, do_insert_char E c = some E1 ∧ E1.raw = [[c]] ∧ E1.cx = 1 ∧ E1.cy = 0 ∧
      E1.frame = E.frame ∧ rows_keep E.syn E.rows E1.rows := by
  obtain ⟨r1, hf, hres⟩ := do_insert_char_empty E h hcy hcx c hc
  refine ⟨_, hres, by simp [hf.1], rfl, rfl, rfl, ?_⟩
  intro x hx
  simp only [set_cpos_rows, with_rows_rows, List.mem_singleton] at hx
  subst hx
  exact Or.inr ⟨_, hf⟩

theorem do_insert_newline_empty_raw (E : EditorConfig) (h : E.rows = [])
    (hcy : E.cy = 0) (hcx : E.cx = 0) :
    ∃ E1, do_insert_newline E false = some E1 ∧ E1.raw = [[], []] ∧ E1.cx = 0 ∧ E1.cy = 1 ∧
      E1.frame = E.frame ∧ rows_keep E.syn E.rows E1.rows := by
  obtain ⟨r0, r1, hf0, hf1, hres⟩ := do_insert_newline_empty E h hcy hcx
  refine ⟨_, hres, by simp [hf0.1, hf1.1], rfl, rfl, rfl, ?_⟩
  intro x hx
  simp only [set_cpos_rows, with_rows_rows, List.mem_cons, List.mem_singleton,
    List.not_mem_nil, or_false] at hx
  rcases hx with rfl | rfl
  · exact Or.inr ⟨_, hf0⟩
  · exact Or.inr ⟨_, hf1⟩

/-! ### Paste -/

theorem do_insert_char_NL (E : EditorConfig) : do_insert_char E NL = do_insert_newline E false := by
  unfold do_insert_char
  rw [if_pos rfl]

/-- Pasting the text `t` with the cursor between `a` and `b` on a row of a
document that has rows. -/
theorem do_paste_loop_raw (t : List Char) :
    ∀ (E : EditorConfig) (pre : List (List Char)) (a b : List Char) (post : List (List Char)),
      E.raw = pre ++ (a ++ b) :: post → E.cy = (pre.length : Int) → E.cx = (a.length : Int) →
      ∃ E1, do_paste_loop t E = some E1 ∧
        E1.raw = pre ++ paste_lines a t b ++ post ∧
        E1.cy = (pre.length : Int) + (t.count NL : Int) ∧
        E1.cx = (paste_col a t : Int) ∧ E1.frame = E.frame ∧
        rows_keep E.syn E.rows E1.rows := by
  induction t with
  | nil =>
    intro E pre a b post hraw hcy hcx
    exact ⟨E, rfl, by simpa [paste_lines] using hraw, by simpa using hcy,
      by simpa [paste_col] using hcx, rfl, rows_keep_refl _ _⟩
  | cons c t ih =>
    intro E pre a b post hraw hcy hcx
    by_cases hc : c = NL
    · subst hc
      obtain ⟨E1, h1, hraw1, hcx1, hcy1, hfr1, hk1⟩ :=
        do_insert_newline_raw E pre (a ++ b) post a.length hraw hcy hcx (by simp)
      rw [List.take_left' rfl, List.drop_left' rfl] at hraw1
      obtain ⟨E2, h2, hraw2, hcy2, hcx2, hfr2, hk2⟩ := ih E1 (pre ++ [a]) [] b post
        (by simpa using hraw1) (by simpa using hcy1) (by simpa using hcx1)
      refine ⟨E2, ?_, ?_, ?_, ?_, hfr2.trans hfr1, ?_⟩
      · simp only [do_paste_loop, do_insert_char_NL, h1, Option.some_bind, h2]
      · simpa [paste_lines] using hraw2
      · rw [hcy2]; simp only [List.length_append, List.length_singleton, List.count_cons_self]
        push_cast; ring
      · simpa [paste_col] using hcx2
      · exact rows_keep_trans _ _ _ _ hk1 (by rw [← frame_syn E E1 hfr1]; exact hk2)
    · obtain ⟨E1, h1, hraw1, hcx1, hcy1, hfr1, hk1⟩ :=
        do_insert_char_raw E pre a b post c hc hraw hcy hcx
      obtain ⟨E2, h2, hraw2, hcy2, hcx2, hfr2, hk2⟩ := ih E1 pre (a ++ [c]) b post
        (by simpa using hraw1) hcy1 (by simpa using hcx1)
      refine ⟨E2, ?_, ?_, ?_, ?_, hfr2.trans hfr1, ?_⟩
      · simp only [do_paste_loop, h1, Option.some_bind, h2]
      · simpa [paste_lines, hc] using hraw2
      · rw [hcy2, List.count_cons_of_ne (Ne.symm hc)]
      · simpa [paste_col, hc] using hcx2
      · exact rows_keep_trans _ _ _ _ hk1 (by rw [← frame_syn E E1 hfr1]; exact hk2)

/-- Pasting a non-empty text into the empty document. -/
theorem do_paste_loop_empty (t : List Char) (ht : t ≠ []) (E : EditorConfig)
    (h : E.rows = []) (hcy : E.cy = 0) (hcx : E.cx = 0) :
    ∃ E1, do_paste_loop t E = some E1 ∧ E1.raw = paste_lines [] t [] ∧
      E1.cy = (t.count NL : Int) ∧ E1.cx = (paste_col [] t : Int) ∧ E1.frame = E.frame ∧
      rows_keep E.syn E.rows E1.rows := by
  cases t with
  | nil => exact absurd rfl ht
  | cons c t =>
    by_cases hc : c = NL
    · subst hc
      obtain ⟨E1, h1, hraw1, hcx1, hcy1, hfr1, hk1⟩ := do_insert_newline_empty_raw E h hcy hcx
      obtain ⟨E2, h2, hraw2, hcy2, hcx2, hfr2, hk2⟩ := do_paste_loop_raw t E1 [[]] [] [] []
        (by simpa using hraw1) (by simpa using hcy1) (by simpa using hcx1)
      refine ⟨E2, ?_, ?_, ?_, ?_, hfr2.trans hfr1, ?_⟩
      · simp only [do_paste_loop, do_insert_char_NL, h1, Option.some_bind, h2]
      · simpa [paste_lines] using hraw2
      · rw [hcy2]; simp only [List.length_singleton, List.count_cons_self]
        push_cast; ring
      · simpa [paste_col] using hcx2
      · exact rows_keep_trans _ _ _ _ hk1 (by rw [← frame_syn E E1 hfr1]; exact hk2)
    · obtain ⟨E1, h1, hraw1, hcx1, hcy1, hfr1, hk1⟩ := do_insert_char_empty_raw E h hcy hcx c hc
      obtain ⟨E2, h2, hraw2, hcy2, hcx2, hfr2, hk2⟩ := do_paste_loop_raw t E1 [] [c] [] []
        (by simpa using hraw1) (by simpa using hcy1) (by simpa using hcx1)
      refine ⟨E2, ?_, ?_, ?_, ?_, hfr2.trans hfr1, ?_⟩
      · simp only [do_paste_loop, h1, Option.some_bind, h2]
      · simpa [paste_lines, hc] using hraw2
      · rw [hcy2, List.count_cons_of_ne (Ne.symm hc)]; simp
      · simpa [paste_col, hc] using hcx2
      · exact rows_keep_trans _ _ _ _ hk1 (by rw [← frame_syn E E1 hfr1]; exact hk2)

/-! ### Cut -/

theorem do_cut_all_loop_pos (R : List EditorRow) :
    ∀ (E : EditorConfig) (i : Nat) (copy : List Char), E.rows = R → i ≠ 0 →
      ∃ E1, do_cut_all_loop R.length i E copy
          = (E1, copy ++ nl_rows (R.map EditorRow.data)) ∧
        E1.rows = [] ∧ E1.frame = E.frame := by
  induction R with
  | nil =>
    intro E i copy h _
    exact ⟨E, by simp [do_cut_all_loop, nl_rows], h, rfl⟩
  | cons r R ih =>
    intro E i copy h hi
    have hd := delete_row_split E [] r R (by simpa using h)
    simp only [List.length_nil, Nat.cast_zero, List.nil_append] at hd
    obtain ⟨E1, h1, h2, h3⟩ := ih (E.with_rows R) (i + 1) (copy ++ [NL] ++ r.data) rfl (by omega)
    refine ⟨E1, ?_, h2, h3⟩
    simp only [List.length_cons, do_cut_all_loop, hd, if_pos hi, List.map_cons, nl_rows]
    simpa using h1

theorem do_cut_all_loop_zero (R : List EditorRow) (hR : R ≠ []) (E : EditorConfig)
    (h : E.rows = R) :
    ∃ E1, do_cut_all_loop R.length 0 E [] = (E1, join_rows (R.map EditorRow.data)) ∧
      E1.rows = [] ∧ E1.frame = E.frame := by
  cases R with
  | nil => exact absurd rfl hR
  | cons r R =>
    have hd := delete_row_split E [] r R (by simpa using h)
    simp only [List.length_nil, Nat.cast_zero, List.nil_append] at hd
    obtain ⟨E1, h1, h2, h3⟩ := do_cut_all_loop_pos R (E.with_rows R) 1 r.data rfl (by omega)
    refine ⟨E1, ?_, h2, h3⟩
    simp only [List.length_cons, do_cut_all_loop, hd, ne_eq, not_true_eq_false, if_false,
      List.nil_append, zero_add, h1, List.map_cons]
    congr 1
    cases R with
    | nil => simp [join_rows, nl_rows]
    | cons r2 R2 =>
      have : ∀ (d : List Char) (ds : List (List Char)), join_rows (d :: ds) = d ++ nl_rows ds := by
        intro d ds
        induction ds generalizing d with
        | nil => simp [join_rows, nl_rows]
        | cons d2 ds ih => simp [join_rows, nl_rows, ih d2]
      rw [this]

theorem join_rows_cons (d : List Char) (ds : List (List Char)) :
    join_rows (d :: ds) = d ++ nl_rows ds := by
  induction ds generalizing d with
  | nil => simp [join_rows, nl_rows]
  | cons d2 ds ih => simp [join_rows, nl_rows, ih d2]

theorem ptr_after_delete_gt (E : EditorConfig) (d i : Nat) (hd : d < E.rows.length)
    (hi : d < i) : ptr_after_delete E (d : Int) (some i) = some (i - 1) := by
  unfold ptr_after_delete
  rw [if_neg (by simp only [EditorConfig.numrows, Int.ofNat_eq_coe]; omega)]
  simp only [Option.some_bind, Int.toNat_ofNat]
  rw [if_neg (by omega), if_neg (by omega)]

theorem do_cut_mid_loop_spec (mid : List EditorRow) :
    ∀ (E : EditorConfig) (pre rest : List EditorRow) (j : Nat) (copy : List Char),
      E.rows = pre ++ mid ++ rest →
      ∃ E1, do_cut_mid_loop (pre.length : Int) mid.length E
          (some (pre.length + mid.length + j)) copy
          = (E1, some (pre.length + j), copy ++ nl_rows (mid.map EditorRow.data)) ∧
        E1.rows = pre ++ rest ∧ E1.frame = E.frame ∧
        rows_keep E.syn E.rows E1.rows := by
  induction mid with
  | nil =>
    intro E pre rest j copy h
    refine ⟨E, by simp [do_cut_mid_loop, nl_rows], by simpa using h, rfl, rows_keep_refl _ _⟩
  | cons m mid ih =>
    intro E pre rest j copy h
    have h' : E.rows = pre ++ m :: (mid ++ rest) := by simpa using h
    have hd := delete_row_split E pre m (mid ++ rest) h'
    have hp := ptr_after_delete_gt E pre.length (pre.length + (m :: mid).length + j)
      (by rw [h']; simp) (by simp; omega)
    obtain ⟨E1, h1, h2, h3, h4⟩ := ih (E.with_rows (pre ++ (mid ++ rest))) pre rest j
      (copy ++ [NL] ++ m.data) (by simp)
    refine ⟨E1, ?_, h2, h3, ?_⟩
    · simp only [List.length_cons, do_cut_mid_loop, hd]
      simp only [List.length_cons] at hp
      rw [hp, show pre.length + (mid.length + 1) + j - 1 = pre.length + mid.length + j by omega,
        h1]
      simp [nl_rows]
    · intro x hx
      rcases h4 x hx with h5 | h5
      · left
        simp only [with_rows_rows, List.mem_append] at h5
        rw [h']
        simp only [List.mem_append, List.mem_cons]
        tauto
      · exact Or.inr h5

theorem with_rows_frame_eq (E E1 : EditorConfig) (R : List EditorRow)
    (h : E1.frame = E.frame) : (E1.with_rows R).frame = E.frame := h

theorem do_cut_is_whole_eq (E : EditorConfig) (init : List EditorRow) (last : EditorRow)
    (h : E.rows = init ++ [last]) (sx sy ex ey : Int) :
    do_cut_is_whole E sx sy ex ey
      = some (decide (sx = 0 ∧ sy = 0 ∧ ey = (init.length : Int) ∧ ex = last.len)) := by
  unfold do_cut_is_whole
  have hl : E.lastrow_idx = (init.length : Int) := by
    simp [EditorConfig.lastrow_idx, h]
  rw [hl, get_row_at_split E init last [] h, deref_split E init last [] h]
  by_cases hc : sx = 0 ∧ sy = 0 ∧ ey = (init.length : Int)
  · rw [if_pos hc]
    simp [hc.1, hc.2.1, hc.2.2]
  · rw [if_neg hc]
    simp only [Option.some.injEq]
    symm
    rw [decide_eq_false_iff_not]
    intro h4
    exact hc ⟨h4.1, h4.2.1, h4.2.2.1⟩

/-- The cut of a region that lies inside one row. -/
theorem do_cut_region_same_row (E : EditorConfig) (pre : List (List Char)) (d : List Char)
    (post : List (List Char)) (a b : Nat) (hraw : E.raw = pre ++ d :: post)
    (hab : a < b) (hb : b ≤ d.length) :
    ∃ E1, do_cut_region E (a : Int) (pre.length : Int) (b : Int) (pre.length : Int)
        = some (E1, (d.drop a).take (b - a)) ∧
      E1.raw = (if pre = [] ∧ post = [] ∧ a = 0 ∧ b = d.length then []
        else pre ++ (d.take a ++ d.drop b) :: post) ∧
      E1.frame = E.frame ∧ rows_keep E.syn E.rows E1.rows := by
  obtain ⟨pre1, r, post1, hrows, hpre, hd, hpost, hlen⟩ := raw_split E pre d post hraw
  rw [← hlen]
  unfold do_cut_region
  by_cases hw : pre = [] ∧ post = [] ∧ a = 0 ∧ b = d.length
  · obtain ⟨hp1, hp2, ha, hb'⟩ := hw
    subst hp1 hp2 ha
    have hpre1 : pre1 = [] := by simpa using hpre
    have hpost1 : post1 = [] := by simpa using hpost
    subst hpre1 hpost1
    have hrows' : E.rows = [] ++ [r] := by simpa using hrows
    rw [do_cut_is_whole_eq E [] r hrows']
    have hdec : decide (((0 : Nat) : Int) = 0 ∧ ((([] : List EditorRow).length : Nat) : Int) = 0 ∧
        ((([] : List EditorRow).length : Nat) : Int) = ((([] : List EditorRow).length : Nat) : Int)
        ∧ (b : Int) = r.len) = true := by
      simp [EditorRow.len, hd, hb']
    rw [hdec]
    simp only [Option.some_bind, if_true]
    obtain ⟨E1, h1, h2, h3⟩ := do_cut_all_loop_zero [r] (by simp) E (by simpa using hrows)
    have hn : E.numrows.toNat = [r].length := by simp [EditorConfig.numrows, hrows]
    rw [hn, h1]
    refine ⟨E1, ?_, ?_, h3, ?_⟩
    · simp [join_rows, hd, hb']
    · simp [EditorConfig.raw, h2, hb']
    · rw [h2]; exact fun _ hx => absurd hx (List.not_mem_nil _)
  · have hrows' : E.rows = (pre1 ++ r :: post1).dropLast ++
        [(pre1 ++ r :: post1).getLast (by simp)] := by
      rw [List.dropLast_append_getLast]; exact hrows
    rw [do_cut_is_whole_eq E _ _ hrows']
    have hdec : decide ((a : Int) = 0 ∧ (pre1.length : Int) = 0 ∧
        (pre1.length : Int) = (((pre1 ++ r :: post1).dropLast.length : Nat) : Int) ∧
        (b : Int) = ((pre1 ++ r :: post1).getLast (by simp)).len) = false := by
      rw [decide_eq_false_iff_not]
      rintro ⟨h1, h2, h3, h4⟩
      apply hw
      have hp0 : pre1 = [] := List.length_eq_zero.mp (by omega)
      subst hp0
      have hq0 : post1 = [] := by
        simp only [List.nil_append, List.length_nil, Nat.cast_zero, List.length_dropLast,
          List.length_cons] at h3
        exact List.length_eq_zero.mp (by omega)
      subst hq0
      simp only [List.nil_append, List.getLast_singleton, EditorRow.len, Int.ofNat_eq_coe,
        hd] at h4
      refine ⟨by simpa using hpre.symm, by simpa using hpost.symm, by omega, by omega⟩
    rw [hdec]
    simp only [Option.some_bind, Bool.false_eq_true, if_false, if_true]
    rw [get_row_at_split E pre1 r post1 hrows]
    obtain ⟨r1, hf, hres⟩ := row_delete_range_split E pre1 r post1 hrows a (b - a) (by omega)
      (by rw [hd]; omega)
    rw [show ((b : Int) - (a : Int)) = ((b - a : Nat) : Int) by omega, hres]
    refine ⟨E.with_rows (pre1 ++ r1 :: post1), ?_, ?_, rfl, ?_⟩
    · rw [hd]
    · rw [if_neg hw]
      simp [hpre, hpost, hf.1, hd, show a + (b - a) = b by omega]
    · intro x hx
      simp only [with_rows_rows, hrows, List.mem_append, List.mem_cons] at hx ⊢
      rcases hx with h | rfl | h
      · exact Or.inl (Or.inl h)
      · exact Or.inr ⟨_, hf⟩
      · exact Or.inl (Or.inr (Or.inr h))

theorem rows_keep_split (syn : Option (Fin NUM_HLDBS)) (pre post : List EditorRow)
    (r r1 : EditorRow) (h : r1 = r ∨ ∃ d, row_fresh syn r1 d) :
    rows_keep syn (pre ++ r :: post) (pre ++ r1 :: post) := by
  intro x hx
  simp only [List.mem_append, List.mem_cons] at hx ⊢
  rcases hx with h1 | rfl | h1
  · exact Or.inl (Or.inl h1)
  · rcases h with h2 | h2
    · exact Or.inl (Or.inr (Or.inl h2))
    · exact Or.inr h2
  · exact Or.inl (Or.inr (Or.inr h1))

theorem rows_keep_erase (syn : Option (Fin NUM_HLDBS)) (pre post : List EditorRow)
    (r : EditorRow) : rows_keep syn (pre ++ r :: post) (pre ++ post) := by
  intro x hx
  simp only [List.mem_append, List.mem_cons] at hx ⊢
  rcases hx with h1 | h1
  · exact Or.inl (Or.inl h1)
  · exact Or.inl (Or.inr (Or.inr h1))

theorem row_delete_range_any (E : EditorConfig) (pre : List EditorRow) (r : EditorRow)
    (post : List EditorRow) (h : E.rows = pre ++ r :: post) (k n : Nat)
    (hk : k + n ≤ r.data.length) :
    ∃ E1 r1, row_delete_range E (some pre.length) (k : Int) (n : Int)
        = some (E1, (r.data.drop k).take n) ∧
      E1.rows = pre ++ r1 :: post ∧ r1.data = r.data.take k ++ r.data.drop (k + n) ∧
      E1.frame = E.frame ∧ rows_keep E.syn E.rows E1.rows := by
  rcases Nat.eq_zero_or_pos n with hn | hn
  · subst hn
    refine ⟨E, r, ?_, h, by simp, rfl, rows_keep_refl _ _⟩
    rw [Nat.cast_zero, row_delete_range_zero E pre r post h]
    simp
  · obtain ⟨r1, hf, hres⟩ := row_delete_range_split E pre r post h k n hn hk
    refine ⟨_, r1, hres, rfl, hf.1, rfl, ?_⟩
    rw [h]
    exact rows_keep_split _ _ _ _ _ (Or.inr ⟨_, hf⟩)

theorem row_append_string_any (E : EditorConfig) (pre : List EditorRow) (r : EditorRow)
    (post : List EditorRow) (h : E.rows = pre ++ r :: post) (str : List Char) :
    ∃ E1 r1, row_append_string E (some pre.length) str = some E1 ∧
      E1.rows = pre ++ r1 :: post ∧ r1.data = r.data ++ str ∧
      E1.frame = E.frame ∧ E1.cx = E.cx ∧ E1.cy = E.cy ∧
      rows_keep E.syn E.rows E1.rows := by
  obtain ⟨r1, hf, hres⟩ := row_append_string_split E pre r post h str
  refine ⟨_, r1, hres, rfl, hf.1, rfl, rfl, rfl, ?_⟩
  rw [h]
  exact rows_keep_split _ _ _ _ _ (Or.inr ⟨_, hf⟩)

theorem delete_row_any (E : EditorConfig) (pre : List EditorRow) (r : EditorRow)
    (post : List EditorRow) (h : E.rows = pre ++ r :: post) :
    ∃ E1, delete_row E (pre.length : Int) = (E1, r.data) ∧
      E1.rows = pre ++ post ∧ E1.frame = E.frame ∧ E1.cx = E.cx ∧ E1.cy = E.cy ∧
      rows_keep E.syn E.rows E1.rows := by
  refine ⟨_, delete_row_split E pre r post h, rfl, rfl, rfl, rfl, ?_⟩
  rw [h]
  exact rows_keep_erase _ _ _ _

theorem nl_rows_append (A B : List (List Char)) :
    nl_rows (A ++ B) = nl_rows A ++ nl_rows B := by
  induction A with
  | nil => rfl
  | cons a A ih => simp [nl_rows, ih]

theorem rows_split_multi (E : EditorConfig) (pre : List (List Char)) (s : List Char)
    (mid : List (List Char)) (e : List Char) (post : List (List Char))
    (hraw : E.raw = pre ++ s :: (mid ++ e :: post)) :
    ∃ pre1 rs mid1 re post1, E.rows = pre1 ++ rs :: (mid1 ++ re :: post1) ∧
      pre1.map EditorRow.data = pre ∧ rs.data = s ∧ mid1.map EditorRow.data = mid ∧
      re.data = e ∧ post1.map EditorRow.data = post ∧
      pre1.length = pre.length ∧ mid1.length = mid.length := by
  obtain ⟨pre1, rs, rest1, hrows, hpre, hs, hrest, hlen⟩ := raw_split E pre s _ hraw
  obtain ⟨mid1, tail1, h1, h2, h3⟩ := List.map_eq_append_iff.mp hrest
  obtain ⟨re, post1, h4, h5, h6⟩ := List.map_eq_cons_iff.mp h3
  refine ⟨pre1, rs, mid1, re, post1, by rw [hrows, h1, h4], hpre, hs, h2, h5, h6, hlen, ?_⟩
  rw [← h2, List.length_map]

theorem take_drop_full {α : Type} (l : List α) (k : Nat) :
    (l.drop k).take (l.length - k) = l.drop k :=
  List.take_of_length_le (by simp)

theorem drop_add_full {α : Type} (l : List α) (k : Nat) (h : k ≤ l.length) :
    l.drop (k + (l.length - k)) = [] := by
  rw [show k + (l.length - k) = l.length by omega, List.drop_length]

/-- The cut of a region that starts in one row and ends in a later one. -/
theorem do_cut_region_multi (E : EditorConfig) (pre : List (List Char)) (s : List Char)
    (mid : List (List Char)) (e : List Char) (post : List (List Char)) (sx ex : Nat)
    (hraw : E.raw = pre ++ s :: (mid ++ e :: post)) (hsx : sx ≤ s.length)
    (hex : ex ≤ e.length) :
    ∃ E1, do_cut_region E (sx : Int) (pre.length : Int) (ex : Int)
        ((pre.length + 1 + mid.length : Nat) : Int)
        = some (E1, s.drop sx ++ nl_rows mid ++ NL :: e.take ex) ∧
      E1.raw = (if pre = [] ∧ post = [] ∧ sx = 0 ∧ ex = e.length then []
        else pre ++ (s.take sx ++ e.drop ex) :: post) ∧
      E1.frame = E.frame ∧ rows_keep E.syn E.rows E1.rows := by
  obtain ⟨pre1, rs, mid1, re, post1, hrows, hpre, hs, hmid, he, hpost, hlen, hmlen⟩ :=
    rows_split_multi E pre s mid e post hraw
  rw [← hlen, ← hmlen]
  unfold do_cut_region
  by_cases hw : pre = [] ∧ post = [] ∧ sx = 0 ∧ ex = e.length
  · obtain ⟨hp1, hp2, ha, hb'⟩ := hw
    subst hp1 hp2 ha
    have hpre1 : pre1 = [] := by simpa using hpre
    have hpost1 : post1 = [] := by simpa using hpost
    subst hpre1 hpost1
    have hrows' : E.rows = (rs :: mid1) ++ [re] := by simpa using hrows
    rw [do_cut_is_whole_eq E (rs :: mid1) re hrows']
    have hdec : decide (((0 : Nat) : Int) = 0 ∧ ((([] : List EditorRow).length : Nat) : Int) = 0 ∧
        ((([] : List EditorRow).length + 1 + mid1.length : Nat) : Int)
          = (((rs :: mid1).length : Nat) : Int) ∧ (ex : Int) = re.len) = true := by
      simp [EditorRow.len, he, hb']
      omega
    rw [hdec]
    simp only [Option.some_bind, if_true]
    obtain ⟨E1, h1, h2, h3⟩ := do_cut_all_loop_zero ((rs :: mid1) ++ [re]) (by simp) E hrows'
    have hn : E.numrows.toNat = ((rs :: mid1) ++ [re]).length := by
      simp only [EditorConfig.numrows, hrows', Int.ofNat_eq_coe, Int.toNat_ofNat]
    rw [hn, h1]
    refine ⟨E1, ?_, ?_, h3, ?_⟩
    · simp [join_rows_cons, nl_rows_append, nl_rows, hs, hmid, he, hb']
    · simp [EditorConfig.raw, h2, hb']
    · rw [h2]; exact fun _ hx => absurd hx (List.not_mem_nil _)
  · have hne : pre1 ++ rs :: (mid1 ++ re :: post1) ≠ [] := by simp
    have hrows' : E.rows = (pre1 ++ rs :: (mid1 ++ re :: post1)).dropLast ++
        [(pre1 ++ rs :: (mid1 ++ re :: post1)).getLast hne] := by
      rw [List.dropLast_append_getLast]; exact hrows
    rw [do_cut_is_whole_eq E _ _ hrows']
    have hdec : decide ((sx : Int) = 0 ∧ (pre1.length : Int) = 0 ∧
        ((pre1.length + 1 + mid1.length : Nat) : Int)
          = (((pre1 ++ rs :: (mid1 ++ re :: post1)).dropLast.length : Nat) : Int) ∧
        (ex : Int) = ((pre1 ++ rs :: (mid1 ++ re :: post1)).getLast hne).len) = false := by
      rw [decide_eq_false_iff_not]
      rintro ⟨h1, h2, h3, h4⟩
      apply hw
      have hp0 : pre1 = [] := List.length_eq_zero.mp (by omega)
      subst hp0
      have hq0 : post1 = [] := by
        simp only [List.nil_append, List.length_nil, List.length_dropLast,
          List.length_cons, List.length_append] at h3
        exact List.length_eq_zero.mp (by omega)
      subst hq0
      have hlast : ([] ++ rs :: (mid1 ++ [re])).getLast hne = re := by
        simp [List.getLast_cons, List.getLast_append]
      rw [hlast] at h4
      simp only [EditorRow.len, Int.ofNat_eq_coe, he] at h4
      refine ⟨by simpa using hpre.symm, by simpa using hpost.symm, by omega, by omega⟩
    rw [hdec]
    simp only [Option.some_bind, Bool.false_eq_true, if_false]
    rw [if_neg (by push_cast; omega)]
    have hcount : (((pre1.length + 1 + mid1.length : Nat) : Int) - ((pre1.length : Int) + 1)).toNat
        = mid1.length := by omega
    have hq : E.get_row_at ((pre1.length + 1 + mid1.length : Nat) : Int)
        = some (pre1.length + 1 + mid1.length) :=
      get_row_at_nat E _ (by rw [hrows]; simp; omega)
    rw [hcount, hq, get_row_at_split E pre1 rs _ hrows]
    rcases Nat.eq_zero_or_pos sx with hsx0 | hsx0
    · subst hsx0
      rw [if_pos (by simp)]
      have hd := delete_row_split E pre1 rs (mid1 ++ re :: post1) hrows
      have hp := ptr_after_delete_gt E pre1.length (pre1.length + 1 + mid1.length)
        (by rw [hrows]; simp) (by omega)
      obtain ⟨E2, h2, hr2, hf2, hk2⟩ := do_cut_mid_loop_spec mid1
        (E.with_rows (pre1 ++ (mid1 ++ re :: post1))) pre1 (re :: post1) 0 rs.data (by simp)
      obtain ⟨E3, r1, h3, hr3, hd3, hf3, hk3⟩ := row_delete_range_any E2 pre1 re post1
        (by simpa using hr2) 0 ex (by rw [he]; omega)
      simp only [Nat.add_zero] at h2
      simp only [hd, hp, show pre1.length + 1 + mid1.length - 1 = pre1.length + mid1.length
        by omega, h2]
      rw [show ((0 : Nat) : Int) = 0 from rfl] at h3
      rw [h3]
      refine ⟨E3, ?_, ?_, ?_, ?_⟩
      · simp [hs, hmid, he]
      · have hw' : ¬(pre = [] ∧ post = [] ∧ True ∧ ex = e.length) := by simpa using hw
        rw [if_neg hw']
        simp [EditorConfig.raw, hr3, hd3, hpre, hpost, he]
      · rw [hf3, hf2]; rfl
      · have e2 : E2.syn = E.syn := by rw [frame_syn _ _ hf2]; rfl
        refine rows_keep_trans _ _ _ _ ?_ (by rw [← e2]; exact hk3)
        refine rows_keep_trans _ _ (pre1 ++ (mid1 ++ re :: post1)) _ ?_ hk2
        rw [hrows]
        exact rows_keep_erase _ _ _ _
    · rw [if_neg (by omega), deref_split E pre1 rs _ hrows]
      simp only [Option.some_bind]
      obtain ⟨E1, rs1, h1, hr1, hd1, hf1, hk1⟩ := row_delete_range_any E pre1 rs
        (mid1 ++ re :: post1) hrows sx (s.length - sx) (by rw [hs]; omega)
      have hl1 : rs.len - (sx : Int) = ((s.length - sx : Nat) : Int) := by
        simp only [EditorRow.len, Int.ofNat_eq_coe, hs]; omega
      rw [hl1, h1]
      simp only [Option.some_bind]
      obtain ⟨E2, h2, hr2, hf2, hk2⟩ := do_cut_mid_loop_spec mid1 E1 (pre1 ++ [rs1])
        (re :: post1) 0 ((rs.data.drop sx).take (s.length - sx)) (by simp [hr1])
      simp only [List.length_append, List.length_singleton, Nat.cast_add, Nat.cast_one,
        Nat.add_zero] at h2
      rw [h2]
      simp only
      have hr2' : E2.rows = (pre1 ++ [rs1]) ++ re :: post1 := by simpa using hr2
      have hderef := deref_split E2 (pre1 ++ [rs1]) re post1 hr2'
      simp only [List.length_append, List.length_singleton] at hderef
      rw [hderef]
      simp only [Option.some_bind]
      obtain ⟨E3, re1, h3, hr3, hd3, hf3, hk3⟩ := row_delete_range_any E2 (pre1 ++ [rs1]) re
        post1 hr2' ex (e.length - ex) (by rw [he]; omega)
      have hl3 : re.len - (ex : Int) = ((e.length - ex : Nat) : Int) := by
        simp only [EditorRow.len, Int.ofNat_eq_coe, he]; omega
      simp only [List.length_append, List.length_singleton] at h3
      rw [hl3, h3]
      simp only [Option.some_bind]
      have hr3' : E3.rows = pre1 ++ rs1 :: (re1 :: post1) := by simpa using hr3
      obtain ⟨E4, rs2, h4, hr4, hd4, hf4, _, _, hk4⟩ := row_append_string_any E3 pre1 rs1
        (re1 :: post1) hr3' ((re.data.drop ex).take (e.length - ex))
      rw [h4]
      simp only [Option.map_some']
      have hr4' : E4.rows = (pre1 ++ [rs2]) ++ re1 :: post1 := by simpa using hr4
      obtain ⟨E5, h5, hr5, hf5, _, _, hk5⟩ := delete_row_any E4 (pre1 ++ [rs2]) re1 post1 hr4'
      simp only [List.length_append, List.length_singleton, Nat.cast_add, Nat.cast_one] at h5
      rw [h5]
      have e1 : E1.syn = E.syn := frame_syn _ _ hf1
      have e2 : E2.syn = E.syn := by rw [frame_syn _ _ hf2]; exact e1
      have e3 : E3.syn = E.syn := by rw [frame_syn _ _ hf3]; exact e2
      have e4 : E4.syn = E.syn := by rw [frame_syn _ _ hf4]; exact e3
      refine ⟨E5, ?_, ?_, ?_, ?_⟩
      · simp only [Option.some.injEq, Prod.mk.injEq, true_and]
        rw [hd3, hs, he, hmid, take_drop_full, drop_add_full e ex hex]
        simp
      · rw [if_neg hw]
        simp only [EditorConfig.raw, hr5, List.map_append, List.map_cons, List.map_nil, hpre,
          hpost, hd4, hd1, hs, he, List.append_assoc, List.singleton_append,
          take_drop_full, drop_add_full s sx hsx, List.append_nil, List.nil_append]
      · rw [hf5, hf4, hf3, hf2, hf1]
      · refine rows_keep_trans _ _ _ _ ?_ (by rw [← e4]; exact hk5)
        refine rows_keep_trans _ _ _ _ ?_ (by rw [← e3]; exact hk4)
        refine rows_keep_trans _ _ _ _ ?_ (by rw [← e2]; exact hk3)
        refine rows_keep_trans _ _ _ _ hk1 (by rw [← e1]; exact hk2)

theorem do_cut_mark_first (E : EditorConfig)
    (h : E.my < E.cy ∨ (E.my = E.cy ∧ E.mx < E.cx)) :
    do_cut_cursor_mark_region E = (do_cut_region E E.mx E.my E.cx E.cy).map fun r =>
      copy_to_clipboard (r.1.set_cpos E.mx E.my) r.2 := by
  unfold do_cut_cursor_mark_region
  rcases h with h | ⟨h1, h2⟩
  · simp only [if_pos h]
  · rw [if_neg (by omega), if_neg (by omega), if_neg (by omega), if_pos h2, h1]

theorem do_cut_cursor_first (E : EditorConfig)
    (h : E.cy < E.my ∨ (E.cy = E.my ∧ E.cx < E.mx)) :
    do_cut_cursor_mark_region E = (do_cut_region E E.cx E.cy E.mx E.my).map fun r =>
      copy_to_clipboard (r.1.set_cpos E.cx E.cy) r.2 := by
  unfold do_cut_cursor_mark_region
  rcases h with h | ⟨h1, h2⟩
  · rw [if_neg (by omega), if_pos h]
  · rw [if_neg (by omega), if_neg (by omega), if_pos h2, h1]

theorem do_cut_same_pos (E : EditorConfig) (h1 : E.mx = E.cx) (h2 : E.my = E.cy) :
    do_cut_cursor_mark_region E = some E := by
  unfold do_cut_cursor_mark_region
  rw [if_neg (by omega), if_neg (by omega), if_neg (by omega), if_neg (by omega)]

/-- `do_cut_cursor_mark_region` when mark and cursor are the ordered pair
`(sx, sy)` before `(ex, ey)`, in either role. -/
theorem do_cut_ordered (E : EditorConfig) (sx sy ex ey : Int)
    (hmc : mark_cursor_are E sx sy ex ey) (hord : sy < ey ∨ (sy = ey ∧ sx < ex)) :
    do_cut_cursor_mark_region E = (do_cut_region E sx sy ex ey).map fun r =>
      copy_to_clipboard (r.1.set_cpos sx sy) r.2 := by
  rcases hmc with ⟨h1, h2, h3, h4⟩ | ⟨h1, h2, h3, h4⟩
  · rw [do_cut_mark_first E (by rw [h1, h2, h3, h4]; exact hord), h1, h2, h3, h4]
  · rw [do_cut_cursor_first E (by rw [h1, h2, h3, h4]; exact hord), h1, h2, h3, h4]

@[simp] theorem copy_to_clipboard_raw (E : EditorConfig) (t : List Char) :
    (copy_to_clipboard E t).raw = E.raw := rfl

@[simp] theorem copy_to_clipboard_clipboard (E : EditorConfig) (t : List Char) :
    (copy_to_clipboard E t).clipboard = t := rfl

@[simp] theorem copy_to_clipboard_cx (E : EditorConfig) (t : List Char) :
    (copy_to_clipboard E t).cx = E.cx := rfl

@[simp] theorem copy_to_clipboard_cy (E : EditorConfig) (t : List Char) :
    (copy_to_clipboard E t).cy = E.cy := rfl

@[simp] theorem copy_to_clipboard_rows (E : EditorConfig) (t : List Char) :
    (copy_to_clipboard E t).rows = E.rows := rfl

/-- The cut of a region inside one row, from mark and cursor. -/
theorem do_cut_same_row (E : EditorConfig) (pre : List (List Char)) (d : List Char)
    (post : List (List Char)) (a b : Nat) (hraw : E.raw = pre ++ d :: post)
    (hab : a < b) (hb : b ≤ d.length)
    (hmc : mark_cursor_are E (a : Int) (pre.length : Int) (b : Int) (pre.length : Int)) :
    ∃ E1, do_cut_cursor_mark_region E = some E1 ∧
      E1.clipboard = (d.drop a).take (b - a) ∧
      E1.raw = (if pre = [] ∧ post = [] ∧ a = 0 ∧ b = d.length then []
        else pre ++ (d.take a ++ d.drop b) :: post) ∧
      E1.cx = (a : Int) ∧ E1.cy = (pre.length : Int) ∧
      rows_keep E.syn E.rows E1.rows := by
  obtain ⟨E1, h1, h2, _, h4⟩ := do_cut_region_same_row E pre d post a b hraw hab hb
  rw [do_cut_ordered E _ _ _ _ hmc (Or.inr ⟨rfl, by omega⟩), h1]
  exact ⟨_, rfl, rfl, h2, rfl, rfl, h4⟩

/-- The cut of a region over several rows, from mark and cursor. -/
theorem do_cut_multi (E : EditorConfig) (pre : List (List Char)) (s : List Char)
    (mid : List (List Char)) (e : List Char) (post : List (List Char)) (sx ex : Nat)
    (hraw : E.raw = pre ++ s :: (mid ++ e :: post)) (hsx : sx ≤ s.length)
    (hex : ex ≤ e.length)
    (hmc : mark_cursor_are E (sx : Int) (pre.length : Int) (ex : Int)
      ((pre.length + 1 + mid.length : Nat) : Int)) :
    ∃ E1, do_cut_cursor_mark_region E = some E1 ∧
      E1.clipboard = s.drop sx ++ nl_rows mid ++ NL :: e.take ex ∧
      E1.raw = (if pre = [] ∧ post = [] ∧ sx = 0 ∧ ex = e.length then []
        else pre ++ (s.take sx ++ e.drop ex) :: post) ∧
      E1.cx = (sx : Int) ∧ E1.cy = (pre.length : Int) ∧
      rows_keep E.syn E.rows E1.rows := by
  obtain ⟨E1, h1, h2, _, h4⟩ := do_cut_region_multi E pre s mid e post sx ex hraw hsx hex
  rw [do_cut_ordered E _ _ _ _ hmc (Or.inl (by push_cast; omega)), h1]
  exact ⟨_, rfl, rfl, h2, rfl, rfl, h4⟩

/-- C9, on a concrete document: with rows `["abc", "def", "ghi"]`, the mark at
row 0 column 1 and the cursor at row 2 column 2, the cut leaves the single row
`"ai"` (not the two rows `"a"` and `"i"`) and the clipboard `"bc\ndef\ngh"`. -/
theorem do_cut_example_rows :
    (do_cut_cursor_mark_region
      (mk_editor (List.map (fun t => mk_row (String.toList t)) ["abc", "def", "ghi"]) 2 2 1 0)).map
      (fun E => (E.raw, E.clipboard)) =
    some ([String.toList "ai"],
      String.toList "bc" ++ NL :: String.toList "def" ++ NL :: String.toList "gh") := by
  decide

/-- C9 (amended): with rows `["abc", "def", "ghi"]`, the mark at row 0 column 1
and the cursor at row 2 column 2, `do_cut_cursor_mark_region` sets the clipboard
to `"bc\ndef\ngh"` and leaves the single remaining row `"ai"`: the rest of the
start row and the rest of the end row are merged. -/
theorem do_cut_example (E : EditorConfig)
    (hraw : E.raw = [String.toList "abc", String.toList "def", String.toList "ghi"])
    (hmx : E.mx = 1) (hmy : E.my = 0) (hcx : E.cx = 2) (hcy : E.cy = 2) :
    ∃ E1, do_cut_cursor_mark_region E = some E1 ∧
      E1.clipboard
        = String.toList "bc" ++ NL :: String.toList "def" ++ NL :: String.toList "gh" ∧
      E1.raw = [String.toList "ai"] := by
  obtain ⟨E1, h1, h2, h3, _, _, _⟩ := do_cut_multi E [] (String.toList "abc")
    [String.toList "def"] (String.toList "ghi") [] 1 2 hraw (by decide) (by decide)
    (Or.inl ⟨hmx, hmy, hcx, hcy⟩)
  refine ⟨E1, h1, ?_, ?_⟩
  · rw [h2]; decide
  · rw [h3]; decide

/-- Witness for C9 (amended). -/
theorem do_cut_example_witness :
    ∃ E1, do_cut_cursor_mark_region
        (mk_editor (List.map (fun t => mk_row (String.toList t)) ["abc", "def", "ghi"]) 2 2 1 0)
        = some E1 ∧
      E1.clipboard
        = String.toList "bc" ++ NL :: String.toList "def" ++ NL :: String.toList "gh" ∧
      E1.raw = [String.toList "ai"] :=
  do_cut_example _ rfl rfl rfl rfl rfl

/-! ### Cut followed by paste -/

theorem paste_lines_no_nl (d : List Char) (hd : NL ∉ d) (a t b : List Char) :
    paste_lines a (d ++ t) b = paste_lines (a ++ d) t b := by
  induction d generalizing a with
  | nil => simp
  | cons c d ih =>
    have hc : c ≠ NL := fun h => hd (by simp [h])
    have hd' : NL ∉ d := fun h => hd (List.mem_cons_of_mem _ h)
    simp only [List.cons_append, paste_lines, if_neg hc, List.append_eq]
    rw [ih hd']
    simp

theorem paste_lines_nl_rows (ds : List (List Char)) (hds : ∀ d ∈ ds, NL ∉ d) (a : List Char) :
    paste_lines a (nl_rows ds) [] = a :: ds := by
  induction ds generalizing a with
  | nil => simp [nl_rows, paste_lines]
  | cons d ds ih =>
    simp only [nl_rows, List.cons_append, paste_lines, if_true, List.append_eq]
    rw [paste_lines_no_nl d (hds d (List.mem_cons_self _ _)), List.nil_append,
      ih (fun x hx => hds x (List.mem_cons_of_mem _ hx))]

theorem paste_lines_join_rows (R : List (List Char)) (hne : R ≠ [])
    (hR : ∀ d ∈ R, NL ∉ d) : paste_lines [] (join_rows R) [] = R := by
  cases R with
  | nil => exact absurd rfl hne
  | cons s rest =>
    rw [join_rows_cons, paste_lines_no_nl s (hR s (List.mem_cons_self _ _)), List.nil_append,
      paste_lines_nl_rows rest (fun x hx => hR x (List.mem_cons_of_mem _ hx))]

theorem raw_nil_rows (E : EditorConfig) (h : E.raw = []) : E.rows = [] := by
  unfold EditorConfig.raw at h
  exact List.map_eq_nil_iff.mp h

theorem join_rows_ne_nil (R : List (List Char)) (hne : R ≠ []) (hnot : R ≠ [[]]) :
    join_rows R ≠ [] := by
  cases R with
  | nil => exact absurd rfl hne
  | cons s rest =>
    rw [join_rows_cons]
    cases rest with
    | nil =>
      simp only [nl_rows, List.append_nil]
      intro h; apply hnot; rw [h]
    | cons d ds => simp [nl_rows]

/-- The cut of the whole document: every row is removed and the clipboard holds
the rows joined by newline. -/
theorem do_cut_whole (E : EditorConfig) (R : List (List Char)) (hraw : E.raw = R)
    (hne : R ≠ []) (hnot : R ≠ [[]])
    (hmc : mark_cursor_are E 0 0 ((R.getLast hne).length : Int) ((R.length : Int) - 1)) :
    ∃ E1, do_cut_cursor_mark_region E = some E1 ∧ E1.clipboard = join_rows R ∧
      E1.rows = [] ∧ E1.cx = 0 ∧ E1.cy = 0 := by
  cases R with
  | nil => exact absurd rfl hne
  | cons s rest =>
    rcases List.eq_nil_or_concat rest with hrest | ⟨mid, e, hrest⟩
    · subst hrest
      have hs : s ≠ [] := fun h => hnot (by rw [h])
      have hpos : 0 < s.length := List.length_pos.mpr hs
      obtain ⟨E1, h1, h2, h3, h4, h5, _⟩ := do_cut_same_row E [] s [] 0 s.length
        (by simpa using hraw) hpos (le_refl _) (by simpa using hmc)
      refine ⟨E1, h1, ?_, ?_, by simpa using h4, by simpa using h5⟩
      · rw [h2]; simp [join_rows]
      · exact raw_nil_rows E1 (by rw [h3]; simp)
    · rw [List.concat_eq_append] at hrest
      subst hrest
      obtain ⟨E1, h1, h2, h3, h4, h5, _⟩ := do_cut_multi E [] s mid e [] 0 e.length
        (by simpa using hraw) (Nat.zero_le _) (le_refl _) (by
          have : (s :: (mid ++ [e])).getLast hne = e := by
            simp [List.getLast_cons, List.getLast_append]
          rw [this] at hmc
          simp only [List.length_cons, List.length_append, List.length_singleton,
            List.length_nil] at hmc ⊢
          have e1 : ((mid.length + 1 + 1 : Nat) : Int) - 1 = ((0 + 1 + mid.length : Nat) : Int) := by
            omega
          rw [e1] at hmc
          simpa using hmc)
      refine ⟨E1, h1, ?_, ?_, by simpa using h4, by simpa using h5⟩
      · rw [h2, join_rows_cons, nl_rows_append]; simp [nl_rows]
      · exact raw_nil_rows E1 (by rw [h3]; simp)

/-- C6: for a document whose rows contain no newline character and which is not
a single empty row, with the mark at row 0 column 0 and the cursor at the end
of the last row (or the two swapped), `do_cut_cursor_mark_region` followed by
`do_paste_from_clipboard` yields exactly the original sequence of raw row
texts. -/
theorem cut_paste_whole_document (E : EditorConfig) (R : List (List Char))
    (hraw : E.raw = R) (hne : R ≠ []) (hnot : R ≠ [[]]) (hnl : ∀ d ∈ R, NL ∉ d)
    (hmc : mark_cursor_are E 0 0 ((R.getLast hne).length : Int) ((R.length : Int) - 1)) :
    ∃ E1 E2, do_cut_cursor_mark_region E = some E1 ∧
      do_paste_from_clipboard E1 = some E2 ∧ E2.raw = R := by
  obtain ⟨E1, h1, h2, h3, h4, h5⟩ := do_cut_whole E R hraw hne hnot hmc
  obtain ⟨E2, h6, h7, _⟩ := do_paste_loop_empty (join_rows R) (join_rows_ne_nil R hne hnot)
    E1 h3 h5 h4
  refine ⟨E1, E2, h1, ?_, ?_⟩
  · unfold do_paste_from_clipboard
    rw [h2]; exact h6
  · rw [h7, paste_lines_join_rows R hne hnl]

/-- Witness for C6: the document `["ab", "c"]`. -/
theorem cut_paste_whole_document_witness :
    ∃ E1 E2, do_cut_cursor_mark_region
        (mk_editor [mk_row (String.toList "ab"), mk_row (String.toList "c")] 1 1 0 0) = some E1 ∧
      do_paste_from_clipboard E1 = some E2 ∧
      E2.raw = [String.toList "ab", String.toList "c"] :=
  cut_paste_whole_document
    (mk_editor [mk_row (String.toList "ab"), mk_row (String.toList "c")] 1 1 0 0)
    [String.toList "ab", String.toList "c"] rfl (by decide) (by decide) (by decide)
    (Or.inl ⟨rfl, rfl, rfl, rfl⟩)

/-- The round trip of a cut within one row whose cut text holds no newline:
with the mark at `(a, r)` and the cursor at `(b, r)` (or the two swapped),
`0 ≤ a < b ≤ raw_length(row r)`, the cut followed immediately by the paste
leaves every row's raw text as it was, and the clipboard holds the characters
`[a, b)` of row `r`. -/
theorem cut_paste_range_no_nl (E : EditorConfig) (pre : List (List Char)) (d : List Char)
    (post : List (List Char)) (a b : Nat) (hraw : E.raw = pre ++ d :: post)
    (hab : a < b) (hb : b ≤ d.length) (hnl : NL ∉ (d.drop a).take (b - a))
    (hmc : mark_cursor_are E (a : Int) (pre.length : Int) (b : Int) (pre.length : Int)) :
    ∃ E1 E2, do_cut_cursor_mark_region E = some E1 ∧
      E1.clipboard = (d.drop a).take (b - a) ∧
      do_paste_from_clipboard E1 = some E2 ∧ E2.raw = E.raw ∧
      E2.clipboard = (d.drop a).take (b - a) := by
  obtain ⟨E1, h1, h2, h3, h4, h5, _⟩ := do_cut_same_row E pre d post a b hraw hab hb hmc
  have hd : d.take a ++ ((d.drop a).take (b - a) ++ d.drop b) = d := by
    have h6 : (d.drop a).take (b - a) ++ d.drop b = d.drop a := by
      have := List.take_append_drop (b - a) (d.drop a)
      rw [List.drop_drop, show a + (b - a) = b by omega] at this
      exact this
    rw [h6, List.take_append_drop]
  have hpl : ∀ x y : List Char, paste_lines x ((d.drop a).take (b - a)) y
      = [x ++ (d.drop a).take (b - a) ++ y] := by
    intro x y
    have := paste_lines_no_nl _ hnl x [] y
    rw [List.append_nil] at this
    rw [this]; rfl
  by_cases hw : pre = [] ∧ post = [] ∧ a = 0 ∧ b = d.length
  · rw [if_pos hw] at h3
    obtain ⟨hp1, hp2, ha, hb'⟩ := hw
    have hne : (d.drop a).take (b - a) ≠ [] := by
      intro h
      have := congrArg List.length h
      simp only [List.length_take, List.length_drop, List.length_nil] at this
      omega
    obtain ⟨E2, h6, h7, _, _, h8, _⟩ := do_paste_loop_empty _ hne E1 (raw_nil_rows E1 h3)
      (by rw [h5, hp1]; rfl) (by rw [h4, ha]; rfl)
    refine ⟨E1, E2, h1, h2, ?_, ?_, ?_⟩
    · unfold do_paste_from_clipboard
      rw [h2]; exact h6
    · rw [h7, hpl, hraw, hp1, hp2]
      subst ha
      simp only [List.nil_append, List.append_nil, List.drop_zero, Nat.sub_zero, hb',
        List.take_length]
    · rw [frame_clipboard _ _ h8, h2]
  · rw [if_neg hw] at h3
    obtain ⟨E2, h6, h7, _, _, h8, _⟩ := do_paste_loop_raw ((d.drop a).take (b - a)) E1 pre
      (d.take a) (d.drop b) post h3 h5 (by rw [h4]; simp; omega)
    refine ⟨E1, E2, h1, h2, ?_, ?_, ?_⟩
    · unfold do_paste_from_clipboard
      rw [h2]; exact h6
    · rw [h7, hpl, hraw, List.append_assoc (d.take a), hd]
      simp
    · rw [frame_clipboard _ _ h8, h2]

/-! ### The cut in terms of the joined text -/

theorem join_rows_split (pre : List (List Char)) (d : List Char) (post : List (List Char)) :
    join_rows (pre ++ d :: post) = rows_nl pre ++ d ++ nl_rows post := by
  induction pre with
  | nil => simp [join_rows_cons, rows_nl]
  | cons a pre ih =>
    have : (a :: pre ++ d :: post) = a :: (pre ++ d :: post) := rfl
    rw [this, join_rows_cons]
    cases hp : pre ++ d :: post with
    | nil => simp at hp
    | cons b rest =>
      rw [hp, join_rows_cons] at ih
      simp only [nl_rows, rows_nl, List.append_assoc, List.cons_append]
      rw [ih]
      simp

theorem pos_offset_split (pre : List (List Char)) (rest : List (List Char)) (x : Nat) :
    pos_offset (pre ++ rest) x pre.length = (rows_nl pre).length + x := by
  induction pre with
  | nil => cases rest <;> simp [pos_offset, rows_nl]
  | cons a pre ih =>
    show pos_offset (a :: (pre ++ rest)) x (pre.length + 1) = _
    simp only [pos_offset, ih, rows_nl, List.length_append, List.length_cons]
    omega

theorem take_drop_append {α : Type} (l X : List α) (k : Nat) :
    l.take k ++ (l.drop k ++ X) = l ++ X := by
  rw [← List.append_assoc, List.take_append_drop]

theorem rows_nl_length (X : List (List Char)) : (rows_nl X).length = (nl_rows X).length := by
  induction X with
  | nil => rfl
  | cons a X ih => simp [rows_nl, nl_rows, ih]; omega

theorem rows_nl_append (A B : List (List Char)) :
    rows_nl (A ++ B) = rows_nl A ++ rows_nl B := by
  induction A with
  | nil => rfl
  | cons a A ih => simp [rows_nl, ih]

theorem text_split {α : Type} (A M B : List α) (so eo : Nat) (hA : A.length = so)
    (hM : A.length + M.length = eo) :
    ((A ++ M ++ B).drop so).take (eo - so) = M ∧
    (A ++ M ++ B).take so ++ (A ++ M ++ B).drop eo = A ++ B := by
  subst hA hM
  refine ⟨?_, ?_⟩
  · rw [List.append_assoc, List.drop_left' rfl, Nat.add_sub_cancel_left, List.take_left' rfl]
  · rw [List.append_assoc, List.take_left' rfl, ← List.append_assoc,
      List.drop_left' (by simp)]

theorem getElem?_split {α : Type} (R : List α) (y : Nat) (d : α) (h : R[y]? = some d) :
    R = R.take y ++ d :: R.drop (y + 1) ∧ (R.take y).length = y := by
  have hy : y < R.length := getElem?_isSome_lt R y d h
  have hd : R[y] = d := by
    rw [List.getElem?_eq_getElem hy] at h
    exact Option.some.inj h
  refine ⟨?_, by simp; omega⟩
  rw [← hd, ← List.drop_eq_getElem_cons hy, List.take_append_drop]

/-- C8: for mark and cursor at two distinct valid positions, ordered by row then
column as `(sx, sy)` before `(ex, ey)`, with `T` the raw rows joined by newline
and `so < eo` the offsets of the two positions in `T`: after
`do_cut_cursor_mark_region` the clipboard is `T[so, eo)`, the remaining rows
joined by newline are `T` without `T[so, eo)`, and the cursor is at the region
start; when mark and cursor are the same position nothing changes. -/
theorem do_cut_joined_text (E : EditorConfig) (sx sy ex ey : Nat)
    (hs : valid_pos E.raw sx sy) (he : valid_pos E.raw ex ey)
    (hord : sy < ey ∨ (sy = ey ∧ sx < ex))
    (hmc : mark_cursor_are E (sx : Int) (sy : Int) (ex : Int) (ey : Int)) :
    pos_offset E.raw sx sy < pos_offset E.raw ex ey ∧
    (∃ E1, do_cut_cursor_mark_region E = some E1 ∧
      E1.clipboard = ((join_rows E.raw).drop (pos_offset E.raw sx sy)).take
        (pos_offset E.raw ex ey - pos_offset E.raw sx sy) ∧
      join_rows E1.raw = (join_rows E.raw).take (pos_offset E.raw sx sy) ++
        (join_rows E.raw).drop (pos_offset E.raw ex ey) ∧
      E1.cx = (sx : Int) ∧ E1.cy = (sy : Int)) ∧
    (∀ E0 : EditorConfig, E0.mx = E0.cx → E0.my = E0.cy →
      do_cut_cursor_mark_region E0 = some E0) := by
  refine ⟨?_, ?_, fun E0 h1 h2 => do_cut_same_pos E0 h1 h2⟩
  · obtain ⟨ds, hds, hsx⟩ := hs
    obtain ⟨de, hde, hex⟩ := he
    obtain ⟨h1, h2⟩ := getElem?_split E.raw sy ds hds
    obtain ⟨h3, h4⟩ := getElem?_split E.raw ey de hde
    have o1 := pos_offset_split (E.raw.take sy) (ds :: E.raw.drop (sy + 1)) sx
    have o2 := pos_offset_split (E.raw.take ey) (de :: E.raw.drop (ey + 1)) ex
    rw [← h1, h2] at o1
    rw [← h3, h4] at o2
    rw [o1, o2]
    rcases hord with h | ⟨h, h'⟩
    · have : E.raw.take ey = E.raw.take sy ++ ds :: (E.raw.take ey).drop (sy + 1) := by
        have h5 : (E.raw.take ey)[sy]? = some ds := by
          rw [List.getElem?_take_of_lt h]; exact hds
        exact (getElem?_split _ sy ds h5).1.trans (by rw [List.take_take, Nat.min_eq_left (by omega)])
      rw [this, rows_nl_append]
      simp only [rows_nl, List.length_append, List.length_cons]
      omega
    · subst h; omega
  · obtain ⟨ds, hds, hsx⟩ := hs
    obtain ⟨de, hde, hex⟩ := he
    obtain ⟨h1, h2⟩ := getElem?_split E.raw sy ds hds
    rcases hord with h | ⟨h, h'⟩
    · -- several rows
      have h5 : (E.raw.drop (sy + 1))[ey - (sy + 1)]? = some de := by
        rw [List.getElem?_drop, show sy + 1 + (ey - (sy + 1)) = ey by omega]; exact hde
      obtain ⟨h6, h7⟩ := getElem?_split _ _ de h5
      set pre := E.raw.take sy with hpre
      set mid := (E.raw.drop (sy + 1)).take (ey - (sy + 1)) with hmid
      set post := (E.raw.drop (sy + 1)).drop (ey - (sy + 1) + 1) with hpost
      have hraw : E.raw = pre ++ ds :: (mid ++ de :: post) := by
        rw [← h6]; exact h1
      have hey : ey = pre.length + 1 + mid.length := by omega
      have hmc' : mark_cursor_are E (sx : Int) (pre.length : Int) (ex : Int)
          ((pre.length + 1 + mid.length : Nat) : Int) := by
        rw [← hey, h2]; exact hmc
      obtain ⟨E1, c1, c2, c3, c4, c5, _⟩ := do_cut_multi E pre ds mid de post sx ex hraw hsx hex
        hmc'
      have o1 := pos_offset_split pre (ds :: (mid ++ de :: post)) sx
      have o2 := pos_offset_split (pre ++ ds :: mid) (de :: post) ex
      have hraw2 : E.raw = (pre ++ ds :: mid) ++ de :: post := by rw [hraw]; simp
      rw [← hraw, h2] at o1
      rw [← hraw2, show (pre ++ ds :: mid).length = ey by simp; omega] at o2
      have hT : join_rows E.raw = (rows_nl pre ++ ds.take sx) ++
          (ds.drop sx ++ nl_rows mid ++ NL :: de.take ex) ++ (de.drop ex ++ nl_rows post) := by
        rw [hraw, join_rows_split, nl_rows_append]
        simp only [nl_rows, List.append_assoc, List.cons_append, take_drop_append]
      have hlen : (rows_nl (pre ++ ds :: mid)).length
          = (rows_nl pre).length + ds.length + 1 + (nl_rows mid).length := by
        rw [rows_nl_append]
        simp only [rows_nl, List.length_append, List.length_cons, rows_nl_length]
        omega
      obtain ⟨t1, t2⟩ := text_split (rows_nl pre ++ ds.take sx)
        (ds.drop sx ++ nl_rows mid ++ NL :: de.take ex) (de.drop ex ++ nl_rows post)
        (pos_offset E.raw sx sy) (pos_offset E.raw ex ey)
        (by rw [o1]; simp; omega)
        (by rw [o2, hlen]; simp; omega)
      rw [← hT] at t1 t2
      refine ⟨E1, c1, by rw [c2, t1], ?_, c4, by rw [c5, h2]⟩
      rw [t2, c3]
      split_ifs with hw
      · obtain ⟨w1, w2, w3, w4⟩ := hw
        rw [w1, w2, w3, w4]
        simp [join_rows, rows_nl, nl_rows]
      · rw [join_rows_split]; simp
    · -- one row
      subst h
      have hde' : de = ds := by
        rw [hds] at hde; exact (Option.some.inj hde).symm
      subst hde'
      set pre := E.raw.take sy with hpre
      set post := E.raw.drop (sy + 1) with hpost
      obtain ⟨E1, c1, c2, c3, c4, c5, _⟩ := do_cut_same_row E pre de post sx ex h1 h' hex
        (by rw [h2]; exact hmc)
      have o1 := pos_offset_split pre (de :: post) sx
      have o2 := pos_offset_split pre (de :: post) ex
      rw [← h1, h2] at o1 o2
      have hT : join_rows E.raw = (rows_nl pre ++ de.take sx) ++
          ((de.drop sx).take (ex - sx)) ++ (de.drop ex ++ nl_rows post) := by
        conv_lhs => rw [h1]
        rw [join_rows_split]
        have h6 : (de.drop sx).take (ex - sx) ++ de.drop ex = de.drop sx := by
          have := List.take_append_drop (ex - sx) (de.drop sx)
          rw [List.drop_drop, show sx + (ex - sx) = ex by omega] at this
          exact this
        have h7 : de.take sx ++ ((de.drop sx).take (ex - sx) ++ de.drop ex) = de := by
          rw [h6, List.take_append_drop]
        conv_lhs => rw [← h7]
        simp
      obtain ⟨t1, t2⟩ := text_split (rows_nl pre ++ de.take sx)
        ((de.drop sx).take (ex - sx)) (de.drop ex ++ nl_rows post)
        (pos_offset E.raw sx sy) (pos_offset E.raw ex sy)
        (by rw [o1]; simp; omega)
        (by rw [o2]; simp; omega)
      rw [← hT] at t1 t2
      refine ⟨E1, c1, by rw [c2, t1], ?_, c4, by rw [c5, h2]⟩
      rw [t2, c3]
      split_ifs with hw
      · obtain ⟨w1, w2, w3, w4⟩ := hw
        rw [w1, w2, w3, w4]
        simp [join_rows, rows_nl, nl_rows]
      · rw [join_rows_split]; simp

/-- Witness for C8: rows `["abc", "def", "ghi"]`, mark at row 0 column 1, cursor
at row 2 column 2. -/
theorem do_cut_joined_text_witness :
    ∃ E1, do_cut_cursor_mark_region
        (mk_editor (List.map (fun t => mk_row (String.toList t)) ["abc", "def", "ghi"]) 2 2 1 0)
        = some E1 ∧
      E1.clipboard = ((join_rows (mk_editor (List.map (fun t => mk_row (String.toList t))
          ["abc", "def", "ghi"]) 2 2 1 0).raw).drop 1).take (10 - 1) ∧
      E1.cx = 1 ∧ E1.cy = 0 := by
  obtain ⟨E1, h1, h2, _, h4, h5⟩ := (do_cut_joined_text
    (mk_editor (List.map (fun t => mk_row (String.toList t)) ["abc", "def", "ghi"]) 2 2 1 0)
    1 0 2 2 ⟨String.toList "abc", rfl, by decide⟩ ⟨String.toList "ghi", rfl, by decide⟩
    (Or.inl (by decide)) (Or.inl ⟨rfl, rfl, rfl, rfl⟩)).2.1
  exact ⟨E1, h1, h2, h4, h5⟩

/-! ### Deletion of characters and line joins -/

theorem row_delete_range_cur (E : EditorConfig) (pre : List EditorRow) (r : EditorRow)
    (post : List EditorRow) (h : E.rows = pre ++ r :: post) (k n : Nat)
    (hk : k + n ≤ r.data.length) :
    ∃ E1 r1, row_delete_range E (some pre.length) (k : Int) (n : Int)
        = some (E1, (r.data.drop k).take n) ∧
      E1.rows = pre ++ r1 :: post ∧ r1.data = r.data.take k ++ r.data.drop (k + n) ∧
      E1.frame = E.frame ∧ E1.cx = E.cx ∧ E1.cy = E.cy ∧
      rows_keep E.syn E.rows E1.rows := by
  rcases Nat.eq_zero_or_pos n with hn | hn
  · subst hn
    refine ⟨E, r, ?_, h, by simp, rfl, rfl, rfl, rows_keep_refl _ _⟩
    rw [Nat.cast_zero, row_delete_range_zero E pre r post h]
    simp
  · obtain ⟨r1, hf, hres⟩ := row_delete_range_split E pre r post h k n hn hk
    refine ⟨_, r1, hres, rfl, hf.1, rfl, rfl, rfl, ?_⟩
    rw [h]
    exact rows_keep_split _ _ _ _ _ (Or.inr ⟨_, hf⟩)

theorem collapse_raw_of_ne (R : List (List Char)) (h : R ≠ [[]]) : collapse_raw R = R := by
  unfold collapse_raw
  rw [if_neg h]

theorem delete_empty_row_spec (E : EditorConfig) (pre : List EditorRow) (r : EditorRow)
    (post : List EditorRow) (hrows : E.rows = pre ++ r :: post)
    (hcy : E.cy = (pre.length : Int)) :
    ∃ E1, delete_empty_row_if_file_empty E = some E1 ∧ E1.raw = collapse_raw E.raw ∧
      E1.cx = E.cx ∧ E1.cy = E.cy ∧ E1.frame = E.frame ∧
      rows_keep E.syn E.rows E1.rows := by
  unfold delete_empty_row_if_file_empty
  by_cases h1 : E.numrows = 1
  · have hg : E.get_row_at E.cy = some pre.length := by
      rw [hcy]; exact get_row_at_split E pre r post hrows
    rw [if_pos h1, hg, deref_split E pre r post hrows]
    have hlen : pre.length + 1 + post.length = 1 := by
      have : (E.rows.length : Int) = 1 := h1
      rw [hrows] at this
      simp only [List.length_append, List.length_cons] at this
      omega
    have hp : pre = [] := List.length_eq_zero.mp (by omega)
    have hq : post = [] := List.length_eq_zero.mp (by omega)
    subst hp hq
    simp only [Option.map_some']
    by_cases h2 : r.len = 0
    · rw [if_pos h2]
      have hd := delete_row_split E [] r [] hrows
      simp only [List.length_nil, Nat.cast_zero, List.append_nil] at hd
      rw [hd]
      have hr : r.data = [] := by
        simp only [EditorRow.len, Int.ofNat_eq_coe] at h2
        exact List.length_eq_zero.mp (by omega)
      refine ⟨_, rfl, ?_, rfl, rfl, rfl, ?_⟩
      · simp [EditorConfig.raw, hrows, hr, collapse_raw]
      · exact fun _ hx => absurd hx (List.not_mem_nil _)
    · rw [if_neg h2]
      refine ⟨E, rfl, ?_, rfl, rfl, rfl, rows_keep_refl _ _⟩
      rw [collapse_raw_of_ne]
      simp only [EditorConfig.raw, hrows, List.nil_append, List.map_cons, List.map_nil]
      intro h3
      apply h2
      simp only [List.cons.injEq, and_true] at h3
      simp [EditorRow.len, h3]
  · rw [if_neg h1]
    refine ⟨E, rfl, ?_, rfl, rfl, rfl, rows_keep_refl _ _⟩
    rw [collapse_raw_of_ne]
    intro h3
    apply h1
    have := congrArg List.length h3
    simp only [EditorConfig.raw, List.length_map, List.length_singleton] at this
    simp [EditorConfig.numrows, this]

/-- `do_delete_left_char` with the cursor inside or at the end of a row, at
column `k > 0`. -/
theorem do_delete_left_char_mid (E : EditorConfig) (pre : List (List Char)) (d : List Char)
    (post : List (List Char)) (k : Nat) (hraw : E.raw = pre ++ d :: post)
    (hcy : E.cy = (pre.length : Int)) (hcx : E.cx = (k : Int)) (hk0 : 0 < k)
    (hk : k ≤ d.length) :
    ∃ E1, do_delete_left_char E = some E1 ∧
      E1.raw = collapse_raw (pre ++ (d.take (k - 1) ++ d.drop k) :: post) ∧
      E1.cx = (k : Int) - 1 ∧ E1.cy = (pre.length : Int) ∧ E1.frame = E.frame ∧
      rows_keep E.syn E.rows E1.rows := by
  obtain ⟨pre1, r, post1, hrows, hpre, hd, hpost, hlen⟩ := raw_split E pre d post hraw
  rw [← hlen] at hcy ⊢
  unfold do_delete_left_char
  rw [if_neg (by rw [hcx]; omega)]
  simp only
  rw [if_pos (by rw [hcx]; omega), hcy, get_row_at_split E pre1 r post1 hrows, hcx]
  obtain ⟨E1, r1, h1, hr1, hd1, hf1, hx1, hy1, hk1⟩ := row_delete_range_cur E pre1 r post1 hrows
    (k - 1) 1 (by rw [hd]; omega)
  rw [show ((k : Int) - 1) = ((k - 1 : Nat) : Int) by omega, show (1 : Int) = ((1 : Nat) : Int) from rfl,
    h1]
  simp only [Option.map_some', Option.some_bind]
  obtain ⟨E2, h2, hr2, hx2, hy2, hf2, hk2⟩ := delete_empty_row_spec
    (E1.set_cpos (E1.cx - 1) E1.cy) pre1 r1 post1 hr1 (by simp [hy1, hcy])
  refine ⟨E2, h2, ?_, ?_, ?_, ?_, ?_⟩
  · rw [hr2]
    simp [EditorConfig.raw, hr1, hd1, hpre, hpost, hd, show k - 1 + 1 = k by omega]
  · rw [hx2]; simp only [set_cpos_cx, hx1, hcx]; omega
  · rw [hy2]; simp [hy1, hcy]
  · rw [hf2]; exact hf1
  · exact rows_keep_trans _ _ _ _ hk1 (by
      have : E1.syn = E.syn := frame_syn _ _ hf1
      rw [← this]; exact hk2)

/-- `do_delete_left_char` with the cursor at column 0 of a row that is not the
first: the row is joined to the previous one. -/
theorem do_delete_left_char_join (E : EditorConfig) (pre : List (List Char)) (q d : List Char)
    (post : List (List Char)) (hraw : E.raw = pre ++ q :: d :: post)
    (hcy : E.cy = (pre.length : Int) + 1) (hcx : E.cx = 0) :
    ∃ E1, do_delete_left_char E = some E1 ∧
      E1.raw = collapse_raw (pre ++ (q ++ d) :: post) ∧
      E1.cx = (q.length : Int) ∧ E1.cy = (pre.length : Int) ∧ E1.frame = E.frame ∧
      rows_keep E.syn E.rows E1.rows := by
  obtain ⟨pre1, rq, rest1, hrows, hpre, hq, hrest, hlen⟩ := raw_split E pre q _ hraw
  obtain ⟨rd, post1, h4, hd, hpost⟩ := List.map_eq_cons_iff.mp hrest
  subst h4
  rw [← hlen] at hcy ⊢
  have hrows2 : E.rows = (pre1 ++ [rq]) ++ rd :: post1 := by rw [hrows]; simp
  unfold do_delete_left_char
  rw [if_neg (by rw [hcy]; omega)]
  simp only
  rw [if_neg (by rw [hcx]; omega), hcy]
  have hg1 : E.get_row_at ((pre1.length : Int) + 1) = some (pre1.length + 1) := by
    have := get_row_at_split E (pre1 ++ [rq]) rd post1 hrows2
    simpa using this
  rw [show (pre1.length : Int) + 1 - 1 = (pre1.length : Int) by omega,
    get_row_at_split E pre1 rq _ hrows, deref_split E pre1 rq _ hrows, hg1]
  simp only [Option.some_bind]
  have hderef : (E.set_cpos rq.len (pre1.length : Int)).deref (some (pre1.length + 1))
      = some rd := by
    have := deref_split (E.set_cpos rq.len (pre1.length : Int)) (pre1 ++ [rq]) rd post1 hrows2
    simpa using this
  rw [hderef]
  simp only [Option.some_bind, set_cpos_cy]
  rw [get_row_at_split (E.set_cpos rq.len (pre1.length : Int)) pre1 rq _ hrows]
  obtain ⟨E1, rq1, h1, hr1, hd1, hf1, hx1, hy1, hk1⟩ := row_append_string_any
    (E.set_cpos rq.len (pre1.length : Int)) pre1 rq (rd :: post1) hrows rd.data
  rw [h1]
  simp only [Option.map_some', Option.some_bind]
  have hr1' : E1.rows = (pre1 ++ [rq1]) ++ rd :: post1 := by rw [hr1]; simp
  obtain ⟨E2, h2, hr2, hf2, hx2, hy2, hk2⟩ := delete_row_any E1 (pre1 ++ [rq1]) rd post1 hr1'
  have hcy1 : E1.cy + 1 = (((pre1 ++ [rq1]).length : Nat) : Int) := by
    rw [hy1]; simp
  rw [hcy1, h2]
  simp only
  obtain ⟨E3, h3, hr3, hx3, hy3, hf3, hk3⟩ := delete_empty_row_spec E2 pre1 rq1 post1
    (by rw [hr2]; simp) (by rw [hy2, hy1]; simp)
  have e1 : E1.syn = E.syn := by rw [frame_syn _ _ hf1]; rfl
  have e2 : E2.syn = E.syn := by rw [frame_syn _ _ hf2]; exact e1
  refine ⟨E3, h3, ?_, ?_, ?_, ?_, ?_⟩
  · rw [hr3]
    simp [EditorConfig.raw, hr2, hd1, hpre, hpost, hq, hd]
  · rw [hx3, hx2, hx1]; simp [EditorRow.len, hq]
  · rw [hy3, hy2, hy1]; simp
  · rw [hf3, hf2, hf1]; rfl
  · refine rows_keep_trans _ _ _ _ ?_ (by rw [← e2]; exact hk3)
    refine rows_keep_trans _ _ _ _ ?_ (by rw [← e1]; exact hk2)
    exact hk1

theorem do_delete_current_char_empty (E : EditorConfig) (h : E.rows = []) :
    do_delete_current_char E = some E := by
  unfold do_delete_current_char
  have : E.get_row_at E.cy = none := by
    unfold EditorConfig.get_row_at EditorConfig.numrows
    rw [if_pos]
    simp only [h, List.length_nil, Int.ofNat_eq_coe, Nat.cast_zero]
    omega
  simp only [this, EditorConfig.deref, Option.none_bind]

/-- `do_delete_current_char` with the cursor before a character of the row. -/
theorem do_delete_current_char_mid (E : EditorConfig) (pre : List (List Char)) (d : List Char)
    (post : List (List Char)) (k : Nat) (hraw : E.raw = pre ++ d :: post)
    (hcy : E.cy = (pre.length : Int)) (hcx : E.cx = (k : Int)) (hk : k < d.length) :
    ∃ E1, do_delete_current_char E = some E1 ∧
      E1.raw = collapse_raw (pre ++ (d.take k ++ d.drop (k + 1)) :: post) ∧
      E1.cx = (k : Int) ∧ E1.cy = (pre.length : Int) ∧ E1.frame = E.frame ∧
      rows_keep E.syn E.rows E1.rows := by
  obtain ⟨pre1, r, post1, hrows, hpre, hd, hpost, hlen⟩ := raw_split E pre d post hraw
  rw [← hlen] at hcy ⊢
  unfold do_delete_current_char
  have hg : E.get_row_at E.cy = some pre1.length := by
    rw [hcy]; exact get_row_at_split E pre1 r post1 hrows
  simp only [hg, deref_split E pre1 r post1 hrows]
  rw [if_neg (by rw [hcx]; simp only [EditorRow.len, Int.ofNat_eq_coe, hd]; omega)]
  obtain ⟨E1, r1, h1, hr1, hd1, hf1, hx1, hy1, hk1⟩ := row_delete_range_cur E pre1 r post1 hrows
    k 1 (by rw [hd]; omega)
  have h1' : row_delete_range E (some pre1.length) E.cx 1
      = some (E1, (r.data.drop k).take 1) := by
    rw [hcx]; exact h1
  rw [h1']
  simp only [Option.map_some', Option.some_bind]
  obtain ⟨E2, h2, hr2, hx2, hy2, hf2, hk2⟩ := delete_empty_row_spec E1 pre1 r1 post1 hr1
    (by rw [hy1, hcy])
  refine ⟨E2, h2, ?_, by rw [hx2, hx1, hcx], by rw [hy2, hy1, hcy], by rw [hf2, hf1], ?_⟩
  · rw [hr2]
    simp [EditorConfig.raw, hr1, hd1, hpre, hpost, hd]
  · exact rows_keep_trans _ _ _ _ hk1 (by
      have : E1.syn = E.syn := frame_syn _ _ hf1
      rw [← this]; exact hk2)

/-- `do_delete_current_char` with the cursor at the end of a row that has a
successor: the next row is joined to it. -/
theorem do_delete_current_char_join (E : EditorConfig) (pre : List (List Char))
    (d n : List Char) (post : List (List Char)) (hraw : E.raw = pre ++ d :: n :: post)
    (hcy : E.cy = (pre.length : Int)) (hcx : E.cx = (d.length : Int)) :
    ∃ E1, do_delete_current_char E = some E1 ∧
      E1.raw = collapse_raw (pre ++ (d ++ n) :: post) ∧
      E1.cx = (d.length : Int) ∧ E1.cy = (pre.length : Int) ∧ E1.frame = E.frame ∧
      rows_keep E.syn E.rows E1.rows := by
  obtain ⟨pre1, r, rest1, hrows, hpre, hd, hrest, hlen⟩ := raw_split E pre d _ hraw
  obtain ⟨rn, post1, h4, hn, hpost⟩ := List.map_eq_cons_iff.mp hrest
  subst h4
  rw [← hlen] at hcy ⊢
  have hrows2 : E.rows = (pre1 ++ [r]) ++ rn :: post1 := by rw [hrows]; simp
  unfold do_delete_current_char
  have hg : E.get_row_at E.cy = some pre1.length := by
    rw [hcy]; exact get_row_at_split E pre1 r _ hrows
  simp only [hg, deref_split E pre1 r _ hrows]
  rw [if_pos (by rw [hcx]; simp [EditorRow.len, hd])]
  rw [if_pos (by
    simp only [EditorConfig.lastrow_idx, hrows, hcy, List.length_append, List.length_cons,
      Int.ofNat_eq_coe]
    push_cast; omega)]
  have hg1 : E.get_row_at (E.cy + 1) = some (pre1.length + 1) := by
    rw [hcy]
    have := get_row_at_split E (pre1 ++ [r]) rn post1 hrows2
    simpa using this
  have hderef : E.deref (some (pre1.length + 1)) = some rn := by
    have := deref_split E (pre1 ++ [r]) rn post1 hrows2
    simpa using this
  rw [hg1, hderef]
  simp only [Option.some_bind]
  obtain ⟨E1, r1, h1, hr1, hd1, hf1, hx1, hy1, hk1⟩ := row_append_string_any E pre1 r
    (rn :: post1) hrows rn.data
  rw [h1]
  simp only [Option.map_some', Option.some_bind]
  have hr1' : E1.rows = (pre1 ++ [r1]) ++ rn :: post1 := by rw [hr1]; simp
  obtain ⟨E2, h2, hr2, hf2, hx2, hy2, hk2⟩ := delete_row_any E1 (pre1 ++ [r1]) rn post1 hr1'
  have hcy1 : E1.cy + 1 = (((pre1 ++ [r1]).length : Nat) : Int) := by
    rw [hy1, hcy]; simp
  rw [hcy1, h2]
  simp only
  obtain ⟨E3, h3, hr3, hx3, hy3, hf3, hk3⟩ := delete_empty_row_spec E2 pre1 r1 post1
    (by rw [hr2]; simp) (by rw [hy2, hy1, hcy])
  have e1 : E1.syn = E.syn := frame_syn _ _ hf1
  have e2 : E2.syn = E.syn := by rw [frame_syn _ _ hf2]; exact e1
  refine ⟨E3, h3, ?_, by rw [hx3, hx2, hx1, hcx], by rw [hy3, hy2, hy1, hcy],
    by rw [hf3, hf2, hf1], ?_⟩
  · rw [hr3]
    simp [EditorConfig.raw, hr2, hd1, hpre, hpost, hn, hd]
  · refine rows_keep_trans _ _ _ _ ?_ (by rw [← e2]; exact hk3)
    exact rows_keep_trans _ _ _ _ hk1 (by rw [← e1]; exact hk2)

/-- `do_delete_current_char` with the cursor at the end of the last row. -/
theorem do_delete_current_char_last (E : EditorConfig) (pre : List (List Char))
    (d : List Char) (hraw : E.raw = pre ++ [d])
    (hcy : E.cy = (pre.length : Int)) (hcx : E.cx = (d.length : Int)) :
    ∃ E1, do_delete_current_char E = some E1 ∧
      E1.raw = collapse_raw (pre ++ [d]) ∧
      E1.cx = (d.length : Int) ∧ E1.cy = (pre.length : Int) ∧ E1.frame = E.frame ∧
      rows_keep E.syn E.rows E1.rows := by
  obtain ⟨pre1, r, post1, hrows, hpre, hd, hpost, hlen⟩ := raw_split E pre d [] hraw
  have hp : post1 = [] := by simpa using hpost
  subst hp
  rw [← hlen] at hcy ⊢
  unfold do_delete_current_char
  have hg : E.get_row_at E.cy = some pre1.length := by
    rw [hcy]; exact get_row_at_split E pre1 r _ hrows
  simp only [hg, deref_split E pre1 r _ hrows]
  rw [if_pos (by rw [hcx]; simp [EditorRow.len, hd])]
  rw [if_neg (by
    simp only [EditorConfig.lastrow_idx, hrows, hcy, List.length_append, List.length_cons,
      Int.ofNat_eq_coe, List.length_nil]
    push_cast; omega)]
  simp only [Option.some_bind]
  obtain ⟨E3, h3, hr3, hx3, hy3, hf3, hk3⟩ := delete_empty_row_spec E pre1 r [] hrows hcy
  exact ⟨E3, h3, by rw [hr3, hraw], by rw [hx3, hcx], by rw [hy3, hcy], hf3, hk3⟩

/-! ### The cursor invariant and editing sessions -/

theorem cursor_ok_of_raw (E : EditorConfig) (pre : List (List Char)) (d : List Char)
    (post : List (List Char)) (k : Nat) (hraw : E.raw = pre ++ d :: post)
    (hcy : E.cy = (pre.length : Int)) (hcx : E.cx = (k : Int)) (hk : k ≤ d.length) :
    cursor_ok E := by
  obtain ⟨pre1, r, post1, hrows, hpre, hd, hpost, hlen⟩ := raw_split E pre d post hraw
  right
  refine ⟨r, ?_, by rw [hcx]; omega, ?_⟩
  · rw [hcy, ← hlen, get_row_at_split E pre1 r post1 hrows]
    exact deref_split E pre1 r post1 hrows
  · rw [hcx]; simp only [EditorRow.len, Int.ofNat_eq_coe, hd]; omega

theorem cursor_ok_raw (E : EditorConfig) (h : cursor_ok E) :
    (E.rows = [] ∧ E.cx = 0 ∧ E.cy = 0) ∨
    ∃ pre d post k, E.raw = pre ++ d :: post ∧ E.cy = ((pre.length : Nat) : Int) ∧
      E.cx = ((k : Nat) : Int) ∧ k ≤ d.length := by
  rcases h with h | ⟨row, h1, h2, h3⟩
  · exact Or.inl h
  · right
    unfold EditorConfig.get_row_at at h1
    by_cases hc : E.cy < 0 ∨ E.cy ≥ E.numrows
    · rw [if_pos hc] at h1
      simp [EditorConfig.deref] at h1
    · rw [if_neg hc] at h1
      simp only [EditorConfig.deref, Option.some_bind] at h1
      obtain ⟨h4, h5⟩ := getElem?_split E.rows E.cy.toNat row h1
      refine ⟨(E.rows.take E.cy.toNat).map EditorRow.data, row.data,
        (E.rows.drop (E.cy.toNat + 1)).map EditorRow.data, E.cx.toNat, ?_, ?_, ?_, ?_⟩
      · unfold EditorConfig.raw
        conv_lhs => rw [h4]
        simp
      · rw [List.length_map, h5]; omega
      · omega
      · simp only [EditorRow.len, Int.ofNat_eq_coe] at h3; omega

theorem cursor_ok_of_collapse (E1 : EditorConfig) (pre : List (List Char)) (d : List Char)
    (post : List (List Char)) (k : Nat) (hraw : E1.raw = collapse_raw (pre ++ d :: post))
    (hcy : E1.cy = (pre.length : Int)) (hcx : E1.cx = (k : Int)) (hk : k ≤ d.length) :
    cursor_ok E1 := by
  by_cases hc : pre ++ d :: post = [[]]
  · have hp : pre = [] := by
      cases pre with
      | nil => rfl
      | cons a pre =>
        have := congrArg List.length hc
        simp at this
    subst hp
    simp only [List.nil_append, List.cons.injEq] at hc
    obtain ⟨hd, hq⟩ := hc
    subst hd hq
    left
    refine ⟨raw_nil_rows E1 (by rw [hraw]; simp [collapse_raw]), ?_, by simpa using hcy⟩
    simp only [List.length_nil, Nat.le_zero_eq] at hk
    rw [hcx, hk]; rfl
  · rw [collapse_raw_of_ne _ hc] at hraw
    exact cursor_ok_of_raw E1 pre d post k hraw hcy hcx hk

/-- Every step of an editing session keeps the cursor invariant and touches
rows only through `update_row`. -/
theorem edit_step_ok (E : EditorConfig) (st : EditStep) (hcur : cursor_ok E) :
    ∃ E1, edit_step E st = some E1 ∧ cursor_ok E1 ∧ E1.frame = E.frame ∧
      rows_keep E.syn E.rows E1.rows := by
  rcases cursor_ok_raw E hcur with ⟨hr, hx, hy⟩ | ⟨pre, d, post, k, hraw, hcy, hcx, hk⟩
  · -- the empty document
    cases st with
    | insertChar c =>
      by_cases hc : c = NL
      · subst hc
        obtain ⟨E1, h1, h2, h3, h4, h5, h6⟩ := do_insert_newline_empty_raw E hr hy hx
        refine ⟨E1, by simpa [edit_step, do_insert_char_NL] using h1, ?_, h5, h6⟩
        exact cursor_ok_of_raw E1 [[]] [] [] 0 (by simpa using h2) (by simpa using h4)
          (by simpa using h3) (le_refl _)
      · obtain ⟨E1, h1, h2, h3, h4, h5, h6⟩ := do_insert_char_empty_raw E hr hy hx c hc
        refine ⟨E1, h1, ?_, h5, h6⟩
        exact cursor_ok_of_raw E1 [] [c] [] 1 (by simpa using h2) (by simpa using h4)
          (by simpa using h3) (by simp)
    | deleteLeft =>
      refine ⟨E, ?_, hcur, rfl, rows_keep_refl _ _⟩
      simp only [edit_step, do_delete_left_char]
      rw [if_pos ⟨hx, hy⟩]
    | deleteRight =>
      exact ⟨E, do_delete_current_char_empty E hr, hcur, rfl, rows_keep_refl _ _⟩
  · cases st with
    | insertChar c =>
      have hsplit : E.raw = pre ++ (d.take k ++ d.drop k) :: post := by
        rw [List.take_append_drop]; exact hraw
      have hklen : (d.take k).length = k := by simp; omega
      by_cases hc : c = NL
      · subst hc
        obtain ⟨E1, h1, h2, h3, h4, h5, h6⟩ := do_insert_newline_raw E pre d post k hraw hcy hcx hk
        refine ⟨E1, by simpa [edit_step, do_insert_char_NL] using h1, ?_, h5, h6⟩
        exact cursor_ok_of_raw E1 (pre ++ [d.take k]) (d.drop k) post 0 (by simpa using h2)
          (by simpa using h4) (by simpa using h3) (Nat.zero_le _)
      · obtain ⟨E1, h1, h2, h3, h4, h5, h6⟩ := do_insert_char_raw E pre (d.take k) (d.drop k)
          post c hc hsplit hcy (by rw [hklen]; exact hcx)
        refine ⟨E1, h1, ?_, h5, h6⟩
        exact cursor_ok_of_raw E1 pre _ post (k + 1) h2 h4 (by rw [h3, hklen]; simp)
          (by simp; omega)
    | deleteLeft =>
      rcases Nat.eq_zero_or_pos k with hk0 | hk0
      · subst hk0
        rcases List.eq_nil_or_concat pre with hp | ⟨pre0, q, hp⟩
        · subst hp
          refine ⟨E, ?_, hcur, rfl, rows_keep_refl _ _⟩
          simp only [edit_step, do_delete_left_char]
          rw [if_pos ⟨by simpa using hcx, by simpa using hcy⟩]
        · rw [List.concat_eq_append] at hp
          subst hp
          obtain ⟨E1, h1, h2, h3, h4, h5, h6⟩ := do_delete_left_char_join E pre0 q d post
            (by simpa using hraw) (by simpa using hcy) (by simpa using hcx)
          refine ⟨E1, h1, ?_, h5, h6⟩
          exact cursor_ok_of_collapse E1 pre0 (q ++ d) post q.length h2 h4 h3 (by simp)
      · obtain ⟨E1, h1, h2, h3, h4, h5, h6⟩ := do_delete_left_char_mid E pre d post k hraw hcy
          hcx hk0 hk
        refine ⟨E1, h1, ?_, h5, h6⟩
        exact cursor_ok_of_collapse E1 pre _ post (k - 1) h2 h4 (by rw [h3]; omega)
          (by simp; omega)
    | deleteRight =>
      rcases Nat.lt_or_ge k d.length with hlt | hge
      · obtain ⟨E1, h1, h2, h3, h4, h5, h6⟩ := do_delete_current_char_mid E pre d post k hraw
          hcy hcx hlt
        refine ⟨E1, h1, ?_, h5, h6⟩
        exact cursor_ok_of_collapse E1 pre _ post k h2 h4 h3 (by simp; omega)
      · have hkd : k = d.length := by omega
        subst hkd
        cases post with
        | nil =>
          obtain ⟨E1, h1, h2, h3, h4, h5, h6⟩ := do_delete_current_char_last E pre d hraw hcy hcx
          refine ⟨E1, h1, ?_, h5, h6⟩
          exact cursor_ok_of_collapse E1 pre d [] d.length h2 h4 h3 (le_refl _)
        | cons n post =>
          obtain ⟨E1, h1, h2, h3, h4, h5, h6⟩ := do_delete_current_char_join E pre d n post hraw
            hcy hcx
          refine ⟨E1, h1, ?_, h5, h6⟩
          exact cursor_ok_of_collapse E1 pre (d ++ n) post d.length h2 h4 h3 (by simp)

/-- C5: from a document in which every row has one highlight tag per rendered
character (and whose cursor is valid), after any finite sequence of
`do_insert_char`, `do_delete_left_char` and `do_delete_current_char` steps every
row has as many highlight tags as rendered characters; the highlighter, run on
any rendered text under any syntax pointer, makes no write outside the tag
buffer (it returns a buffer, of the rendered length). -/
theorem edit_run_hl_ok (steps : List EditStep) (E : EditorConfig) (hcur : cursor_ok E)
    (hhl : rows_hl_ok E.rows) :
    (∃ E1, edit_run steps E = some E1 ∧ rows_hl_ok E1.rows ∧ cursor_ok E1) ∧
    (∀ (syn : Option (Fin NUM_HLDBS)) (content : List Char),
      ∃ hl, update_row_syntax_hl syn (content ++ [NUL]) content.length = some hl ∧
        hl.length = content.length) := by
  refine ⟨?_, update_row_syntax_hl_some⟩
  induction steps generalizing E with
  | nil => exact ⟨E, rfl, hhl, hcur⟩
  | cons st rest ih =>
    obtain ⟨E1, h1, h2, _, h4⟩ := edit_step_ok E st hcur
    obtain ⟨E2, h5, h6, h7⟩ := ih E1 h2 (rows_keep_hl_ok _ _ _ h4 hhl)
    exact ⟨E2, by simp only [edit_run, h1, Option.some_bind, h5], h6, h7⟩

/-- Witness for C5: the row `"a"` with one normal tag, cursor at its end, then
backspace, a tab and the letter `b`. -/
theorem edit_run_hl_ok_witness :
    ∃ E1, edit_run [.deleteLeft, .insertChar TAB, .insertChar (Char.ofNat 98)]
        (mk_editor [⟨[Char.ofNat 97], [Char.ofNat 97, NUL], 1, [.HL_NORMAL]⟩] 1 0 0 0)
        = some E1 ∧ rows_hl_ok E1.rows ∧ cursor_ok E1 :=
  (edit_run_hl_ok [.deleteLeft, .insertChar TAB, .insertChar (Char.ofNat 98)]
    (mk_editor [⟨[Char.ofNat 97], [Char.ofNat 97, NUL], 1, [.HL_NORMAL]⟩] 1 0 0 0)
    (Or.inr ⟨_, rfl, by decide, by decide⟩)
    (by intro r hr; simp only [mk_editor, List.mem_singleton] at hr; subst hr; rfl)).1

/-! ### Claims about single deletions and line splits -/

/-- C11, on a concrete document: with the two empty rows `["", ""]` and the
cursor at row 1 column 0, `do_delete_left_char` leaves no row at all, so the row
count drops by two. -/
theorem do_delete_left_char_two_empty_rows :
    (do_delete_left_char (mk_editor [mk_row [], mk_row []] 0 1 0 0)).map
      (fun E => (E.raw, E.cx, E.cy)) = some ([], 0, 0) := by
  decide

/-- C11 (amended): with the cursor at column 0 of a row that is not the first,
`do_delete_left_char` appends the current row's raw text to the previous row and
removes the current row, all other rows unchanged and in order, and leaves the
cursor on the previous row at the column equal to that row's former raw length;
the row count decreases by exactly one, except when the joined row is empty and
is the only row left, in which case it is removed as well and no row remains. -/
theorem do_delete_left_char_joins_rows (E : EditorConfig) (pre : List (List Char))
    (q d : List Char) (post : List (List Char)) (hraw : E.raw = pre ++ q :: d :: post)
    (hcy : E.cy = (pre.length : Int) + 1) (hcx : E.cx = 0) :
    ∃ E1, do_delete_left_char E = some E1 ∧
      E1.cx = (q.length : Int) ∧ E1.cy = (pre.length : Int) ∧
      (pre ++ (q ++ d) :: post ≠ [[]] →
        E1.raw = pre ++ (q ++ d) :: post ∧ E1.raw.length + 1 = E.raw.length) ∧
      (pre ++ (q ++ d) :: post = [[]] → E1.raw = []) := by
  obtain ⟨E1, h1, h2, h3, h4, _, _⟩ := do_delete_left_char_join E pre q d post hraw hcy hcx
  refine ⟨E1, h1, h3, h4, ?_, ?_⟩
  · intro hne
    rw [collapse_raw_of_ne _ hne] at h2
    refine ⟨h2, ?_⟩
    rw [h2, hraw]; simp only [List.length_append, List.length_cons]; omega
  · intro he
    rw [h2, he]; simp [collapse_raw]

/-- Witness for C11 (amended): rows `["ab", "cd"]`, cursor at row 1 column 0. -/
theorem do_delete_left_char_joins_rows_witness :
    ∃ E1, do_delete_left_char
        (mk_editor [mk_row (String.toList "ab"), mk_row (String.toList "cd")] 0 1 0 0)
        = some E1 ∧
      E1.cx = ((String.toList "ab").length : Int) ∧
      E1.cy = ((([] : List (List Char)).length : Nat) : Int) :=
  let ⟨E1, h1, h2, h3, _⟩ := do_delete_left_char_joins_rows
    (mk_editor [mk_row (String.toList "ab"), mk_row (String.toList "cd")] 0 1 0 0)
    [] (String.toList "ab") (String.toList "cd") [] rfl rfl rfl
  ⟨E1, h1, h2, h3⟩

/-- C12: `do_delete_left_char` with the cursor at row 0 column 0 changes
nothing: the whole state, hence the cursor, the number of rows and every row's
raw text, is the same afterwards. -/
theorem do_delete_left_char_at_origin (E : EditorConfig) (hcx : E.cx = 0) (hcy : E.cy = 0) :
    do_delete_left_char E = some E := by
  unfold do_delete_left_char
  rw [if_pos ⟨hcx, hcy⟩]

/-- Witness for C12: rows `["ab", "cd"]`, cursor at row 0 column 0. -/
theorem do_delete_left_char_at_origin_witness :
    do_delete_left_char
        (mk_editor [mk_row (String.toList "ab"), mk_row (String.toList "cd")] 0 0 0 0)
      = some (mk_editor [mk_row (String.toList "ab"), mk_row (String.toList "cd")] 0 0 0 0) :=
  do_delete_left_char_at_origin _ rfl rfl

/-- C13, on a concrete document: the single row `"a"` with the cursor at column
1 becomes the document without rows after `do_delete_left_char`, not one empty
row. -/
theorem do_delete_left_char_last_char :
    (do_delete_left_char (mk_editor [mk_row (String.toList "a")] 1 0 0 0)).map
      (fun E => (E.raw, E.rows.length)) = some ([], 0) := by
  decide

theorem collapse_raw_ne (R : List (List Char)) : collapse_raw R ≠ [[]] := by
  unfold collapse_raw
  split_ifs with h
  · simp
  · exact h

/-- C13 (amended): on a document with at least one row and a valid cursor,
`do_delete_current_char`, and `do_delete_left_char` when the cursor is not at
row 0 column 0, never leave exactly one empty row: when the delete would leave
exactly one row and that row is empty, the row is removed and the document has
no row (at most two rows fewer than before); e.g. the single row `"a"` with the
cursor at column 1 becomes the document without rows. -/
theorem delete_never_leaves_one_empty_row (E : EditorConfig) (hcur : cursor_ok E)
    (hne : E.rows ≠ []) :
    (¬(E.cx = 0 ∧ E.cy = 0) →
      ∃ E1, do_delete_left_char E = some E1 ∧ E1.raw ≠ [[]] ∧
        E.raw.length ≤ E1.raw.length + 2) ∧
    (∃ E1, do_delete_current_char E = some E1 ∧ E1.raw ≠ [[]] ∧
        E.raw.length ≤ E1.raw.length + 2) ∧
    (∀ E0 : EditorConfig, E0.raw = [String.toList "a"] → E0.cx = 1 → E0.cy = 0 →
      ∃ E1, do_delete_left_char E0 = some E1 ∧ E1.raw = []) := by
  have hlen : ∀ R : List (List Char), R.length ≤ (collapse_raw R).length + 1 := by
    intro R
    unfold collapse_raw
    split_ifs with h
    · rw [h]; simp
    · omega
  rcases cursor_ok_raw E hcur with ⟨hr, _, _⟩ | ⟨pre, d, post, k, hraw, hcy, hcx, hk⟩
  · exact absurd hr hne
  refine ⟨?_, ?_, ?_⟩
  · intro horig
    rcases Nat.eq_zero_or_pos k with hk0 | hk0
    · subst hk0
      rcases List.eq_nil_or_concat pre with hp | ⟨pre0, q, hp⟩
      · subst hp
        exact absurd ⟨by simpa using hcx, by simpa using hcy⟩ horig
      · rw [List.concat_eq_append] at hp
        subst hp
        obtain ⟨E1, h1, h2, _⟩ := do_delete_left_char_join E pre0 q d post
          (by simpa using hraw) (by simpa using hcy) (by simpa using hcx)
        refine ⟨E1, h1, by rw [h2]; exact collapse_raw_ne _, ?_⟩
        have := hlen (pre0 ++ (q ++ d) :: post)
        rw [← h2] at this
        rw [hraw]
        simp only [List.length_append, List.length_cons, List.length_nil] at this ⊢
        omega
    · obtain ⟨E1, h1, h2, _⟩ := do_delete_left_char_mid E pre d post k hraw hcy hcx hk0 hk
      refine ⟨E1, h1, by rw [h2]; exact collapse_raw_ne _, ?_⟩
      have := hlen (pre ++ (d.take (k - 1) ++ d.drop k) :: post)
      rw [← h2] at this
      rw [hraw]
      simp only [List.length_append, List.length_cons] at this ⊢
      omega
  · rcases Nat.lt_or_ge k d.length with hlt | hge
    · obtain ⟨E1, h1, h2, _⟩ := do_delete_current_char_mid E pre d post k hraw hcy hcx hlt
      refine ⟨E1, h1, by rw [h2]; exact collapse_raw_ne _, ?_⟩
      have := hlen (pre ++ (d.take k ++ d.drop (k + 1)) :: post)
      rw [← h2] at this
      rw [hraw]
      simp only [List.length_append, List.length_cons] at this ⊢
      omega
    · have hkd : k = d.length := by omega
      subst hkd
      cases post with
      | nil =>
        obtain ⟨E1, h1, h2, _⟩ := do_delete_current_char_last E pre d hraw hcy hcx
        refine ⟨E1, h1, by rw [h2]; exact collapse_raw_ne _, ?_⟩
        have := hlen (pre ++ [d])
        rw [← h2] at this
        rw [hraw]
        omega
      | cons n post =>
        obtain ⟨E1, h1, h2, _⟩ := do_delete_current_char_join E pre d n post hraw hcy hcx
        refine ⟨E1, h1, by rw [h2]; exact collapse_raw_ne _, ?_⟩
        have := hlen (pre ++ (d ++ n) :: post)
        rw [← h2] at this
        rw [hraw]
        simp only [List.length_append, List.length_cons] at this ⊢
        omega
  · intro E0 hraw0 hcx0 hcy0
    obtain ⟨E1, h1, h2, _⟩ := do_delete_left_char_mid E0 [] (String.toList "a") [] 1
      (by simpa using hraw0) (by simpa using hcy0) (by simpa using hcx0) (by decide) (by decide)
    refine ⟨E1, h1, ?_⟩
    rw [h2]; decide

/-- Witness for C13 (amended): the single row `"a"`, cursor at column 1. -/
theorem delete_never_leaves_one_empty_row_witness :
    ∃ E1, do_delete_current_char (mk_editor [mk_row (String.toList "a")] 1 0 0 0) = some E1 ∧
      E1.raw ≠ [[]] ∧
      (mk_editor [mk_row (String.toList "a")] 1 0 0 0).raw.length ≤ E1.raw.length + 2 :=
  (delete_never_leaves_one_empty_row (mk_editor [mk_row (String.toList "a")] 1 0 0 0)
    (Or.inr ⟨_, rfl, by decide, by decide⟩) (by simp [mk_editor])).2.1

/-- C14, on a concrete document: with the single row `"ab"` and the cursor at
row 0 column 0, `do_insert_newline(false)` puts the new empty row at index 0 and
the cursor on row 1, which is the former cursor row `"ab"`, not the new row. -/
theorem do_insert_newline_col0_cursor :
    (do_insert_newline (mk_editor [mk_row (String.toList "ab")] 0 0 0 0) false).map
      (fun E => (E.raw, E.cx, E.cy)) = some ([[], String.toList "ab"], 0, 1) := by
  decide

/-- C14 (amended): with the cursor at column 0 of row `cy`,
`do_insert_newline(false)` inserts one new empty row at index `cy`, directly
above the former cursor row, keeps all other rows in order, and leaves the
cursor at column 0 of row `cy + 1`, which is the former cursor row. -/
theorem do_insert_newline_at_col0 (E : EditorConfig) (pre : List (List Char))
    (d : List Char) (post : List (List Char)) (hraw : E.raw = pre ++ d :: post)
    (hcy : E.cy = (pre.length : Int)) (hcx : E.cx = 0) :
    ∃ E1, do_insert_newline E false = some E1 ∧
      E1.raw = pre ++ [] :: d :: post ∧ E1.cx = 0 ∧ E1.cy = (pre.length : Int) + 1 ∧
      E1.raw[pre.length]? = some [] ∧ E1.raw[pre.length + 1]? = some d := by
  obtain ⟨E1, h1, h2, h3, h4, _, _⟩ := do_insert_newline_raw E pre d post 0 hraw hcy
    (by simpa using hcx) (Nat.zero_le _)
  simp only [List.take_zero, List.drop_zero] at h2
  refine ⟨E1, h1, h2, h3, h4, ?_, ?_⟩
  · rw [h2, getElem?_append_cons]
  · rw [h2]
    have := getElem?_append_cons (pre ++ [[]]) d post
    simpa using this

/-- Witness for C14 (amended): the single row `"ab"`, cursor at row 0 column 0. -/
theorem do_insert_newline_at_col0_witness :
    ∃ E1, do_insert_newline (mk_editor [mk_row (String.toList "ab")] 0 0 0 0) false = some E1 ∧
      E1.raw = [] ++ [] :: String.toList "ab" :: [] ∧ E1.cx = 0 ∧
      E1.cy = ((([] : List (List Char)).length : Nat) : Int) + 1 :=
  let ⟨E1, h1, h2, h3, h4, _⟩ := do_insert_newline_at_col0
    (mk_editor [mk_row (String.toList "ab")] 0 0 0 0) [] (String.toList "ab") [] rfl rfl rfl
  ⟨E1, h1, h2, h3, h4⟩

/-- C10: with the cursor at raw column `0 < cx ≤ len` of row `cy`,
`do_insert_newline(false)` replaces that row by two consecutive rows holding its
first `cx` characters and the remaining ones, keeps all other rows in order,
and puts the cursor at row `cy+1`, column 0; on rows `["foo", "bar"]` with the
cursor at row 0, column 3 the result is `["foo", "", "bar"]`, cursor at row 1,
column 0. -/
theorem do_insert_newline_splits_row (E : EditorConfig) (pre : List (List Char))
    (d : List Char) (post : List (List Char)) (k : Nat)
    (hraw : E.raw = pre ++ d :: post) (hcy : E.cy = (pre.length : Int))
    (hcx : E.cx = (k : Int)) (hk0 : 0 < k) (hk : k ≤ d.length) :
    (∃ E1, do_insert_newline E false = some E1 ∧
      E1.raw = pre ++ d.take k :: d.drop k :: post ∧ E1.cx = 0 ∧
      E1.cy = (pre.length : Int) + 1) ∧
    (∀ E0 : EditorConfig, E0.raw = [String.toList "foo", String.toList "bar"] →
      E0.cx = 3 → E0.cy = 0 →
      ∃ E1, do_insert_newline E0 false = some E1 ∧
        E1.raw = [String.toList "foo", [], String.toList "bar"] ∧ E1.cx = 0 ∧ E1.cy = 1) := by
  have _ := hk0
  constructor
  · obtain ⟨E1, h1, h2, h3, h4, _, _⟩ := do_insert_newline_raw E pre d post k hraw hcy hcx hk
    exact ⟨E1, h1, h2, h3, h4⟩
  · intro E0 hraw0 hcx0 hcy0
    obtain ⟨E1, h1, h2, h3, h4, _, _⟩ := do_insert_newline_raw E0 [] (String.toList "foo")
      [String.toList "bar"] 3 hraw0 (by simpa using hcy0) (by simpa using hcx0) (by decide)
    exact ⟨E1, h1, by simpa using h2, h3, by simpa using h4⟩

/-- Witness for C10: rows `["foo", "bar"]`, cursor at row 0, column 3. -/
theorem do_insert_newline_splits_row_witness :
    ∃ E1, do_insert_newline
        (mk_editor [mk_row (String.toList "foo"), mk_row (String.toList "bar")] 3 0 0 0)
        false = some E1 ∧
      E1.raw = [] ++ (String.toList "foo").take 3 :: (String.toList "foo").drop 3 ::
        [String.toList "bar"] ∧
      E1.cx = 0 ∧ E1.cy = ((([] : List (List Char)).length : Nat) : Int) + 1 :=
  (do_insert_newline_splits_row
    (mk_editor [mk_row (String.toList "foo"), mk_row (String.toList "bar")] 3 0 0 0)
    [] (String.toList "foo") [String.toList "bar"] 3 rfl rfl rfl (by decide) (by decide)).1

/-! ### Scrolling -/

theorem scroll_to_rowoff (E : EditorConfig) (x y : Int) :
    (scroll_to E x y).rowoff =
      (if y ≥ (if y < E.rowoff then y else E.rowoff) + (E.screenrows - 5)
        then y - (E.screenrows - 5) + 1 else (if y < E.rowoff then y else E.rowoff)) ∧
    (scroll_to E x y).coloff =
      (if x ≥ (if x < E.coloff then x else E.coloff) + (E.screencols - 5)
        then x - (E.screencols - 5) + 1 else (if x < E.coloff then x else E.coloff)) ∧
    (scroll_to E x y).screenrows = E.screenrows ∧
    (scroll_to E x y).screencols = E.screencols := by
  unfold scroll_to
  simp only [apply_ite EditorConfig.rowoff, apply_ite EditorConfig.coloff,
    apply_ite EditorConfig.screenrows, apply_ite EditorConfig.screencols, ite_self]
  exact ⟨trivial, trivial, trivial, trivial⟩

theorem scroll_to_fixed (E : EditorConfig) (x y : Int)
    (hr : E.rowoff ≤ y ∧ y < E.rowoff + (E.screenrows - 5))
    (hc : E.coloff ≤ x ∧ x < E.coloff + (E.screencols - 5)) :
    scroll_to E x y = E := by
  have h1 : ¬ y < E.rowoff := by omega
  have h2 : ¬ y ≥ E.rowoff + (E.screenrows - 5) := by omega
  have h3 : ¬ x < E.coloff := by omega
  have h4 : ¬ x ≥ E.coloff + (E.screencols - 5) := by omega
  unfold scroll_to
  simp only [if_neg h1, if_neg h2, if_neg h3, if_neg h4]

/-- C23: for a viewport with `screenrows ≥ 6` and `screencols ≥ 6` and every
target `(x, y)`, after `scroll_to(x, y)` the offsets satisfy
`rowoff ≤ y < rowoff + (screenrows - 5)` and
`coloff ≤ x < coloff + (screencols - 5)`; an offset whose inequality held before
the call is unchanged, and `scroll_to` is idempotent. -/
theorem scroll_to_window (E : EditorConfig) (x y : Int) (hrows : 6 ≤ E.screenrows)
    (hcols : 6 ≤ E.screencols) :
    ((scroll_to E x y).rowoff ≤ y ∧
      y < (scroll_to E x y).rowoff + ((scroll_to E x y).screenrows - 5)) ∧
    ((scroll_to E x y).coloff ≤ x ∧
      x < (scroll_to E x y).coloff + ((scroll_to E x y).screencols - 5)) ∧
    ((E.rowoff ≤ y ∧ y < E.rowoff + (E.screenrows - 5)) →
      (scroll_to E x y).rowoff = E.rowoff) ∧
    ((E.coloff ≤ x ∧ x < E.coloff + (E.screencols - 5)) →
      (scroll_to E x y).coloff = E.coloff) ∧
    scroll_to (scroll_to E x y) x y = scroll_to E x y := by
  obtain ⟨hr, hc, hsr, hsc⟩ := scroll_to_rowoff E x y
  have key : ((scroll_to E x y).rowoff ≤ y ∧
      y < (scroll_to E x y).rowoff + ((scroll_to E x y).screenrows - 5)) ∧
    ((scroll_to E x y).coloff ≤ x ∧
      x < (scroll_to E x y).coloff + ((scroll_to E x y).screencols - 5)) := by
    rw [hr, hc, hsr, hsc]
    split_ifs <;> (refine ⟨⟨?_, ?_⟩, ⟨?_, ?_⟩⟩) <;> omega
  refine ⟨key.1, key.2, ?_, ?_, scroll_to_fixed _ x y key.1 key.2⟩
  · intro h
    rw [hr]
    split_ifs <;> omega
  · intro h
    rw [hc]
    split_ifs <;> omega

/-- Witness for C23: a 24 by 80 viewport scrolled to column 100, row 50. -/
theorem scroll_to_window_witness :
    scroll_to (scroll_to (mk_editor [] 0 0 0 0) 100 50) 100 50
      = scroll_to (mk_editor [] 0 0 0 0) 100 50 :=
  (scroll_to_window (mk_editor [] 0 0 0 0) 100 50 (by decide) (by decide)).2.2.2.2

/-! ### Exit -/

theorem do_after_action_skip (E : EditorConfig) (h : E.skip_after_action = true) :
    (do_after_action E).quit_times = E.quit_times ∧ (do_after_action E).dirty = E.dirty ∧
    (do_after_action E).skip_after_action = false ∧ (do_after_action E).mode = E.mode := by
  unfold do_after_action
  simp only
  split_ifs <;> simp_all

/-- C22: `do_exit_editor` exits at once when the document is not dirty; when it
is dirty and the counter `k` is positive it does not exit, reports `k` (the
message is stored unless the mode is Command or Search) and sets the counter to
`k - 1`; when it is dirty and `k = 0` it exits.  Hence from the fresh threshold
2 on a dirty document the first two consecutive exit attempts are refused and
the third exits, the reported numbers being 2 and then 1. -/
theorem do_exit_editor_counter (E : EditorConfig) :
    (E.dirty = false → do_exit_editor E = .exited) ∧
    (E.dirty = true → E.quit_times > 0 →
      ∃ E1, do_exit_editor E = .running E1 ∧ E1.quit_times = E.quit_times - 1 ∧
        E1.dirty = true ∧ E1.skip_after_action = true ∧ E1.rows = E.rows ∧
        (E.mode ≠ .COMMAND → E.mode ≠ .SEARCH →
          E1.cmdline = quit_msg E.quit_times ∧ E1.cmdline_style = .ERROR)) ∧
    (E.dirty = true → E.quit_times = 0 → do_exit_editor E = .exited) ∧
    (E.dirty = true → E.quit_times = NUM_FORCE_QUIT_PRESS →
      ∃ E1 E2, exit_attempt E = .running E1 ∧ E1.quit_times = 1 ∧
        (E.mode ≠ .COMMAND → E.mode ≠ .SEARCH → E1.cmdline = quit_msg 2) ∧
        exit_attempt E1 = .running E2 ∧ E2.quit_times = 0 ∧
        (E.mode ≠ .COMMAND → E.mode ≠ .SEARCH → E2.cmdline = quit_msg 1) ∧
        exit_attempt E2 = .exited) := by
  have step : ∀ E0 : EditorConfig, E0.dirty = true → E0.quit_times > 0 →
      ∃ E1, do_exit_editor E0 = .running E1 ∧ E1.quit_times = E0.quit_times - 1 ∧
        E1.dirty = true ∧ E1.skip_after_action = true ∧ E1.rows = E0.rows ∧
        E1.mode = E0.mode ∧
        (E0.mode ≠ .COMMAND → E0.mode ≠ .SEARCH →
          E1.cmdline = quit_msg E0.quit_times ∧ E1.cmdline_style = .ERROR) := by
    intro E0 hd hk
    unfold do_exit_editor
    rw [if_pos ⟨hd, hk⟩]
    refine ⟨_, rfl, ?_, ?_, rfl, ?_, ?_, ?_⟩
    · unfold set_cmdline_msg_error; split_ifs <;> rfl
    · unfold set_cmdline_msg_error; split_ifs <;> simpa using hd
    · unfold set_cmdline_msg_error; split_ifs <;> rfl
    · unfold set_cmdline_msg_error; split_ifs <;> rfl
    · intro h1 h2
      unfold set_cmdline_msg_error
      rw [if_pos ⟨h1, h2⟩]
      exact ⟨rfl, rfl⟩
  have att : ∀ E0 : EditorConfig, E0.dirty = true → E0.quit_times > 0 →
      ∃ E1, exit_attempt E0 = .running E1 ∧ E1.quit_times = E0.quit_times - 1 ∧
        E1.dirty = true ∧ E1.mode = E0.mode := by
    intro E0 hd hk
    obtain ⟨E1, h1, h2, h3, h4, _, h5, _⟩ := step E0 hd hk
    obtain ⟨a1, a2, _, a4⟩ := do_after_action_skip E1 h4
    refine ⟨do_after_action E1, ?_, by rw [a1, h2], by rw [a2, h3], by rw [a4, h5]⟩
    unfold exit_attempt
    rw [h1]
  have attmsg : ∀ E0 : EditorConfig, E0.dirty = true → E0.quit_times > 0 →
      E0.mode ≠ .COMMAND → E0.mode ≠ .SEARCH →
      ∀ E1, exit_attempt E0 = .running E1 → E1.cmdline = quit_msg E0.quit_times := by
    intro E0 hd hk hm1 hm2 E1 hE1
    obtain ⟨E1', h1, _, _, h4, _, _, h6⟩ := step E0 hd hk
    unfold exit_attempt at hE1
    rw [h1] at hE1
    have : E1 = do_after_action E1' := by
      injection hE1 with h; exact h.symm
    subst this
    rw [← (h6 hm1 hm2).1]
    unfold do_after_action
    simp only
    split_ifs <;> simp_all
  refine ⟨?_, ?_, ?_, ?_⟩
  · intro hd
    unfold do_exit_editor
    rw [if_neg (by simp [hd])]
  · intro hd hk
    obtain ⟨E1, h1, h2, h3, h4, h5, _, h7⟩ := step E hd hk
    exact ⟨E1, h1, h2, h3, h4, h5, h7⟩
  · intro hd hk
    unfold do_exit_editor
    rw [if_neg (by rw [hk]; simp)]
  · intro hd hk
    obtain ⟨E1, h1, h2, h3, h4⟩ := att E hd (by rw [hk]; decide)
    obtain ⟨E2, g1, g2, g3, g4⟩ := att E1 h3 (by rw [h2, hk]; decide)
    refine ⟨E1, E2, h1, by rw [h2, hk]; rfl, ?_, g1, by rw [g2, h2, hk]; rfl, ?_, ?_⟩
    · intro m1 m2
      have := attmsg E hd (by rw [hk]; decide) m1 m2 E1 h1
      rw [this, hk]
    · intro m1 m2
      have := attmsg E1 h3 (by rw [h2, hk]; decide) (by rw [h4]; exact m1)
        (by rw [h4]; exact m2) E2 g1
      rw [this, h2, hk]; rfl
    · unfold exit_attempt do_exit_editor
      rw [if_neg (by rw [g2, h2, hk]; simp)]

/-- Witness for C22: a dirty document with the fresh threshold 2. -/
theorem do_exit_editor_counter_witness :
    ∃ E1 E2, exit_attempt { mk_editor [] 0 0 0 0 with dirty := true } = .running E1 ∧
      E1.quit_times = 1 ∧
      ((mk_editor [] 0 0 0 0).mode ≠ .COMMAND → (mk_editor [] 0 0 0 0).mode ≠ .SEARCH →
        E1.cmdline = quit_msg 2) ∧
      exit_attempt E1 = .running E2 ∧ E2.quit_times = 0 ∧
      ((mk_editor [] 0 0 0 0).mode ≠ .COMMAND → (mk_editor [] 0 0 0 0).mode ≠ .SEARCH →
        E2.cmdline = quit_msg 1) ∧
      exit_attempt E2 = .exited :=
  (do_exit_editor_counter { mk_editor [] 0 0 0 0 with dirty := true }).2.2.2 rfl rfl

/-! ### Syntax selection and the command line -/

/-- C19: `_find_synhlt_with_ext` takes the extension after the first `.` of
the path: for `main.c` the C descriptor is selected, for `./main.c` and `a.b.c`
none is. -/
theorem find_synhlt_first_dot :
    (find_synhlt_with_ext { mk_editor [] 0 0 0 0 with path := String.toList "main.c" }).map
        (fun E => E.syn) = some (some 0) ∧
    (find_synhlt_with_ext { mk_editor [] 0 0 0 0 with path := String.toList "./main.c" }).map
        (fun E => E.syn) = some none ∧
    (find_synhlt_with_ext { mk_editor [] 0 0 0 0 with path := String.toList "a.b.c" }).map
        (fun E => E.syn) = some none := by
  decide

/-- C20: in Command mode the line `path` followed by Enter ends in the
exception of `substr(5)`, and the line `pathology` sets the path to `logy`,
while `path x.c` sets the path to `x.c` and selects the C descriptor. -/
theorem command_path_line :
    process_keypress 0 (command_line (init_editor 24 80) (String.toList "path")) KEY_ENTER 0
      = none ∧
    (process_keypress 0 (command_line (init_editor 24 80) (String.toList "pathology"))
        KEY_ENTER 0).map (fun r => match r with
          | .running E => some (E.path, E.mode)
          | .exited => none)
      = some (some (String.toList "logy", EditorMode.NORMAL)) ∧
    (process_keypress 0 (command_line (init_editor 24 80) (String.toList "path x.c"))
        KEY_ENTER 0).map (fun r => match r with
          | .running E => some (E.path, E.syn)
          | .exited => none)
      = some (some (String.toList "x.c", some 0)) := by
  decide

/-! ### Saving -/

theorem find_last_not_of_ws_le (s : List Char) (k : Nat) : find_last_not_of_ws s k ≤ k := by
  induction k with
  | zero => simp [find_last_not_of_ws]
  | succ k ih =>
    unfold find_last_not_of_ws
    split_ifs
    · exact le_refl _
    · omega

theorem find_last_not_of_ws_append (s t : List Char) (k : Nat) (hk : k ≤ s.length) :
    find_last_not_of_ws (s ++ t) k = find_last_not_of_ws s k := by
  induction k with
  | zero => simp [find_last_not_of_ws]
  | succ k ih =>
    have hlt : k < s.length := hk
    unfold find_last_not_of_ws
    have hget : (s ++ t).getD k NUL = s.getD k NUL := by
      simp [List.getD_eq_getElem?_getD, List.getElem?_append_left hlt]
    rw [hget, ih (by omega)]

theorem str_trim_trailing_ws_eq (s : List Char) :
    str_trim_trailing_ws s = s.rdropWhile is_whitespace := by
  induction s using List.reverseRecOn with
  | nil => simp [str_trim_trailing_ws, find_last_not_of_ws]
  | append_singleton init c ih =>
    unfold str_trim_trailing_ws at ih ⊢
    have hget : (init ++ [c]).getD init.length NUL = c := by
      simp [List.getD_eq_getElem?_getD]
    rw [List.length_append, List.length_singleton]
    unfold find_last_not_of_ws
    rw [hget]
    by_cases hc : is_whitespace c = true
    · rw [if_neg (by simp [hc]), find_last_not_of_ws_append _ _ _ (le_refl _),
        List.rdropWhile_concat_pos _ _ _ hc, ← ih]
      exact List.take_append_of_le_length (find_last_not_of_ws_le _ _)
    · rw [if_pos (by simpa using hc), List.rdropWhile_concat_neg _ _ _ hc]
      have : init.length + 1 = (init ++ [c]).length := by simp
      rw [this, List.take_length]

theorem rows_to_string_loop_eq (rows : List EditorRow) (res : List Char) :
    rows_to_string_loop rows res = res ++ rows_nl (rows.map EditorRow.data) := by
  induction rows generalizing res with
  | nil => simp [rows_to_string_loop, rows_nl]
  | cons r rest ih =>
    simp [rows_to_string_loop, rows_nl, ih]

/-- C21: with a non-empty path `do_save_file` writes, in row order, every
row's raw text without its trailing characters from the set space, tab,
newline, CR, FF, VT (a row made only of such characters becomes empty), each
followed by one newline; the reported number is the length of that text and the
dirty flag is false afterwards.  With an empty path the message is
"no filename" and nothing is written.  (A message is stored unless the mode is
Command or Search.) -/
theorem do_save_file_contents (E : EditorConfig) :
    (E.path ≠ [] →
      (do_save_file E).2 = some (rows_nl (E.raw.map (List.rdropWhile is_whitespace))) ∧
      (do_save_file E).1.dirty = false ∧
      (E.mode ≠ .COMMAND → E.mode ≠ .SEARCH →
        (do_save_file E).1.cmdline = bytes_written_msg
          (rows_nl (E.raw.map (List.rdropWhile is_whitespace))).length)) ∧
    (E.path = [] →
      (do_save_file E).2 = none ∧
      (E.mode ≠ .COMMAND → E.mode ≠ .SEARCH →
        (do_save_file E).1.cmdline = String.toList "no filename")) := by
  have hrows : rows_to_string (file_trim_trailing_ws E)
      = rows_nl (E.raw.map (List.rdropWhile is_whitespace)) := by
    unfold rows_to_string file_trim_trailing_ws EditorConfig.raw
    rw [rows_to_string_loop_eq]
    simp only [List.nil_append, List.map_map]
    congr 1
    apply List.map_congr_left
    intro r _
    simp [str_trim_trailing_ws_eq]
  have hpath : (file_trim_trailing_ws E).path = E.path := rfl
  have hmode : (file_trim_trailing_ws E).mode = E.mode := rfl
  constructor
  · intro hp
    unfold do_save_file
    simp only [hpath, if_neg hp, hrows]
    refine ⟨trivial, trivial, ?_⟩
    intro h1 h2
    unfold set_cmdline_msg_info
    rw [hmode, if_pos ⟨h1, h2⟩]
  · intro hp
    unfold do_save_file
    simp only [hpath, if_pos hp]
    refine ⟨trivial, ?_⟩
    intro h1 h2
    unfold set_cmdline_msg_info
    rw [hmode, if_pos ⟨h1, h2⟩]

/-- Witness for C21: the rows `"a  "`, `" "` and `"b"` saved under the path `f`. -/
theorem do_save_file_contents_witness :
    (do_save_file { mk_editor [mk_row (String.toList "a  "), mk_row (String.toList " "),
        mk_row (String.toList "b")] 0 0 0 0 with path := String.toList "f" }).2
      = some (rows_nl (({ mk_editor [mk_row (String.toList "a  "), mk_row (String.toList " "),
        mk_row (String.toList "b")] 0 0 0 0 with path := String.toList "f" }).raw.map
          (List.rdropWhile is_whitespace))) :=
  ((do_save_file_contents { mk_editor [mk_row (String.toList "a  "), mk_row (String.toList " "),
        mk_row (String.toList "b")] 0 0 0 0 with path := String.toList "f" }).1 (by decide)).1

/-- C24: `do_save_file` on the consistent one-row document `"a "` trims the
raw text to `"a"` and leaves the rendered text `"a "` (with its terminator) and
the rendered length 2 as they were. -/
theorem do_save_file_stale_rendered :
    (insert_row (mk_editor [] 0 0 0 0) 0 (String.toList "a ")).map (fun E =>
      ((do_save_file { E with path := String.toList "f" }).1.rows.map
        fun r => (r.data, r.rdata, r.rlen, r.hl.length)))
      = some [(String.toList "a", String.toList "a " ++ [NUL], 2, 2)] ∧
    update_row_render (String.toList "a") [] = String.toList "a" := by
  decide

/-! ### Vertical motions -/

theorem rx_to_cx_of_cx_to_rx (row : EditorRow) (cx : Int)
    (h0 : 0 ≤ cx) (h1 : cx ≤ row.len) :
    row_rx_to_cx (some row) (row_cx_to_rx (some row) cx) = cx := by
  obtain ⟨n, rfl⟩ := Int.eq_ofNat_of_zero_le h0
  have hn : n ≤ row.data.length := by
    simp only [EditorRow.len, Int.ofNat_eq_coe] at h1; omega
  rw [row_cx_to_rx_eq_walk row n hn]
  obtain ⟨k, hk, hkl, hlt, hgt⟩ := row_rx_to_cx_spec row (walk (row.data.take n) 0)
  rw [hk]
  congr 1
  rcases Nat.lt_trichotomy k n with h | h | h
  · exfalso
    have := hgt (by omega)
    have := walk_take_le row.data (k + 1) n (by omega) hn
    omega
  · exact h
  · exfalso
    have := hlt n h
    have := walk_take_lt row.data n (n + 1) (by omega) (by omega)
    omega

theorem cx_to_rx_of_rx_to_cx_le (row : EditorRow) (rx : Int) (h0 : 0 ≤ rx) :
    row_cx_to_rx (some row) (row_rx_to_cx (some row) rx) ≤ rx := by
  obtain ⟨k, hk, hkl, hlt, _⟩ := row_rx_to_cx_spec row rx
  rw [hk, row_cx_to_rx_eq_walk row k hkl]
  rcases Nat.eq_zero_or_pos k with h | h
  · subst h; simpa [walk] using h0
  · have := hlt (k - 1) (by omega)
    rwa [Nat.sub_add_cancel h] at this

theorem row_rx_to_cx_bounds (row : Option EditorRow) (rx : Int) :
    0 ≤ row_rx_to_cx row rx ∧
    (∀ r, row = some r → row_rx_to_cx row rx ≤ r.len) ∧ (row = none → row_rx_to_cx row rx = 0) := by
  cases row with
  | none => exact ⟨le_refl _, fun r h => (by cases h), fun _ => rfl⟩
  | some r =>
    obtain ⟨k, hk, hkl, _, _⟩ := row_rx_to_cx_spec r rx
    refine ⟨by rw [hk]; omega, ?_, fun h => (by cases h)⟩
    intro r1 h
    cases h
    rw [hk]
    simp only [EditorRow.len, Int.ofNat_eq_coe]
    omega

theorem row_cx_to_rx_nonneg (row : Option EditorRow) (cx : Int) : 0 ≤ row_cx_to_rx row cx := by
  cases row with
  | none => exact le_refl _
  | some r =>
    unfold row_cx_to_rx
    simp only
    have hgen : ∀ (n i : Nat) (rx : Int), 0 ≤ rx → 0 ≤ row_cx_to_rx_loop r.data n i rx := by
      intro n
      induction n with
      | zero => intro i rx h; simpa [row_cx_to_rx_loop] using h
      | succ n ih =>
        intro i rx h
        rw [row_cx_to_rx_loop]
        apply ih
        have := (tab_advance_bounds (r.data.getD i NUL) rx h).1
        omega
    exact hgen _ _ _ (le_refl _)

theorem deref_some_bounds (E : EditorConfig) (y : Int) (row : EditorRow)
    (h : E.deref (E.get_row_at y) = some row) :
    0 ≤ y ∧ y < E.numrows ∧ E.rows[y.toNat]? = some row := by
  unfold EditorConfig.get_row_at at h
  split_ifs at h with hc
  · simp [EditorConfig.deref] at h
  · simp only [EditorConfig.deref, Option.some_bind] at h
    exact ⟨by omega, by omega, h⟩

theorem deref_some_of_bounds (E : EditorConfig) (y : Int) (h0 : 0 ≤ y) (h1 : y < E.numrows) :
    ∃ row, E.deref (E.get_row_at y) = some row := by
  unfold EditorConfig.get_row_at
  rw [if_neg (by omega)]
  simp only [EditorConfig.deref, Option.some_bind]
  have : y.toNat < E.rows.length := by
    unfold EditorConfig.numrows at h1
    simp only [Int.ofNat_eq_coe] at h1
    omega
  exact ⟨E.rows[y.toNat], List.getElem?_eq_getElem this⟩

/-- C26: for a cursor `(cx, cy)` on a row that is not the last, with
`tx = rx = row_cx_to_rx(row cy, cx)`, `do_cursor_down` followed by
`do_cursor_up` returns the cursor to `(cx, cy)`, with or without `update_rx`
in between; no vertical move changes `tx`. -/
theorem do_cursor_down_up (E : EditorConfig) (row : EditorRow)
    (hrow : E.deref (E.get_row_at E.cy) = some row) (hlast : E.cy < E.lastrow_idx)
    (hcx0 : 0 ≤ E.cx) (hcx : E.cx ≤ row.len)
    (htx : E.tx = row_cx_to_rx (some row) E.cx) (hrx : E.rx = row_cx_to_rx (some row) E.cx) :
    (do_cursor_up (do_cursor_down E)).cx = E.cx ∧
    (do_cursor_up (do_cursor_down E)).cy = E.cy ∧
    (do_cursor_up (update_rx (do_cursor_down E))).cx = E.cx ∧
    (do_cursor_up (update_rx (do_cursor_down E))).cy = E.cy ∧
    (do_cursor_down E).cy = E.cy + 1 ∧
    (∀ E1 : EditorConfig, (do_cursor_down E1).tx = E1.tx ∧ (do_cursor_up E1).tx = E1.tx) := by
  obtain ⟨hy0, hy1, _⟩ := deref_some_bounds E E.cy row hrow
  have hnum : E.numrows ≠ 0 := by omega
  have hlast1 : E.cy + 1 < E.numrows := by
    unfold EditorConfig.lastrow_idx at hlast
    unfold EditorConfig.numrows
    omega
  obtain ⟨row1, hrow1⟩ := deref_some_of_bounds E (E.cy + 1) (by omega) hlast1
  have hback := rx_to_cx_of_cx_to_rx row E.cx hcx0 hcx
  have htx0 : 0 ≤ E.tx := by rw [htx]; exact row_cx_to_rx_nonneg _ _
  have hdown : do_cursor_down E = { E with cy := E.cy + 1, cx := row_rx_to_cx (some row1) E.tx } := by
    unfold do_cursor_down update_cx_when_cy_changed
    rw [if_pos hlast]
    have : ({ E with cy := E.cy + 1 } : EditorConfig).numrows ≠ 0 := hnum
    rw [if_pos this]
    show ({ E with
      cy := E.cy + 1,
      cx := row_rx_to_cx (E.deref (E.get_row_at (E.cy + 1))) (if E.tx > E.rx then E.tx else E.rx) }
        : EditorConfig) = _
    rw [hrow1, hrx, ← htx, if_neg (lt_irrefl _)]
  have hup : ∀ D : EditorConfig, D.rows = E.rows → D.cy = E.cy + 1 →
      (if D.tx > D.rx then D.tx else D.rx) = E.tx →
      (do_cursor_up D).cx = E.cx ∧ (do_cursor_up D).cy = E.cy := by
    intro D hr hc hm
    unfold do_cursor_up
    rw [if_pos (show D.cy ≠ 0 by omega)]
    unfold update_cx_when_cy_changed
    have hn : ({ D with cy := D.cy - 1 } : EditorConfig).numrows ≠ 0 := by
      show Int.ofNat D.rows.length ≠ 0
      rw [hr]; exact hnum
    rw [if_pos hn]
    have hd : D.deref (D.get_row_at (D.cy - 1)) = some row := by
      have : D.cy - 1 = E.cy := by omega
      rw [this]
      unfold EditorConfig.deref EditorConfig.get_row_at EditorConfig.numrows at hrow ⊢
      rw [hr]; exact hrow
    constructor
    · show row_rx_to_cx (D.deref (D.get_row_at (D.cy - 1)))
        (if D.tx > D.rx then D.tx else D.rx) = E.cx
      rw [hd, hm, htx, hback]
    · show D.cy - 1 = E.cy
      omega
  have h1 := hup (do_cursor_down E) (by rw [hdown]) (by rw [hdown])
    (by rw [hdown]; show (if E.tx > E.rx then E.tx else E.rx) = E.tx
        rw [hrx, ← htx, if_neg (lt_irrefl _)])
  have hux : update_rx (do_cursor_down E) = { do_cursor_down E with
      rx := row_cx_to_rx (some row1) (row_rx_to_cx (some row1) E.tx) } := by
    unfold update_rx
    rw [if_pos (by rw [hdown]; exact hlast1)]
    rw [hdown]
    show ({ E with
      cy := E.cy + 1, cx := row_rx_to_cx (some row1) E.tx,
      rx := row_cx_to_rx (E.deref (E.get_row_at (E.cy + 1))) (row_rx_to_cx (some row1) E.tx) }
        : EditorConfig) = _
    rw [hrow1]
  have hle := cx_to_rx_of_rx_to_cx_le row1 E.tx htx0
  have h2 := hup (update_rx (do_cursor_down E)) (by rw [hux, hdown]) (by rw [hux, hdown])
    (by rw [hux, hdown]
        show (if E.tx > row_cx_to_rx (some row1) (row_rx_to_cx (some row1) E.tx) then E.tx
          else row_cx_to_rx (some row1) (row_rx_to_cx (some row1) E.tx)) = E.tx
        split_ifs <;> omega)
  refine ⟨h1.1, h1.2, h2.1, h2.2, by rw [hdown], ?_⟩
  intro E1
  constructor
  · unfold do_cursor_down update_cx_when_cy_changed
    split_ifs <;> rfl
  · unfold do_cursor_up update_cx_when_cy_changed
    split_ifs <;> rfl

/-- Witness for C26: the rows `"<TAB>ab"` and `"xyz"`, cursor at column 2 of
row 0 (rendered column 5). -/
theorem do_cursor_down_up_witness :
    (do_cursor_up (do_cursor_down { mk_editor [mk_row [TAB, Char.ofNat 97, Char.ofNat 98],
        mk_row (String.toList "xyz")] 2 0 0 0 with tx := 5, rx := 5 })).cx = 2 :=
  (do_cursor_down_up { mk_editor [mk_row [TAB, Char.ofNat 97, Char.ofNat 98],
        mk_row (String.toList "xyz")] 2 0 0 0 with tx := 5, rx := 5 }
    (mk_row [TAB, Char.ofNat 97, Char.ofNat 98]) (by decide) (by decide) (by decide)
    (by decide) (by decide) (by decide)).1

/-! ### Automatic indentation -/

theorem row_get_indent_loop_eq (cs : List Char) (n : Int) :
    row_get_indent_loop cs n = n + (leading_tabs cs : Int) := by
  induction cs generalizing n with
  | nil => simp [row_get_indent_loop, leading_tabs]
  | cons c cs ih =>
    unfold row_get_indent_loop leading_tabs
    by_cases h : c = TAB
    · rw [if_pos h, ih]
      simp only [List.takeWhile_cons, h, decide_True, if_true, List.length_cons]
      unfold leading_tabs
      push_cast
      omega
    · rw [if_neg h]
      simp [List.takeWhile_cons, h]

theorem row_get_indent_eq (row : EditorRow) :
    row_get_indent row = (leading_tabs row.data : Int) := by
  unfold row_get_indent
  rw [row_get_indent_loop_eq]
  simp

theorem leading_tabs_le (d : List Char) : leading_tabs d ≤ d.length := by
  unfold leading_tabs
  exact (List.takeWhile_sublist _).length_le

theorem leading_tabs_replicate (n : Nat) (d : List Char) (h : leading_tabs d = 0) :
    leading_tabs (List.replicate n TAB ++ d) = n := by
  induction n with
  | zero => simpa using h
  | succ n ih =>
    unfold leading_tabs at ih ⊢
    simp only [List.replicate_succ, List.cons_append, List.takeWhile_cons, decide_True, if_true,
      List.length_cons]
    omega

theorem leading_tabs_drop (d : List Char) : leading_tabs (d.drop (leading_tabs d)) = 0 := by
  induction d with
  | nil => simp [leading_tabs]
  | cons c cs ih =>
    by_cases h : c = TAB
    · have : leading_tabs (c :: cs) = leading_tabs cs + 1 := by
        simp [leading_tabs, List.takeWhile_cons, h]
      rw [this, List.drop_succ_cons]
      exact ih
    · have : leading_tabs (c :: cs) = 0 := by
        simp [leading_tabs, List.takeWhile_cons, h]
      rw [this, List.drop_zero, this]

theorem row_indent_scan_row_last (data : List Char) :
    row_indent_scan_row data (data.length + 1) = true := by
  unfold row_indent_scan_row
  have : data.getD data.length NUL = NUL := by
    simp [List.getD_eq_getElem?_getD]
  rw [this, if_pos (by decide)]

theorem row_indent_scan_eq (E : EditorConfig) (n : Nat) (hn : n ≤ E.rows.length) :
    row_indent_scan E n = some ((nearest_indent (E.raw.take n).reverse : Nat) : Int) := by
  induction n with
  | zero => simp [row_indent_scan, nearest_indent]
  | succ i ih =>
    have hi : i < E.rows.length := hn
    have hraw : i < E.raw.length := by simpa [EditorConfig.raw] using hi
    have htake : E.raw.take (i + 1) = E.raw.take i ++ [E.rows[i].data] := by
      rw [List.take_succ, List.getElem?_eq_getElem hraw]
      simp [EditorConfig.raw]
    unfold row_indent_scan
    rw [show Int.ofNat i = (i : Int) from rfl, get_row_at_nat E i hi]
    simp only [EditorConfig.deref, Option.some_bind, List.getElem?_eq_getElem hi]
    rw [htake, List.reverse_append, List.reverse_singleton, List.singleton_append]
    unfold nearest_indent
    by_cases h0 : E.rows[i].data = []
    · have : E.rows[i].len = 0 := by simp [EditorRow.len, h0]
      rw [if_pos this, if_pos h0, ih (by omega)]
    · have : E.rows[i].len ≠ 0 := by
        simp only [EditorRow.len, Int.ofNat_eq_coe]
        intro h
        apply h0
        exact List.length_eq_zero.mp (by omega)
      rw [if_neg this, if_neg h0, if_pos (row_indent_scan_row_last _), row_get_indent_eq]

theorem row_set_indent_loop_split (n : Nat) :
    ∀ (E : EditorConfig) (pre : List EditorRow) (r : EditorRow) (post : List EditorRow),
      E.rows = pre ++ r :: post →
      ∃ r1, row_fresh E.syn r1 (List.replicate (n + 1) TAB ++ r.data) ∧
        row_set_indent_loop (some pre.length) (n + 1) E
          = some (E.with_rows (pre ++ r1 :: post)) := by
  induction n with
  | zero =>
    intro E pre r post h
    obtain ⟨r1, hf, hres⟩ := row_insert_char_split E pre r post h 0 (Nat.zero_le _) TAB
    refine ⟨r1, by simpa using hf, ?_⟩
    unfold row_set_indent_loop
    have : ((0 : Nat) : Int) = 0 := rfl
    rw [this] at hres
    rw [hres]
    simp [row_set_indent_loop]
  | succ n ih =>
    intro E pre r post h
    obtain ⟨r1, hf, hres⟩ := row_insert_char_split E pre r post h 0 (Nat.zero_le _) TAB
    have : ((0 : Nat) : Int) = 0 := rfl
    rw [this] at hres
    obtain ⟨r2, hf2, hres2⟩ := ih (E.with_rows (pre ++ r1 :: post)) pre r1 post (by simp)
    refine ⟨r2, ?_, ?_⟩
    · have hd : r1.data = TAB :: r.data := by simpa using hf.1
      rw [hd] at hf2
      simp only [with_rows_syn] at hf2
      have : List.replicate (n + 1 + 1) TAB ++ r.data
          = List.replicate (n + 1) TAB ++ TAB :: r.data := by
        rw [List.replicate_succ' (n + 1), List.append_assoc]
        rfl
      rw [this]
      exact hf2
    · rw [row_set_indent_loop, hres, Option.some_bind, hres2]
      simp

theorem row_set_indent_split (E : EditorConfig) (pre : List EditorRow) (r : EditorRow)
    (post : List EditorRow) (h : E.rows = pre ++ r :: post) (n : Nat) (hn : 0 < n) :
    ∃ r1, row_fresh E.syn r1 (List.replicate n TAB ++ r.data.drop (leading_tabs r.data)) ∧
      row_set_indent E (some pre.length) (n : Int)
        = some (E.with_rows (pre ++ r1 :: post)) := by
  obtain ⟨m, rfl⟩ : ∃ m, n = m + 1 := ⟨n - 1, by omega⟩
  unfold row_set_indent
  rw [deref_split E pre r post h, Option.some_bind, row_get_indent_eq]
  rcases Nat.eq_zero_or_pos (leading_tabs r.data) with hc | hc
  · rw [hc]
    have : ((0 : Nat) : Int) = 0 := rfl
    rw [this, row_delete_range_zero E pre r post h 0, Option.some_bind]
    obtain ⟨r1, hf, hres⟩ := row_set_indent_loop_split m E pre r post h
    refine ⟨r1, by simpa using hf, ?_⟩
    simpa using hres
  · obtain ⟨r0, hf0, hres0⟩ := row_delete_range_split E pre r post h 0 (leading_tabs r.data) hc
      (by have := leading_tabs_le r.data; omega)
    have : ((0 : Nat) : Int) = 0 := rfl
    rw [this] at hres0
    rw [hres0, Option.some_bind]
    obtain ⟨r1, hf, hres⟩ := row_set_indent_loop_split m (E.with_rows (pre ++ r0 :: post))
      pre r0 post (by simp)
    have hd : r0.data = r.data.drop (leading_tabs r.data) := by simpa using hf0.1
    refine ⟨r1, ?_, ?_⟩
    · rw [hd] at hf
      simpa using hf
    · simpa using hres

theorem do_insert_newline_autoindent (E : EditorConfig) :
    do_insert_newline E true
      = (do_insert_newline E false).bind fun E4 =>
          row_indent_to_prev_indent E4 (E4.get_row_at E4.cy) := by
  unfold do_insert_newline
  cases insert_empty_row_if_file_empty E with
  | none => rfl
  | some E1 =>
    simp only [Option.some_bind, Option.bind_assoc, if_true, Bool.false_eq_true, if_false]

theorem row_indent_to_prev_indent_raw (E : EditorConfig) (pre : List (List Char))
    (d : List Char) (post : List (List Char)) (hraw : E.raw = pre ++ d :: post)
    (hcy : E.cy = (pre.length : Int)) :
    ∃ E1, row_indent_to_prev_indent E (E.get_row_at E.cy) = some E1 ∧
      E1.raw = pre ++ autoindent_text (nearest_indent pre.reverse) d :: post ∧
      E1.cy = E.cy ∧
      E1.cx = E.cx + ((nearest_indent pre.reverse - leading_tabs d : Nat) : Int) ∧
      E1.frame = E.frame ∧ rows_keep E.syn E.rows E1.rows := by
  obtain ⟨pre1, r, post1, hrows, hpre, hr, hpost, hlen⟩ := raw_split E pre d post hraw
  have hscan : row_indent_scan E (E.cy - 1 + 1).toNat
      = some ((nearest_indent pre.reverse : Nat) : Int) := by
    have h1 : (E.cy - 1 + 1).toNat = pre.length := by rw [hcy]; simp
    rw [h1, row_indent_scan_eq E pre.length (by rw [hrows]; simp; omega), hraw]
    simp
  have hget : E.get_row_at E.cy = some pre1.length := by
    rw [hcy, ← hlen]; exact get_row_at_split E pre1 r post1 hrows
  unfold row_indent_to_prev_indent
  rw [hscan, Option.some_bind, hget, deref_split E pre1 r post1 hrows, Option.some_bind,
    row_get_indent_eq, hr]
  by_cases hlt : leading_tabs d < nearest_indent pre.reverse
  · have hpos : ((nearest_indent pre.reverse : Nat) : Int) - (leading_tabs d : Int) > 0 := by
      omega
    have hcast : ((nearest_indent pre.reverse : Nat) : Int) - (leading_tabs d : Int)
        = ((nearest_indent pre.reverse - leading_tabs d : Nat) : Int) := by omega
    simp only [if_pos hpos]
    rw [hcast]
    obtain ⟨r1, hf, hres⟩ := row_set_indent_split E pre1 r post1 hrows
      (nearest_indent pre.reverse - leading_tabs d) (by omega)
    rw [hres]
    refine ⟨_, rfl, ?_, by simp, by simp, by simp, ?_⟩
    · simp only [set_cpos_raw, with_rows_raw, List.map_append, List.map_cons, hpre, hpost]
      rw [hf.1, hr]
      unfold autoindent_text
      rw [if_pos hlt]
    · simp only [set_cpos_rows, with_rows_rows]
      rw [hrows]
      exact rows_keep_split E.syn pre1 post1 r r1 (Or.inr ⟨_, hf⟩)
  · have hpos : ¬ ((nearest_indent pre.reverse : Nat) : Int) - (leading_tabs d : Int) > 0 := by
      omega
    simp only [if_neg hpos]
    refine ⟨E, rfl, ?_, rfl, ?_, rfl, rows_keep_refl _ _⟩
    · unfold autoindent_text
      rw [if_neg hlt, hraw]
    · have : nearest_indent pre.reverse - leading_tabs d = 0 := by omega
      rw [this]; simp

/-- The line split with automatic indentation at the level of raw texts: the
row at the cursor is split at the cursor and the lower part is indented towards
the nearest row of non-zero length above it. -/
theorem do_insert_newline_true_raw (E : EditorConfig) (pre : List (List Char)) (d : List Char)
    (post : List (List Char)) (k : Nat) (hraw : E.raw = pre ++ d :: post)
    (hcy : E.cy = (pre.length : Int)) (hcx : E.cx = (k : Int)) (hk : k ≤ d.length) :
    ∃ E1, do_insert_newline E true = some E1 ∧
      E1.raw = pre ++ d.take k ::
        autoindent_text (nearest_indent (d.take k :: pre.reverse)) (d.drop k) :: post ∧
      E1.cx = ((nearest_indent (d.take k :: pre.reverse) - leading_tabs (d.drop k) : Nat) : Int) ∧
      E1.cy = (pre.length : Int) + 1 ∧ E1.frame = E.frame ∧
      rows_keep E.syn E.rows E1.rows := by
  obtain ⟨E4, h4, hraw4, hcx4, hcy4, hfr4, hk4⟩ := do_insert_newline_raw E pre d post k hraw hcy hcx hk
  have hraw4a : E4.raw = (pre ++ [d.take k]) ++ d.drop k :: post := by
    rw [hraw4]; simp
  obtain ⟨E1, h1, hraw1, hcy1, hcx1, hfr1, hk1⟩ := row_indent_to_prev_indent_raw E4
    (pre ++ [d.take k]) (d.drop k) post hraw4a (by rw [hcy4]; simp)
  refine ⟨E1, ?_, ?_, ?_, ?_, hfr1.trans hfr4, ?_⟩
  · rw [do_insert_newline_autoindent, h4, Option.some_bind, h1]
  · rw [hraw1]; simp
  · rw [hcx1, hcx4]; simp
  · rw [hcy1, hcy4]
  · have hs : E4.syn = E.syn := frame_syn E E4 hfr4
    rw [hs] at hk1
    exact rows_keep_trans E.syn _ _ _ hk4 hk1

theorem do_insert_newline_true_empty_raw (E : EditorConfig) (h : E.rows = [])
    (hcy : E.cy = 0) (hcx : E.cx = 0) :
    ∃ E1, do_insert_newline E true = some E1 ∧ E1.raw = [[], []] ∧ E1.cx = 0 ∧ E1.cy = 1 ∧
      E1.frame = E.frame ∧ rows_keep E.syn E.rows E1.rows := by
  obtain ⟨E4, h4, hraw4, hcx4, hcy4, hfr4, hk4⟩ := do_insert_newline_empty_raw E h hcy hcx
  obtain ⟨E1, h1, hraw1, hcy1, hcx1, hfr1, hk1⟩ := row_indent_to_prev_indent_raw E4
    [[]] [] [] (by rw [hraw4]; rfl) (by rw [hcy4]; rfl)
  refine ⟨E1, ?_, ?_, ?_, ?_, hfr1.trans hfr4, ?_⟩
  · rw [do_insert_newline_autoindent, h4, Option.some_bind, h1]
  · rw [hraw1]; rfl
  · rw [hcx1, hcx4]; rfl
  · rw [hcy1, hcy4]
  · have hs : E4.syn = E.syn := frame_syn E E4 hfr4
    rw [hs] at hk1
    exact rows_keep_trans E.syn _ _ _ hk4 hk1

theorem nearest_indent_eq_nonblank (L : List (List Char))
    (h : ∀ x ∈ L, x ≠ [] → is_blank x = false) :
    nearest_indent L = nearest_nonblank_indent L := by
  induction L with
  | nil => rfl
  | cons x xs ih =>
    unfold nearest_indent nearest_nonblank_indent
    by_cases hx : x = []
    · subst hx
      rw [if_pos rfl, if_pos (by rfl)]
      exact ih (fun y hy => h y (List.mem_cons_of_mem _ hy))
    · rw [if_neg hx, if_neg (by rw [h x (List.mem_cons_self _ _) hx]; decide)]

theorem leading_tabs_autoindent (t : Nat) (d : List Char) (h : leading_tabs d = 0) :
    leading_tabs (autoindent_text t d) = t := by
  unfold autoindent_text
  rw [h]
  by_cases ht : 0 < t
  · rw [if_pos ht, Nat.sub_zero, List.drop_zero]
    exact leading_tabs_replicate t d h
  · rw [if_neg ht, h]; omega

theorem autoindent_text_length (t : Nat) (d : List Char) :
    t - leading_tabs d ≤ (autoindent_text t d).length := by
  unfold autoindent_text
  split_ifs with h
  · simp
  · omega

/-- C15 (amended): for a document and a valid cursor (the empty document taken
as one empty row), `do_insert_newline(true)` splits the row at the cursor and
leaves the cursor on the row holding the text after the cursor.  When no row of
non-zero length above that row is blank, with `t` the leading tabs of the
nearest non-blank row above it (0 when there is none): the row has `t` leading
tabs when the text moved to it starts with no tab, and it keeps its text when
that text already starts with `t` or more tabs. -/
theorem do_insert_newline_autoindent_tabs (E : EditorConfig) (pre : List (List Char))
    (d : List Char) (post : List (List Char)) (k : Nat)
    (hdoc : (E.raw = pre ++ d :: post ∧ E.cy = (pre.length : Int) ∧ E.cx = (k : Int) ∧
        k ≤ d.length) ∨
      (E.rows = [] ∧ E.cy = 0 ∧ E.cx = 0 ∧ pre = [] ∧ d = [] ∧ post = [] ∧ k = 0))
    (hblank : ∀ x ∈ d.take k :: pre.reverse, x ≠ [] → is_blank x = false) :
    ∃ E1 lower, do_insert_newline E true = some E1 ∧
      E1.raw = pre ++ d.take k :: lower :: post ∧ E1.cy = (pre.length : Int) + 1 ∧
      (leading_tabs (d.drop k) = 0 →
        leading_tabs lower = nearest_nonblank_indent (d.take k :: pre.reverse)) ∧
      (nearest_nonblank_indent (d.take k :: pre.reverse) ≤ leading_tabs (d.drop k) →
        lower = d.drop k) := by
  have hne := nearest_indent_eq_nonblank _ hblank
  rcases hdoc with ⟨hraw, hcy, hcx, hk⟩ | ⟨hrows, hcy, hcx, rfl, rfl, rfl, rfl⟩
  · obtain ⟨E1, h1, hraw1, _, hcy1, _, _⟩ := do_insert_newline_true_raw E pre d post k hraw hcy hcx hk
    refine ⟨E1, _, h1, hraw1, hcy1, ?_, ?_⟩
    · intro h0
      rw [leading_tabs_autoindent _ _ h0, hne]
    · intro hle
      unfold autoindent_text
      rw [if_neg (by rw [hne]; omega)]
  · obtain ⟨E1, h1, hraw1, _, hcy1, _, _⟩ := do_insert_newline_true_empty_raw E hrows hcy hcx
    refine ⟨E1, [], h1, by rw [hraw1]; rfl, by rw [hcy1]; rfl, ?_, ?_⟩
    · intro _; rfl
    · intro _; rfl

/-- Witness for C15 (amended): the row `"<TAB>ab"` split after `a`. -/
theorem do_insert_newline_autoindent_tabs_witness :
    ∃ E1 lower, do_insert_newline (mk_editor [mk_row [TAB, Char.ofNat 97, Char.ofNat 98]]
        2 0 0 0) true = some E1 ∧
      E1.raw = [] ++ [TAB, Char.ofNat 97, Char.ofNat 98].take 2 :: lower :: [] ∧
      E1.cy = (([] : List (List Char)).length : Int) + 1 ∧
      (leading_tabs ([TAB, Char.ofNat 97, Char.ofNat 98].drop 2) = 0 →
        leading_tabs lower = nearest_nonblank_indent
          ([TAB, Char.ofNat 97, Char.ofNat 98].take 2 :: ([] : List (List Char)).reverse)) ∧
      (nearest_nonblank_indent
          ([TAB, Char.ofNat 97, Char.ofNat 98].take 2 :: ([] : List (List Char)).reverse)
          ≤ leading_tabs ([TAB, Char.ofNat 97, Char.ofNat 98].drop 2) →
        lower = [TAB, Char.ofNat 97, Char.ofNat 98].drop 2) :=
  do_insert_newline_autoindent_tabs (mk_editor [mk_row [TAB, Char.ofNat 97, Char.ofNat 98]]
    2 0 0 0) [] [TAB, Char.ofNat 97, Char.ofNat 98] [] 2
    (Or.inl ⟨rfl, rfl, rfl, by decide⟩) (by decide)

/-- C15 as stated fails: splitting the row `"a<TAB>b"` after `a` with
automatic indentation leaves the new row `"<TAB>b"` with one leading tab, while
the nearest non-blank row above it, `"a"`, has none. -/
theorem do_insert_newline_autoindent_keeps_tabs :
    (do_insert_newline (mk_editor [mk_row [Char.ofNat 97, TAB, Char.ofNat 98]] 1 0 0 0)
        true).map (fun E => (E.raw, E.cx, E.cy))
      = some ([[Char.ofNat 97], [TAB, Char.ofNat 98]], 0, 1) ∧
    nearest_nonblank_indent [[Char.ofNat 97]] = 0 ∧
    leading_tabs [TAB, Char.ofNat 98] = 1 := by
  decide

/-! ### The cursor invariant under motions and insertions -/

theorem deref_rows_eq (E E1 : EditorConfig) (h : E1.rows = E.rows) (y : Int) :
    E1.deref (E1.get_row_at y) = E.deref (E.get_row_at y) := by
  unfold EditorConfig.deref EditorConfig.get_row_at EditorConfig.numrows
  rw [h]

theorem cursor_valid_of_raw (E : EditorConfig) (pre : List (List Char)) (d : List Char)
    (post : List (List Char)) (k : Nat) (hraw : E.raw = pre ++ d :: post)
    (hcy : E.cy = (pre.length : Int)) (hcx : E.cx = (k : Int)) (hk : k ≤ d.length) :
    cursor_valid E := by
  obtain ⟨pre1, r, post1, hrows, _, hr, _, hlen⟩ := raw_split E pre d post hraw
  refine ⟨r, ?_, by omega, ?_⟩
  · rw [hcy, ← hlen, get_row_at_split E pre1 r post1 hrows, deref_split E pre1 r post1 hrows]
  · rw [hcx]
    simp only [EditorRow.len, Int.ofNat_eq_coe, hr]
    omega

theorem cursor_valid_raw (E : EditorConfig) (h : cursor_valid E) :
    ∃ pre d post k, E.raw = pre ++ d :: post ∧ E.cy = ((pre.length : Nat) : Int) ∧
      E.cx = ((k : Nat) : Int) ∧ k ≤ d.length := by
  rcases cursor_ok_raw E (Or.inr h) with ⟨hrows, _, _⟩ | h1
  · exfalso
    obtain ⟨row, hrow, _, _⟩ := h
    obtain ⟨_, h2, _⟩ := deref_some_bounds E E.cy row hrow
    simp [EditorConfig.numrows, hrows] at h2
    omega
  · exact h1

theorem cursor_valid_at (E E1 : EditorConfig) (hrows : E1.rows = E.rows)
    (h0 : 0 ≤ E1.cy) (h1 : E1.cy < E.numrows)
    (hx : ∀ row, E.deref (E.get_row_at E1.cy) = some row → 0 ≤ E1.cx ∧ E1.cx ≤ row.len) :
    cursor_valid E1 := by
  obtain ⟨row, hrow⟩ := deref_some_of_bounds E E1.cy h0 h1
  exact ⟨row, by rw [deref_rows_eq E E1 hrows, hrow], hx row hrow⟩

theorem update_cx_valid (E : EditorConfig) (h0 : 0 ≤ E.cy) (h1 : E.cy < E.numrows) :
    cursor_valid (update_cx_when_cy_changed E) := by
  unfold update_cx_when_cy_changed
  rw [if_pos (by omega)]
  refine cursor_valid_at E { E with
    cx := row_rx_to_cx (E.deref (E.get_row_at E.cy)) (if E.tx > E.rx then E.tx else E.rx) }
    rfl h0 h1 ?_
  intro row hrow
  show 0 ≤ row_rx_to_cx (E.deref (E.get_row_at E.cy)) _ ∧
    row_rx_to_cx (E.deref (E.get_row_at E.cy)) _ ≤ row.len
  have := row_rx_to_cx_bounds (E.deref (E.get_row_at E.cy)) (if E.tx > E.rx then E.tx else E.rx)
  exact ⟨this.1, this.2.1 row hrow⟩

/-- C25: on a document with at least one row and a cursor with
`0 ≤ cy < row_count` and `0 ≤ cx ≤ raw_length(row cy)`, each of cursor left,
right, up, down, line begin, line end, first row, last row, `do_insert_char`
and `do_insert_newline` (with or without automatic indentation) returns a state
whose cursor satisfies the same bounds. -/
theorem cursor_valid_preserved (E : EditorConfig) (h : cursor_valid E) :
    (∃ E1, do_cursor_left E = some E1 ∧ cursor_valid E1) ∧
    (∃ E1, do_cursor_right E = some E1 ∧ cursor_valid E1) ∧
    cursor_valid (do_cursor_up E) ∧ cursor_valid (do_cursor_down E) ∧
    cursor_valid (do_cursor_line_begin E) ∧ cursor_valid (do_cursor_line_end E) ∧
    cursor_valid (do_cursor_first_row E) ∧ cursor_valid (do_cursor_last_row E) ∧
    (∀ c, ∃ E1, do_insert_char E c = some E1 ∧ cursor_valid E1) ∧
    (∀ autoindent, ∃ E1, do_insert_newline E autoindent = some E1 ∧ cursor_valid E1) := by
  obtain ⟨row, hrow, hx0, hx1⟩ := h
  obtain ⟨hy0, hy1, _⟩ := deref_some_bounds E E.cy row hrow
  have hlen0 : 0 ≤ row.len := by simp [EditorRow.len]
  have hlast : E.lastrow_idx = E.numrows - 1 := rfl
  refine ⟨?_, ?_, ?_, ?_, ?_, ?_, ?_, ?_, ?_, ?_⟩
  · unfold do_cursor_left
    by_cases hc : E.cx ≠ 0
    · rw [if_pos hc]
      refine ⟨_, rfl, cursor_valid_at E _ rfl hy0 hy1 ?_⟩
      intro r hr
      have : r = row := by
        have h2 : E.deref (E.get_row_at E.cy) = some r := hr
        rw [hrow] at h2; exact (Option.some.inj h2).symm
      subst this
      show 0 ≤ E.cx - 1 ∧ E.cx - 1 ≤ r.len
      omega
    · rw [if_neg hc]
      by_cases hy : E.cy > 0
      · rw [if_pos hy]
        obtain ⟨prev, hprev⟩ := deref_some_of_bounds E (E.cy - 1) (by omega) (by omega)
        rw [hprev]
        refine ⟨_, rfl, cursor_valid_at E _ rfl (show 0 ≤ E.cy - 1 by omega)
          (show E.cy - 1 < E.numrows by omega) ?_⟩
        intro r hr
        have h2 : E.deref (E.get_row_at (E.cy - 1)) = some r := hr
        rw [hprev] at h2
        have : r = prev := (Option.some.inj h2).symm
        subst this
        show 0 ≤ r.len ∧ r.len ≤ r.len
        exact ⟨by simp [EditorRow.len], le_refl _⟩
      · rw [if_neg hy]
        exact ⟨E, rfl, row, hrow, hx0, hx1⟩
  · unfold do_cursor_right
    rw [hrow]
    refine ⟨_, rfl, ?_⟩
    simp only
    by_cases hc : E.cx < row.len
    · rw [if_pos hc]
      refine cursor_valid_at E _ rfl hy0 hy1 ?_
      intro r hr
      have h2 : E.deref (E.get_row_at E.cy) = some r := hr
      rw [hrow] at h2
      have : r = row := (Option.some.inj h2).symm
      subst this
      show 0 ≤ E.cx + 1 ∧ E.cx + 1 ≤ r.len
      omega
    · rw [if_neg hc]
      by_cases hn : E.cy ≠ E.lastrow_idx ∧ E.cx = row.len
      · rw [if_pos hn]
        refine cursor_valid_at E _ rfl (show 0 ≤ E.cy + 1 by omega)
          (show E.cy + 1 < E.numrows by omega) ?_
        intro r _
        show 0 ≤ (0 : Int) ∧ (0 : Int) ≤ r.len
        exact ⟨le_refl _, by simp [EditorRow.len]⟩
      · rw [if_neg hn]
        exact ⟨row, hrow, hx0, hx1⟩
  · unfold do_cursor_up
    split_ifs with hc
    · exact update_cx_valid _ (show 0 ≤ E.cy - 1 by omega) (show E.cy - 1 < E.numrows by omega)
    · exact update_cx_valid _ hy0 hy1
  · unfold do_cursor_down
    split_ifs with hc
    · exact update_cx_valid _ (show 0 ≤ E.cy + 1 by omega) (show E.cy + 1 < E.numrows by omega)
    · exact update_cx_valid _ hy0 hy1
  · refine cursor_valid_at E _ rfl hy0 hy1 ?_
    intro r _
    show 0 ≤ (0 : Int) ∧ (0 : Int) ≤ r.len
    exact ⟨le_refl _, by simp [EditorRow.len]⟩
  · unfold do_cursor_line_end
    rw [hrow]
    refine cursor_valid_at E _ rfl hy0 hy1 ?_
    intro r hr
    have h2 : E.deref (E.get_row_at E.cy) = some r := hr
    rw [hrow] at h2
    have : r = row := (Option.some.inj h2).symm
    subst this
    show 0 ≤ r.len ∧ r.len ≤ r.len
    exact ⟨hlen0, le_refl _⟩
  · exact update_cx_valid _ (le_refl (0 : Int)) (show (0 : Int) < E.numrows by omega)
  · exact update_cx_valid _ (show 0 ≤ E.lastrow_idx by omega)
      (show E.lastrow_idx < E.numrows by omega)
  · intro c
    obtain ⟨pre, d, post, k, hraw, hcy, hcx, hk⟩ := cursor_valid_raw E ⟨row, hrow, hx0, hx1⟩
    by_cases hc : c = NL
    · subst hc
      rw [do_insert_char_NL]
      obtain ⟨E1, h1, hraw1, hcx1, hcy1, _, _⟩ := do_insert_newline_raw E pre d post k hraw hcy hcx hk
      refine ⟨E1, h1, cursor_valid_of_raw E1 (pre ++ [d.take k]) (d.drop k) post 0
        (by rw [hraw1]; simp) (by rw [hcy1]; simp) (by rw [hcx1]; rfl) (Nat.zero_le _)⟩
    · have hd : d = d.take k ++ d.drop k := (List.take_append_drop k d).symm
      have hlen : (d.take k).length = k := by simp [List.length_take, Nat.min_eq_left hk]
      obtain ⟨E1, h1, hraw1, hcx1, hcy1, _, _⟩ := do_insert_char_raw E pre (d.take k) (d.drop k)
        post c hc (by rw [← hd]; exact hraw) hcy (by rw [hlen]; exact hcx)
      refine ⟨E1, h1, cursor_valid_of_raw E1 pre _ post (k + 1) hraw1 hcy1
        (by rw [hcx1, hlen]; rfl) ?_⟩
      simp only [List.length_append, List.length_cons, hlen, List.length_drop]
      omega
  · intro autoindent
    obtain ⟨pre, d, post, k, hraw, hcy, hcx, hk⟩ := cursor_valid_raw E ⟨row, hrow, hx0, hx1⟩
    cases autoindent with
    | false =>
      obtain ⟨E1, h1, hraw1, hcx1, hcy1, _, _⟩ := do_insert_newline_raw E pre d post k hraw hcy hcx hk
      refine ⟨E1, h1, cursor_valid_of_raw E1 (pre ++ [d.take k]) (d.drop k) post 0
        (by rw [hraw1]; simp) (by rw [hcy1]; simp) (by rw [hcx1]; rfl) (Nat.zero_le _)⟩
    | true =>
      obtain ⟨E1, h1, hraw1, hcx1, hcy1, _, _⟩ :=
        do_insert_newline_true_raw E pre d post k hraw hcy hcx hk
      refine ⟨E1, h1, cursor_valid_of_raw E1 (pre ++ [d.take k]) _ post _
        (by rw [hraw1]; simp) (by rw [hcy1]; simp) hcx1 (autoindent_text_length _ _)⟩

/-- Witness for C25: the rows `"ab"` and `"c"` with the cursor at column 1 of
row 0. -/
theorem cursor_valid_preserved_witness :
    cursor_valid (do_cursor_down (mk_editor [mk_row (String.toList "ab"),
      mk_row (String.toList "c")] 1 0 0 0)) :=
  (cursor_valid_preserved (mk_editor [mk_row (String.toList "ab"),
      mk_row (String.toList "c")] 1 0 0 0)
    ⟨mk_row (String.toList "ab"), by decide, by decide, by decide⟩).2.2.2.1

/-! ### Paste in terms of the joined text -/

theorem paste_lines_ne_nil (a t b : List Char) : paste_lines a t b ≠ [] := by
  induction t generalizing a with
  | nil => simp [paste_lines]
  | cons c t ih =>
    unfold paste_lines
    split_ifs
    · simp
    · exact ih _

theorem join_rows_cons_cons (d d2 : List Char) (ds : List (List Char)) :
    join_rows (d :: d2 :: ds) = d ++ NL :: join_rows (d2 :: ds) := rfl

theorem join_rows_paste_lines (a t b : List Char) :
    join_rows (paste_lines a t b) = a ++ t ++ b := by
  induction t generalizing a with
  | nil => simp [paste_lines, join_rows]
  | cons c t ih =>
    unfold paste_lines
    by_cases hc : c = NL
    · rw [if_pos hc]
      obtain ⟨d2, ds, hds⟩ := List.exists_cons_of_ne_nil (paste_lines_ne_nil [] t b)
      rw [hds, join_rows_cons_cons, ← hds, ih, hc]
      simp
    · rw [if_neg hc, ih]
      simp

theorem join_rows_mid (pre L post : List (List Char)) (hL : L ≠ []) :
    join_rows (pre ++ L ++ post) = rows_nl pre ++ join_rows L ++ nl_rows post := by
  obtain ⟨d, ds, rfl⟩ := List.exists_cons_of_ne_nil hL
  have : pre ++ d :: ds ++ post = pre ++ d :: (ds ++ post) := by simp
  rw [this, join_rows_split, join_rows_cons, nl_rows_append]
  simp

theorem paste_lines_last (t : List Char) :
    ∀ a b : List Char, ∃ init last, paste_lines a t b = init ++ [last] ∧
      init.length = t.count NL ∧
      (rows_nl init).length + paste_col a t = a.length + t.length ∧
      paste_col a t ≤ last.length := by
  induction t with
  | nil =>
    intro a b
    exact ⟨[], a ++ b, by simp [paste_lines], by simp, by simp [rows_nl, paste_col],
      by simp [paste_col]⟩
  | cons c t ih =>
    intro a b
    unfold paste_lines paste_col
    by_cases hc : c = NL
    · obtain ⟨init, last, h1, h2, h3, h4⟩ := ih [] b
      rw [if_pos hc, if_pos hc, h1]
      refine ⟨a :: init, last, by simp, ?_, ?_, h4⟩
      · simp [hc, h2]
      · simp only [rows_nl, List.length_append, List.length_cons, List.length_nil] at h3 ⊢
        omega
    · obtain ⟨init, last, h1, h2, h3, h4⟩ := ih (a ++ [c]) b
      rw [if_neg hc, if_neg hc, h1]
      refine ⟨init, last, rfl, ?_, ?_, h4⟩
      · rw [h2, List.count_cons_of_ne (Ne.symm hc)]
      · simp only [List.length_append, List.length_cons, List.length_nil] at h3 ⊢
        omega

theorem pos_offset_nil (x y : Nat) : pos_offset [] x y = x := by
  cases y <;> rfl

/-- C16: for a document with a valid cursor (or the empty document) and any
clipboard, with `T` the raw rows joined by newline and `p` the offset of the
cursor in `T`, `do_paste_from_clipboard` returns rows whose join is
`T[0, p) ++ clipboard ++ T[p, ...)`, with the cursor at offset
`p + |clipboard|`; the clipboard is unchanged, and on a document with rows the
number of rows grows by the number of newlines of the clipboard. -/
theorem do_paste_joined_text (E : EditorConfig) (hcur : cursor_ok E) :
    ∃ E1, do_paste_from_clipboard E = some E1 ∧
      join_rows E1.raw
        = (join_rows E.raw).take (pos_offset E.raw E.cx.toNat E.cy.toNat) ++ E.clipboard ++
          (join_rows E.raw).drop (pos_offset E.raw E.cx.toNat E.cy.toNat) ∧
      0 ≤ E1.cx ∧ 0 ≤ E1.cy ∧
      pos_offset E1.raw E1.cx.toNat E1.cy.toNat
        = pos_offset E.raw E.cx.toNat E.cy.toNat + E.clipboard.length ∧
      (E1.rows ≠ [] → valid_pos E1.raw E1.cx.toNat E1.cy.toNat) ∧
      E1.clipboard = E.clipboard ∧
      (E.rows ≠ [] → E1.raw.length = E.raw.length + E.clipboard.count NL) := by
  unfold do_paste_from_clipboard
  rcases cursor_ok_raw E hcur with ⟨hrows, hcx, hcy⟩ | ⟨pre, d, post, k, hraw, hcy, hcx, hk⟩
  · have hraw : E.raw = [] := by simp [EditorConfig.raw, hrows]
    by_cases ht : E.clipboard = []
    · refine ⟨E, by rw [ht]; rfl, ?_, by omega, by omega, ?_, ?_, rfl, ?_⟩
      · simp [hraw, join_rows, ht]
      · simp [ht]
      · intro h; exact absurd hrows h
      · intro h; exact absurd hrows h
    · obtain ⟨E1, h1, hraw1, hcy1, hcx1, hfr, _⟩ := do_paste_loop_empty E.clipboard ht E hrows hcy hcx
      obtain ⟨init, last, hl1, hl2, hl3, hl4⟩ := paste_lines_last E.clipboard [] []
      refine ⟨E1, h1, ?_, by omega, by omega, ?_, ?_, frame_clipboard E E1 hfr, ?_⟩
      · rw [hraw1, join_rows_paste_lines, hraw]
        simp [join_rows]
      · rw [hraw1, hcy1, hcx1, hraw, hcx, hcy, hl1]
        simp only [Int.toNat_ofNat, Int.toNat_zero, pos_offset_nil]
        rw [← hl2]
        have := pos_offset_split init [last] (paste_col [] E.clipboard)
        rw [this]
        simp only [List.length_nil] at hl3
        omega
      · intro _
        rw [hraw1, hcy1, hcx1, hl1]
        simp only [Int.toNat_ofNat]
        refine ⟨last, ?_, hl4⟩
        rw [← hl2]
        simp
      · intro h; exact absurd hrows h
  · have hd : d = d.take k ++ d.drop k := (List.take_append_drop k d).symm
    have hlen : (d.take k).length = k := by simp [List.length_take, Nat.min_eq_left hk]
    obtain ⟨E1, h1, hraw1, hcy1, hcx1, hfr, _⟩ := do_paste_loop_raw E.clipboard E pre
      (d.take k) (d.drop k) post (by rw [← hd]; exact hraw) hcy (by rw [hlen]; exact hcx)
    obtain ⟨init, last, hl1, hl2, hl3, hl4⟩ := paste_lines_last E.clipboard (d.take k) (d.drop k)
    have hp : pos_offset E.raw E.cx.toNat E.cy.toNat = (rows_nl pre).length + k := by
      rw [hraw, hcx, hcy]
      simp only [Int.toNat_ofNat]
      exact pos_offset_split pre (d :: post) k
    have hT : join_rows E.raw = (rows_nl pre ++ d.take k) ++ (d.drop k ++ nl_rows post) := by
      rw [hraw, join_rows_split]
      simp only [List.append_assoc]
      rw [← List.append_assoc (d.take k), List.take_append_drop]
    have hpl : (rows_nl pre ++ d.take k).length = (rows_nl pre).length + k := by
      simp [hlen]
    refine ⟨E1, h1, ?_, by omega, by omega, ?_, ?_, frame_clipboard E E1 hfr, ?_⟩
    · rw [hraw1, join_rows_mid _ _ _ (paste_lines_ne_nil _ _ _), join_rows_paste_lines, hp, hT,
        ← hpl, List.take_left, List.drop_left]
      simp
    · rw [hp, hraw1, hcy1, hcx1, hl1]
      have e1 : ((pre.length : Int) + (E.clipboard.count NL : Int)).toNat
          = (pre ++ init).length := by
        rw [List.length_append, hl2]; omega
      rw [e1, Int.toNat_ofNat]
      have e2 : pre ++ (init ++ [last]) ++ post = (pre ++ init) ++ (last :: post) := by simp
      rw [e2, pos_offset_split, rows_nl_append, List.length_append]
      rw [hlen] at hl3
      omega
    · intro _
      rw [hraw1, hcy1, hcx1, hl1]
      have e1 : ((pre.length : Int) + (E.clipboard.count NL : Int)).toNat
          = (pre ++ init).length := by
        rw [List.length_append, hl2]; omega
      rw [e1, Int.toNat_ofNat]
      have e2 : pre ++ (init ++ [last]) ++ post = (pre ++ init) ++ (last :: post) := by simp
      rw [e2]
      exact ⟨last, by rw [List.getElem?_append_right (le_refl _)]; simp, hl4⟩
    · intro _
      rw [hraw1, hraw, hl1]
      simp only [List.length_append, List.length_cons, List.length_nil, hl2]
      omega

/-- Witness for C16: the row `"ab"` with the cursor after `a` and the
clipboard `"x<NL>y"`. -/
theorem do_paste_joined_text_witness :
    ∃ E1, do_paste_from_clipboard { mk_editor [mk_row (String.toList "ab")] 1 0 0 0 with
        clipboard := [Char.ofNat 120, NL, Char.ofNat 121] } = some E1 ∧
      join_rows E1.raw = [Char.ofNat 97, Char.ofNat 120, NL, Char.ofNat 121, Char.ofNat 98] :=
  (do_paste_joined_text { mk_editor [mk_row (String.toList "ab")] 1 0 0 0 with
      clipboard := [Char.ofNat 120, NL, Char.ofNat 121] }
    (Or.inr ⟨mk_row (String.toList "ab"), by decide, by decide, by decide⟩)).imp
    fun _ h => ⟨h.1, h.2.1⟩

/-! ### The empty document -/

/-- C31: on the empty document `do_cursor_right` dereferences the null row
(`none`), and so do the keys for cursor right, word forward and open line
below; the key for the last row leaves the cursor row at -1. -/
theorem empty_document_actions :
    do_cursor_right (init_editor 24 80) = none ∧
    (∀ fuel, do_cursor_forward_word fuel (init_editor 24 80) = none) ∧
    do_open_line_below_cursor (init_editor 24 80) = none ∧
    process_keypress 8 (init_editor 24 80) (key 'l') 0 = none ∧
    process_keypress 8 (init_editor 24 80) (key 'o') 0 = none ∧
    process_keypress 8 (init_editor 24 80) (key ',') 0 = none ∧
    (process_keypress 8 (init_editor 24 80) (key 'G') 0).map
      (fun r => match r with
        | .running E => some E.cy
        | .exited => none) = some (some (-1)) := by
  refine ⟨by decide, ?_, by decide, by decide, by decide, by decide, by decide⟩
  intro fuel
  cases fuel with
  | zero => rfl
  | succ n => rfl

/-! ### Search -/

theorem isPrefixOf_length (q s : List Char) (h : q.isPrefixOf s = true) : q.length ≤ s.length :=
  (List.isPrefixOf_iff_prefix.mp h).length_le

theorem str_find_from_spec (s q : List Char) :
    ∀ n i : Nat,
      (∀ m, str_find_from s q n i = some m →
        i ≤ m ∧ q.isPrefixOf (s.drop m) = true ∧
          ∀ j, i ≤ j → j < m → q.isPrefixOf (s.drop j) = false) ∧
      (str_find_from s q n i = none →
        ∀ j, i ≤ j → j < i + n → q.isPrefixOf (s.drop j) = false) := by
  intro n
  induction n with
  | zero =>
    intro i
    refine ⟨fun m h => by simp [str_find_from] at h, fun _ j h1 h2 => by omega⟩
  | succ n ih =>
    intro i
    unfold str_find_from
    by_cases hp : q.isPrefixOf (s.drop i) = true
    · rw [if_pos hp]
      refine ⟨?_, fun h => by simp at h⟩
      intro m hm
      have : i = m := Option.some.inj hm
      subst this
      exact ⟨le_refl _, hp, fun j h1 h2 => by omega⟩
    · rw [if_neg hp]
      obtain ⟨ih1, ih2⟩ := ih (i + 1)
      constructor
      · intro m hm
        obtain ⟨h1, h2, h3⟩ := ih1 m hm
        refine ⟨by omega, h2, ?_⟩
        intro j hj1 hj2
        rcases Nat.eq_or_lt_of_le hj1 with h | h
        · subst h; exact Bool.eq_false_iff.mpr hp
        · exact h3 j h hj2
      · intro h j hj1 hj2
        rcases Nat.eq_or_lt_of_le hj1 with h' | h'
        · subst h'; exact Bool.eq_false_iff.mpr hp
        · exact ih2 h j h' (by omega)

theorem str_find_spec (s q : List Char) (pos : Int) (hq : q ≠ []) (hpos : 0 ≤ pos) :
    (∀ m, str_find s q pos = some m →
      pos ≤ (m : Int) ∧ q.isPrefixOf (s.drop m) = true ∧
        ∀ j : Nat, pos ≤ (j : Int) → j < m → q.isPrefixOf (s.drop j) = false) ∧
    (str_find s q pos = none →
      ∀ j : Nat, pos ≤ (j : Int) → q.isPrefixOf (s.drop j) = false) := by
  have hql : 0 < q.length := List.length_pos.mpr hq
  unfold str_find
  by_cases hc : pos < 0 ∨ pos.toNat + q.length > s.length
  · rw [if_pos hc]
    refine ⟨fun m h => by simp at h, ?_⟩
    intro _ j hj
    by_contra hne
    have := isPrefixOf_length q _ (by simpa using hne)
    rw [List.length_drop] at this
    rcases hc with hc | hc
    · omega
    · omega
  · rw [if_neg hc]
    obtain ⟨h1, h2⟩ := str_find_from_spec s q (s.length - q.length - pos.toNat + 1) pos.toNat
    constructor
    · intro m hm
      obtain ⟨a, b, c⟩ := h1 m hm
      exact ⟨by omega, b, fun j hj1 hj2 => c j (by omega) hj2⟩
    · intro hn j hj
      by_cases hlt : j < pos.toNat + (s.length - q.length - pos.toNat + 1)
      · exact h2 hn j (by omega) hlt
      · by_contra hne
        have := isPrefixOf_length q _ (by simpa using hne)
        rw [List.length_drop] at this
        omega

theorem search_forward_loop_spec (E : EditorConfig) (q : List Char) (hq : q ≠ [])
    (hrx : 0 ≤ E.rx) :
    ∀ n i : Nat, (i + n = E.rows.length ∨ (n = 0 ∧ E.rows.length ≤ i)) → E.cy ≤ (i : Int) →
      (∃ i1 m, search_forward_loop E q n i = some (some (i1, m)) ∧ fwd_candidate E q i1 m ∧
        ∀ j c, i ≤ j → fwd_candidate E q j c → i1 < j ∨ (i1 = j ∧ m ≤ c)) ∨
      (search_forward_loop E q n i = some none ∧ ∀ j c, i ≤ j → ¬ fwd_candidate E q j c) := by
  intro n
  induction n with
  | zero =>
    intro i hlen _
    right
    refine ⟨rfl, ?_⟩
    rintro j c hj ⟨row, hrow, _⟩
    have : j < E.rows.length := by
      by_contra hge
      rw [List.getElem?_eq_none (by omega)] at hrow
      cases hrow
    omega
  | succ n ih =>
    intro i hlen hi
    have hlt : i < E.rows.length := by omega
    have hrow : E.rows[i]? = some E.rows[i] := List.getElem?_eq_getElem hlt
    have hpos : 0 ≤ (if Int.ofNat i = E.cy then E.rx + 1 else 0 : Int) := by
      split_ifs <;> omega
    obtain ⟨f1, f2⟩ := str_find_spec E.rows[i].rdata q _ hq hpos
    unfold search_forward_loop
    rw [hrow, Option.some_bind]
    cases hfind : str_find E.rows[i].rdata q (if Int.ofNat i = E.cy then E.rx + 1 else 0) with
    | some m =>
      left
      obtain ⟨a, b, c⟩ := f1 m hfind
      refine ⟨i, m, rfl, ⟨E.rows[i], hrow, b, hi, ?_⟩, ?_⟩
      · intro heq
        have heq1 : Int.ofNat i = E.cy := heq
        rw [if_pos heq1] at a
        omega
      · rintro j c1 hj ⟨row, hrow1, hocc, _, hrx1⟩
        rcases Nat.eq_or_lt_of_le hj with h | h
        · right
          subst h
          refine ⟨rfl, ?_⟩
          by_contra hlt1
          rw [hrow] at hrow1
          have hr : E.rows[i] = row := Option.some.inj hrow1
          have := c c1 (by
            by_cases heq : Int.ofNat i = E.cy
            · rw [if_pos heq]; have := hrx1 heq; omega
            · rw [if_neg heq]; omega) (by omega)
          rw [hr, hocc] at this
          cases this
        · left; exact h
    | none =>
      simp only
      have hno : ∀ c, ¬ fwd_candidate E q i c := by
        rintro c ⟨row, hrow1, hocc, _, hrx1⟩
        rw [hrow] at hrow1
        have hr : E.rows[i] = row := Option.some.inj hrow1
        have := f2 hfind c (by
          by_cases heq : Int.ofNat i = E.cy
          · rw [if_pos heq]; have := hrx1 heq; omega
          · rw [if_neg heq]; omega)
        rw [hr, hocc] at this
        cases this
      rcases ih (i + 1) (Or.inl (by omega)) (by omega) with ⟨i1, m, h1, h2, h3⟩ | ⟨h1, h2⟩
      · left
        refine ⟨i1, m, h1, h2, ?_⟩
        intro j c hj hcand
        rcases Nat.eq_or_lt_of_le hj with h | h
        · subst h; exact absurd hcand (hno c)
        · exact h3 j c h hcand
      · right
        refine ⟨h1, ?_⟩
        intro j c hj hcand
        rcases Nat.eq_or_lt_of_le hj with h | h
        · subst h; exact hno c hcand
        · exact h2 j c h hcand

theorem isPrefixOf_terminator (q t : List Char) (c : Nat) (hq : NUL ∉ q) :
    q.isPrefixOf ((t ++ [NUL]).drop c) = q.isPrefixOf (t.drop c) := by
  by_cases hc : c ≤ t.length
  · rw [List.drop_append_of_le_length hc]
    rw [Bool.eq_iff_iff, List.isPrefixOf_iff_prefix, List.isPrefixOf_iff_prefix]
    constructor
    · intro h
      by_cases hl : q.length ≤ (t.drop c).length
      · exact List.prefix_of_prefix_length_le h (List.prefix_append _ _) hl
      · exfalso
        have hlen := h.length_le
        simp only [List.length_append, List.length_singleton] at hlen
        have heq : q = t.drop c ++ [NUL] := h.eq_of_length (by
          simp only [List.length_append, List.length_singleton]; omega)
        apply hq
        rw [heq]
        simp
    · intro h
      exact h.trans (List.prefix_append _ _)
  · have h1 : (t ++ [NUL]).drop c = [] := by
      apply List.drop_eq_nil_of_le
      simp; omega
    have h2 : t.drop c = [] := List.drop_eq_nil_of_le (by omega)
    rw [h1, h2]

theorem scroll_to_fields (E : EditorConfig) (x y : Int) :
    (scroll_to E x y).cx = E.cx ∧ (scroll_to E x y).cy = E.cy ∧
    (scroll_to E x y).rows = E.rows ∧ (scroll_to E x y).hltsx = E.hltsx ∧
    (scroll_to E x y).hltsy = E.hltsy ∧ (scroll_to E x y).hltex = E.hltex ∧
    (scroll_to E x y).hltey = E.hltey := by
  unfold scroll_to
  simp only
  split_ifs <;> exact ⟨rfl, rfl, rfl, rfl, rfl, rfl, rfl⟩

theorem search_found_fields (E : EditorConfig) (q : List Char) (b : Bool) (i m : Nat) :
    (search_found E q b i m).hltsy = (i : Int) ∧ (search_found E q b i m).hltsx = (m : Int) ∧
    (search_found E q b i m).hltey = (i : Int) ∧
    (search_found E q b i m).hltex = (m : Int) + (q.length : Int) ∧
    (search_found E q b i m).rows = E.rows ∧
    (b = true → (search_found E q b i m).cy = (i : Int) ∧
      (search_found E q b i m).cx = row_rx_to_cx (E.rows[i]?) (m : Int)) ∧
    (b = false → (search_found E q b i m).cy = E.cy ∧ (search_found E q b i m).cx = E.cx) := by
  unfold search_found
  simp only
  obtain ⟨h1, h2, h3, h4, h5, h6, h7⟩ := scroll_to_fields
    ({ (if b = true then E.set_cpos (row_rx_to_cx (E.rows[i]?) (Int.ofNat m)) (Int.ofNat i) else E)
        with hltsy := Int.ofNat i, hltsx := Int.ofNat m, hltey := Int.ofNat i,
             hltex := Int.ofNat m + Int.ofNat q.length })
    (Int.ofNat m + Int.ofNat q.length) (Int.ofNat i)
  rw [h1, h2, h3, h4, h5, h6, h7]
  cases b with
  | true => exact ⟨rfl, rfl, rfl, rfl, rfl, fun _ => ⟨rfl, rfl⟩, fun h => (by cases h)⟩
  | false => exact ⟨rfl, rfl, rfl, rfl, rfl, fun h => (by cases h), fun _ => ⟨rfl, rfl⟩⟩

/-- C17: for a non-empty query, a cursor row `cy ≥ 0` and a rendered column
`rx ≥ 0`, `search_text_forward` reports the first occurrence of the query in
the rendered texts in row order, counting on row `cy` only occurrences at a
column greater than `rx`: the highlight becomes `(row, match)` to
`(row, match + |query|)` and with `set_cursor_on_match` the cursor goes to that
row at raw column `row_rx_to_cx(row, match)`.  Without an occurrence the
highlight is cleared and the cursor stays.  A query without `NUL` never matches
across the terminator of a rendered text.  For the rows `foobar`, `barbaz` and
the query `bar` from row 0 column 0 the match is row 0 column 3, and the next
search (`rx` recomputed) matches row 1 column 0. -/
theorem search_text_forward_first (E : EditorConfig) (q : List Char) (b : Bool)
    (hq : q ≠ []) (hcy : 0 ≤ E.cy) (hrx : 0 ≤ E.rx) :
    ((∃ i m, fwd_candidate E q i m ∧
        (∀ j c, fwd_candidate E q j c → i < j ∨ (i = j ∧ m ≤ c)) ∧
        search_text_forward E q b = some (search_found E q b i m)) ∨
      ((∀ j c, ¬ fwd_candidate E q j c) ∧
        search_text_forward E q b
          = some (set_cmdline_msg_error E (String.toList "search reached EOF")).reset_hlt)) ∧
    (∀ i m : Nat,
      (search_found E q b i m).hltsy = (i : Int) ∧ (search_found E q b i m).hltsx = (m : Int) ∧
      (search_found E q b i m).hltey = (i : Int) ∧
      (search_found E q b i m).hltex = (m : Int) + (q.length : Int) ∧
      (search_found E q b i m).rows = E.rows ∧
      (b = true → (search_found E q b i m).cy = (i : Int) ∧
        (search_found E q b i m).cx = row_rx_to_cx (E.rows[i]?) (m : Int)) ∧
      (b = false → (search_found E q b i m).cy = E.cy ∧ (search_found E q b i m).cx = E.cx)) ∧
    ((set_cmdline_msg_error E (String.toList "search reached EOF")).reset_hlt.hltsx = 0 ∧
      (set_cmdline_msg_error E (String.toList "search reached EOF")).reset_hlt.hltsy = 0 ∧
      (set_cmdline_msg_error E (String.toList "search reached EOF")).reset_hlt.hltex = 0 ∧
      (set_cmdline_msg_error E (String.toList "search reached EOF")).reset_hlt.hltey = 0 ∧
      (set_cmdline_msg_error E (String.toList "search reached EOF")).reset_hlt.cx = E.cx ∧
      (set_cmdline_msg_error E (String.toList "search reached EOF")).reset_hlt.cy = E.cy ∧
      (set_cmdline_msg_error E (String.toList "search reached EOF")).reset_hlt.rows = E.rows) ∧
    (∀ (t : List Char) (c : Nat), NUL ∉ q →
      q.isPrefixOf ((t ++ [NUL]).drop c) = q.isPrefixOf (t.drop c)) ∧
    ((insert_row (init_editor 24 80) 0 (String.toList "foobar")).bind fun E0 =>
      (insert_row E0 1 (String.toList "barbaz")).bind fun E1 =>
        (search_text_forward E1 (String.toList "bar") true).bind fun E2 =>
          (search_text_forward (update_rx E2) (String.toList "bar") true).map fun E3 =>
            ((E2.hltsy, E2.hltsx, E2.cy, E2.cx), (E3.hltsy, E3.hltsx, E3.cy, E3.cx)))
      = some ((0, 3, 0, 3), (1, 0, 1, 0)) := by
  refine ⟨?_, search_found_fields E q b, ?_, fun t c h => isPrefixOf_terminator q t c h, by decide⟩
  · have hloop := search_forward_loop_spec E q hq hrx (E.rows.length - E.cy.toNat) E.cy.toNat
      (by omega) (by omega)
    unfold search_text_forward
    rw [if_neg hq, if_neg (by omega)]
    rcases hloop with ⟨i, m, h1, h2, h3⟩ | ⟨h1, h2⟩
    · left
      refine ⟨i, m, h2, ?_, by rw [h1]; rfl⟩
      intro j c hc
      obtain ⟨r, hr1, hr2, hj, hr3⟩ := hc
      exact h3 j c (by omega) ⟨r, hr1, hr2, hj, hr3⟩
    · right
      refine ⟨?_, by rw [h1]; rfl⟩
      intro j c hc
      obtain ⟨r, hr1, hr2, hj, hr3⟩ := hc
      exact h2 j c (by omega) ⟨r, hr1, hr2, hj, hr3⟩
  · unfold set_cmdline_msg_error EditorConfig.reset_hlt
    split_ifs <;> exact ⟨rfl, rfl, rfl, rfl, rfl, rfl, rfl⟩

/-- Witness for C17: the query `bar` in the example document. -/
theorem search_text_forward_first_witness :
    (∃ i m, fwd_candidate search_example (String.toList "bar") i m ∧
        (∀ j c, fwd_candidate search_example (String.toList "bar") j c →
          i < j ∨ (i = j ∧ m ≤ c)) ∧
        search_text_forward search_example (String.toList "bar") true
          = some (search_found search_example (String.toList "bar") true i m)) ∨
      ((∀ j c, ¬ fwd_candidate search_example (String.toList "bar") j c) ∧
        search_text_forward search_example (String.toList "bar") true
          = some (set_cmdline_msg_error search_example
              (String.toList "search reached EOF")).reset_hlt) :=
  (search_text_forward_first search_example (String.toList "bar") true (by decide)
    (by decide) (by decide)).1

theorem str_rfind_from_spec (s q : List Char) :
    ∀ k : Nat,
      (∀ m, str_rfind_from s q k = some m →
        m < k ∧ q.isPrefixOf (s.drop m) = true ∧
          ∀ j, m < j → j < k → q.isPrefixOf (s.drop j) = false) ∧
      (str_rfind_from s q k = none → ∀ j, j < k → q.isPrefixOf (s.drop j) = false) := by
  intro k
  induction k with
  | zero =>
    refine ⟨fun m h => by simp [str_rfind_from] at h, fun _ j h => by omega⟩
  | succ i ih =>
    unfold str_rfind_from
    by_cases hp : q.isPrefixOf (s.drop i) = true
    · rw [if_pos hp]
      refine ⟨?_, fun h => by simp at h⟩
      intro m hm
      have : i = m := Option.some.inj hm
      subst this
      exact ⟨by omega, hp, fun j h1 h2 => by omega⟩
    · rw [if_neg hp]
      obtain ⟨ih1, ih2⟩ := ih
      constructor
      · intro m hm
        obtain ⟨h1, h2, h3⟩ := ih1 m hm
        refine ⟨by omega, h2, ?_⟩
        intro j hj1 hj2
        rcases Nat.eq_or_lt_of_le (Nat.le_of_lt_succ hj2) with h | h
        · subst h; exact Bool.eq_false_iff.mpr hp
        · exact h3 j hj1 h
      · intro h j hj
        rcases Nat.eq_or_lt_of_le (Nat.le_of_lt_succ hj) with h' | h'
        · subst h'; exact Bool.eq_false_iff.mpr hp
        · exact ih2 h j h'

theorem str_rfind_spec (s q : List Char) (pos : Int) (hq : q ≠ []) :
    (∀ m, str_rfind s q pos = some m →
      q.isPrefixOf (s.drop m) = true ∧ (0 ≤ pos → (m : Int) ≤ pos) ∧
        ∀ j : Nat, m < j → (0 ≤ pos → (j : Int) ≤ pos) → q.isPrefixOf (s.drop j) = false) ∧
    (str_rfind s q pos = none →
      ∀ j : Nat, (0 ≤ pos → (j : Int) ≤ pos) → q.isPrefixOf (s.drop j) = false) := by
  have hql : 0 < q.length := List.length_pos.mpr hq
  have hlong : ∀ j : Nat, s.length - q.length < j → q.isPrefixOf (s.drop j) = false := by
    intro j hj
    by_contra hne
    have := isPrefixOf_length q _ (by simpa using hne)
    rw [List.length_drop] at this
    omega
  unfold str_rfind
  by_cases hc : q.length > s.length
  · rw [if_pos hc]
    refine ⟨fun m h => by simp at h, ?_⟩
    intro _ j _
    by_contra hne
    have := isPrefixOf_length q _ (by simpa using hne)
    rw [List.length_drop] at this
    omega
  · rw [if_neg hc]
    simp only
    obtain ⟨h1, h2⟩ := str_rfind_from_spec s q
      ((if pos < 0 then s.length - q.length else min pos.toNat (s.length - q.length)) + 1)
    constructor
    · intro m hm
      obtain ⟨a, b, c⟩ := h1 m hm
      refine ⟨b, ?_, ?_⟩
      · intro hp
        rw [if_neg (by omega)] at a
        omega
      · intro j hj1 hj2
        by_cases hl : j ≤ s.length - q.length
        · apply c j hj1
          split_ifs with hp
          · omega
          · have := hj2 (by omega); omega
        · exact hlong j (by omega)
    · intro hn j hj
      by_cases hl : j ≤ s.length - q.length
      · apply h2 hn j
        split_ifs with hp
        · omega
        · have := hj (by omega); omega
      · exact hlong j (by omega)

theorem search_backward_loop_spec (E : EditorConfig) (q : List Char) (hq : q ≠ [])
    (hrx : E.cx ≠ 0 → 1 ≤ E.rx) :
    ∀ k : Nat, (k : Int) ≤ E.cy + 1 →
      (∀ i, i < k → i < E.rows.length ∨ ((i : Int) = E.cy ∧ E.cx = 0)) →
      (∃ i1 m, search_backward_loop E q k = some (some (i1, m)) ∧ bwd_candidate E q i1 m ∧
        ∀ j c, j < k → bwd_candidate E q j c → j < i1 ∨ (j = i1 ∧ c ≤ m)) ∨
      (search_backward_loop E q k = some none ∧ ∀ j c, j < k → ¬ bwd_candidate E q j c) := by
  intro k
  induction k with
  | zero =>
    intro _ _
    right
    exact ⟨rfl, fun j c hj => by omega⟩
  | succ i ih =>
    intro hk hrows
    have ihh := ih (by omega) (fun i1 h1 => hrows i1 (by omega))
    unfold search_backward_loop
    by_cases hskip : Int.ofNat i = E.cy ∧ E.cx = 0
    · rw [if_pos hskip]
      have hno : ∀ c, ¬ bwd_candidate E q i c := by
        rintro c ⟨row, _, _, _, h4⟩
        exact (h4 hskip.1).1 hskip.2
      rcases ihh with ⟨i1, m, h1, h2, h3⟩ | ⟨h1, h2⟩
      · left
        refine ⟨i1, m, h1, h2, ?_⟩
        intro j c hj hcand
        rcases Nat.eq_or_lt_of_le (Nat.le_of_lt_succ hj) with h | h
        · subst h; exact absurd hcand (hno c)
        · exact h3 j c h hcand
      · right
        refine ⟨h1, ?_⟩
        intro j c hj hcand
        rcases Nat.eq_or_lt_of_le (Nat.le_of_lt_succ hj) with h | h
        · subst h; exact hno c hcand
        · exact h2 j c h hcand
    · rw [if_neg hskip]
      have hlt : i < E.rows.length := by
        rcases hrows i (by omega) with h | h
        · exact h
        · exact absurd h hskip
      have hrow : E.rows[i]? = some E.rows[i] := List.getElem?_eq_getElem hlt
      obtain ⟨f1, f2⟩ := str_rfind_spec E.rows[i].rdata q
        (if Int.ofNat i = E.cy then E.rx - 1 else -1) hq
      have hlim : ∀ c : Nat, ((i : Int) = E.cy → E.cx ≠ 0 ∧ (c : Int) < E.rx) ↔
          (0 ≤ (if Int.ofNat i = E.cy then E.rx - 1 else -1 : Int) →
            (c : Int) ≤ (if Int.ofNat i = E.cy then E.rx - 1 else -1 : Int)) := by
        intro c
        by_cases heq : Int.ofNat i = E.cy
        · have hcx : E.cx ≠ 0 := fun h0 => hskip ⟨heq, h0⟩
          have := hrx hcx
          rw [if_pos heq]
          constructor
          · intro h _
            have := (h heq).2
            omega
          · intro h _
            exact ⟨hcx, by have := h (by omega); omega⟩
        · rw [if_neg heq]
          constructor
          · intro _ h; omega
          · intro _ h; exact absurd h heq
      rw [hrow, Option.some_bind]
      cases hfind : str_rfind E.rows[i].rdata q (if Int.ofNat i = E.cy then E.rx - 1 else -1) with
      | some m =>
        left
        obtain ⟨a, b, c⟩ := f1 m hfind
        refine ⟨i, m, rfl, ⟨E.rows[i], hrow, a, by omega, (hlim m).mpr b⟩, ?_⟩
        rintro j c1 hj ⟨row, hrow1, hocc, _, hrx1⟩
        rcases Nat.eq_or_lt_of_le (Nat.le_of_lt_succ hj) with h | h
        · right
          subst h
          refine ⟨rfl, ?_⟩
          by_contra hgt
          rw [hrow] at hrow1
          have hr : E.rows[j] = row := Option.some.inj hrow1
          have := c c1 (by omega) ((hlim c1).mp hrx1)
          rw [hr, hocc] at this
          cases this
        · left; exact h
      | none =>
        simp only
        have hno : ∀ c, ¬ bwd_candidate E q i c := by
          rintro c ⟨row, hrow1, hocc, _, hrx1⟩
          rw [hrow] at hrow1
          have hr : E.rows[i] = row := Option.some.inj hrow1
          have := f2 hfind c ((hlim c).mp hrx1)
          rw [hr, hocc] at this
          cases this
        rcases ihh with ⟨i1, m, h1, h2, h3⟩ | ⟨h1, h2⟩
        · left
          refine ⟨i1, m, h1, h2, ?_⟩
          intro j c hj hcand
          rcases Nat.eq_or_lt_of_le (Nat.le_of_lt_succ hj) with h | h
          · subst h; exact absurd hcand (hno c)
          · exact h3 j c h hcand
        · right
          refine ⟨h1, ?_⟩
          intro j c hj hcand
          rcases Nat.eq_or_lt_of_le (Nat.le_of_lt_succ hj) with h | h
          · subst h; exact hno c hcand
          · exact h2 j c h hcand

/-- C18: for a non-empty query and a valid cursor `(cx, cy)` whose rendered
column `rx` is at least 1 when `cx ≠ 0`, `search_text_backward` skips row `cy`
when `cx = 0`, otherwise counts on row `cy` only occurrences at a column smaller
than `rx`, then scans the rows `cy - 1` down to 0, and reports the last
occurrence of the first such row that has one: the highlight becomes the match
bounds and with `set_cursor_on_match` the cursor goes there.  Without an
occurrence the highlight is cleared, the cursor stays and the message
"search reached BOF" is stored (unless the mode is Command or Search). -/
theorem search_text_backward_last (E : EditorConfig) (q : List Char) (b : Bool)
    (hq : q ≠ []) (hcur : cursor_ok E) (hrx : E.cx ≠ 0 → 1 ≤ E.rx) :
    ((∃ i m, bwd_candidate E q i m ∧
        (∀ j c, bwd_candidate E q j c → j < i ∨ (j = i ∧ c ≤ m)) ∧
        search_text_backward E q b = some (search_found E q b i m)) ∨
      ((∀ j c, ¬ bwd_candidate E q j c) ∧
        search_text_backward E q b
          = some (set_cmdline_msg_error E (String.toList "search reached BOF")).reset_hlt)) ∧
    (∀ i m : Nat,
      (search_found E q b i m).hltsy = (i : Int) ∧ (search_found E q b i m).hltsx = (m : Int) ∧
      (search_found E q b i m).hltey = (i : Int) ∧
      (search_found E q b i m).hltex = (m : Int) + (q.length : Int) ∧
      (search_found E q b i m).rows = E.rows ∧
      (b = true → (search_found E q b i m).cy = (i : Int) ∧
        (search_found E q b i m).cx = row_rx_to_cx (E.rows[i]?) (m : Int)) ∧
      (b = false → (search_found E q b i m).cy = E.cy ∧ (search_found E q b i m).cx = E.cx)) ∧
    ((set_cmdline_msg_error E (String.toList "search reached BOF")).reset_hlt.hltsx = 0 ∧
      (set_cmdline_msg_error E (String.toList "search reached BOF")).reset_hlt.hltsy = 0 ∧
      (set_cmdline_msg_error E (String.toList "search reached BOF")).reset_hlt.hltex = 0 ∧
      (set_cmdline_msg_error E (String.toList "search reached BOF")).reset_hlt.hltey = 0 ∧
      (set_cmdline_msg_error E (String.toList "search reached BOF")).reset_hlt.cx = E.cx ∧
      (set_cmdline_msg_error E (String.toList "search reached BOF")).reset_hlt.cy = E.cy ∧
      (set_cmdline_msg_error E (String.toList "search reached BOF")).reset_hlt.rows = E.rows ∧
      (E.mode ≠ .COMMAND → E.mode ≠ .SEARCH →
        (set_cmdline_msg_error E (String.toList "search reached BOF")).reset_hlt.cmdline
          = String.toList "search reached BOF")) := by
  refine ⟨?_, search_found_fields E q b, ?_⟩
  · have hpre : ((E.cy + 1).toNat : Int) ≤ E.cy + 1 ∧
        ∀ i, i < (E.cy + 1).toNat → i < E.rows.length ∨ ((i : Int) = E.cy ∧ E.cx = 0) := by
      rcases hcur with ⟨hrows, hcx, hcy⟩ | ⟨row, hrow, _, _⟩
      · rw [hcy]
        refine ⟨by decide, ?_⟩
        intro i hi
        right
        have : i = 0 := by
          have : ((0 : Int) + 1).toNat = 1 := rfl
          omega
        subst this
        exact ⟨rfl, hcx⟩
      · obtain ⟨h0, h1, _⟩ := deref_some_bounds E E.cy row hrow
        refine ⟨by omega, ?_⟩
        intro i hi
        left
        simp only [EditorConfig.numrows, Int.ofNat_eq_coe] at h1
        omega
    have hloop := search_backward_loop_spec E q hq hrx (E.cy + 1).toNat hpre.1 hpre.2
    unfold search_text_backward
    rw [if_neg hq]
    rcases hloop with ⟨i, m, h1, h2, h3⟩ | ⟨h1, h2⟩
    · left
      refine ⟨i, m, h2, ?_, by rw [h1]; rfl⟩
      intro j c hc
      obtain ⟨r, hr1, hr2, hj, hr3⟩ := hc
      exact h3 j c (by omega) ⟨r, hr1, hr2, hj, hr3⟩
    · right
      refine ⟨?_, by rw [h1]; rfl⟩
      intro j c hc
      obtain ⟨r, hr1, hr2, hj, hr3⟩ := hc
      exact h2 j c (by omega) ⟨r, hr1, hr2, hj, hr3⟩
  · unfold set_cmdline_msg_error EditorConfig.reset_hlt
    split_ifs with hm
    · exact ⟨rfl, rfl, rfl, rfl, rfl, rfl, rfl, fun _ _ => rfl⟩
    · exact ⟨rfl, rfl, rfl, rfl, rfl, rfl, rfl, fun h1 h2 => absurd ⟨h1, h2⟩ hm⟩

/-- Witness for C18: the query `bar` searched backward from the end of row 1
of the example document. -/
theorem search_text_backward_last_witness :
    (∃ i m, bwd_candidate { search_example with cx := 6, cy := 1, rx := 6 }
          (String.toList "bar") i m ∧
        (∀ j c, bwd_candidate { search_example with cx := 6, cy := 1, rx := 6 }
          (String.toList "bar") j c → j < i ∨ (j = i ∧ c ≤ m)) ∧
        search_text_backward { search_example with cx := 6, cy := 1, rx := 6 }
            (String.toList "bar") true
          = some (search_found { search_example with cx := 6, cy := 1, rx := 6 }
              (String.toList "bar") true i m)) ∨
      ((∀ j c, ¬ bwd_candidate { search_example with cx := 6, cy := 1, rx := 6 }
          (String.toList "bar") j c) ∧
        search_text_backward { search_example with cx := 6, cy := 1, rx := 6 }
            (String.toList "bar") true
          = some (set_cmdline_msg_error { search_example with cx := 6, cy := 1, rx := 6 }
              (String.toList "search reached BOF")).reset_hlt) :=
  (search_text_backward_last { search_example with cx := 6, cy := 1, rx := 6 }
    (String.toList "bar") true (by decide)
    (Or.inr ⟨⟨String.toList "barbaz", String.toList "barbaz" ++ [NUL], 6, []⟩,
      by decide, by decide, by decide⟩) (by decide)).1

/-! ### The highlighter: tags behind the scan position -/

theorem hl_set_get (hl hl1 : List EditorHighlight) (i : Nat) (v : EditorHighlight)
    (h : hl_set hl i v = some hl1) :
    hl1.length = hl.length ∧ i < hl.length ∧ hl1.getD i .HL_NORMAL = v ∧
      ∀ p, p ≠ i → hl1.getD p .HL_NORMAL = hl.getD p .HL_NORMAL := by
  unfold hl_set at h
  split_ifs at h with hi
  have : hl.set i v = hl1 := Option.some.inj h
  subst this
  refine ⟨by simp, hi, ?_, ?_⟩
  · simp [List.getD_eq_getElem?_getD, List.getElem?_set, hi]
  · intro p hp
    simp [List.getD_eq_getElem?_getD, List.getElem?_set, Ne.symm hp]

theorem hl_memset_get (hl hl1 : List EditorHighlight) (i n : Nat) (v : EditorHighlight)
    (h : hl_memset hl i n v = some hl1) :
    hl1.length = hl.length ∧ i + n ≤ hl.length ∧
      (∀ p, i ≤ p → p < i + n → hl1.getD p .HL_NORMAL = v) ∧
      (∀ p, p < i ∨ i + n ≤ p → hl1.getD p .HL_NORMAL = hl.getD p .HL_NORMAL) := by
  unfold hl_memset at h
  split_ifs at h with hi
  have : hl.take i ++ List.replicate n v ++ hl.drop (i + n) = hl1 := Option.some.inj h
  subst this
  have hlt : (hl.take i).length = i := by simp [List.length_take]; omega
  refine ⟨?_, hi, ?_, ?_⟩
  · simp only [List.length_append, List.length_take, List.length_replicate, List.length_drop]
    omega
  · intro p hp1 hp2
    rw [List.getD_eq_getElem?_getD, List.append_assoc,
      List.getElem?_append_right (by rw [hlt]; exact hp1), hlt,
      List.getElem?_append_left (by rw [List.length_replicate]; omega)]
    rw [List.getElem?_replicate, if_pos (by omega)]
    rfl
  · intro p hp
    rw [List.getD_eq_getElem?_getD, List.getD_eq_getElem?_getD]
    rcases hp with hp | hp
    · rw [List.append_assoc, List.getElem?_append_left (by rw [hlt]; exact hp),
        List.getElem?_take_of_lt hp]
    · rw [List.getElem?_append_right (by simp [hlt]; omega)]
      simp only [List.length_append, hlt, List.length_replicate, List.getElem?_drop]
      congr 2
      omega

theorem match_syn_word_found (wordlist : List (List Char)) (rdata : List Char)
    (hl hl1 : List EditorHighlight) (i i1 : Nat) (v : EditorHighlight)
    (h : match_syn_word wordlist rdata hl i v = some (true, hl1, i1)) :
    ∃ w, w ∈ wordlist ∧ w ≠ [] ∧ strncmp_eq (rdata.drop i) w w.length = true ∧
      is_char_separator (rdata.getD (i + w.length) NUL) = true ∧
      hl_memset hl i w.length v = some hl1 ∧ i1 = i + w.length := by
  induction wordlist with
  | nil => simp [match_syn_word] at h
  | cons w ws ih =>
    unfold match_syn_word at h
    by_cases hw : w = []
    · rw [if_pos hw] at h; simp at h
    · rw [if_neg hw] at h
      split_ifs at h with hm
      · cases hms : hl_memset hl i w.length v with
        | none => rw [hms] at h; simp at h
        | some hl2 =>
          rw [hms] at h
          simp only [Option.map_some', Option.some.injEq, Prod.mk.injEq, true_and] at h
          refine ⟨w, List.mem_cons_self _ _, hw, hm.1, hm.2, ?_, h.2.symm⟩
          rw [← h.1, hms]
      · obtain ⟨w1, hw1, rest⟩ := ih h
        exact ⟨w1, List.mem_cons_of_mem _ hw1, rest⟩

theorem match_syn_words_found (syn : EditorSyntax) (rdata : List Char)
    (hl hl1 : List EditorHighlight) (i i1 : Nat)
    (h : match_syn_words syn rdata hl i = some (true, hl1, i1)) :
    ∃ w v, (w ∈ syn.keywords ∨ w ∈ syn.types ∨ w ∈ syn.consts) ∧ w ≠ [] ∧
      (v = .HL_KEYWORD ∨ v = .HL_TYPE ∨ v = .HL_CONST) ∧
      strncmp_eq (rdata.drop i) w w.length = true ∧
      hl_memset hl i w.length v = some hl1 ∧ i1 = i + w.length := by
  unfold match_syn_words at h
  cases h1 : match_syn_word syn.keywords rdata hl i .HL_KEYWORD with
  | none => rw [h1] at h; simp at h
  | some r1 =>
    obtain ⟨b1, hla, ia⟩ := r1
    rw [h1] at h
    cases b1 with
    | true =>
      simp only [Option.some.injEq, Prod.mk.injEq, true_and] at h
      obtain ⟨rfl, rfl⟩ := h
      obtain ⟨w, hw, hne, hs, _, hm, hi⟩ := match_syn_word_found _ _ _ _ _ _ _ h1
      exact ⟨w, _, Or.inl hw, hne, Or.inl rfl, hs, hm, hi⟩
    | false =>
      simp only at h
      cases h2 : match_syn_word syn.types rdata hl i .HL_TYPE with
      | none => rw [h2] at h; simp at h
      | some r2 =>
        obtain ⟨b2, hlb, ib⟩ := r2
        rw [h2] at h
        cases b2 with
        | true =>
          simp only [Option.some.injEq, Prod.mk.injEq, true_and] at h
          obtain ⟨rfl, rfl⟩ := h
          obtain ⟨w, hw, hne, hs, _, hm, hi⟩ := match_syn_word_found _ _ _ _ _ _ _ h2
          exact ⟨w, _, Or.inr (Or.inl hw), hne, Or.inr (Or.inl rfl), hs, hm, hi⟩
        | false =>
          simp only at h
          obtain ⟨w, hw, hne, hs, _, hm, hi⟩ := match_syn_word_found _ _ _ _ _ _ _ h
          exact ⟨w, _, Or.inr (Or.inr hw), hne, Or.inr (Or.inr rfl), hs, hm, hi⟩

/-- The scan never rewrites a tag behind its position. -/
theorem update_row_syntax_loop_frame (syn : EditorSyntax) (rdata : List Char) (rlen : Nat)
    (fuel : Nat) :
    ∀ (i : Nat) (ps : Bool) (ws : Char) (hl hl1 : List EditorHighlight),
      update_row_syntax_loop syn rdata rlen fuel i ps ws hl = some hl1 →
      ∀ p, p < i → hl1.getD p .HL_NORMAL = hl.getD p .HL_NORMAL := by
  induction fuel with
  | zero =>
    intro i ps ws hl hl1 h p hp
    unfold update_row_syntax_loop at h
    split_ifs at h
    cases h
    rfl
  | succ fuel ih =>
    intro i ps ws hl hl1 h p hp
    unfold update_row_syntax_loop at h
    by_cases hi : i < rlen
    · simp only [if_pos hi] at h
      generalize (if i > 0 then hl.getD (i - 1) EditorHighlight.HL_NORMAL
        else EditorHighlight.HL_NORMAL) = prev_hl at h
      split_ifs at h
      · exact (hl_memset_get _ _ _ _ _ h).2.2.2 p (Or.inl hp)
      · cases e1 : hl_set hl i .HL_STRING with
        | none => rw [e1] at h; simp at h
        | some hla =>
          rw [e1, Option.some_bind] at h
          cases e2 : hl_set hla (i + 1) .HL_STRING with
          | none => rw [e2] at h; simp at h
          | some hlb =>
            rw [e2, Option.some_bind] at h
            rw [ih _ _ _ _ _ h p (by omega), (hl_set_get _ _ _ _ e2).2.2.2 p (by omega),
              (hl_set_get _ _ _ _ e1).2.2.2 p (by omega)]
      · cases e1 : hl_set hl i .HL_STRING with
        | none => rw [e1] at h; simp at h
        | some hla =>
          rw [e1, Option.some_bind] at h
          rw [ih _ _ _ _ _ h p (by omega), (hl_set_get _ _ _ _ e1).2.2.2 p (by omega)]
      · cases e1 : hl_set hl i .HL_STRING with
        | none => rw [e1] at h; simp at h
        | some hla =>
          rw [e1, Option.some_bind] at h
          rw [ih _ _ _ _ _ h p (by omega), (hl_set_get _ _ _ _ e1).2.2.2 p (by omega)]
      · cases e1 : hl_set hl i .HL_STRING with
        | none => rw [e1] at h; simp at h
        | some hla =>
          rw [e1, Option.some_bind] at h
          rw [ih _ _ _ _ _ h p (by omega), (hl_set_get _ _ _ _ e1).2.2.2 p (by omega)]
      · cases e1 : hl_set hl i .HL_NUMBER with
        | none => rw [e1] at h; simp at h
        | some hla =>
          rw [e1, Option.some_bind] at h
          rw [ih _ _ _ _ _ h p (by omega), (hl_set_get _ _ _ _ e1).2.2.2 p (by omega)]
      · cases e1 : match_syn_words syn rdata hl i with
        | none => rw [e1] at h; simp at h
        | some r =>
          obtain ⟨b, hla, ia⟩ := r
          rw [e1] at h
          cases b with
          | true =>
            simp only at h
            obtain ⟨w, v, _, _, _, _, hm, hia⟩ := match_syn_words_found _ _ _ _ _ _ e1
            rw [ih _ _ _ _ _ h p (by omega), (hl_memset_get _ _ _ _ _ hm).2.2.2 p (Or.inl hp)]
          | false =>
            simp only at h
            exact ih _ _ _ _ _ h p (by omega)
      · simp only at h
        exact ih _ _ _ _ _ h p (by omega)
    · simp only [if_neg hi] at h
      cases h
      rfl

theorem getD_append_nul (content : List Char) (j : Nat) :
    (content ++ [NUL]).getD j NUL = content.getD j NUL := by
  rw [List.getD_eq_getElem?_getD, List.getD_eq_getElem?_getD]
  rcases Nat.lt_trichotomy j content.length with h | h | h
  · rw [List.getElem?_append_left h]
  · subst h
    rw [List.getElem?_append_right (le_refl _), List.getElem?_eq_none (le_refl _)]
    simp
  · rw [List.getElem?_eq_none (by simp; omega), List.getElem?_eq_none (by omega)]

theorem headD_drop (l : List Char) (i : Nat) : (l.drop i).headD NUL = l.getD i NUL := by
  induction l generalizing i with
  | nil => simp
  | cons c cs ih =>
    cases i with
    | zero => simp
    | succ i => simp

theorem strncmp_eq_two (s1 : List Char) (x y : Char) (hx : x ≠ NUL) (hy : y ≠ NUL) :
    strncmp_eq s1 [x, y] 2 = true ↔ s1.headD NUL = x ∧ s1.tail.headD NUL = y := by
  have e1 : strncmp_eq s1 [x, y] 2 = (if s1.headD NUL ≠ x then false
      else if s1.headD NUL = NUL then true else strncmp_eq s1.tail [y] 1) := rfl
  have e2 : strncmp_eq s1.tail [y] 1 = (if s1.tail.headD NUL ≠ y then false
      else if s1.tail.headD NUL = NUL then true else strncmp_eq s1.tail.tail [] 0) := rfl
  have e3 : strncmp_eq s1.tail.tail [] 0 = true := rfl
  rw [e1, e2, e3]
  generalize s1.headD NUL = a
  generalize s1.tail.headD NUL = b
  by_cases ha : a = x
  · by_cases hb : b = y
    · subst ha; subst hb; simp [hx]
    · subst ha; simp [hb, hx]
  · simp [ha]

theorem strncmp_eq_slashes (l : List Char) (i : Nat) :
    strncmp_eq (l.drop i) [SLASH, SLASH] 2 = true ↔
      l.getD i NUL = SLASH ∧ l.getD (i + 1) NUL = SLASH := by
  have h1 := headD_drop l i
  have h2 : (l.drop i).tail.headD NUL = l.getD (i + 1) NUL := by
    rw [List.tail_drop, headD_drop]
  rw [strncmp_eq_two _ _ _ (by decide) (by decide), h1, h2]

theorem C_words_no_slash (s : Fin NUM_HLDBS) :
    ∀ w, (w ∈ (HLDB s).keywords ∨ w ∈ (HLDB s).types ∨ w ∈ (HLDB s).consts) → SLASH ∉ w := by
  have h : ∀ w ∈ C_KEYWORDS ++ C_TYPES ++ C_CONSTS, SLASH ∉ w := by decide
  intro w hw
  apply h
  simp only [List.mem_append]
  rcases hw with h1 | h1 | h1
  · exact Or.inl (Or.inl h1)
  · exact Or.inl (Or.inr h1)
  · exact Or.inr h1

theorem C_words_no_nul (s : Fin NUM_HLDBS) :
    ∀ w, (w ∈ (HLDB s).keywords ∨ w ∈ (HLDB s).types ∨ w ∈ (HLDB s).consts) → NUL ∉ w := by
  intro w hw
  obtain ⟨h1, h2, h3⟩ := HLDB_wf s
  rcases hw with h | h | h
  · exact h1 w h
  · exact h2 w h
  · exact h3 w h

theorem getD_mem (content : List Char) (i : Nat) (h : i < content.length) :
    content.getD i NUL ∈ content := by
  rw [List.getD_eq_getElem?_getD, List.getElem?_eq_getElem h]
  exact List.getElem_mem _

/-- The scan of a row without quotes reaches the first comment marker `i0`
with every tag before it set to something other than comment. -/
theorem comment_scan (s : Fin NUM_HLDBS) (content : List Char) (i0 : Nat)
    (hq1 : DQUOTE ∉ content) (hq2 : SQUOTE ∉ content)
    (hs0 : content.getD i0 NUL = SLASH) (hs1 : content.getD (i0 + 1) NUL = SLASH)
    (hlt : i0 + 1 < content.length)
    (hfirst : ∀ j, j < i0 → ¬ (content.getD j NUL = SLASH ∧ content.getD (j + 1) NUL = SLASH))
    (fuel : Nat) :
    ∀ (i : Nat) (ps : Bool) (hl : List EditorHighlight),
      i ≤ i0 → content.length ≤ fuel + i → hl.length = content.length →
      (∀ p, hl.getD p .HL_NORMAL ≠ .HL_COMMENT) →
      ∃ hl1, update_row_syntax_loop (HLDB s) (content ++ [NUL]) content.length fuel i ps NUL hl
          = some hl1 ∧ hl1.length = content.length ∧
        (∀ p, i0 ≤ p → p < content.length → hl1.getD p .HL_NORMAL = .HL_COMMENT) ∧
        (∀ p, p < i0 → hl1.getD p .HL_NORMAL ≠ .HL_COMMENT) := by
  induction fuel with
  | zero => intro i ps hl h1 h2; omega
  | succ fuel ih =>
    intro i ps hl hi0 hfuel hlen hnc
    have hi : i < content.length := by omega
    have hscs : (HLDB s).singleline_comment_start = [SLASH, SLASH] := rfl
    unfold update_row_syntax_loop
    simp only [if_pos hi, hscs, getD_append_nul]
    generalize (if i > 0 then hl.getD (i - 1) EditorHighlight.HL_NORMAL
      else EditorHighlight.HL_NORMAL) = prev_hl
    have hsl := strncmp_eq_slashes (content ++ [NUL]) i
    rw [getD_append_nul, getD_append_nul] at hsl
    by_cases hie : i = i0
    · subst hie
      rw [if_pos ⟨by decide, trivial, hsl.mpr ⟨hs0, hs1⟩⟩]
      obtain ⟨hl1, e1, l1⟩ := hl_memset_some hl i (content.length - i) .HL_COMMENT (by omega)
      obtain ⟨_, _, g1, g2⟩ := hl_memset_get _ _ _ _ _ e1
      refine ⟨hl1, e1, by omega, ?_, ?_⟩
      · intro p hp1 hp2
        exact g1 p hp1 (by omega)
      · intro p hp
        rw [g2 p (Or.inl hp)]
        exact hnc p
    · have hlt0 : i < i0 := by omega
      rw [if_neg (fun h => hfirst i hlt0 (hsl.mp h.2.2)), if_neg (fun h => h.2 rfl)]
      have hc1 : content.getD i NUL ≠ DQUOTE := fun h => hq1 (h ▸ getD_mem content i hi)
      have hc2 : content.getD i NUL ≠ SQUOTE := fun h => hq2 (h ▸ getD_mem content i hi)
      rw [if_neg (fun h => h.2.elim hc1 hc2)]
      split_ifs with hnum hps
      · obtain ⟨hl1, e1, l1⟩ := hl_set_some hl i .HL_NUMBER (by omega)
        obtain ⟨_, _, g1, g2⟩ := hl_set_get _ _ _ _ e1
        rw [e1, Option.some_bind]
        apply ih (i + 1) false hl1 (by omega) (by omega) (by omega)
        intro p
        by_cases hp : p = i
        · subst hp; rw [g1]; decide
        · rw [g2 p hp]; exact hnc p
      · obtain ⟨r, hr, hr1⟩ := match_syn_words_spec (HLDB s) (HLDB_wf s) content hl i
          (by omega) hlen
        rw [hr]
        rcases hr1 with ⟨ht, _, _, _⟩ | hf
        · obtain ⟨b, hla, ia⟩ := r
          simp only at ht
          subst ht
          simp only
          obtain ⟨w, v, hw, hne, hv, hstr, hm, hia⟩ := match_syn_words_found _ _ _ _ _ _ hr
          obtain ⟨hl2, _, g1, g2⟩ := hl_memset_get _ _ _ _ _ hm
          rw [drop_append_nul content i (by omega)] at hstr
          obtain ⟨t, ht⟩ := strncmp_eq_prefix w (content.drop i) (C_words_no_nul s w hw) hstr
          have hia0 : ia ≤ i0 := by
            by_contra hgt
            have hmem : content.getD i0 NUL ∈ w := by
              have h1 : content.getD i0 NUL = (content.drop i).getD (i0 - i) NUL := by
                rw [List.getD_eq_getElem?_getD, List.getD_eq_getElem?_getD, List.getElem?_drop]
                congr 2
                omega
              rw [h1, ht, List.getD_eq_getElem?_getD,
                List.getElem?_append_left (by omega),
                List.getElem?_eq_getElem (by omega)]
              exact List.getElem_mem _
            rw [hs0] at hmem
            exact C_words_no_slash s w hw hmem
          have hwl : 0 < w.length := List.length_pos.mpr hne
          apply ih ia false hla hia0 (by omega) (by omega)
          intro p
          by_cases hp : i ≤ p ∧ p < i + w.length
          · rw [g1 p hp.1 hp.2]
            rcases hv with h | h | h <;> rw [h] <;> decide
          · rw [g2 p (by omega)]
            exact hnc p
        · subst hf
          simp only
          exact ih (i + 1) _ hl (by omega) (by omega) hlen hnc
      · exact ih (i + 1) _ hl (by omega) (by omega) hlen hnc

/-- C27: with the C descriptor, for a rendered row without quote characters in
which `//` first occurs at index `i0`, `update_row_syntax` tags every position
from `i0` on as comment and no position before `i0` as comment. -/
theorem update_row_syntax_comment (s : Fin NUM_HLDBS) (content : List Char) (i0 : Nat)
    (hq1 : DQUOTE ∉ content) (hq2 : SQUOTE ∉ content)
    (hs0 : content.getD i0 NUL = SLASH) (hs1 : content.getD (i0 + 1) NUL = SLASH)
    (hlt : i0 + 1 < content.length)
    (hfirst : ∀ j, j < i0 →
      ¬ (content.getD j NUL = SLASH ∧ content.getD (j + 1) NUL = SLASH)) :
    ∃ hl, update_row_syntax_hl (some s) (content ++ [NUL]) content.length = some hl ∧
      hl.length = content.length ∧
      (∀ p, i0 ≤ p → p < content.length → hl.getD p .HL_NORMAL = .HL_COMMENT) ∧
      (∀ p, p < i0 → hl.getD p .HL_NORMAL ≠ .HL_COMMENT) := by
  unfold update_row_syntax_hl
  simp only
  apply comment_scan s content i0 hq1 hq2 hs0 hs1 hlt hfirst content.length 0 true _
    (Nat.zero_le _) (by omega) (by simp)
  intro p
  rw [List.getD_eq_getElem?_getD, List.getElem?_replicate]
  split_ifs <;> simp

/-- Witness for C27: the row `if 1 // x`, whose keyword and number come before
the marker at index 5. -/
theorem update_row_syntax_comment_witness :
    ∃ hl, update_row_syntax_hl (some 0) (String.toList "if 1 // x" ++ [NUL])
        (String.toList "if 1 // x").length = some hl ∧
      hl.length = (String.toList "if 1 // x").length ∧
      (∀ p, 5 ≤ p → p < (String.toList "if 1 // x").length →
        hl.getD p .HL_NORMAL = .HL_COMMENT) ∧
      (∀ p, p < 5 → hl.getD p .HL_NORMAL ≠ .HL_COMMENT) :=
  update_row_syntax_comment 0 (String.toList "if 1 // x") 5 (by decide) (by decide)
    (by decide) (by decide) (by decide) (by decide)

/-! ### The highlighter: string literals -/

theorem getD_append_length (pre l : List Char) (d : Char) :
    (pre ++ l).getD pre.length d = l.headD d := by
  rw [List.getD_eq_getElem?_getD, List.getElem?_append_right (le_refl _)]
  cases l <;> simp

theorem HLDB_flags_string (s : Fin NUM_HLDBS) : (HLDB s).flags &&& EDSYN_HLT_STRING ≠ 0 := by
  show (3 &&& 2 : Nat) ≠ 0
  decide

/-- Inside a string literal opened by `q` the scan tags the body and the
closing quote as string and goes on behind the closing quote outside any
string, with the later tags untouched. -/
theorem string_scan (s : Fin NUM_HLDBS) (q : Char) (hq : q = DQUOTE ∨ q = SQUOTE)
    (rest : List Char) :
    ∀ (n : Nat) (body : List Char), body.length ≤ n → is_string_body q body = true →
      ∀ (pre : List Char) (fuel : Nat) (ps : Bool) (hl : List EditorHighlight),
        hl.length = (pre ++ body ++ q :: rest).length →
        (pre ++ body ++ q :: rest).length ≤ fuel + pre.length →
        (∀ p, p < pre.length → hl.getD p .HL_NORMAL = .HL_STRING) →
        ∃ fuel1 hl0, update_row_syntax_loop (HLDB s) ((pre ++ body ++ q :: rest) ++ [NUL])
            (pre ++ body ++ q :: rest).length fuel pre.length ps q hl
            = update_row_syntax_loop (HLDB s) ((pre ++ body ++ q :: rest) ++ [NUL])
              (pre ++ body ++ q :: rest).length fuel1 (pre.length + body.length + 1) true NUL hl0 ∧
          hl0.length = (pre ++ body ++ q :: rest).length ∧
          (pre ++ body ++ q :: rest).length ≤ fuel1 + (pre.length + body.length + 1) ∧
          (∀ p, p < pre.length + body.length + 1 → hl0.getD p .HL_NORMAL = .HL_STRING) ∧
          (∀ p, pre.length + body.length + 1 ≤ p →
            hl0.getD p .HL_NORMAL = hl.getD p .HL_NORMAL) := by
  have hqn : q ≠ NUL := by rcases hq with h | h <;> rw [h] <;> decide
  have hqb : q ≠ BSLASH := by rcases hq with h | h <;> rw [h] <;> decide
  have hscs : (HLDB s).singleline_comment_start = [SLASH, SLASH] := rfl
  intro n
  induction n with
  | zero =>
    intro body hb _ pre fuel ps hl hlen hfuel htag
    have hb0 : body = [] := List.length_eq_zero.mp (by omega)
    subst hb0
    simp only [List.append_nil] at hlen hfuel ⊢
    have hi : pre.length < (pre ++ q :: rest).length := by simp
    obtain ⟨fuel, rfl⟩ : ∃ f, fuel = f + 1 := ⟨fuel - 1, by omega⟩
    have hc : (pre ++ q :: rest).getD pre.length NUL = q := by
      rw [getD_append_length]; rfl
    rw [update_row_syntax_loop]
    simp only [if_pos hi, hscs, getD_append_nul, hc]
    rw [if_neg (fun h => hqn h.2.1), if_pos ⟨HLDB_flags_string s, hqn⟩]
    obtain ⟨hl1, e1, l1⟩ := hl_set_some hl pre.length .HL_STRING (by omega)
    obtain ⟨_, _, g1, g2⟩ := hl_set_get _ _ _ _ e1
    rw [e1, Option.some_bind, if_neg (fun h => hqb h.1)]
    simp only [if_true]
    refine ⟨fuel, hl1, rfl, by omega, by simp at hfuel ⊢; omega, ?_, ?_⟩
    · intro p hp
      by_cases hpe : p = pre.length
      · rw [hpe, g1]
      · rw [g2 p hpe]
        exact htag p (by simp at hp; omega)
    · intro p hp
      exact g2 p (by simp at hp; omega)
  | succ n ih =>
    intro body hb hbody pre fuel ps hl hlen hfuel htag
    cases body with
    | nil => exact ih [] (Nat.zero_le _) hbody pre fuel ps hl hlen hfuel htag
    | cons c t =>
      have hi : pre.length < (pre ++ c :: t ++ q :: rest).length := by simp
      obtain ⟨fuel, rfl⟩ : ∃ f, fuel = f + 1 := ⟨fuel - 1, by omega⟩
      have hc : (pre ++ c :: t ++ q :: rest).getD pre.length NUL = c := by
        rw [List.append_assoc, getD_append_length]; rfl
      rw [update_row_syntax_loop]
      simp only [if_pos hi, hscs, getD_append_nul, hc]
      rw [if_neg (fun h => hqn h.2.1), if_pos ⟨HLDB_flags_string s, hqn⟩]
      obtain ⟨hl1, e1, l1⟩ := hl_set_some hl pre.length .HL_STRING (by omega)
      obtain ⟨_, _, g1, g2⟩ := hl_set_get _ _ _ _ e1
      rw [e1, Option.some_bind]
      by_cases hcb : c = BSLASH
      · cases t with
        | nil =>
          subst hcb
          simp [is_string_body] at hbody
        | cons x t1 =>
          have hbody1 : is_string_body q t1 = true := by
            rw [is_string_body, if_pos hcb] at hbody
            exact hbody
          have hlen2 : pre.length + 1 < (pre ++ c :: x :: t1 ++ q :: rest).length := by
            simp
          rw [if_pos ⟨hcb, hlen2⟩]
          obtain ⟨hl2, e2, l2⟩ := hl_set_some hl1 (pre.length + 1) .HL_STRING (by omega)
          obtain ⟨_, _, k1, k2⟩ := hl_set_get _ _ _ _ e2
          rw [e2, Option.some_bind]
          have hre : pre ++ c :: x :: t1 ++ q :: rest = (pre ++ [c, x]) ++ t1 ++ q :: rest := by
            simp
          have hpl : (pre ++ [c, x]).length = pre.length + 2 := by simp
          have := ih t1 (by simp at hb; omega) hbody1 (pre ++ [c, x]) fuel ps hl2
            (by rw [← hre]; omega) (by rw [← hre, hpl]; omega) (by
              intro p hp
              rw [hpl] at hp
              by_cases hp1 : p = pre.length + 1
              · rw [hp1, k1]
              · rw [k2 p hp1]
                by_cases hp0 : p = pre.length
                · rw [hp0, g1]
                · rw [g2 p hp0]; exact htag p (by omega))
          rw [← hre, hpl] at this
          obtain ⟨fuel1, hl3, e3, l3, f3, t3, u3⟩ := this
          have hidx : pre.length + (c :: x :: t1).length + 1 = pre.length + 2 + t1.length + 1 := by
            simp; omega
          rw [hidx]
          refine ⟨fuel1, hl3, e3, l3, f3, t3, ?_⟩
          intro p hp
          rw [u3 p hp, k2 p (by omega), g2 p (by omega)]
      · have hcq : c ≠ q := by
          intro hcq
          cases t with
          | nil => simp [is_string_body, hcq] at hbody
          | cons x t1 => rw [is_string_body, if_neg hcb, if_pos hcq] at hbody; cases hbody
        have hbody1 : is_string_body q t = true := by
          cases t with
          | nil => rfl
          | cons x t1 => rw [is_string_body, if_neg hcb, if_neg hcq] at hbody; exact hbody
        rw [if_neg (fun h => hcb h.1), if_neg hcq]
        have hre : pre ++ c :: t ++ q :: rest = (pre ++ [c]) ++ t ++ q :: rest := by simp
        have hpl : (pre ++ [c]).length = pre.length + 1 := by simp
        have := ih t (by simp at hb; omega) hbody1 (pre ++ [c]) fuel true hl1
          (by rw [← hre]; omega) (by rw [← hre, hpl]; omega) (by
            intro p hp
            rw [hpl] at hp
            by_cases hp0 : p = pre.length
            · rw [hp0, g1]
            · rw [g2 p hp0]; exact htag p (by omega))
        rw [← hre, hpl] at this
        obtain ⟨fuel1, hl3, e3, l3, f3, t3, u3⟩ := this
        have hidx : pre.length + (c :: t).length + 1 = pre.length + 1 + t.length + 1 := by
          simp; omega
        rw [hidx]
        refine ⟨fuel1, hl3, e3, l3, f3, t3, ?_⟩
        intro p hp
        rw [u3 p hp, g2 p (by omega)]

theorem C_words_no_space (s : Fin NUM_HLDBS) :
    ∀ w, (w ∈ (HLDB s).keywords ∨ w ∈ (HLDB s).types ∨ w ∈ (HLDB s).consts) → SPC ∉ w := by
  have h : ∀ w ∈ C_KEYWORDS ++ C_TYPES ++ C_CONSTS, SPC ∉ w := by decide
  intro w hw
  apply h
  simp only [List.mem_append]
  rcases hw with h1 | h1 | h1
  · exact Or.inl (Or.inl h1)
  · exact Or.inl (Or.inr h1)
  · exact Or.inr h1

/-- Outside a string the scan leaves every tag of a run of spaces as it is. -/
theorem spaces_scan (s : Fin NUM_HLDBS) :
    ∀ (rest pre : List Char) (fuel : Nat) (ps : Bool) (hl : List EditorHighlight),
      (∀ c ∈ rest, c = SPC) → hl.length = (pre ++ rest).length →
      (pre ++ rest).length ≤ fuel + pre.length →
      update_row_syntax_loop (HLDB s) ((pre ++ rest) ++ [NUL]) (pre ++ rest).length fuel
        pre.length ps NUL hl = some hl := by
  have hscs : (HLDB s).singleline_comment_start = [SLASH, SLASH] := rfl
  intro rest
  induction rest with
  | nil =>
    intro pre fuel ps hl _ hlen hfuel
    simp only [List.append_nil]
    cases fuel with
    | zero => simp [update_row_syntax_loop]
    | succ f => simp [update_row_syntax_loop]
  | cons c t ih =>
    intro pre fuel ps hl hsp hlen hfuel
    have hcs : c = SPC := hsp c (List.mem_cons_self _ _)
    subst hcs
    have hi : pre.length < (pre ++ SPC :: t).length := by simp
    obtain ⟨fuel, rfl⟩ : ∃ f, fuel = f + 1 := ⟨fuel - 1, by omega⟩
    have hc : (pre ++ SPC :: t).getD pre.length NUL = SPC := by
      rw [getD_append_length]; rfl
    have hre : pre ++ SPC :: t = (pre ++ [SPC]) ++ t := by simp
    have hpl : (pre ++ [SPC]).length = pre.length + 1 := by simp
    have hnext : ∀ ps1, update_row_syntax_loop (HLDB s) ((pre ++ SPC :: t) ++ [NUL])
        (pre ++ SPC :: t).length fuel (pre.length + 1) ps1 NUL hl = some hl := by
      intro ps1
      have := ih (pre ++ [SPC]) fuel ps1 hl (fun c hc => hsp c (List.mem_cons_of_mem _ hc))
        (by rw [← hre]; exact hlen) (by rw [← hre, hpl]; omega)
      rw [← hre, hpl] at this
      exact this
    unfold update_row_syntax_loop
    simp only [if_pos hi, hscs, getD_append_nul, hc]
    generalize (if pre.length > 0 then hl.getD (pre.length - 1) EditorHighlight.HL_NORMAL
      else EditorHighlight.HL_NORMAL) = prev_hl
    have hsl := strncmp_eq_slashes ((pre ++ SPC :: t) ++ [NUL]) pre.length
    rw [getD_append_nul, getD_append_nul, hc] at hsl
    rw [if_neg (fun h => absurd (hsl.mp h.2.2).1 (by decide)), if_neg (fun h => h.2 rfl),
      if_neg (fun h => h.2.elim (by decide) (by decide)),
      if_neg (fun h => h.2.elim (fun h1 => absurd h1.1 (by decide))
        (fun h1 => absurd h1.1 (by decide)))]
    split_ifs with hps
    · obtain ⟨r, hr, hr1⟩ := match_syn_words_spec (HLDB s) (HLDB_wf s) (pre ++ SPC :: t) hl
        pre.length (by omega) hlen
      rw [hr]
      rcases hr1 with ⟨ht, _, _, _⟩ | hf
      · exfalso
        obtain ⟨b, hla, ia⟩ := r
        simp only at ht
        subst ht
        obtain ⟨w, v, hw, hne, _, hstr, _, _⟩ := match_syn_words_found _ _ _ _ _ _ hr
        rw [drop_append_nul _ _ (by omega)] at hstr
        obtain ⟨t1, ht1⟩ := strncmp_eq_prefix w _ (C_words_no_nul s w hw) hstr
        rw [List.drop_left] at ht1
        cases w with
        | nil => exact hne rfl
        | cons c1 w1 =>
          have : c1 = SPC := by
            have := congrArg List.head? ht1
            simpa using this.symm
          exact C_words_no_space s _ hw (by rw [this]; exact List.mem_cons_self _ _)
      · subst hf
        simp only
        exact hnext _
    · exact hnext _

/-- C28: with the C descriptor, for a rendered row `q body q rest` where `q` is
a double or single quote and `body` is a sequence of units (a character other
than `q` and backslash, or a backslash followed by any character),
`update_row_syntax` tags the first `|body| + 2` positions as string; the quote
behind `body` closes the literal: when `rest` is made of spaces its positions
keep the normal tag. -/
theorem update_row_syntax_string (s : Fin NUM_HLDBS) (q : Char) (body rest : List Char)
    (hq : q = DQUOTE ∨ q = SQUOTE) (hbody : is_string_body q body = true) :
    ∃ hl, update_row_syntax_hl (some s) ((q :: body ++ q :: rest) ++ [NUL])
        (q :: body ++ q :: rest).length = some hl ∧
      hl.length = (q :: body ++ q :: rest).length ∧
      (∀ p, p < body.length + 2 → hl.getD p .HL_NORMAL = .HL_STRING) ∧
      ((∀ c ∈ rest, c = SPC) → ∀ p, body.length + 2 ≤ p →
        hl.getD p .HL_NORMAL = .HL_NORMAL) := by
  have hqn : q ≠ NUL := by rcases hq with h | h <;> rw [h] <;> decide
  have hqs : q ≠ SLASH := by rcases hq with h | h <;> rw [h] <;> decide
  have hscs : (HLDB s).singleline_comment_start = [SLASH, SLASH] := rfl
  have hi : 0 < (q :: body ++ q :: rest).length := by simp
  have hrl : (q :: body ++ q :: rest).length = (body ++ q :: rest).length + 1 := by simp
  unfold update_row_syntax_hl
  simp only
  rw [hrl]
  unfold update_row_syntax_loop
  rw [← hrl]
  have hc : (q :: body ++ q :: rest).getD 0 NUL = q := rfl
  simp only [if_pos hi, hscs, getD_append_nul, hc]
  have hsl := strncmp_eq_slashes ((q :: body ++ q :: rest) ++ [NUL]) 0
  rw [getD_append_nul, getD_append_nul, hc] at hsl
  rw [if_neg (fun h => hqs (hsl.mp h.2.2).1), if_neg (fun h => h.2 rfl),
    if_pos ⟨HLDB_flags_string s, hq⟩]
  obtain ⟨hl1, e1, l1⟩ := hl_set_some (List.replicate (q :: body ++ q :: rest).length
    EditorHighlight.HL_NORMAL) 0 .HL_STRING (by simp)
  obtain ⟨_, _, g1, g2⟩ := hl_set_get _ _ _ _ e1
  rw [e1, Option.some_bind]
  have := string_scan s q hq rest body.length body (le_refl _) hbody [q]
    (body ++ q :: rest).length true hl1 (by simpa using l1) (by simp) (by
      intro p hp
      have : p = 0 := by simpa using hp
      rw [this, g1])
  simp only [List.singleton_append, List.length_singleton] at this
  obtain ⟨fuel1, hl0, e0, l0, f0, t0, u0⟩ := this
  rw [e0]
  obtain ⟨hl3, e3, l3⟩ := update_row_syntax_loop_some (HLDB s) (HLDB_wf s)
    (q :: body ++ q :: rest) fuel1 (1 + body.length + 1) true NUL hl0 l0 f0
  refine ⟨hl3, e3, l3, ?_, ?_⟩
  · intro p hp
    rw [update_row_syntax_loop_frame _ _ _ _ _ _ _ _ _ e3 p (by omega)]
    exact t0 p (by omega)
  · intro hsp p hp
    have hre : q :: body ++ q :: rest = (q :: body ++ [q]) ++ rest := by simp
    have hpl : (q :: body ++ [q]).length = 1 + body.length + 1 := by simp; omega
    have := spaces_scan s rest (q :: body ++ [q]) fuel1 true hl0 hsp
      (by rw [← hre]; exact l0) (by rw [← hre, hpl]; exact f0)
    rw [← hre, hpl, e3] at this
    have h3 : hl3 = hl0 := Option.some.inj this
    rw [h3, u0 p (by omega), g2 p (by omega)]
    rw [List.getD_eq_getElem?_getD, List.getElem?_replicate]
    split_ifs <;> rfl

/-- Witness for C28: the row `"a\"//'"` followed by two spaces (an escaped
quote, a comment marker and the other quote inside the literal). -/
theorem update_row_syntax_string_witness :
    ∃ hl, update_row_syntax_hl (some 0)
        ((DQUOTE :: [Char.ofNat 97, BSLASH, DQUOTE, SLASH, SLASH, SQUOTE] ++
          DQUOTE :: [SPC, SPC]) ++ [NUL])
        (DQUOTE :: [Char.ofNat 97, BSLASH, DQUOTE, SLASH, SLASH, SQUOTE] ++
          DQUOTE :: [SPC, SPC]).length = some hl ∧
      hl.length = (DQUOTE :: [Char.ofNat 97, BSLASH, DQUOTE, SLASH, SLASH, SQUOTE] ++
          DQUOTE :: [SPC, SPC]).length ∧
      (∀ p, p < [Char.ofNat 97, BSLASH, DQUOTE, SLASH, SLASH, SQUOTE].length + 2 →
        hl.getD p .HL_NORMAL = .HL_STRING) ∧
      ((∀ c ∈ [SPC, SPC], c = SPC) →
        ∀ p, [Char.ofNat 97, BSLASH, DQUOTE, SLASH, SLASH, SQUOTE].length + 2 ≤ p →
          hl.getD p .HL_NORMAL = .HL_NORMAL) :=
  update_row_syntax_string 0 DQUOTE [Char.ofNat 97, BSLASH, DQUOTE, SLASH, SLASH, SQUOTE]
    [SPC, SPC] (Or.inl rfl) (by decide)

/-! ### The highlighter: listed words -/

theorem strncmp_eq_self_prefix (w t : List Char) (hw : NUL ∉ w) :
    strncmp_eq (w ++ t) w w.length = true := by
  induction w with
  | nil => rfl
  | cons c w ih =>
    have hc : c ≠ NUL := fun h => hw (by simp [h])
    have e : strncmp_eq (c :: w ++ t) (c :: w) (c :: w).length
        = (if (c :: w ++ t).headD NUL ≠ (c :: w).headD NUL then false
            else if (c :: w ++ t).headD NUL = NUL then true
            else strncmp_eq (c :: w ++ t).tail (c :: w).tail w.length) := rfl
    rw [e]
    simp only [List.cons_append, List.headD_cons, List.tail_cons, ne_eq, not_true_eq_false,
      if_false, if_neg hc]
    exact ih (fun h => hw (List.mem_cons_of_mem _ h))

/-- At the start of a row made of the word `w` and then nothing or a separator,
a listed word matches exactly when it is `w`. -/
theorem word_match_iff (w rest w1 : List Char)
    (hw : ∀ c ∈ w, is_char_separator c = false) (hw1 : ∀ c ∈ w1, is_char_separator c = false)
    (hrest : rest = [] ∨ ∃ sep rest1, rest = sep :: rest1 ∧ is_char_separator sep = true) :
    (strncmp_eq (((w ++ rest) ++ [NUL]).drop 0) w1 w1.length = true ∧
      is_char_separator (((w ++ rest) ++ [NUL]).getD (0 + w1.length) NUL) = true) ↔ w1 = w := by
  have hnul : ∀ x : List Char, (∀ c ∈ x, is_char_separator c = false) → NUL ∉ x := by
    intro x hx hin
    have := hx NUL hin
    revert this
    decide
  have hsepnext : is_char_separator (((w ++ rest) ++ [NUL]).getD w.length NUL) = true := by
    rw [List.append_assoc, getD_append_length]
    rcases hrest with h | ⟨sep, rest1, h, hs⟩
    · rw [h]; decide
    · rw [h]; exact hs
  constructor
  · rintro ⟨h1, h2⟩
    rw [List.drop_zero] at h1
    obtain ⟨t, ht⟩ := strncmp_eq_prefix w1 (w ++ rest) (hnul w1 hw1) h1
    rw [Nat.zero_add, getD_append_nul] at h2
    rcases Nat.lt_trichotomy w1.length w.length with hlt | heq | hgt
    · exfalso
      have hmem : (w ++ rest).getD w1.length NUL ∈ w := by
        rw [List.getD_eq_getElem?_getD, List.getElem?_append_left hlt,
          List.getElem?_eq_getElem hlt]
        exact List.getElem_mem _
      rw [hw _ hmem] at h2
      cases h2
    · have := List.append_inj ht heq.symm
      exact this.1.symm
    · exfalso
      rcases hrest with h | ⟨sep, rest1, h, hs⟩
      · have := congrArg List.length ht
        rw [h] at this
        simp at this
        omega
      · have hmem : sep ∈ w1 := by
          have e1 : (w ++ rest).getD w.length NUL = sep := by
            rw [getD_append_length, h]; rfl
          have e2 : (w ++ rest).getD w.length NUL = (w1 ++ t).getD w.length NUL := by rw [ht]
          rw [e1, List.getD_eq_getElem?_getD, List.getElem?_append_left hgt,
            List.getElem?_eq_getElem hgt] at e2
          rw [e2]
          exact List.getElem_mem _
        rw [hw1 _ hmem] at hs
        cases hs
  · intro h
    subst h
    refine ⟨?_, ?_⟩
    · rw [List.drop_zero, List.append_assoc]
      exact strncmp_eq_self_prefix w1 _ (hnul w1 hw)
    · rw [Nat.zero_add]
      exact hsepnext

theorem match_syn_word_at_word (ws : List (List Char)) (w rest : List Char)
    (hl : List EditorHighlight) (v : EditorHighlight)
    (hws : ∀ w1 ∈ ws, w1 ≠ [] ∧ ∀ c ∈ w1, is_char_separator c = false)
    (hw : ∀ c ∈ w, is_char_separator c = false)
    (hrest : rest = [] ∨ ∃ sep rest1, rest = sep :: rest1 ∧ is_char_separator sep = true) :
    match_syn_word (ws ++ [[]]) ((w ++ rest) ++ [NUL]) hl 0 v
      = if w ∈ ws then (hl_memset hl 0 w.length v).map fun hl1 => (true, hl1, 0 + w.length)
        else some (false, hl, 0) := by
  induction ws with
  | nil => simp [match_syn_word]
  | cons w1 ws ih =>
    obtain ⟨hne, hsep⟩ := hws w1 (List.mem_cons_self _ _)
    have hiff := word_match_iff w rest w1 hw hsep hrest
    rw [List.cons_append, match_syn_word, if_neg hne]
    by_cases h : w1 = w
    · subst h
      rw [if_pos (hiff.mpr rfl), if_pos (List.mem_cons_self _ _)]
    · rw [if_neg (fun hm => h (hiff.mp hm)), ih (fun w2 h2 => hws w2 (List.mem_cons_of_mem _ h2))]
      have : w ∈ w1 :: ws ↔ w ∈ ws := by
        simp only [List.mem_cons]
        constructor
        · rintro (h1 | h1)
          · exact absurd h1.symm h
          · exact h1
        · exact Or.inr
      simp only [this]

theorem C_tables_words :
    (C_KEYWORDS = C_KEYWORDS.dropLast ++ [[]] ∧ C_TYPES = C_TYPES.dropLast ++ [[]] ∧
      C_CONSTS = C_CONSTS.dropLast ++ [[]]) ∧
    (∀ w ∈ C_KEYWORDS.dropLast ++ C_TYPES.dropLast ++ C_CONSTS.dropLast,
      w ≠ [] ∧ (∀ c ∈ w, is_char_separator c = false) ∧ isdigit (w.headD NUL) = false ∧
        w.headD NUL ≠ DQUOTE ∧ w.headD NUL ≠ SQUOTE ∧ w.headD NUL ≠ SLASH ∧
        w.headD NUL ≠ Char.ofNat 46) := by
  decide

theorem mem_dropLast_of_ne (L : List (List Char)) (hL : L = L.dropLast ++ [[]])
    (w : List Char) (hw : w ≠ []) : w ∈ L ↔ w ∈ L.dropLast := by
  constructor
  · intro h
    rw [hL] at h
    rcases List.mem_append.mp h with h1 | h1
    · exact h1
    · simp at h1; exact absurd h1 hw
  · intro h
    exact List.dropLast_subset _ h

/-- C29: with the C descriptor, for a word `w` of the keyword, type or const
list and a rendered row made of `w` followed by nothing or by a separator and
then any text, `update_row_syntax` gives each of the first `|w|` positions the
tag of the first list containing `w` (keyword, then type, then const).  In the
rows `ifx` and `xif ` every position keeps the normal tag. -/
theorem update_row_syntax_word (s : Fin NUM_HLDBS) (w rest : List Char)
    (hw : w ≠ [] ∧ (w ∈ C_KEYWORDS ∨ w ∈ C_TYPES ∨ w ∈ C_CONSTS))
    (hrest : rest = [] ∨ ∃ sep rest1, rest = sep :: rest1 ∧ is_char_separator sep = true) :
    (∃ hl, update_row_syntax_hl (some s) ((w ++ rest) ++ [NUL]) (w ++ rest).length = some hl ∧
      hl.length = (w ++ rest).length ∧
      ∀ p, p < w.length → hl.getD p .HL_NORMAL = word_tag w) ∧
    update_row_syntax_hl (some s) (String.toList "ifx" ++ [NUL]) 3
      = some [.HL_NORMAL, .HL_NORMAL, .HL_NORMAL] ∧
    update_row_syntax_hl (some s) (String.toList "xif " ++ [NUL]) 4
      = some [.HL_NORMAL, .HL_NORMAL, .HL_NORMAL, .HL_NORMAL] := by
  refine ⟨?_, by revert s; decide, by revert s; decide⟩
  obtain ⟨⟨hk, ht, hc⟩, htab⟩ := C_tables_words
  obtain ⟨hne, hmem⟩ := hw
  have hmem1 : w ∈ C_KEYWORDS.dropLast ++ C_TYPES.dropLast ++ C_CONSTS.dropLast := by
    simp only [List.mem_append]
    rcases hmem with h | h | h
    · exact Or.inl (Or.inl ((mem_dropLast_of_ne _ hk w hne).mp h))
    · exact Or.inl (Or.inr ((mem_dropLast_of_ne _ ht w hne).mp h))
    · exact Or.inr ((mem_dropLast_of_ne _ hc w hne).mp h)
  obtain ⟨_, hsep, hdig, hdq, hsq, hsl, hdot⟩ := htab w hmem1
  have hwl : 0 < w.length := List.length_pos.mpr hne
  have hscs : (HLDB s).singleline_comment_start = [SLASH, SLASH] := rfl
  have hi : 0 < (w ++ rest).length := by simp; omega
  have hc0 : (w ++ rest).getD 0 NUL = w.headD NUL := by
    cases w with
    | nil => exact absurd rfl hne
    | cons c t => rfl
  obtain ⟨fuel, hfuel⟩ : ∃ f, (w ++ rest).length = f + 1 := ⟨(w ++ rest).length - 1, by omega⟩
  have hK : ∀ hl0 : List EditorHighlight,
      match_syn_word (HLDB s).keywords ((w ++ rest) ++ [NUL]) hl0 0 .HL_KEYWORD
        = if w ∈ C_KEYWORDS.dropLast
          then (hl_memset hl0 0 w.length .HL_KEYWORD).map fun hl1 => (true, hl1, 0 + w.length)
          else some (false, hl0, 0) := by
    intro hl0
    show match_syn_word C_KEYWORDS _ _ _ _ = _
    rw [hk]
    exact match_syn_word_at_word _ w rest hl0 _
      (fun w1 h1 => ⟨(htab w1 (by simp [h1])).1, (htab w1 (by simp [h1])).2.1⟩) hsep hrest
  have hT : ∀ hl0 : List EditorHighlight,
      match_syn_word (HLDB s).types ((w ++ rest) ++ [NUL]) hl0 0 .HL_TYPE
        = if w ∈ C_TYPES.dropLast
          then (hl_memset hl0 0 w.length .HL_TYPE).map fun hl1 => (true, hl1, 0 + w.length)
          else some (false, hl0, 0) := by
    intro hl0
    show match_syn_word C_TYPES _ _ _ _ = _
    rw [ht]
    exact match_syn_word_at_word _ w rest hl0 _
      (fun w1 h1 => ⟨(htab w1 (by simp [h1])).1, (htab w1 (by simp [h1])).2.1⟩) hsep hrest
  have hC : ∀ hl0 : List EditorHighlight,
      match_syn_word (HLDB s).consts ((w ++ rest) ++ [NUL]) hl0 0 .HL_CONST
        = if w ∈ C_CONSTS.dropLast
          then (hl_memset hl0 0 w.length .HL_CONST).map fun hl1 => (true, hl1, 0 + w.length)
          else some (false, hl0, 0) := by
    intro hl0
    show match_syn_word C_CONSTS _ _ _ _ = _
    rw [hc]
    exact match_syn_word_at_word _ w rest hl0 _
      (fun w1 h1 => ⟨(htab w1 (by simp [h1])).1, (htab w1 (by simp [h1])).2.1⟩) hsep hrest
  have hwords : ∀ hl0 : List EditorHighlight, hl0.length = (w ++ rest).length →
      ∃ hl1, match_syn_words (HLDB s) ((w ++ rest) ++ [NUL]) hl0 0 = some (true, hl1, w.length) ∧
        hl_memset hl0 0 w.length (word_tag w) = some hl1 := by
    intro hl0 hlen0
    have hfit : 0 + w.length ≤ hl0.length := by rw [hlen0]; simp
    unfold match_syn_words word_tag
    rw [hK, hT, hC]
    by_cases h1 : w ∈ C_KEYWORDS
    · obtain ⟨hl1, e1, _⟩ := hl_memset_some hl0 0 w.length .HL_KEYWORD hfit
      rw [if_pos ((mem_dropLast_of_ne _ hk w hne).mp h1), if_pos h1, e1]
      exact ⟨hl1, by simp, rfl⟩
    · rw [if_neg (fun h => h1 ((mem_dropLast_of_ne _ hk w hne).mpr h)), if_neg h1]
      by_cases h2 : w ∈ C_TYPES
      · obtain ⟨hl1, e1, _⟩ := hl_memset_some hl0 0 w.length .HL_TYPE hfit
        rw [if_pos ((mem_dropLast_of_ne _ ht w hne).mp h2), if_pos h2, e1]
        exact ⟨hl1, by simp, rfl⟩
      · rw [if_neg (fun h => h2 ((mem_dropLast_of_ne _ ht w hne).mpr h)), if_neg h2]
        have h3 : w ∈ C_CONSTS := by
          rcases hmem with h | h | h
          · exact absurd h h1
          · exact absurd h h2
          · exact h
        obtain ⟨hl1, e1, _⟩ := hl_memset_some hl0 0 w.length .HL_CONST hfit
        rw [if_pos ((mem_dropLast_of_ne _ hc w hne).mp h3), e1]
        exact ⟨hl1, by simp, rfl⟩
  unfold update_row_syntax_hl
  simp only
  obtain ⟨hl1, e1, m1⟩ := hwords (List.replicate (w ++ rest).length .HL_NORMAL) (by simp)
  obtain ⟨l1, _, g1, _⟩ := hl_memset_get _ _ _ _ _ m1
  obtain ⟨hl2, e2, l2⟩ := update_row_syntax_loop_some (HLDB s) (HLDB_wf s) (w ++ rest) fuel
    w.length false NUL hl1 (by rw [l1]; simp) (by omega)
  have hstep : ∀ F, F = fuel + 1 →
      update_row_syntax_loop (HLDB s) ((w ++ rest) ++ [NUL]) (w ++ rest).length
        F 0 true NUL (List.replicate (w ++ rest).length .HL_NORMAL)
      = update_row_syntax_loop (HLDB s) ((w ++ rest) ++ [NUL]) (w ++ rest).length fuel
        w.length false NUL hl1 := by
    intro F hF
    subst hF
    rw [update_row_syntax_loop]
    simp only [if_pos hi, hscs, getD_append_nul, hc0]
    have hss := strncmp_eq_slashes ((w ++ rest) ++ [NUL]) 0
    rw [getD_append_nul, getD_append_nul, hc0] at hss
    rw [if_neg (fun h => hsl (hss.mp h.2.2).1), if_neg (fun h => h.2 rfl),
      if_neg (fun h => h.2.elim hdq hsq)]
    rw [if_neg (fun h => h.2.elim (fun h1 => by rw [hdig] at h1; exact absurd h1.1 (by decide))
      (fun h1 => hdot h1.1))]
    simp only [if_true, e1]
  refine ⟨hl2, ?_, l2, ?_⟩
  · rw [hstep _ hfuel, e2]
  · intro p hp
    rw [update_row_syntax_loop_frame _ _ _ _ _ _ _ _ _ e2 p hp]
    exact g1 p (Nat.zero_le _) (by omega)

/-- Witness for C29: the row `constexpr int`. -/
theorem update_row_syntax_word_witness :
    ∃ hl, update_row_syntax_hl (some 0)
        ((String.toList "constexpr" ++ String.toList " int") ++ [NUL])
        (String.toList "constexpr" ++ String.toList " int").length = some hl ∧
      hl.length = (String.toList "constexpr" ++ String.toList " int").length ∧
      ∀ p, p < (String.toList "constexpr").length →
        hl.getD p .HL_NORMAL = word_tag (String.toList "constexpr") :=
  (update_row_syntax_word 0 (String.toList "constexpr") (String.toList " int")
    ⟨by decide, Or.inl (by decide)⟩ (Or.inr ⟨SPC, String.toList "int", rfl, by decide⟩)).1

/-! ### The quit counter across keypresses -/

theorem update_row_syntax_ctl (E E1 : EditorConfig) (p : Option Nat)
    (h : update_row_syntax E p = some E1) : E1.ctl = E.ctl := by
  unfold update_row_syntax at h
  simp only [Option.bind_eq_some, Option.map_eq_some'] at h
  obtain ⟨i, _, row, _, hl, _, rfl⟩ := h
  rfl

theorem update_row_ctl (E E1 : EditorConfig) (p : Option Nat)
    (h : update_row E p = some E1) : E1.ctl = E.ctl := by
  unfold update_row at h
  simp only [Option.bind_eq_some] at h
  obtain ⟨i, _, row, _, h2⟩ := h
  have k := update_row_syntax_ctl _ _ _ h2
  exact k

theorem insert_row_ctl (E E1 : EditorConfig) (a : Int) (d : List Char)
    (h : insert_row E a d = some E1) : E1.ctl = E.ctl := by
  unfold insert_row at h
  split_ifs at h
  · cases h; rfl
  · have k := update_row_ctl _ _ _ h
    exact k

theorem delete_row_ctl (E : EditorConfig) (a : Int) : (delete_row E a).1.ctl = E.ctl := by
  unfold delete_row
  split_ifs
  · rfl
  · cases E.rows[a.toNat]? <;> rfl

theorem row_insert_char_ctl (E E1 : EditorConfig) (p : Option Nat) (a : Int) (c : Char)
    (h : row_insert_char E p a c = some E1) : E1.ctl = E.ctl := by
  unfold row_insert_char at h
  simp only [Option.bind_eq_some] at h
  obtain ⟨i, _, row, _, h2⟩ := h
  have k := update_row_ctl _ _ _ h2
  exact k

theorem row_delete_range_ctl (E : EditorConfig) (p : Option Nat) (a n : Int)
    (r : EditorConfig × List Char) (h : row_delete_range E p a n = some r) :
    r.1.ctl = E.ctl := by
  unfold row_delete_range at h
  simp only [Option.bind_eq_some] at h
  obtain ⟨i, _, row, _, h2⟩ := h
  split_ifs at h2
  · cases h2; rfl
  · simp only [Option.bind_eq_some, Option.map_eq_some'] at h2
    obtain ⟨copy, _, E2, h3, rfl⟩ := h2
    have k := update_row_ctl _ _ _ h3
    exact k

theorem row_append_string_ctl (E E1 : EditorConfig) (p : Option Nat) (str : List Char)
    (h : row_append_string E p str = some E1) : E1.ctl = E.ctl := by
  unfold row_append_string at h
  simp only [Option.bind_eq_some] at h
  obtain ⟨i, _, row, _, h2⟩ := h
  have k := update_row_ctl _ _ _ h2
  exact k

theorem row_set_indent_loop_ctl (p : Option Nat) (n : Nat) :
    ∀ E E1 : EditorConfig, row_set_indent_loop p n E = some E1 → E1.ctl = E.ctl := by
  induction n with
  | zero => intro E E1 h; cases h; rfl
  | succ n ih =>
    intro E E1 h
    unfold row_set_indent_loop at h
    simp only [Option.bind_eq_some] at h
    obtain ⟨E2, h1, h2⟩ := h
    rw [ih _ _ h2, row_insert_char_ctl _ _ _ _ _ h1]

theorem row_set_indent_ctl (E E1 : EditorConfig) (p : Option Nat) (n : Int)
    (h : row_set_indent E p n = some E1) : E1.ctl = E.ctl := by
  unfold row_set_indent at h
  simp only [Option.bind_eq_some] at h
  obtain ⟨row, _, r, h1, h2⟩ := h
  rw [row_set_indent_loop_ctl _ _ _ _ h2, row_delete_range_ctl _ _ _ _ _ h1]

theorem insert_empty_row_ctl (E E1 : EditorConfig)
    (h : insert_empty_row_if_file_empty E = some E1) : E1.ctl = E.ctl := by
  unfold insert_empty_row_if_file_empty at h
  split_ifs at h
  · have k := insert_row_ctl _ _ _ _ h
    exact k
  · cases h; rfl

theorem row_indent_to_prev_indent_ctl (E E1 : EditorConfig) (p : Option Nat)
    (h : row_indent_to_prev_indent E p = some E1) : E1.ctl = E.ctl := by
  unfold row_indent_to_prev_indent at h
  simp only [Option.bind_eq_some] at h
  obtain ⟨t, _, row, _, h2⟩ := h
  split_ifs at h2
  · simp only [Option.map_eq_some'] at h2
    obtain ⟨E2, h3, rfl⟩ := h2
    have k := row_set_indent_ctl _ _ _ _ h3
    exact k
  · cases h2; rfl

theorem delete_empty_row_ctl (E E1 : EditorConfig)
    (h : delete_empty_row_if_file_empty E = some E1) : E1.ctl = E.ctl := by
  unfold delete_empty_row_if_file_empty at h
  split_ifs at h
  · simp only [Option.map_eq_some'] at h
    obtain ⟨row, _, rfl⟩ := h
    split_ifs
    · exact delete_row_ctl E 0
    · rfl
  · cases h; rfl

theorem do_insert_newline_ctl (E E1 : EditorConfig) (b : Bool)
    (h : do_insert_newline E b = some E1) : E1.ctl = E.ctl := by
  unfold do_insert_newline at h
  simp only [Option.bind_eq_some] at h
  obtain ⟨E2, h1, E3, h2, h3⟩ := h
  have k1 := insert_empty_row_ctl _ _ h1
  have k2 : E3.ctl = E2.ctl := by
    split_ifs at h2
    · have k := insert_row_ctl _ _ _ _ h2
      exact k
    · simp only [Option.bind_eq_some] at h2
      obtain ⟨row, _, tail, _, E4, h4, i, _, row2, _, head, _, h5⟩ := h2
      rw [update_row_ctl _ _ _ h5]
      have k := insert_row_ctl _ _ _ _ h4
      exact k
  split_ifs at h3
  · rw [row_indent_to_prev_indent_ctl _ _ _ h3]
    exact k2.trans k1
  · cases h3
    exact k2.trans k1

theorem do_insert_char_ctl (E E1 : EditorConfig) (c : Char)
    (h : do_insert_char E c = some E1) : E1.ctl = E.ctl := by
  unfold do_insert_char at h
  split_ifs at h
  · have k := do_insert_newline_ctl _ _ _ h
    exact k
  · simp only [Option.bind_eq_some, Option.map_eq_some'] at h
    obtain ⟨E2, h1, E3, h2, rfl⟩ := h
    exact (row_insert_char_ctl _ _ _ _ _ h2).trans (insert_empty_row_ctl _ _ h1)

theorem do_delete_left_char_ctl (E E1 : EditorConfig)
    (h : do_delete_left_char E = some E1) : E1.ctl = E.ctl := by
  unfold do_delete_left_char at h
  split_ifs at h with h0 h1
  · cases h; rfl
  · simp only [Option.bind_eq_some, Option.map_eq_some'] at h
    obtain ⟨E2, ⟨r, h2, rfl⟩, h3⟩ := h
    rw [delete_empty_row_ctl _ _ h3]
    have k := row_delete_range_ctl _ _ _ _ _ h2
    exact k
  · simp only [Option.bind_eq_some, Option.map_eq_some'] at h
    obtain ⟨E2, ⟨prev, _, row, _, E3, h2, rfl⟩, h3⟩ := h
    rw [delete_empty_row_ctl _ _ h3, delete_row_ctl]
    have k := row_append_string_ctl _ _ _ _ h2
    exact k

theorem do_delete_current_char_ctl (E E1 : EditorConfig)
    (h : do_delete_current_char E = some E1) : E1.ctl = E.ctl := by
  unfold do_delete_current_char at h
  simp only at h
  cases hrow : E.deref (E.get_row_at E.cy) with
  | none => rw [hrow] at h; cases h; rfl
  | some row =>
    rw [hrow] at h
    simp only [Option.bind_eq_some] at h
    obtain ⟨E2, h2, h3⟩ := h
    rw [delete_empty_row_ctl _ _ h3]
    split_ifs at h2
    · simp only [Option.bind_eq_some, Option.map_eq_some'] at h2
      obtain ⟨next, _, E3, h4, rfl⟩ := h2
      rw [delete_row_ctl]
      have k := row_append_string_ctl _ _ _ _ h4
      exact k
    · cases h2; rfl
    · simp only [Option.map_eq_some'] at h2
      obtain ⟨r, h4, rfl⟩ := h2
      have k := row_delete_range_ctl _ _ _ _ _ h4
      exact k

theorem do_paste_loop_ctl (t : List Char) :
    ∀ E E1 : EditorConfig, do_paste_loop t E = some E1 → E1.ctl = E.ctl := by
  induction t with
  | nil => intro E E1 h; cases h; rfl
  | cons c t ih =>
    intro E E1 h
    unfold do_paste_loop at h
    simp only [Option.bind_eq_some] at h
    obtain ⟨E2, h1, h2⟩ := h
    rw [ih _ _ h2, do_insert_char_ctl _ _ _ h1]

theorem do_cut_all_loop_ctl (n : Nat) :
    ∀ (i : Nat) (E : EditorConfig) (copy : List Char),
      (do_cut_all_loop n i E copy).1.ctl = E.ctl := by
  induction n with
  | zero => intro i E copy; rfl
  | succ n ih =>
    intro i E copy
    unfold do_cut_all_loop
    simp only
    rw [ih, delete_row_ctl]

theorem do_cut_mid_loop_ctl (d : Int) (n : Nat) :
    ∀ (E : EditorConfig) (q : Option Nat) (copy : List Char),
      (do_cut_mid_loop d n E q copy).1.ctl = E.ctl := by
  induction n with
  | zero => intro E q copy; rfl
  | succ n ih =>
    intro E q copy
    unfold do_cut_mid_loop
    simp only
    rw [ih, delete_row_ctl]

theorem do_cut_region_ctl (E : EditorConfig) (sx sy ex ey : Int)
    (r : EditorConfig × List Char) (h : do_cut_region E sx sy ex ey = some r) :
    r.1.ctl = E.ctl := by
  unfold do_cut_region at h
  simp only [Option.bind_eq_some] at h
  obtain ⟨whole, _, h1⟩ := h
  split_ifs at h1
  · cases h1
    exact do_cut_all_loop_ctl _ _ _ _
  · have k := row_delete_range_ctl _ _ _ _ _ h1
    exact k
  · simp only [Option.map_eq_some'] at h1
    obtain ⟨r2, h2, rfl⟩ := h1
    have k := row_delete_range_ctl _ _ _ _ _ h2
    rw [k, do_cut_mid_loop_ctl, delete_row_ctl]
  · simp only [Option.bind_eq_some, Option.map_eq_some'] at h1
    obtain ⟨srow, _, r1, h2, erow, _, r2, h3, E3, h4, rfl⟩ := h1
    have k1 := row_delete_range_ctl _ _ _ _ _ h2
    have k3 := row_delete_range_ctl _ _ _ _ _ h3
    have k4 := row_append_string_ctl _ _ _ _ h4
    show (delete_row E3 (sy + 1)).1.ctl = E.ctl
    rw [delete_row_ctl, k4, k3, do_cut_mid_loop_ctl, k1]

theorem do_cut_cursor_mark_region_ctl (E E1 : EditorConfig)
    (h : do_cut_cursor_mark_region E = some E1) : E1.ctl = E.ctl := by
  unfold do_cut_cursor_mark_region at h
  simp only at h
  split at h
  · cases h; rfl
  · simp only [Option.map_eq_some'] at h
    obtain ⟨r, h1, rfl⟩ := h
    have k := do_cut_region_ctl _ _ _ _ _ _ h1
    exact k

theorem update_cx_ctl (E : EditorConfig) :
    (update_cx_when_cy_changed E).ctl = E.ctl ∧ (update_cx_when_cy_changed E).mode = E.mode := by
  unfold update_cx_when_cy_changed
  split_ifs <;> exact ⟨rfl, rfl⟩

theorem do_cursor_up_ctl (E : EditorConfig) : (do_cursor_up E).ctl = E.ctl := by
  unfold do_cursor_up
  rw [(update_cx_ctl _).1]
  split_ifs <;> rfl

theorem do_cursor_down_ctl (E : EditorConfig) : (do_cursor_down E).ctl = E.ctl := by
  unfold do_cursor_down
  rw [(update_cx_ctl _).1]
  split_ifs <;> rfl

theorem do_cursor_left_ctl (E E1 : EditorConfig) (h : do_cursor_left E = some E1) :
    E1.ctl = E.ctl := by
  unfold do_cursor_left at h
  split_ifs at h
  · cases h; rfl
  · simp only [Option.map_eq_some'] at h
    obtain ⟨prev, _, rfl⟩ := h
    rfl
  · cases h; rfl

theorem do_cursor_right_ctl (E E1 : EditorConfig) (h : do_cursor_right E = some E1) :
    E1.ctl = E.ctl := by
  unfold do_cursor_right at h
  simp only [Option.map_eq_some'] at h
  obtain ⟨row, _, rfl⟩ := h
  split_ifs <;> rfl

theorem do_cursor_line_end_ctl (E : EditorConfig) : (do_cursor_line_end E).ctl = E.ctl := by
  unfold do_cursor_line_end
  cases E.deref (E.get_row_at E.cy) <;> rfl

theorem forward_word_skip_ctl (n : Nat) :
    ∀ E E1 : EditorConfig, forward_word_skip n E = some E1 → E1.ctl = E.ctl := by
  induction n with
  | zero => intro E E1 h; cases h
  | succ n ih =>
    intro E E1 h
    unfold forward_word_skip at h
    simp only [Option.bind_eq_some] at h
    obtain ⟨c, _, h1⟩ := h
    split_ifs at h1
    · simp only [Option.bind_eq_some] at h1
      obtain ⟨e, _, h2⟩ := h1
      split_ifs at h2
      · simp only [Option.bind_eq_some] at h2
        obtain ⟨E2, h3, h4⟩ := h2
        rw [ih _ _ h4, do_cursor_right_ctl _ _ h3]
      · cases h2; rfl
    · cases h1; rfl

theorem forward_word_run_ctl (n : Nat) :
    ∀ E E1 : EditorConfig, forward_word_run n E = some E1 → E1.ctl = E.ctl := by
  induction n with
  | zero => intro E E1 h; cases h
  | succ n ih =>
    intro E E1 h
    unfold forward_word_run at h
    simp only [Option.bind_eq_some] at h
    obtain ⟨c, _, h1⟩ := h
    split_ifs at h1
    · simp only [Option.bind_eq_some] at h1
      obtain ⟨E2, h3, h4⟩ := h1
      rw [ih _ _ h4, do_cursor_right_ctl _ _ h3]
    · cases h1; rfl

theorem do_cursor_forward_word_ctl (fuel : Nat) (E E1 : EditorConfig)
    (h : do_cursor_forward_word fuel E = some E1) : E1.ctl = E.ctl := by
  unfold do_cursor_forward_word at h
  simp only [Option.bind_eq_some] at h
  obtain ⟨E2, h1, e, _, h2⟩ := h
  split_ifs at h2
  · rw [forward_word_run_ctl _ _ _ h2, forward_word_skip_ctl _ _ _ h1]
  · cases h2
    exact forward_word_skip_ctl _ _ _ h1

theorem backward_word_skip_ctl (n : Nat) :
    ∀ E E1 : EditorConfig, backward_word_skip n E = some E1 → E1.ctl = E.ctl := by
  induction n with
  | zero => intro E E1 h; cases h
  | succ n ih =>
    intro E E1 h
    unfold backward_word_skip at h
    simp only [Option.bind_eq_some] at h
    obtain ⟨c, _, h1⟩ := h
    split_ifs at h1
    · simp only [Option.bind_eq_some] at h1
      obtain ⟨E2, h3, h4⟩ := h1
      rw [ih _ _ h4, do_cursor_left_ctl _ _ h3]
    · cases h1; rfl

theorem backward_word_run_ctl (n : Nat) :
    ∀ E E1 : EditorConfig, backward_word_run n E = some E1 → E1.ctl = E.ctl := by
  induction n with
  | zero => intro E E1 h; cases h
  | succ n ih =>
    intro E E1 h
    unfold backward_word_run at h
    simp only [Option.bind_eq_some] at h
    obtain ⟨c, _, h1⟩ := h
    split_ifs at h1
    · simp only [Option.bind_eq_some] at h1
      obtain ⟨E2, h3, h4⟩ := h1
      rw [ih _ _ h4, do_cursor_left_ctl _ _ h3]
    · cases h1; rfl

theorem do_cursor_backward_word_ctl (fuel : Nat) (E E1 : EditorConfig)
    (h : do_cursor_backward_word fuel E = some E1) : E1.ctl = E.ctl := by
  unfold do_cursor_backward_word at h
  split_ifs at h
  · cases h; rfl
  · simp only [Option.bind_eq_some] at h
    obtain ⟨E2, h1, h2⟩ := h
    rw [backward_word_run_ctl _ _ _ h2, backward_word_skip_ctl _ _ _ h1]

theorem do_open_line_below_cursor_ctl (E E1 : EditorConfig)
    (h : do_open_line_below_cursor E = some E1) : E1.ctl = E.ctl := by
  unfold do_open_line_below_cursor at h
  simp only [Option.bind_eq_some, Option.map_eq_some'] at h
  obtain ⟨E2, h1, E3, h2, rfl⟩ := h
  have k2 := row_indent_to_prev_indent_ctl _ _ _ h2
  have k1 := insert_row_ctl _ _ _ _ h1
  show E3.ctl = E.ctl
  rw [k2]
  exact k1

theorem page_loop_ctl (down : Bool) (n : Nat) :
    ∀ E : EditorConfig, (page_loop down n E).ctl = E.ctl := by
  induction n with
  | zero => intro E; rfl
  | succ n ih =>
    intro E
    unfold page_loop
    rw [ih]
    split_ifs
    · exact do_cursor_down_ctl E
    · exact do_cursor_up_ctl E

theorem do_page_ctl (E E1 : EditorConfig) (down : Bool) (h : do_page E down = some E1) :
    E1.ctl = E.ctl := by
  unfold do_page at h
  simp only at h
  split_ifs at h <;> cases h <;> rw [page_loop_ctl, (update_cx_ctl _).1] <;> rfl

theorem scroll_to_ctl (E : EditorConfig) (x y : Int) :
    (scroll_to E x y).ctl = E.ctl ∧ (scroll_to E x y).mode = E.mode := by
  unfold scroll_to
  simp only
  split_ifs <;> exact ⟨rfl, rfl⟩

theorem set_cmdline_msg_error_ctl (E : EditorConfig) (msg : List Char) :
    (set_cmdline_msg_error E msg).ctl = E.ctl ∧ (set_cmdline_msg_error E msg).mode = E.mode := by
  unfold set_cmdline_msg_error
  split_ifs <;> exact ⟨rfl, rfl⟩

theorem set_cmdline_msg_info_ctl (E : EditorConfig) (msg : List Char) :
    (set_cmdline_msg_info E msg).ctl = E.ctl ∧ (set_cmdline_msg_info E msg).mode = E.mode := by
  unfold set_cmdline_msg_info
  split_ifs <;> exact ⟨rfl, rfl⟩

theorem search_found_ctl (E : EditorConfig) (q : List Char) (b : Bool) (i m : Nat) :
    (search_found E q b i m).ctl = E.ctl ∧ (search_found E q b i m).mode = E.mode := by
  unfold search_found
  simp only
  rw [(scroll_to_ctl _ _ _).1, (scroll_to_ctl _ _ _).2]
  cases b <;> exact ⟨rfl, rfl⟩

theorem search_text_forward_ctl (E E1 : EditorConfig) (q : List Char) (b : Bool)
    (h : search_text_forward E q b = some E1) : E1.ctl = E.ctl ∧ E1.mode = E.mode := by
  unfold search_text_forward at h
  split_ifs at h
  · cases h; exact ⟨rfl, rfl⟩
  · simp only [Option.map_eq_some'] at h
    obtain ⟨r, _, rfl⟩ := h
    cases r with
    | none =>
      have k := set_cmdline_msg_error_ctl E (String.toList "search reached EOF")
      exact ⟨k.1, k.2⟩
    | some im => exact search_found_ctl _ _ _ _ _

theorem search_text_backward_ctl (E E1 : EditorConfig) (q : List Char) (b : Bool)
    (h : search_text_backward E q b = some E1) : E1.ctl = E.ctl ∧ E1.mode = E.mode := by
  unfold search_text_backward at h
  split_ifs at h
  · cases h; exact ⟨rfl, rfl⟩
  · simp only [Option.map_eq_some'] at h
    obtain ⟨r, _, rfl⟩ := h
    cases r with
    | none =>
      have k := set_cmdline_msg_error_ctl E (String.toList "search reached BOF")
      exact ⟨k.1, k.2⟩
    | some im => exact search_found_ctl _ _ _ _ _

theorem do_search_default_ctl (E E1 : EditorConfig) (fwd : Bool)
    (h : do_search_default E fwd = some E1) : E1.ctl = E.ctl := by
  unfold do_search_default at h
  split_ifs at h
  · cases h; exact (set_cmdline_msg_error_ctl _ _).1
  · exact (search_text_forward_ctl _ _ _ _ h).1
  · exact (search_text_backward_ctl _ _ _ _ h).1

theorem do_save_file_ctl (E : EditorConfig) : (do_save_file E).1.ctl = E.ctl := by
  unfold do_save_file
  simp only
  split_ifs
  · exact (set_cmdline_msg_info_ctl _ _).1
  · have k := (set_cmdline_msg_info_ctl (file_trim_trailing_ws E)
      (bytes_written_msg (rows_to_string (file_trim_trailing_ws E)).length)).1
    exact k

theorem update_synhlt_loop_ctl (n : Nat) :
    ∀ (r : Nat) (E E1 : EditorConfig), update_synhlt_loop n r E = some E1 →
      E1.ctl = E.ctl ∧ E1.mode = E.mode := by
  induction n with
  | zero => intro r E E1 h; cases h; exact ⟨rfl, rfl⟩
  | succ n ih =>
    intro r E E1 h
    unfold update_synhlt_loop at h
    simp only [Option.bind_eq_some] at h
    obtain ⟨E2, h1, h2⟩ := h
    have k := ih _ _ _ h2
    have k1 := update_row_syntax_ctl _ _ _ h1
    have k2 : E2.mode = E.mode := by
      unfold update_row_syntax at h1
      simp only [Option.bind_eq_some, Option.map_eq_some'] at h1
      obtain ⟨i, _, row, _, hl, _, rfl⟩ := h1
      rfl
    exact ⟨k.1.trans k1, k.2.trans k2⟩

theorem set_path_ctl (E E1 : EditorConfig) (path : List Char) (h : set_path E path = some E1) :
    E1.ctl = E.ctl ∧ E1.mode = E.mode := by
  unfold set_path update_synhlt_from_ext at h
  simp only [Option.bind_eq_some] at h
  obtain ⟨E2, h1, h2⟩ := h
  have k := update_synhlt_loop_ctl _ _ _ _ h2
  have k1 : E2.ctl = E.ctl ∧ E2.mode = E.mode := by
    unfold find_synhlt_with_ext at h1
    simp only at h1
    split_ifs at h1
    · cases h1; exact ⟨rfl, rfl⟩
    · split at h1
      · cases h1; exact ⟨rfl, rfl⟩
      · split_ifs at h1
        · cases h1; exact ⟨rfl, rfl⟩
        · simp only [Option.map_eq_some'] at h1
          obtain ⟨sy, _, rfl⟩ := h1
          exact ⟨rfl, rfl⟩
  exact ⟨k.1.trans k1.1, k.2.trans k1.2⟩

theorem refresh_screen_ctl (E : EditorConfig) :
    (refresh_screen E).ctl = E.ctl ∧ (refresh_screen E).mode = E.mode := by
  have hsc : ∀ E0 : EditorConfig, (scroll_cmdline E0).ctl = E0.ctl ∧
      (scroll_cmdline E0).mode = E0.mode := by
    intro E0
    unfold scroll_cmdline
    simp only
    split_ifs <;> exact ⟨rfl, rfl⟩
  have hdc : ∀ E0 : EditorConfig, (draw_cmdline E0).ctl = E0.ctl ∧
      (draw_cmdline E0).mode = E0.mode := by
    intro E0
    unfold draw_cmdline
    split_ifs <;> exact ⟨rfl, rfl⟩
  unfold refresh_screen
  rw [(hdc _).1, (hdc _).2, (hsc _).1, (hsc _).2]
  split_ifs
  · simp only
    rw [(scroll_to_ctl _ _ _).1, (scroll_to_ctl _ _ _).2]
    unfold update_rx
    split_ifs <;> exact ⟨rfl, rfl⟩
  · exact ⟨rfl, rfl⟩

theorem Run.of_running (x : Option EditorConfig) (E1 : EditorConfig)
    (h : Run.of x = some (Run.running E1)) : x = some E1 := by
  unfold Run.of at h
  cases x with
  | none => cases h
  | some E2 =>
    simp only [Option.map_some', Option.some.injEq, Run.running.injEq] at h
    rw [h]

theorem do_exit_editor_running (E E1 : EditorConfig) (h : do_exit_editor E = .running E1) :
    E1.mode = E.mode := by
  unfold do_exit_editor at h
  split_ifs at h
  simp only [Run.running.injEq] at h
  rw [← h]
  exact (set_cmdline_msg_error_ctl _ _).2

/-- A property of the running state that an action leaves, if any. -/
theorem run_ite (Q : EditorConfig → Prop) (cnd : Prop) [Decidable cnd] (a b : Option Run)
    (ha : cnd → ∀ E1, a = some (.running E1) → Q E1)
    (hb : ¬ cnd → ∀ E1, b = some (.running E1) → Q E1) :
    ∀ E1, (if cnd then a else b) = some (.running E1) → Q E1 := by
  intro E1 h
  split_ifs at h with hc
  · exact ha hc E1 h
  · exact hb hc E1 h

theorem run_of_opt (Q : EditorConfig → Prop) (x : Option EditorConfig)
    (hx : ∀ E1, x = some E1 → Q E1) : ∀ E1, Run.of x = some (.running E1) → Q E1 :=
  fun E1 h => hx E1 (Run.of_running _ _ h)

theorem run_of_some (Q : EditorConfig → Prop) (E2 : EditorConfig) (hx : Q E2) :
    ∀ E1, Run.of (some E2) = some (.running E1) → Q E1 := by
  intro E1 h
  have := Run.of_running _ _ h
  cases this
  exact hx

theorem process_keypress_normal_ctl (fuel : Nat) (E : EditorConfig) (c c2 : Int) :
    ∀ E1, process_keypress_normal fuel E c c2 = some (.running E1) →
      E1.ctl = E.ctl ∨ (c = KEY_BACKTICK ∧ E1.mode = E.mode) := by
  unfold process_keypress_normal
  repeat' (refine run_ite _ _ _ _ (fun hc => ?_) (fun hc => ?_))
  all_goals
    first
    | (intro E1 h
       exact Or.inr ⟨by assumption, do_exit_editor_running _ _ (Option.some.inj h)⟩)
    | (refine run_of_some _ _ (Or.inl ?_)
       first
       | rfl
       | exact do_cursor_line_end_ctl _
       | exact do_cursor_up_ctl _
       | exact do_cursor_down_ctl _
       | exact do_save_file_ctl _
       | exact (update_cx_ctl _).1
       | exact (set_cmdline_msg_error_ctl _ _).1)
    | (refine run_of_opt _ _ (fun E1 hx => Or.inl ?_)
       first
       | exact do_delete_current_char_ctl _ _ hx
       | exact do_page_ctl _ _ _ hx
       | exact do_cursor_left_ctl _ _ hx
       | exact do_cursor_right_ctl _ _ hx
       | exact do_cursor_forward_word_ctl _ _ _ hx
       | exact do_cursor_backward_word_ctl _ _ _ hx
       | exact do_open_line_below_cursor_ctl _ _ hx
       | exact do_cut_cursor_mark_region_ctl _ _ hx
       | exact do_paste_loop_ctl _ _ _ hx
       | exact do_search_default_ctl _ _ _ hx)

theorem process_keypress_insert_ctl (E : EditorConfig) (c : Int) :
    ∀ E1, process_keypress_insert E c = some (.running E1) → E1.ctl = E.ctl := by
  unfold process_keypress_insert
  repeat' (refine run_ite _ _ _ _ (fun hc => ?_) (fun hc => ?_))
  all_goals
    first
    | (refine run_of_some _ _ ?_
       first
       | rfl
       | exact do_cursor_up_ctl _
       | exact do_cursor_down_ctl _
       | exact (set_cmdline_msg_error_ctl _ _).1)
    | (refine run_of_opt _ _ (fun E1 hx => ?_)
       first
       | exact do_delete_left_char_ctl _ _ hx
       | exact do_insert_newline_ctl _ _ _ hx
       | exact do_insert_char_ctl _ _ _ hx
       | exact do_cursor_left_ctl _ _ hx
       | exact do_cursor_right_ctl _ _ hx)

theorem search_if_search_mode_ctl (E E1 : EditorConfig)
    (h : search_if_search_mode E = some E1) : E1.ctl = E.ctl ∧ E1.mode = E.mode := by
  unfold search_if_search_mode at h
  split_ifs at h
  · exact search_text_forward_ctl _ _ _ _ h
  · cases h; exact ⟨rfl, rfl⟩

theorem ctl_quit (A B : EditorConfig) (h : A.ctl = B.ctl) : A.quit_times = B.quit_times :=
  congrArg Prod.snd h

theorem ctl_skip (A B : EditorConfig) (h : A.ctl = B.ctl) :
    A.skip_after_action = B.skip_after_action :=
  congrArg Prod.fst h

theorem process_keypress_submit_quit (E : EditorConfig) :
    ∀ E1, process_keypress_submit E = some (.running E1) →
      E1.quit_times = E.quit_times ∨
        ((E.mode = .COMMAND ∧ E.cmdline = String.toList "quit") ∧ E1.mode = .NORMAL) := by
  unfold process_keypress_submit
  simp only
  refine run_ite _ _ _ _ (fun m1 => ?_) (fun m1 => ?_)
  · refine run_ite _ _ _ _ (fun m2 => ?_) (fun m2 => ?_)
    · intro E1 h
      right
      refine ⟨⟨m1, m2⟩, ?_⟩
      rw [do_exit_editor_running _ _ (Option.some.inj h)]
      rfl
    · refine run_ite _ _ _ _ (fun m3 => ?_) (fun m3 => ?_)
      · intro E1 h
        left
        simp only [Option.bind_eq_some] at h
        obtain ⟨v, _, h2⟩ := h
        have k := (set_path_ctl _ _ _ (Run.of_running _ _ h2)).1
        exact ctl_quit _ _ k
      · refine run_of_some _ _ (Or.inl ?_)
        exact ctl_quit _ _ (set_cmdline_msg_error_ctl _ _).1
  · refine run_ite _ _ _ _ (fun m2 => ?_) (fun m2 => ?_)
    · refine run_of_opt _ _ (fun E1 hx => Or.inl ?_)
      have k := (search_text_forward_ctl _ _ _ _ hx).1
      exact ctl_quit _ _ k
    · exact run_of_some _ _ (Or.inl rfl)

theorem process_keypress_cmdline_quit (E : EditorConfig) (c : Int) :
    ∀ E1, process_keypress_cmdline E c = some (.running E1) →
      E1.quit_times = E.quit_times ∨ (is_exit_attempt E c ∧ E1.mode = .NORMAL) := by
  have hedit : ∀ (x : Option EditorConfig) (E0 : EditorConfig),
      (∀ E2, x = some E2 → E2.quit_times = E0.quit_times) →
      ∀ E1, (x.bind fun E2 => Run.of (search_if_search_mode E2)) = some (.running E1) →
        E1.quit_times = E0.quit_times ∨ (is_exit_attempt E c ∧ E1.mode = .NORMAL) := by
    intro x E0 hx E1 h
    left
    simp only [Option.bind_eq_some] at h
    obtain ⟨E2, h8, h9⟩ := h
    have k := (search_if_search_mode_ctl _ _ (Run.of_running _ _ h9)).1
    rw [ctl_quit _ _ k]
    exact hx E2 h8
  unfold process_keypress_cmdline process_keypress_cmdline_switch
  refine run_ite _ _ _ _ (fun h1 => ?_) (fun h1 => ?_)
  · intro E1 h
    rcases process_keypress_submit_quit _ E1 h with k | ⟨⟨k1, k2⟩, k3⟩
    · exact Or.inl k
    · exact Or.inr ⟨Or.inr ⟨k1, h1, k2⟩, k3⟩
  refine run_ite _ _ _ _ (fun h2 => ?_) (fun h2 => ?_)
  · refine hedit _ E ?_
    intro E2 h8
    split_ifs at h8 <;> cases h8 <;> rfl
  refine run_ite _ _ _ _ (fun h3 => ?_) (fun h3 => ?_)
  · refine run_of_some _ _ (Or.inl ?_)
    split_ifs <;> rfl
  refine run_ite _ _ _ _ (fun h4 => ?_) (fun h4 => ?_)
  · refine run_of_some _ _ (Or.inl ?_)
    split_ifs <;> rfl
  refine run_ite _ _ _ _ (fun h5 => ?_) (fun h5 => ?_)
  · exact run_of_some _ _ (Or.inl rfl)
  refine run_ite _ _ _ _ (fun h6 => ?_) (fun h6 => ?_)
  · exact run_of_some _ _ (Or.inl rfl)
  refine run_ite _ _ _ _ (fun h7 => ?_) (fun h7 => ?_)
  · exact run_of_some _ _ (Or.inl rfl)
  · refine hedit _ E ?_
    intro E2 h8
    split_ifs at h8 <;> cases h8 <;> rfl

theorem do_after_action_fields (E : EditorConfig) :
    (do_after_action E).skip_after_action = false ∧ (do_after_action E).mode = E.mode ∧
    (E.skip_after_action = false → (do_after_action E).quit_times = NUM_FORCE_QUIT_PRESS) ∧
    (E.skip_after_action = true → (do_after_action E).quit_times = E.quit_times) := by
  unfold do_after_action
  refine ⟨rfl, ?_, ?_, ?_⟩
  · simp only
    split_ifs <;> rfl
  · intro h
    simp only
    split_ifs <;> rfl
  · intro h
    simp only
    split_ifs <;> first | rfl | simp_all

/-- One handled key keeps the invariant of the quit counter, and resets the
counter unless the key is an exit attempt. -/
theorem process_keypress_quit (fuel : Nat) (E E1 : EditorConfig) (c c2 : Int)
    (hskip : E.skip_after_action = false)
    (hinv : E.mode = .COMMAND ∨ E.mode = .SEARCH → E.quit_times = NUM_FORCE_QUIT_PRESS)
    (h : process_keypress fuel E c c2 = some (.running E1)) :
    E1.skip_after_action = false ∧
    (E1.mode = .COMMAND ∨ E1.mode = .SEARCH → E1.quit_times = NUM_FORCE_QUIT_PRESS) ∧
    (¬ is_exit_attempt E c → E1.quit_times = NUM_FORCE_QUIT_PRESS) := by
  unfold process_keypress at h
  simp only [Option.map_eq_some'] at h
  obtain ⟨r, hr, hr1⟩ := h
  cases r with
  | exited => simp at hr1
  | running E2 =>
    simp only [Run.running.injEq] at hr1
    subst hr1
    obtain ⟨a1, a2, a3, a4⟩ := do_after_action_fields E2
    split_ifs at hr with hn hi
    · rcases process_keypress_normal_ctl _ _ _ _ _ hr with k | ⟨k1, k2⟩
      · have hq := a3 (by rw [ctl_skip _ _ k, hskip])
        exact ⟨a1, fun _ => hq, fun _ => hq⟩
      · refine ⟨a1, ?_, ?_⟩
        · intro hm
          rw [a2, k2, hn] at hm
          rcases hm with hm | hm <;> cases hm
        · intro hne
          exact absurd (Or.inl ⟨hn, k1⟩) hne
    · have k := process_keypress_insert_ctl _ _ _ hr
      have hq := a3 (by rw [ctl_skip _ _ k, hskip])
      exact ⟨a1, fun _ => hq, fun _ => hq⟩
    · have hmode : E.mode = .COMMAND ∨ E.mode = .SEARCH := by
        cases hm : E.mode with
        | NORMAL => exact absurd hm hn
        | INSERT => exact absurd hm hi
        | COMMAND => exact Or.inl rfl
        | SEARCH => exact Or.inr rfl
      rcases process_keypress_cmdline_quit _ _ _ hr with k | ⟨k1, k2⟩
      · have hq : (do_after_action E2).quit_times = NUM_FORCE_QUIT_PRESS := by
          cases hs : E2.skip_after_action with
          | false => exact a3 hs
          | true => rw [a4 hs, k]; exact hinv hmode
        exact ⟨a1, fun _ => hq, fun _ => hq⟩
      · refine ⟨a1, ?_, ?_⟩
        · intro hm
          rw [a2, k2] at hm
          rcases hm with hm | hm <;> cases hm
        · intro hne
          exact absurd k1 hne

/-- C30: in every state reachable by keypresses the quit counter is 2 whenever
the mode is Command or Search, and after `process_keypress` has handled a key
that is not an exit attempt (the backtick key in Normal mode, the submitted
command `quit`) the counter equals the threshold 2. -/
theorem quit_counter_after_key (E : EditorConfig) (hr : Reachable E) :
    (E.mode = .COMMAND ∨ E.mode = .SEARCH → E.quit_times = NUM_FORCE_QUIT_PRESS) ∧
    ∀ (fuel : Nat) (c c2 : Int) (E1 : EditorConfig),
      process_keypress fuel (refresh_screen E) c c2 = some (.running E1) →
      ¬ is_exit_attempt (refresh_screen E) c → E1.quit_times = NUM_FORCE_QUIT_PRESS := by
  have hinv : E.skip_after_action = false ∧
      (E.mode = .COMMAND ∨ E.mode = .SEARCH → E.quit_times = NUM_FORCE_QUIT_PRESS) := by
    induction hr with
    | start E0 hmode hskip hquit => exact ⟨hskip, fun _ => hquit⟩
    | key E0 E1 fuel c c2 _ hkey ih =>
      obtain ⟨r1, r2⟩ := refresh_screen_ctl E0
      have hs : (refresh_screen E0).skip_after_action = false := by
        rw [show (refresh_screen E0).skip_after_action = E0.skip_after_action from
          congrArg Prod.fst r1]
        exact ih.1
      have hq : (refresh_screen E0).mode = .COMMAND ∨ (refresh_screen E0).mode = .SEARCH →
          (refresh_screen E0).quit_times = NUM_FORCE_QUIT_PRESS := by
        intro hm
        rw [r2] at hm
        rw [show (refresh_screen E0).quit_times = E0.quit_times from congrArg Prod.snd r1]
        exact ih.2 hm
      obtain ⟨b1, b2, _⟩ := process_keypress_quit _ _ _ _ _ hs hq hkey
      exact ⟨b1, b2⟩
  refine ⟨hinv.2, ?_⟩
  intro fuel c c2 E1 hkey hne
  obtain ⟨r1, r2⟩ := refresh_screen_ctl E
  have hs : (refresh_screen E).skip_after_action = false := by
    rw [show (refresh_screen E).skip_after_action = E.skip_after_action from
      congrArg Prod.fst r1]
    exact hinv.1
  have hq : (refresh_screen E).mode = .COMMAND ∨ (refresh_screen E).mode = .SEARCH →
      (refresh_screen E).quit_times = NUM_FORCE_QUIT_PRESS := by
    intro hm
    rw [r2] at hm
    rw [show (refresh_screen E).quit_times = E.quit_times from congrArg Prod.snd r1]
    exact hinv.2 hm
  exact (process_keypress_quit _ _ _ _ _ hs hq hkey).2.2 hne

/-- Witness for C30: the initial state of a 24 by 80 terminal. -/
theorem quit_counter_after_key_witness :
    ((init_editor 24 80).mode = .COMMAND ∨ (init_editor 24 80).mode = .SEARCH →
      (init_editor 24 80).quit_times = NUM_FORCE_QUIT_PRESS) ∧
    ∀ (fuel : Nat) (c c2 : Int) (E1 : EditorConfig),
      process_keypress fuel (refresh_screen (init_editor 24 80)) c c2 = some (.running E1) →
      ¬ is_exit_attempt (refresh_screen (init_editor 24 80)) c →
      E1.quit_times = NUM_FORCE_QUIT_PRESS :=
  quit_counter_after_key (init_editor 24 80) (Reachable.start _ rfl rfl rfl)

/-! ### No row of a running editor holds a newline -/

theorem mem_of_getElem_some (l : List EditorRow) (i : Nat) (a : EditorRow)
    (h : l[i]? = some a) : a ∈ l :=
  List.mem_iff_getElem?.mpr ⟨i, h⟩

theorem nonl_set (rows : List EditorRow) (i : Nat) (r : EditorRow)
    (h : ∀ row ∈ rows, NL ∉ row.data) (hr : NL ∉ r.data) :
    ∀ row ∈ rows.set i r, NL ∉ row.data := by
  intro row hm
  rcases List.mem_or_eq_of_mem_set hm with h1 | h1
  · exact h row h1
  · rw [h1]; exact hr

theorem update_row_syntax_nonl (E E1 : EditorConfig) (p : Option Nat)
    (h : update_row_syntax E p = some E1) (hE : rows_no_nl E) : rows_no_nl E1 := by
  unfold update_row_syntax at h
  simp only [Option.bind_eq_some, Option.map_eq_some'] at h
  obtain ⟨i, _, row, hrow, hl, _, rfl⟩ := h
  exact nonl_set _ _ _ hE (hE row (mem_of_getElem_some _ _ _ hrow))

theorem update_row_nonl (E E1 : EditorConfig) (p : Option Nat)
    (h : update_row E p = some E1) (hE : rows_no_nl E) : rows_no_nl E1 := by
  unfold update_row at h
  simp only [Option.bind_eq_some] at h
  obtain ⟨i, _, row, hrow, h2⟩ := h
  refine update_row_syntax_nonl _ _ _ h2 ?_
  exact nonl_set _ _ _ hE (hE row (mem_of_getElem_some _ _ _ hrow))

theorem insert_row_nonl (E E1 : EditorConfig) (a : Int) (d : List Char)
    (h : insert_row E a d = some E1) (hE : rows_no_nl E) (hd : NL ∉ d) : rows_no_nl E1 := by
  unfold insert_row at h
  split_ifs at h with h0
  · cases h; exact hE
  · refine update_row_nonl _ _ _ h ?_
    intro row hm
    have hle : a.toNat ≤ E.rows.length := by
      unfold EditorConfig.numrows at h0
      simp only [Int.ofNat_eq_coe] at h0
      omega
    rcases (List.mem_insertIdx hle).mp hm with h1 | h1
    · rw [h1]; exact hd
    · exact hE row h1

theorem delete_row_nonl (E : EditorConfig) (a : Int) (hE : rows_no_nl E) :
    rows_no_nl (delete_row E a).1 ∧ NL ∉ (delete_row E a).2 := by
  unfold delete_row
  split_ifs
  · exact ⟨hE, by simp⟩
  · cases hrow : E.rows[a.toNat]? with
    | none => exact ⟨hE, by simp⟩
    | some row =>
      refine ⟨?_, hE row (mem_of_getElem_some _ _ _ hrow)⟩
      intro r hm
      exact hE r (List.mem_of_mem_eraseIdx hm)

theorem row_insert_char_nonl (E E1 : EditorConfig) (p : Option Nat) (a : Int) (c : Char)
    (h : row_insert_char E p a c = some E1) (hE : rows_no_nl E) (hc : c ≠ NL) :
    rows_no_nl E1 := by
  unfold row_insert_char at h
  simp only [Option.bind_eq_some] at h
  obtain ⟨i, _, row, hrow, h2⟩ := h
  refine update_row_nonl _ _ _ h2 ?_
  have hr := hE row (mem_of_getElem_some _ _ _ hrow)
  refine nonl_set _ _ _ hE ?_
  intro hm
  rcases List.mem_append.mp hm with h1 | h1
  · exact hr (List.mem_of_mem_take h1)
  · rcases List.mem_cons.mp h1 with h3 | h3
    · exact hc h3.symm
    · exact hr (List.mem_of_mem_drop h3)

theorem substr_nonl (s t : List Char) (pos len : Int) (h : substr s pos len = some t)
    (hs : NL ∉ s) : NL ∉ t := by
  unfold substr at h
  split_ifs at h <;> cases h <;>
    exact fun hm => hs (List.mem_of_mem_drop (List.mem_of_mem_take hm))

theorem row_delete_range_nonl (E : EditorConfig) (p : Option Nat) (a n : Int)
    (r : EditorConfig × List Char) (h : row_delete_range E p a n = some r)
    (hE : rows_no_nl E) : rows_no_nl r.1 ∧ NL ∉ r.2 := by
  unfold row_delete_range at h
  simp only [Option.bind_eq_some] at h
  obtain ⟨i, _, row, hrow, h2⟩ := h
  have hr := hE row (mem_of_getElem_some _ _ _ hrow)
  split_ifs at h2
  · cases h2; exact ⟨hE, by simp⟩
  · simp only [Option.bind_eq_some, Option.map_eq_some'] at h2
    obtain ⟨copy, hcopy, E2, h3, rfl⟩ := h2
    refine ⟨update_row_nonl _ _ _ h3 ?_, substr_nonl _ _ _ _ hcopy hr⟩
    refine nonl_set _ _ _ hE ?_
    intro hm
    rcases List.mem_append.mp hm with h1 | h1
    · exact hr (List.mem_of_mem_take h1)
    · exact hr (List.mem_of_mem_drop h1)

theorem row_append_string_nonl (E E1 : EditorConfig) (p : Option Nat) (str : List Char)
    (h : row_append_string E p str = some E1) (hE : rows_no_nl E) (hs : NL ∉ str) :
    rows_no_nl E1 := by
  unfold row_append_string at h
  simp only [Option.bind_eq_some] at h
  obtain ⟨i, _, row, hrow, h2⟩ := h
  refine update_row_nonl _ _ _ h2 ?_
  have hr := hE row (mem_of_getElem_some _ _ _ hrow)
  refine nonl_set _ _ _ hE ?_
  intro hm
  rcases List.mem_append.mp hm with h1 | h1
  · exact hr h1
  · exact hs h1

theorem row_set_indent_loop_nonl (p : Option Nat) (n : Nat) :
    ∀ E E1 : EditorConfig, row_set_indent_loop p n E = some E1 → rows_no_nl E →
      rows_no_nl E1 := by
  induction n with
  | zero => intro E E1 h hE; cases h; exact hE
  | succ n ih =>
    intro E E1 h hE
    unfold row_set_indent_loop at h
    simp only [Option.bind_eq_some] at h
    obtain ⟨E2, h1, h2⟩ := h
    exact ih _ _ h2 (row_insert_char_nonl _ _ _ _ _ h1 hE (by decide))

theorem row_set_indent_nonl (E E1 : EditorConfig) (p : Option Nat) (n : Int)
    (h : row_set_indent E p n = some E1) (hE : rows_no_nl E) : rows_no_nl E1 := by
  unfold row_set_indent at h
  simp only [Option.bind_eq_some] at h
  obtain ⟨row, _, r, h1, h2⟩ := h
  exact row_set_indent_loop_nonl _ _ _ _ h2 (row_delete_range_nonl _ _ _ _ _ h1 hE).1

theorem insert_empty_row_nonl (E E1 : EditorConfig)
    (h : insert_empty_row_if_file_empty E = some E1) (hE : rows_no_nl E) : rows_no_nl E1 := by
  unfold insert_empty_row_if_file_empty at h
  split_ifs at h
  · exact insert_row_nonl _ _ _ _ h hE (by simp)
  · cases h; exact hE

theorem row_indent_to_prev_indent_nonl (E E1 : EditorConfig) (p : Option Nat)
    (h : row_indent_to_prev_indent E p = some E1) (hE : rows_no_nl E) : rows_no_nl E1 := by
  unfold row_indent_to_prev_indent at h
  simp only [Option.bind_eq_some] at h
  obtain ⟨t, _, row, _, h2⟩ := h
  split_ifs at h2
  · simp only [Option.map_eq_some'] at h2
    obtain ⟨E2, h3, rfl⟩ := h2
    have k := row_set_indent_nonl _ _ _ _ h3 hE
    exact k
  · cases h2; exact hE

theorem delete_empty_row_nonl (E E1 : EditorConfig)
    (h : delete_empty_row_if_file_empty E = some E1) (hE : rows_no_nl E) : rows_no_nl E1 := by
  unfold delete_empty_row_if_file_empty at h
  split_ifs at h
  · simp only [Option.map_eq_some'] at h
    obtain ⟨row, _, rfl⟩ := h
    split_ifs
    · exact (delete_row_nonl E 0 hE).1
    · exact hE
  · cases h; exact hE

theorem deref_nonl (E : EditorConfig) (p : Option Nat) (row : EditorRow)
    (h : E.deref p = some row) (hE : rows_no_nl E) : NL ∉ row.data := by
  unfold EditorConfig.deref at h
  simp only [Option.bind_eq_some] at h
  obtain ⟨i, _, hrow⟩ := h
  exact hE row (mem_of_getElem_some _ _ _ hrow)

theorem do_insert_newline_nonl (E E1 : EditorConfig) (b : Bool)
    (h : do_insert_newline E b = some E1) (hE : rows_no_nl E) : rows_no_nl E1 := by
  unfold do_insert_newline at h
  simp only [Option.bind_eq_some] at h
  obtain ⟨E2, h1, E3, h2, h3⟩ := h
  have k1 := insert_empty_row_nonl _ _ h1 hE
  have k2 : rows_no_nl E3 := by
    split_ifs at h2
    · exact insert_row_nonl _ _ _ _ h2 k1 (by simp)
    · simp only [Option.bind_eq_some] at h2
      obtain ⟨row, hrow, tail, htail, E4, h4, i, _, row2, hrow2, head, hhead, h5⟩ := h2
      have k4 := insert_row_nonl _ _ _ _ h4 k1
        (substr_nonl _ _ _ _ htail (deref_nonl _ _ _ hrow k1))
      refine update_row_nonl _ _ _ h5 ?_
      exact nonl_set _ _ _ k4
        (substr_nonl _ _ _ _ hhead (k4 row2 (mem_of_getElem_some _ _ _ hrow2)))
  split_ifs at h3
  · exact row_indent_to_prev_indent_nonl _ _ _ h3 k2
  · cases h3
    exact k2

theorem do_insert_char_nonl (E E1 : EditorConfig) (c : Char)
    (h : do_insert_char E c = some E1) (hE : rows_no_nl E) : rows_no_nl E1 := by
  unfold do_insert_char at h
  split_ifs at h with hc
  · exact do_insert_newline_nonl _ _ _ h hE
  · simp only [Option.bind_eq_some, Option.map_eq_some'] at h
    obtain ⟨E2, h1, E3, h2, rfl⟩ := h
    have k := row_insert_char_nonl _ _ _ _ _ h2 (insert_empty_row_nonl _ _ h1 hE) hc
    exact k

theorem do_delete_left_char_nonl (E E1 : EditorConfig)
    (h : do_delete_left_char E = some E1) (hE : rows_no_nl E) : rows_no_nl E1 := by
  unfold do_delete_left_char at h
  split_ifs at h with h0 h1
  · cases h; exact hE
  · simp only [Option.bind_eq_some, Option.map_eq_some'] at h
    obtain ⟨E2, ⟨r, h2, rfl⟩, h3⟩ := h
    exact delete_empty_row_nonl _ _ h3 (row_delete_range_nonl _ _ _ _ _ h2 hE).1
  · simp only [Option.bind_eq_some, Option.map_eq_some'] at h
    obtain ⟨E2, ⟨prev, _, row, hrow, E3, h2, rfl⟩, h3⟩ := h
    refine delete_empty_row_nonl _ _ h3 (delete_row_nonl _ _ ?_).1
    exact row_append_string_nonl _ _ _ _ h2 hE (deref_nonl _ _ _ hrow hE)

theorem do_delete_current_char_nonl (E E1 : EditorConfig)
    (h : do_delete_current_char E = some E1) (hE : rows_no_nl E) : rows_no_nl E1 := by
  unfold do_delete_current_char at h
  simp only at h
  cases hrow : E.deref (E.get_row_at E.cy) with
  | none => rw [hrow] at h; cases h; exact hE
  | some row =>
    rw [hrow] at h
    simp only [Option.bind_eq_some] at h
    obtain ⟨E2, h2, h3⟩ := h
    refine delete_empty_row_nonl _ _ h3 ?_
    split_ifs at h2
    · simp only [Option.bind_eq_some, Option.map_eq_some'] at h2
      obtain ⟨next, hnext, E3, h4, rfl⟩ := h2
      exact (delete_row_nonl _ _
        (row_append_string_nonl _ _ _ _ h4 hE (deref_nonl _ _ _ hnext hE))).1
    · cases h2; exact hE
    · simp only [Option.map_eq_some'] at h2
      obtain ⟨r, h4, rfl⟩ := h2
      exact (row_delete_range_nonl _ _ _ _ _ h4 hE).1

theorem do_paste_loop_nonl (t : List Char) :
    ∀ E E1 : EditorConfig, do_paste_loop t E = some E1 → rows_no_nl E → rows_no_nl E1 := by
  induction t with
  | nil => intro E E1 h hE; cases h; exact hE
  | cons c t ih =>
    intro E E1 h hE
    unfold do_paste_loop at h
    simp only [Option.bind_eq_some] at h
    obtain ⟨E2, h1, h2⟩ := h
    exact ih _ _ h2 (do_insert_char_nonl _ _ _ h1 hE)

theorem do_cut_all_loop_nonl (n : Nat) :
    ∀ (i : Nat) (E : EditorConfig) (copy : List Char), rows_no_nl E →
      rows_no_nl (do_cut_all_loop n i E copy).1 := by
  induction n with
  | zero => intro i E copy hE; exact hE
  | succ n ih =>
    intro i E copy hE
    unfold do_cut_all_loop
    simp only
    exact ih _ _ _ (delete_row_nonl E 0 hE).1

theorem do_cut_mid_loop_nonl (d : Int) (n : Nat) :
    ∀ (E : EditorConfig) (q : Option Nat) (copy : List Char), rows_no_nl E →
      rows_no_nl (do_cut_mid_loop d n E q copy).1 := by
  induction n with
  | zero => intro E q copy hE; exact hE
  | succ n ih =>
    intro E q copy hE
    unfold do_cut_mid_loop
    simp only
    exact ih _ _ _ (delete_row_nonl E d hE).1

theorem do_cut_region_nonl (E : EditorConfig) (sx sy ex ey : Int)
    (r : EditorConfig × List Char) (h : do_cut_region E sx sy ex ey = some r)
    (hE : rows_no_nl E) : rows_no_nl r.1 := by
  unfold do_cut_region at h
  simp only [Option.bind_eq_some] at h
  obtain ⟨whole, _, h1⟩ := h
  split_ifs at h1
  · cases h1
    exact do_cut_all_loop_nonl _ _ _ _ hE
  · exact (row_delete_range_nonl _ _ _ _ _ h1 hE).1
  · simp only [Option.map_eq_some'] at h1
    obtain ⟨r2, h2, rfl⟩ := h1
    exact (row_delete_range_nonl _ _ _ _ _ h2
      (do_cut_mid_loop_nonl _ _ _ _ _ (delete_row_nonl _ _ hE).1)).1
  · simp only [Option.bind_eq_some, Option.map_eq_some'] at h1
    obtain ⟨srow, _, r1, h2, erow, _, r2, h3, E3, h4, rfl⟩ := h1
    have k1 := (row_delete_range_nonl _ _ _ _ _ h2 hE).1
    have k3 := row_delete_range_nonl _ _ _ _ _ h3 (do_cut_mid_loop_nonl _ _ _ _ _ k1)
    have k4 := row_append_string_nonl _ _ _ _ h4 k3.1 k3.2
    exact (delete_row_nonl E3 (sy + 1) k4).1

theorem do_cut_cursor_mark_region_nonl (E E1 : EditorConfig)
    (h : do_cut_cursor_mark_region E = some E1) (hE : rows_no_nl E) : rows_no_nl E1 := by
  unfold do_cut_cursor_mark_region at h
  simp only at h
  split at h
  · cases h; exact hE
  · simp only [Option.map_eq_some'] at h
    obtain ⟨r, h1, rfl⟩ := h
    exact do_cut_region_nonl _ _ _ _ _ _ h1 hE

theorem update_cx_nonl (E : EditorConfig) (hE : rows_no_nl E) :
    rows_no_nl (update_cx_when_cy_changed E) := by
  unfold update_cx_when_cy_changed
  split_ifs <;> exact hE

theorem do_cursor_up_nonl (E : EditorConfig) (hE : rows_no_nl E) :
    rows_no_nl (do_cursor_up E) := by
  unfold do_cursor_up
  refine update_cx_nonl _ ?_
  split_ifs <;> exact hE

theorem do_cursor_down_nonl (E : EditorConfig) (hE : rows_no_nl E) :
    rows_no_nl (do_cursor_down E) := by
  unfold do_cursor_down
  refine update_cx_nonl _ ?_
  split_ifs <;> exact hE

theorem do_cursor_left_nonl (E E1 : EditorConfig) (h : do_cursor_left E = some E1)
    (hE : rows_no_nl E) : rows_no_nl E1 := by
  unfold do_cursor_left at h
  split_ifs at h
  · cases h; exact hE
  · simp only [Option.map_eq_some'] at h
    obtain ⟨prev, _, rfl⟩ := h
    exact hE
  · cases h; exact hE

theorem do_cursor_right_nonl (E E1 : EditorConfig) (h : do_cursor_right E = some E1)
    (hE : rows_no_nl E) : rows_no_nl E1 := by
  unfold do_cursor_right at h
  simp only [Option.map_eq_some'] at h
  obtain ⟨row, _, rfl⟩ := h
  split_ifs <;> exact hE

theorem do_cursor_line_end_nonl (E : EditorConfig) (hE : rows_no_nl E) :
    rows_no_nl (do_cursor_line_end E) := by
  unfold do_cursor_line_end
  cases E.deref (E.get_row_at E.cy) <;> exact hE

theorem forward_word_skip_nonl (n : Nat) :
    ∀ E E1 : EditorConfig, forward_word_skip n E = some E1 → rows_no_nl E →
      rows_no_nl E1 := by
  induction n with
  | zero => intro E E1 h; cases h
  | succ n ih =>
    intro E E1 h hE
    unfold forward_word_skip at h
    simp only [Option.bind_eq_some] at h
    obtain ⟨c, _, h1⟩ := h
    split_ifs at h1
    · simp only [Option.bind_eq_some] at h1
      obtain ⟨e, _, h2⟩ := h1
      split_ifs at h2
      · simp only [Option.bind_eq_some] at h2
        obtain ⟨E2, h3, h4⟩ := h2
        exact ih _ _ h4 (do_cursor_right_nonl _ _ h3 hE)
      · cases h2; exact hE
    · cases h1; exact hE

theorem forward_word_run_nonl (n : Nat) :
    ∀ E E1 : EditorConfig, forward_word_run n E = some E1 → rows_no_nl E →
      rows_no_nl E1 := by
  induction n with
  | zero => intro E E1 h; cases h
  | succ n ih =>
    intro E E1 h hE
    unfold forward_word_run at h
    simp only [Option.bind_eq_some] at h
    obtain ⟨c, _, h1⟩ := h
    split_ifs at h1
    · simp only [Option.bind_eq_some] at h1
      obtain ⟨E2, h3, h4⟩ := h1
      exact ih _ _ h4 (do_cursor_right_nonl _ _ h3 hE)
    · cases h1; exact hE

theorem do_cursor_forward_word_nonl (fuel : Nat) (E E1 : EditorConfig)
    (h : do_cursor_forward_word fuel E = some E1) (hE : rows_no_nl E) : rows_no_nl E1 := by
  unfold do_cursor_forward_word at h
  simp only [Option.bind_eq_some] at h
  obtain ⟨E2, h1, e, _, h2⟩ := h
  split_ifs at h2
  · exact forward_word_run_nonl _ _ _ h2 (forward_word_skip_nonl _ _ _ h1 hE)
  · cases h2
    exact forward_word_skip_nonl _ _ _ h1 hE

theorem backward_word_skip_nonl (n : Nat) :
    ∀ E E1 : EditorConfig, backward_word_skip n E = some E1 → rows_no_nl E →
      rows_no_nl E1 := by
  induction n with
  | zero => intro E E1 h; cases h
  | succ n ih =>
    intro E E1 h hE
    unfold backward_word_skip at h
    simp only [Option.bind_eq_some] at h
    obtain ⟨c, _, h1⟩ := h
    split_ifs at h1
    · simp only [Option.bind_eq_some] at h1
      obtain ⟨E2, h3, h4⟩ := h1
      exact ih _ _ h4 (do_cursor_left_nonl _ _ h3 hE)
    · cases h1; exact hE

theorem backward_word_run_nonl (n : Nat) :
    ∀ E E1 : EditorConfig, backward_word_run n E = some E1 → rows_no_nl E →
      rows_no_nl E1 := by
  induction n with
  | zero => intro E E1 h; cases h
  | succ n ih =>
    intro E E1 h hE
    unfold backward_word_run at h
    simp only [Option.bind_eq_some] at h
    obtain ⟨c, _, h1⟩ := h
    split_ifs at h1
    · simp only [Option.bind_eq_some] at h1
      obtain ⟨E2, h3, h4⟩ := h1
      exact ih _ _ h4 (do_cursor_left_nonl _ _ h3 hE)
    · cases h1; exact hE

theorem do_cursor_backward_word_nonl (fuel : Nat) (E E1 : EditorConfig)
    (h : do_cursor_backward_word fuel E = some E1) (hE : rows_no_nl E) : rows_no_nl E1 := by
  unfold do_cursor_backward_word at h
  split_ifs at h
  · cases h; exact hE
  · simp only [Option.bind_eq_some] at h
    obtain ⟨E2, h1, h2⟩ := h
    exact backward_word_run_nonl _ _ _ h2 (backward_word_skip_nonl _ _ _ h1 hE)

theorem do_open_line_below_cursor_nonl (E E1 : EditorConfig)
    (h : do_open_line_below_cursor E = some E1) (hE : rows_no_nl E) : rows_no_nl E1 := by
  unfold do_open_line_below_cursor at h
  simp only [Option.bind_eq_some, Option.map_eq_some'] at h
  obtain ⟨E2, h1, E3, h2, rfl⟩ := h
  have k1 := insert_row_nonl _ _ _ _ h1 hE (by simp)
  have k2 := row_indent_to_prev_indent_nonl _ _ _ h2 k1
  exact k2

theorem page_loop_nonl (down : Bool) (n : Nat) :
    ∀ E : EditorConfig, rows_no_nl E → rows_no_nl (page_loop down n E) := by
  induction n with
  | zero => intro E hE; exact hE
  | succ n ih =>
    intro E hE
    unfold page_loop
    refine ih _ ?_
    split_ifs
    · exact do_cursor_down_nonl E hE
    · exact do_cursor_up_nonl E hE

theorem do_page_nonl (E E1 : EditorConfig) (down : Bool) (h : do_page E down = some E1)
    (hE : rows_no_nl E) : rows_no_nl E1 := by
  unfold do_page at h
  simp only at h
  split_ifs at h <;> cases h <;> refine page_loop_nonl _ _ _ (update_cx_nonl _ ?_) <;>
    exact hE

theorem scroll_to_nonl (E : EditorConfig) (x y : Int) (hE : rows_no_nl E) :
    rows_no_nl (scroll_to E x y) := by
  unfold scroll_to
  simp only
  split_ifs <;> exact hE

theorem set_cmdline_msg_error_nonl (E : EditorConfig) (msg : List Char) (hE : rows_no_nl E) :
    rows_no_nl (set_cmdline_msg_error E msg) := by
  unfold set_cmdline_msg_error
  split_ifs <;> exact hE

theorem set_cmdline_msg_info_nonl (E : EditorConfig) (msg : List Char) (hE : rows_no_nl E) :
    rows_no_nl (set_cmdline_msg_info E msg) := by
  unfold set_cmdline_msg_info
  split_ifs <;> exact hE

theorem search_found_nonl (E : EditorConfig) (q : List Char) (b : Bool) (i m : Nat)
    (hE : rows_no_nl E) : rows_no_nl (search_found E q b i m) := by
  unfold search_found
  simp only
  refine scroll_to_nonl _ _ _ ?_
  cases b <;> exact hE

theorem search_text_forward_nonl (E E1 : EditorConfig) (q : List Char) (b : Bool)
    (h : search_text_forward E q b = some E1) (hE : rows_no_nl E) : rows_no_nl E1 := by
  unfold search_text_forward at h
  split_ifs at h
  · cases h; exact hE
  · simp only [Option.map_eq_some'] at h
    obtain ⟨r, _, rfl⟩ := h
    cases r with
    | none => exact set_cmdline_msg_error_nonl E _ hE
    | some im => exact search_found_nonl _ _ _ _ _ hE

theorem search_text_backward_nonl (E E1 : EditorConfig) (q : List Char) (b : Bool)
    (h : search_text_backward E q b = some E1) (hE : rows_no_nl E) : rows_no_nl E1 := by
  unfold search_text_backward at h
  split_ifs at h
  · cases h; exact hE
  · simp only [Option.map_eq_some'] at h
    obtain ⟨r, _, rfl⟩ := h
    cases r with
    | none => exact set_cmdline_msg_error_nonl E _ hE
    | some im => exact search_found_nonl _ _ _ _ _ hE

theorem do_search_default_nonl (E E1 : EditorConfig) (fwd : Bool)
    (h : do_search_default E fwd = some E1) (hE : rows_no_nl E) : rows_no_nl E1 := by
  unfold do_search_default at h
  split_ifs at h
  · cases h; exact set_cmdline_msg_error_nonl _ _ hE
  · exact search_text_forward_nonl _ _ _ _ h hE
  · exact search_text_backward_nonl _ _ _ _ h hE

theorem file_trim_trailing_ws_nonl (E : EditorConfig) (hE : rows_no_nl E) :
    rows_no_nl (file_trim_trailing_ws E) := by
  intro row hm
  unfold file_trim_trailing_ws at hm
  simp only [List.mem_map] at hm
  obtain ⟨r0, hr0, rfl⟩ := hm
  intro hnl
  unfold str_trim_trailing_ws at hnl
  exact hE r0 hr0 (List.mem_of_mem_take hnl)

theorem do_save_file_nonl (E : EditorConfig) (hE : rows_no_nl E) :
    rows_no_nl (do_save_file E).1 := by
  unfold do_save_file
  simp only
  split_ifs
  · exact set_cmdline_msg_info_nonl _ _ (file_trim_trailing_ws_nonl E hE)
  · have k := set_cmdline_msg_info_nonl (file_trim_trailing_ws E)
      (bytes_written_msg (rows_to_string (file_trim_trailing_ws E)).length)
      (file_trim_trailing_ws_nonl E hE)
    exact k

theorem update_synhlt_loop_nonl (n : Nat) :
    ∀ (r : Nat) (E E1 : EditorConfig), update_synhlt_loop n r E = some E1 → rows_no_nl E →
      rows_no_nl E1 := by
  induction n with
  | zero => intro r E E1 h hE; cases h; exact hE
  | succ n ih =>
    intro r E E1 h hE
    unfold update_synhlt_loop at h
    simp only [Option.bind_eq_some] at h
    obtain ⟨E2, h1, h2⟩ := h
    exact ih _ _ _ h2 (update_row_syntax_nonl _ _ _ h1 hE)

theorem set_path_nonl (E E1 : EditorConfig) (path : List Char) (h : set_path E path = some E1)
    (hE : rows_no_nl E) : rows_no_nl E1 := by
  unfold set_path update_synhlt_from_ext at h
  simp only [Option.bind_eq_some] at h
  obtain ⟨E2, h1, h2⟩ := h
  refine update_synhlt_loop_nonl _ _ _ _ h2 ?_
  unfold find_synhlt_with_ext at h1
  simp only at h1
  split_ifs at h1
  · cases h1; exact hE
  · split at h1
    · cases h1; exact hE
    · split_ifs at h1
      · cases h1; exact hE
      · simp only [Option.map_eq_some'] at h1
        obtain ⟨sy, _, rfl⟩ := h1
        exact hE

theorem refresh_screen_nonl (E : EditorConfig) (hE : rows_no_nl E) :
    rows_no_nl (refresh_screen E) := by
  have hsc : ∀ E0 : EditorConfig, rows_no_nl E0 → rows_no_nl (scroll_cmdline E0) := by
    intro E0 h0
    unfold scroll_cmdline
    simp only
    split_ifs <;> exact h0
  have hdc : ∀ E0 : EditorConfig, rows_no_nl E0 → rows_no_nl (draw_cmdline E0) := by
    intro E0 h0
    unfold draw_cmdline
    split_ifs <;> exact h0
  unfold refresh_screen
  refine hdc _ (hsc _ ?_)
  split_ifs
  · simp only
    refine scroll_to_nonl _ _ _ ?_
    unfold update_rx
    split_ifs <;> exact hE
  · exact hE

theorem do_exit_editor_nonl (E E1 : EditorConfig) (h : do_exit_editor E = .running E1)
    (hE : rows_no_nl E) : rows_no_nl E1 := by
  unfold do_exit_editor at h
  split_ifs at h
  simp only [Run.running.injEq] at h
  rw [← h]
  exact set_cmdline_msg_error_nonl _ _ hE

theorem do_after_action_nonl (E : EditorConfig) (hE : rows_no_nl E) :
    rows_no_nl (do_after_action E) := by
  unfold do_after_action
  simp only
  split_ifs <;> exact hE

theorem process_keypress_normal_nonl (fuel : Nat) (E : EditorConfig) (c c2 : Int)
    (hE : rows_no_nl E) :
    ∀ E1, process_keypress_normal fuel E c c2 = some (.running E1) → rows_no_nl E1 := by
  unfold process_keypress_normal
  repeat' (refine run_ite _ _ _ _ (fun hc => ?_) (fun hc => ?_))
  all_goals
    first
    | (intro E1 h
       exact do_exit_editor_nonl _ _ (Option.some.inj h) hE)
    | (refine run_of_some _ _ ?_
       first
       | exact hE
       | exact do_cursor_line_end_nonl _ hE
       | exact do_cursor_up_nonl _ hE
       | exact do_cursor_down_nonl _ hE
       | exact do_save_file_nonl _ hE
       | exact update_cx_nonl _ hE
       | exact set_cmdline_msg_error_nonl _ _ hE)
    | (refine run_of_opt _ _ (fun E1 hx => ?_)
       first
       | exact do_delete_current_char_nonl _ _ hx hE
       | exact do_page_nonl _ _ _ hx hE
       | exact do_cursor_left_nonl _ _ hx hE
       | exact do_cursor_right_nonl _ _ hx hE
       | exact do_cursor_forward_word_nonl _ _ _ hx hE
       | exact do_cursor_backward_word_nonl _ _ _ hx hE
       | exact do_open_line_below_cursor_nonl _ _ hx hE
       | exact do_cut_cursor_mark_region_nonl _ _ hx hE
       | exact do_paste_loop_nonl _ _ _ hx hE
       | exact do_search_default_nonl _ _ _ hx hE)

theorem process_keypress_insert_nonl (E : EditorConfig) (c : Int) (hE : rows_no_nl E) :
    ∀ E1, process_keypress_insert E c = some (.running E1) → rows_no_nl E1 := by
  unfold process_keypress_insert
  repeat' (refine run_ite _ _ _ _ (fun hc => ?_) (fun hc => ?_))
  all_goals
    first
    | (refine run_of_some _ _ ?_
       first
       | exact hE
       | exact do_cursor_up_nonl _ hE
       | exact do_cursor_down_nonl _ hE
       | exact set_cmdline_msg_error_nonl _ _ hE)
    | (refine run_of_opt _ _ (fun E1 hx => ?_)
       first
       | exact do_delete_left_char_nonl _ _ hx hE
       | exact do_insert_newline_nonl _ _ _ hx hE
       | exact do_insert_char_nonl _ _ _ hx hE
       | exact do_cursor_left_nonl _ _ hx hE
       | exact do_cursor_right_nonl _ _ hx hE)

theorem search_if_search_mode_nonl (E E1 : EditorConfig)
    (h : search_if_search_mode E = some E1) (hE : rows_no_nl E) : rows_no_nl E1 := by
  unfold search_if_search_mode at h
  split_ifs at h
  · exact search_text_forward_nonl _ _ _ _ h hE
  · cases h; exact hE

theorem process_keypress_submit_nonl (E : EditorConfig) (hE : rows_no_nl E) :
    ∀ E1, process_keypress_submit E = some (.running E1) → rows_no_nl E1 := by
  unfold process_keypress_submit
  simp only
  refine run_ite _ _ _ _ (fun m1 => ?_) (fun m1 => ?_)
  · refine run_ite _ _ _ _ (fun m2 => ?_) (fun m2 => ?_)
    · intro E1 h
      exact do_exit_editor_nonl _ _ (Option.some.inj h) hE
    · refine run_ite _ _ _ _ (fun m3 => ?_) (fun m3 => ?_)
      · intro E1 h
        simp only [Option.bind_eq_some] at h
        obtain ⟨v, _, h2⟩ := h
        exact set_path_nonl _ _ _ (Run.of_running _ _ h2) hE
      · refine run_of_some _ _ ?_
        exact set_cmdline_msg_error_nonl _ _ hE
  · refine run_ite _ _ _ _ (fun m2 => ?_) (fun m2 => ?_)
    · refine run_of_opt _ _ (fun E1 hx => ?_)
      exact search_text_forward_nonl _ _ _ _ hx hE
    · exact run_of_some _ _ hE

theorem process_keypress_cmdline_nonl (E : EditorConfig) (c : Int) (hE : rows_no_nl E) :
    ∀ E1, process_keypress_cmdline E c = some (.running E1) → rows_no_nl E1 := by
  have hedit : ∀ (x : Option EditorConfig),
      (∀ E2, x = some E2 → rows_no_nl E2) →
      ∀ E1, (x.bind fun E2 => Run.of (search_if_search_mode E2)) = some (.running E1) →
        rows_no_nl E1 := by
    intro x hx E1 h
    simp only [Option.bind_eq_some] at h
    obtain ⟨E2, h8, h9⟩ := h
    exact search_if_search_mode_nonl _ _ (Run.of_running _ _ h9) (hx E2 h8)
  unfold process_keypress_cmdline process_keypress_cmdline_switch
  refine run_ite _ _ _ _ (fun h1 => ?_) (fun h1 => ?_)
  · exact process_keypress_submit_nonl _ hE
  refine run_ite _ _ _ _ (fun h2 => ?_) (fun h2 => ?_)
  · refine hedit _ ?_
    intro E2 h8
    split_ifs at h8 <;> cases h8 <;> exact hE
  refine run_ite _ _ _ _ (fun h3 => ?_) (fun h3 => ?_)
  · refine run_of_some _ _ ?_
    split_ifs <;> exact hE
  refine run_ite _ _ _ _ (fun h4 => ?_) (fun h4 => ?_)
  · refine run_of_some _ _ ?_
    split_ifs <;> exact hE
  refine run_ite _ _ _ _ (fun h5 => ?_) (fun h5 => ?_)
  · exact run_of_some _ _ hE
  refine run_ite _ _ _ _ (fun h6 => ?_) (fun h6 => ?_)
  · exact run_of_some _ _ hE
  refine run_ite _ _ _ _ (fun h7 => ?_) (fun h7 => ?_)
  · exact run_of_some _ _ hE
  · refine hedit _ ?_
    intro E2 h8
    split_ifs at h8 <;> cases h8 <;> exact hE

theorem process_keypress_nonl (fuel : Nat) (E E1 : EditorConfig) (c c2 : Int)
    (h : process_keypress fuel E c c2 = some (.running E1)) (hE : rows_no_nl E) :
    rows_no_nl E1 := by
  unfold process_keypress at h
  simp only [Option.map_eq_some'] at h
  obtain ⟨r, hr, hr1⟩ := h
  cases r with
  | exited => simp at hr1
  | running E2 =>
    simp only [Run.running.injEq] at hr1
    subst hr1
    refine do_after_action_nonl _ ?_
    split_ifs at hr with hn hi
    · exact process_keypress_normal_nonl _ _ _ _ hE _ hr
    · exact process_keypress_insert_nonl _ _ hE _ hr
    · exact process_keypress_cmdline_nonl _ _ hE _ hr

theorem getline_loop_nonl (s : List Char) :
    ∀ line : List Char, NL ∉ line → ∀ d ∈ getline_loop s line, NL ∉ d := by
  induction s with
  | nil =>
    intro line hl d hd
    unfold getline_loop at hd
    split_ifs at hd
    · cases hd
    · rw [List.mem_singleton.mp hd]; exact hl
  | cons c cs ih =>
    intro line hl d hd
    unfold getline_loop at hd
    split_ifs at hd with hc
    · rcases List.mem_cons.mp hd with h1 | h1
      · rw [h1]; exact hl
      · exact ih [] (by simp) d h1
    · refine ih (line ++ [c]) ?_ d hd
      intro hm
      rcases List.mem_append.mp hm with h1 | h1
      · exact hl h1
      · exact hc (List.mem_singleton.mp h1).symm

theorem open_file_loop_nonl (lines : List (List Char)) :
    ∀ E E1 : EditorConfig, open_file_loop lines E = some E1 → (∀ d ∈ lines, NL ∉ d) →
      rows_no_nl E → rows_no_nl E1 := by
  induction lines with
  | nil => intro E E1 h _ hE; cases h; exact hE
  | cons l rest ih =>
    intro E E1 h hl hE
    unfold open_file_loop at h
    simp only [Option.bind_eq_some] at h
    obtain ⟨E2, h1, h2⟩ := h
    exact ih _ _ h2 (fun d hd => hl d (List.mem_cons_of_mem _ hd))
      (insert_row_nonl _ _ _ _ h1 hE (hl l (List.mem_cons_self _ _)))

theorem open_file_nonl (E E1 : EditorConfig) (path contents : List Char)
    (h : open_file E path contents = some E1) (hE : rows_no_nl E) : rows_no_nl E1 := by
  unfold open_file at h
  simp only [Option.map_eq_some', Option.bind_eq_some] at h
  obtain ⟨E2, ⟨E3, h1, h2⟩, rfl⟩ := h
  have k1 := open_file_loop_nonl _ _ _ h1 (getline_loop_nonl contents [] (by simp)) hE
  have k2 := set_path_nonl _ _ _ h2 k1
  exact k2

/-- No row of a running editor holds a newline character: the rows `open_file`
inserts are the lines `std::getline` reads, and every key keeps the property
(`do_insert_char` turns a newline into a line split). -/
theorem session_rows_no_nl (E : EditorConfig) (h : Session E) : rows_no_nl E := by
  induction h with
  | fresh r c =>
    refine set_cmdline_msg_info_nonl _ _ ?_
    intro row hm
    cases hm
  | opened r c path contents E0 h0 =>
    refine set_cmdline_msg_info_nonl _ _ (open_file_nonl _ _ _ _ h0 ?_)
    intro row hm
    cases hm
  | shown E0 _ ih => exact refresh_screen_nonl _ ih
  | key E0 E1 fuel c c2 _ hkey ih => exact process_keypress_nonl _ _ _ _ _ hkey ih

/-- C7: for every document of a running editor, every row index `r` and every
`0 ≤ a < b ≤ raw_length(row r)`, with the mark at `(a, r)` and the cursor at
`(b, r)` (or the two swapped), `do_cut_cursor_mark_region` followed immediately
by `do_paste_from_clipboard` leaves every row's raw text equal to what it was
before the cut, and the clipboard holds the characters `[a, b)` of row `r`. -/
theorem cut_paste_single_row (E : EditorConfig) (hE : Session E) (pre : List (List Char))
    (d : List Char) (post : List (List Char)) (a b : Nat) (hraw : E.raw = pre ++ d :: post)
    (hab : a < b) (hb : b ≤ d.length)
    (hmc : mark_cursor_are E (a : Int) (pre.length : Int) (b : Int) (pre.length : Int)) :
    ∃ E1 E2, do_cut_cursor_mark_region E = some E1 ∧
      E1.clipboard = (d.drop a).take (b - a) ∧
      do_paste_from_clipboard E1 = some E2 ∧ E2.raw = E.raw ∧
      E2.clipboard = (d.drop a).take (b - a) := by
  refine cut_paste_range_no_nl E pre d post a b hraw hab hb ?_ hmc
  have hd : d ∈ E.raw := by rw [hraw]; simp
  unfold EditorConfig.raw at hd
  obtain ⟨row, hrow, rfl⟩ := List.mem_map.mp hd
  intro hm
  exact session_rows_no_nl E hE row hrow (List.mem_of_mem_drop (List.mem_of_mem_take hm))

/-- Witness for C7: the file `notes.txt` with the line `abc` is opened and the
key `l` pressed; the range `[0, 1)` of row 0 is cut and pasted back. -/
theorem cut_paste_single_row_witness :
    ∃ E1 E2, do_cut_cursor_mark_region session_example = some E1 ∧
      E1.clipboard = ((String.toList "abc").drop 0).take (1 - 0) ∧
      do_paste_from_clipboard E1 = some E2 ∧ E2.raw = session_example.raw ∧
      E2.clipboard = ((String.toList "abc").drop 0).take (1 - 0) :=
  cut_paste_single_row session_example
    (Session.key _ session_example 0 (key 'l') 0
      (Session.shown _
        (Session.opened 24 80 (String.toList "notes.txt") (String.toList "abc" ++ [NL])
          opened_example (by decide)))
      (by decide))
    [] (String.toList "abc") [] 0 1 rfl (by decide) (by decide)
    (Or.inl ⟨rfl, rfl, rfl, rfl⟩)

end Hed
